import Mathlib

/-!
# try-mysql-partitioning: seeding and benchmarking tools

A shallow embedding of `cmd/seed/main.go`, `cmd/benchmark/main.go` and
`cmd/compare/main.go`.

Conventions of the embedding.

* Go `int` / `int64` values are Lean `Int`s.  Every index handled by the seeder is
  bounded by a row count plus `bulkSize`, and every duration by the wall-clock time
  of a run, so no computation modelled here leaves the 64-bit range; division is
  Go's truncating division, `Int.tdiv`.
* `math/rand` is an oracle `rnd : Nat → Nat`: the `p`-th call `rand.Intn(n)` returns
  `rnd p % n`, and panics when `n ≤ 0` (the model then returns `none`).
* `db.Exec` is an oracle `ok : Nat → Bool` telling whether the `k`-th statement issued
  succeeds; the statements issued are recorded in order.
* `db.Query`, `db.QueryRow(...).Scan` and the clock are oracles indexed by the number of
  the call; durations are integers of nanoseconds.
* The one floating-point expression, `int(float64(n) * 0.95)`, is `Go.p95Index`.
-/

namespace Seed

/-- Records per INSERT statement (`bulkSize`, seed/main.go:25). -/
def bulkSize : Int := 5000

/-- Parallel workers (`workerCount`, seed/main.go:26). -/
def workerCount : Int := 8

/-- The `(start, end)` pair that the loop body of `seedBooks` (seed/main.go:188-197)
computes for worker `w`. -/
def seedBooksRange (count w : Int) : Int × Int :=
  let booksPerWorker := count.tdiv workerCount
  let start := w * booksPerWorker
  let end_ := start + booksPerWorker
  let end_ := if w = workerCount - 1 then count else end_
  (start, end_)

/-- The `(start, end)` pair that the loop body of `seedBookTags` (seed/main.go:247-256)
computes for worker `w`. -/
def seedBookTagsRange (count w : Int) : Int × Int :=
  let tagsPerWorker := count.tdiv workerCount
  let start := w * tagsPerWorker
  let end_ := start + tagsPerWorker
  let end_ := if w = workerCount - 1 then count else end_
  (start, end_)

/-- The worker ids visited by `for w := 0; w < workerCount; w++`. -/
def workerIds : List Int := [0, 1, 2, 3, 4, 5, 6, 7]

/-- All ranges handed out by `seedBooks`, in worker order. -/
def seedBooksRanges (count : Int) : List (Int × Int) :=
  workerIds.map (seedBooksRange count)

/-- All ranges handed out by `seedBookTags`, in worker order. -/
def seedBookTagsRanges (count : Int) : List (Int × Int) :=
  workerIds.map (seedBookTagsRange count)

/-- Sum of the sizes `end - start` of a list of ranges. -/
def rangeSizes (rs : List (Int × Int)) : Int :=
  (rs.map (fun r => r.2 - r.1)).sum

/-! ### Values, statements and the seeder state -/

/-- A positional argument handed to `db.Exec`. -/
inductive Arg where
  /-- A Go string. -/
  | str (s : String)
  /-- A Go int. -/
  | int (n : Int)
  /-- The time `baseTime.Add(hours * time.Hour)`. -/
  | time (hours : Int)
  deriving DecidableEq, Repr

/-- One call `db.Exec(query, args...)`. -/
structure Stmt where
  /-- The SQL text. -/
  query : String
  /-- The positional arguments. -/
  args : List Arg
  deriving DecidableEq, Repr

/-- The state the seeding functions act on. -/
structure State where
  /-- Number of `rand.Intn` calls made so far. -/
  pos : Nat
  /-- The calls of `db.Exec` made so far, oldest first. -/
  stmts : List Stmt
  /-- Number of error lines written by `log.Printf`. -/
  errors : Nat
  /-- The shared counter `totalInserted`. -/
  totalInserted : Int
  deriving DecidableEq, Repr

/-- The state at process start. -/
def State.init : State := ⟨0, [], 0, 0⟩

/-- The call `rand.Intn(n)` made as call number `pos`: a value in `[0, n)`, or a panic
(`none`) when `n ≤ 0`. -/
def Intn (rnd : Nat → Nat) (pos : Nat) (n : Int) : Option Int :=
  if n ≤ 0 then none else some ((rnd pos : Int) % n)

/-- The statement `_, err := db.Exec(query, args...)` followed by the log line on error. -/
def exec (ok : Nat → Bool) (query : String) (args : List Arg) (s : State) : State :=
  { s with
    stmts := s.stmts ++ [⟨query, args⟩]
    errors := if ok s.stmts.length then s.errors else s.errors + 1 }

/-- The statement `atomic.AddInt64(&totalInserted, n)`. -/
def addInserted (n : Int) (s : State) : State :=
  { s with totalInserted := s.totalInserted + n }

/-- Decimal digits of a natural number, most significant first. -/
def decimal (n : Nat) : List Char :=
  if n = 0 then ['0'] else ((Nat.digits 10 n).map Nat.digitChar).reverse

/-- The text `fmt.Sprintf("%d", z)`. -/
def fmtInt : Int → String
  | Int.ofNat n => String.mk (decimal n)
  | Int.negSucc n => String.mk ('-' :: decimal (n + 1))

/-- The value `5*365*24` bounding the hour offsets of `createdAt`. -/
def hourSpan : Int := 5 * 365 * 24

/-! ### Loops -/

/-- The loop `for j := lo; j < hi; j++ { body }`; `none` when the body panics. -/
def forRange {σ : Type} (body : Int → σ → Option σ) (j hi : Int) (s : σ) : Option σ :=
  if j < hi then
    match body j s with
    | none => none
    | some s' => forRange body (j + 1) hi s'
  else some s
termination_by (hi - j).toNat
decreasing_by omega

/-- The end of the batch that starts at `i`:
`batchEnd := i + bulkSize; if batchEnd > end { batchEnd = end }`, the sum being taken on the
mathematical integers.  This is what Go computes as long as `i + bulkSize` does not exceed
`2 ^ 63 - 1`, which is so at every index of a range that ends at `2 ^ 63 - 1 - bulkSize`
or below; `batchEnd64` is the computation on 64-bit integers. -/
def batchEnd (i end_ : Int) : Int :=
  if i + bulkSize > end_ then end_ else i + bulkSize

/-- The loop `for i := start; i < end; i += bulkSize { batchEnd := ...; body }`, the index
being a mathematical integer.  This is the loop of Go on every range that ends at
`2 ^ 63 - 1 - bulkSize` or below, where `i + bulkSize` cannot wrap around; `forBatches64`
is the loop on 64-bit integers, which wraps around beyond, and `forBatches64_eq` and
`forBatches64_proj` are their agreement. -/
def forBatches {σ : Type} (body : Int → Int → σ → Option σ) (i end_ : Int) (s : σ) :
    Option σ :=
  if i < end_ then
    match body i (batchEnd i end_) s with
    | none => none
    | some s' => forBatches body (i + bulkSize) end_ s'
  else some s
termination_by (end_ - i).toNat
decreasing_by unfold bulkSize; omega

/-- The slices `values` and `args` under construction, with the position in the random
stream. -/
structure Batch where
  /-- The placeholder groups appended so far. -/
  values : List String
  /-- The arguments appended so far. -/
  args : List Arg
  /-- Number of `rand.Intn` calls made so far. -/
  pos : Nat
  deriving DecidableEq, Repr

/-! ### `seedAuthors` and `seedTags` -/

/-- Body of the inner loop of `seedAuthors` (seed/main.go:140-144). -/
def seedAuthorsRow (rnd : Nat → Nat) (j : Int) (b : Batch) : Option Batch :=
  match Intn rnd b.pos hourSpan with
  | none => none
  | some createdAt =>
    some ⟨b.values ++ ["(?, ?)"],
      b.args ++ [Arg.str ("Author " ++ fmtInt (j + 1)), Arg.time createdAt], b.pos + 1⟩

/-- Body of the outer loop of `seedAuthors` (seed/main.go:132-151), `end_` being the
clamped batch end. -/
def seedAuthorsBatch (rnd : Nat → Nat) (ok : Nat → Bool) (i end_ : Int) (s : State) :
    Option State :=
  match forRange (seedAuthorsRow rnd) i end_ ⟨[], [], s.pos⟩ with
  | none => none
  | some b =>
    let query := "INSERT INTO authors (name, created_at) VALUES " ++ ",".intercalate b.values
    some (addInserted (end_ - i) (exec ok query b.args { s with pos := b.pos }))

/-- The function `seedAuthors(db, count)` (seed/main.go:126-153). -/
def seedAuthors (rnd : Nat → Nat) (ok : Nat → Bool) (count : Int) (s : State) :
    Option State :=
  forBatches (seedAuthorsBatch rnd ok) 0 count s

/-- The slice `tagCategories` of `seedTags`. -/
def tagCategories : List String :=
  ["Fiction", "Non-Fiction", "Science", "History", "Art", "Technology",
   "Philosophy", "Biography", "Travel", "Cooking", "Health", "Business", "Education",
   "Sports"]

/-- Body of the inner loop of `seedTags` (seed/main.go:170-174). -/
def seedTagsRow (rnd : Nat → Nat) (j : Int) (b : Batch) : Option Batch :=
  match Intn rnd b.pos tagCategories.length with
  | none => none
  | some c =>
    let category := tagCategories.getD c.toNat ""
    some ⟨b.values ++ ["(?)"],
      b.args ++ [Arg.str (category ++ "-" ++ fmtInt (j + 1))], b.pos + 1⟩

/-- Body of the outer loop of `seedTags` (seed/main.go:162-181). -/
def seedTagsBatch (rnd : Nat → Nat) (ok : Nat → Bool) (i end_ : Int) (s : State) :
    Option State :=
  match forRange (seedTagsRow rnd) i end_ ⟨[], [], s.pos⟩ with
  | none => none
  | some b =>
    let query := "INSERT INTO tags (name) VALUES " ++ ",".intercalate b.values
    some (addInserted (end_ - i) (exec ok query b.args { s with pos := b.pos }))

/-- The function `seedTags(db, count)` (seed/main.go:155-183). -/
def seedTags (rnd : Nat → Nat) (ok : Nat → Bool) (count : Int) (s : State) :
    Option State :=
  forBatches (seedTagsBatch rnd ok) 0 count s

/-! ### `seedBooks` and `insertBooks` -/

/-- The slice `titles` of `insertBooks`. -/
def titles : List String :=
  ["The Art of", "Introduction to", "Advanced", "Complete Guide to",
   "Mastering", "Understanding", "Practical", "Essential", "Modern", "Classic"]

/-- The slice `subjects` of `insertBooks`. -/
def subjects : List String :=
  ["Programming", "Design", "Science", "History", "Mathematics",
   "Physics", "Chemistry", "Biology", "Economics", "Philosophy"]

/-- The text `fmt.Sprintf("%s %s Vol.%d", titles[t], subjects[u], j+1)`. -/
def bookTitle (t u j : Int) : String :=
  titles.getD t.toNat "" ++ " " ++ subjects.getD u.toNat "" ++ " Vol." ++ fmtInt (j + 1)

/-- Body of the inner loop of `insertBooks` (seed/main.go:224-233). -/
def insertBooksRow (rnd : Nat → Nat) (numAuthors : Int) (j : Int) (b : Batch) :
    Option Batch :=
  match Intn rnd b.pos titles.length with
  | none => none
  | some t =>
  match Intn rnd (b.pos + 1) subjects.length with
  | none => none
  | some u =>
  match Intn rnd (b.pos + 2) numAuthors with
  | none => none
  | some a =>
  match Intn rnd (b.pos + 3) hourSpan with
  | none => none
  | some createdAt =>
    some ⟨b.values ++ ["(?, ?, ?)"],
      b.args ++ [Arg.str (bookTitle t u j), Arg.int (a + 1), Arg.time createdAt],
      b.pos + 4⟩

/-- Body of the outer loop of `insertBooks` (seed/main.go:216-240). -/
def insertBooksBatch (rnd : Nat → Nat) (ok : Nat → Bool) (numAuthors : Int)
    (i batchEnd : Int) (s : State) : Option State :=
  match forRange (insertBooksRow rnd numAuthors) i batchEnd ⟨[], [], s.pos⟩ with
  | none => none
  | some b =>
    let query := "INSERT INTO books (title, author_id, created_at) VALUES " ++
      ",".intercalate b.values
    some (addInserted (batchEnd - i) (exec ok query b.args { s with pos := b.pos }))

/-- The function `insertBooks(db, workerID, start, end, numAuthors)`
(seed/main.go:208-242); `workerID` only labels the log line. -/
def insertBooks (rnd : Nat → Nat) (ok : Nat → Bool) (_workerID start end_ numAuthors : Int)
    (s : State) : Option State :=
  forBatches (insertBooksBatch rnd ok numAuthors) start end_ s

/-- The function `seedBooks(db, count, numAuthors)` (seed/main.go:185-206).  The eight
goroutines share only the atomic counter, the random source and the connection pool,
and each one's behaviour is determined by the draws and outcomes it receives; they are
run here one after the other, in worker order, over arbitrary oracles. -/
def seedBooks (rnd : Nat → Nat) (ok : Nat → Bool) (count numAuthors : Int) (s : State) :
    Option State :=
  workerIds.foldlM
    (fun s w =>
      insertBooks rnd ok w (seedBooksRange count w).1 (seedBooksRange count w).2 numAuthors s)
    s

/-! ### The duplicate tracker and the association tables -/

/-- The duplicate tracker `inserted`, a Go `map[string]bool`.  The program only ever
stores `true`, so the map is represented by the list of its keys, without repetition. -/
abbrev Tracker := List String

/-- The fresh map `make(map[string]bool)`. -/
def Tracker.make : Tracker := []

/-- The lookup `inserted[key]`. -/
def Tracker.get (m : Tracker) (key : String) : Bool := decide (key ∈ m)

/-- The assignment `inserted[key] = true`. -/
def Tracker.set (m : Tracker) (key : String) : Tracker :=
  if key ∈ m then m else key :: m

/-- The size `len(inserted)`. -/
def Tracker.len (m : Tracker) : Int := m.length

/-- The threshold above which `insertBookTags` replaces its tracker (seed/main.go:309). -/
def clearThreshold : Int := 100000

/-- The text `fmt.Sprintf("%d-%d", a, b)`. -/
def pairKey (a b : Int) : String := fmtInt a ++ "-" ++ fmtInt b

/-- The slices under construction in an association batch, with the tracker. -/
structure PairBatch where
  /-- The placeholder groups appended so far. -/
  values : List String
  /-- The arguments appended so far. -/
  args : List Arg
  /-- Number of `rand.Intn` calls made so far. -/
  pos : Nat
  /-- The duplicate tracker. -/
  inserted : Tracker
  deriving DecidableEq, Repr

/-- Body of the inner loop of `insertBookTags` (seed/main.go:283-297) and of
`seedAuthorTags` (seed/main.go:330-343), which differ only in the names of the two ids
(`insertBookTags` also increments a local `count` that is never read).  `n1` and `n2`
bound the first and the second id. -/
def pairRow (rnd : Nat → Nat) (n1 n2 : Int) (_j : Int) (b : PairBatch) :
    Option PairBatch :=
  match Intn rnd b.pos n1 with
  | none => none
  | some x =>
  match Intn rnd (b.pos + 1) n2 with
  | none => none
  | some y =>
    let id1 := x + 1
    let id2 := y + 1
    let key := pairKey id1 id2
    if Tracker.get b.inserted key then
      some { b with pos := b.pos + 2 }
    else
      match Intn rnd (b.pos + 2) hourSpan with
      | none => none
      | some createdAt =>
        some ⟨b.values ++ ["(?, ?, ?)"],
          b.args ++ [Arg.int id1, Arg.int id2, Arg.time createdAt],
          b.pos + 3, Tracker.set b.inserted key⟩

/-- The statements after the inner loop that both association generators share
(seed/main.go:299-306 and 345-352): the INSERT is issued only when `values` is not
empty, and the counter advances by the whole batch. -/
def pairFlush (ok : Nat → Bool) (insertInto : String) (i batchEnd : Int) (b : PairBatch)
    (s : State) : State :=
  let s := { s with pos := b.pos }
  let s :=
    if b.values.length > 0 then
      exec ok (insertInto ++ ",".intercalate b.values) b.args s
    else s
  addInserted (batchEnd - i) s

/-- Body of the outer loop of `insertBookTags` (seed/main.go:274-311). -/
def insertBookTagsBatch (rnd : Nat → Nat) (ok : Nat → Bool) (numBooks numTags : Int)
    (i batchEnd : Int) (st : State × Tracker) : Option (State × Tracker) :=
  match forRange (pairRow rnd numBooks numTags) i batchEnd ⟨[], [], st.1.pos, st.2⟩ with
  | none => none
  | some b =>
    let s := pairFlush ok
      "INSERT IGNORE INTO book_tags (book_id, tag_id, created_at) VALUES " i batchEnd b st.1
    let inserted := if Tracker.len b.inserted > clearThreshold then Tracker.make else b.inserted
    some (s, inserted)

/-- The function `insertBookTags(db, workerID, start, end, numBooks, numTags)`
(seed/main.go:267-313); `workerID` only labels the log line. -/
def insertBookTags (rnd : Nat → Nat) (ok : Nat → Bool)
    (_workerID start end_ numBooks numTags : Int) (s : State) : Option State :=
  (forBatches (insertBookTagsBatch rnd ok numBooks numTags) start end_ (s, Tracker.make)).map
    Prod.fst

/-- The function `seedBookTags(db, count, numBooks, numTags)` (seed/main.go:244-265),
the workers being run one after the other as in `seedBooks`. -/
def seedBookTags (rnd : Nat → Nat) (ok : Nat → Bool) (count numBooks numTags : Int)
    (s : State) : Option State :=
  workerIds.foldlM
    (fun s w =>
      insertBookTags rnd ok w (seedBookTagsRange count w).1 (seedBookTagsRange count w).2
        numBooks numTags s)
    s

/-- Body of the outer loop of `seedAuthorTags` (seed/main.go:322-352): the tracker is
kept as the inner loop left it. -/
def seedAuthorTagsBatch (rnd : Nat → Nat) (ok : Nat → Bool) (numAuthors numTags : Int)
    (i end_ : Int) (st : State × Tracker) : Option (State × Tracker) :=
  match forRange (pairRow rnd numAuthors numTags) i end_ ⟨[], [], st.1.pos, st.2⟩ with
  | none => none
  | some b =>
    let s := pairFlush ok
      "INSERT IGNORE INTO author_tags (author_id, tag_id, created_at) VALUES " i end_ b st.1
    some (s, b.inserted)

/-- The function `seedAuthorTags(db, count, numAuthors, numTags)`
(seed/main.go:315-354). -/
def seedAuthorTags (rnd : Nat → Nat) (ok : Nat → Bool) (count numAuthors numTags : Int)
    (s : State) : Option State :=
  (forBatches (seedAuthorTagsBatch rnd ok numAuthors numTags) 0 count (s, Tracker.make)).map
    Prod.fst

/-- The seeding part of `main` (seed/main.go:74-86): `totalTarget` is computed, then the
five phases run in order; the result is `totalTarget` with the final state. -/
def main (rnd : Nat → Nat) (ok : Nat → Bool)
    (numAuthors numBooks numTags numBookTags numAuthorTags : Int) : Option (Int × State) :=
  let totalTarget := numAuthors + numBooks + numTags + numBookTags + numAuthorTags
  match seedAuthors rnd ok numAuthors State.init with
  | none => none
  | some s1 =>
  match seedTags rnd ok numTags s1 with
  | none => none
  | some s2 =>
  match seedBooks rnd ok numBooks numAuthors s2 with
  | none => none
  | some s3 =>
  match seedBookTags rnd ok numBookTags numBooks numTags s3 with
  | none => none
  | some s4 =>
  match seedAuthorTags rnd ok numAuthorTags numAuthors numTags s4 with
  | none => none
  | some s5 => some (totalTarget, s5)

/-- The family `r` of worker ranges starts at 0, ends at `count`, is contiguous, ordered
and pairwise disjoint. -/
def IsPartition (r : Int → Int × Int) (count : Int) : Prop :=
  (r 0).1 = 0 ∧ (r 7).2 = count ∧
  (∀ w : Int, 0 ≤ w → w < 7 → (r w).2 = (r (w + 1)).1) ∧
  (∀ w : Int, 0 ≤ w → w ≤ 7 → (r w).1 ≤ (r w).2) ∧
  (∀ w w' : Int, 0 ≤ w → w ≤ 7 → 0 ≤ w' → w' ≤ 7 → w ≠ w' →
    ∀ x : Int, ¬ ((r w).1 ≤ x ∧ x < (r w).2 ∧ (r w').1 ≤ x ∧ x < (r w').2))

/-- The statement `st` inserts exactly the rows of the indices `[lo, hi)`: its text is
`head` followed by one placeholder `group` per index, joined by commas; it carries
`width` arguments per index; and the first argument of the row of index `j` satisfies
`first j`. -/
def IsBatchStmt (head group : String) (width : Nat) (first : Int → Arg → Prop)
    (lo hi : Int) (st : Stmt) : Prop :=
  st.query = head ++ ",".intercalate (List.replicate (hi - lo).toNat group) ∧
  st.args.length = width * (hi - lo).toNat ∧
  ∀ m : Nat, m < (hi - lo).toNat → ∃ a, st.args[width * m]? = some a ∧ first (lo + m) a

/-- The statements `new` are those of the batches of `[start, end)`: there are
`⌈(end - start) / 5000⌉` of them and the `k`-th one inserts the rows of
`[start + 5000 k, min (start + 5000 (k + 1)) end)`. -/
def AreBatchStmts (head group : String) (width : Nat) (first : Int → Arg → Prop)
    (start end_ : Int) (new : List Stmt) : Prop :=
  (new.length : Int) = (end_ - start + 4999) / 5000 ∧
  ∀ k : Nat, k < new.length → ∃ st, new[k]? = some st ∧
    IsBatchStmt head group width first (start + 5000 * k) (min (start + 5000 * (k + 1)) end_) st

/-- The first argument of the row of index `j` in `seedAuthors`. -/
def authorFirst (j : Int) (a : Arg) : Prop := a = Arg.str ("Author " ++ fmtInt (j + 1))

/-- The first (and only) argument of the row of index `j` in `seedTags`. -/
def tagFirst (j : Int) (a : Arg) : Prop :=
  ∃ c ∈ tagCategories, a = Arg.str (c ++ "-" ++ fmtInt (j + 1))

/-- The first argument of the row of index `j` in `insertBooks`. -/
def bookFirst (j : Int) (a : Arg) : Prop :=
  ∃ t u : Int, a = Arg.str (bookTitle t u j)

/-- What the body of the inner loop of a plain batch does at index `j`: it never
panics, appends one `group` to `values` and `width` arguments to `args`, the first of
which satisfies `first j`, and makes `draws` calls of `rand.Intn`. -/
def RowSpec (row : Int → Batch → Option Batch) (group : String) (width draws : Nat)
    (first : Int → Arg → Prop) : Prop :=
  ∀ j b, ∃ a rest, rest.length + 1 = width ∧ first j a ∧
    row j b = some ⟨b.values ++ [group], b.args ++ a :: rest, b.pos + draws⟩

/-- The three arguments of each row `(id1, id2, hours)` of an association statement. -/
def pairArgs (rows : List (Int × Int × Int)) : List Arg :=
  rows.flatMap (fun r => [Arg.int r.1, Arg.int r.2.1, Arg.time r.2.2])

/-- The association statement that inserts `rows`. -/
def pairStmt (head : String) (rows : List (Int × Int × Int)) : Stmt :=
  ⟨head ++ ",".intercalate (List.replicate rows.length "(?, ?, ?)"), pairArgs rows⟩

/-- The text that starts every statement of `insertBookTags`. -/
def bookTagsHead : String :=
  "INSERT IGNORE INTO book_tags (book_id, tag_id, created_at) VALUES "

/-- The text that starts every statement of `seedAuthorTags`. -/
def authorTagsHead : String :=
  "INSERT IGNORE INTO author_tags (author_id, tag_id, created_at) VALUES "

/-- The `(id1, id2)` pairs of a list of rows. -/
def rowPairs (rows : List (Int × Int × Int)) : List (Int × Int) :=
  rows.map (fun r => (r.1, r.2.1))

/-- The statement `st` is an association INSERT of at least one and at most `n` rows
whose `(id1, id2)` pairs are pairwise distinct, with one placeholder group and three
arguments per row. -/
def IsPairStmt (head : String) (n : Nat) (st : Stmt) : Prop :=
  ∃ rows : List (Int × Int × Int), rows ≠ [] ∧ rows.length ≤ n ∧ (rowPairs rows).Nodup ∧
    st = pairStmt head rows

/-- The states in which the batches of the loop
`for i := start; i < end; i += bulkSize { ... }` start: one entry `(i, s)` per execution
of the loop body, in order. -/
def batchStarts {σ : Type} (body : Int → Int → σ → Option σ) (i end_ : Int) (s : σ) :
    List (Int × σ) :=
  if i < end_ then
    (i, s) ::
      match body i (batchEnd i end_) s with
      | none => []
      | some s' => batchStarts body (i + bulkSize) end_ s'
  else []
termination_by (end_ - i).toNat
decreasing_by unfold bulkSize; omega

/-- A stream of draws under which the candidate pairs of an association generator are
`(1, 1), (2, 1), (3, 1), ...` as long as none is dropped: call number `p` returns `p / 3`
before reduction modulo the bound. -/
def thirds (p : Nat) : Nat := p / 3

end Seed

/-! ## Library functions shared by the benchmark and the compare tool -/

namespace Go

/-- `time.Hour`, in nanoseconds. -/
def hour : Int := 3600000000000

/-- `time.Millisecond`, in nanoseconds. -/
def millisecond : Int := 1000000

/-- Whether `sub` occurs in `l` as a block of consecutive characters. -/
def occursIn (sub : List Char) : List Char → Bool
  | [] => sub.isEmpty
  | c :: cs => sub.isPrefixOf (c :: cs) || occursIn sub cs

/-- `strings.Contains(s, substr)`. -/
def Contains (s substr : String) : Bool := occursIn substr.data s.data

/-- `strings.Count(s, c)` for a one-character string `c`. -/
def Count (s : String) (c : Char) : Nat := s.data.count c

/-- The slice `xs` after `sort.Slice(xs, func(i, j) bool { return xs[i] < xs[j] })`: the
same durations in ascending order. -/
def sortSlice (xs : List Int) : List Int := xs.insertionSort (· ≤ ·)

/-- The natural number `x` rounded to the nearest multiple of `2 ^ s`, ties going to the
even multiple. -/
def roundShift (x s : Nat) : Nat :=
  if 2 * (x % 2 ^ s) > 2 ^ s ∨ (2 * (x % 2 ^ s) = 2 ^ s ∧ (x / 2 ^ s) % 2 = 1)
  then (x / 2 ^ s + 1) * 2 ^ s else x / 2 ^ s * 2 ^ s

/-- The natural number `x` rounded to 53 significant bits, as binary64 arithmetic does. -/
def round53 (x : Nat) : Nat := roundShift x (Nat.size x - 53)

/-- The index `int(float64(n) * 0.95)` as binary64 arithmetic computes it for `n < 2 ^ 53`:
the constant `0.95` is the binary64 number `8556839292003942 / 2 ^ 53`, `float64(n)` is
exact, the product is rounded to 53 significant bits and the conversion truncates. -/
def p95IndexF64 (n : Nat) : Nat := round53 (n * 8556839292003942) / 2 ^ 53

/-- The index `int(float64(n) * 0.95)`, by its exact value `⌊n * 95 / 100⌋`: the binary64
computation `p95IndexF64` yields this value for every `n < 2 ^ 48` (`p95IndexF64_eq`),
which covers every length a slice of durations can have. -/
def p95Index (n : Nat) : Nat := n * 95 / 100

/-- The call `rand.Int63n(n)` made as call number `pos`: a value in `[0, n)`, or a panic
(`none`) when `n ≤ 0`. -/
def Int63n (rnd : Nat → Nat) (pos : Nat) (n : Int) : Option Int :=
  if n ≤ 0 then none else some ((rnd pos : Int) % n)

/-- The statistics of the claim for the recorded durations `d`: mean `(sum of d) / n` with
truncating division, median `s[⌊n / 2⌋]` and 95th percentile
`s[min ⌊n * 0.95⌋ (n - 1)]`, where `s` is `d` sorted ascending and `n` its length. -/
def IsStatsOf (d : List Int) (avg median p95 : Int) : Prop :=
  avg = d.sum.tdiv d.length ∧
  (sortSlice d)[d.length / 2]? = some median ∧
  (sortSlice d)[min ⌊(d.length : ℚ) * 95 / 100⌋₊ (d.length - 1)]? = some p95

/-- The samples 10ms, 20ms, 30ms, 40ms, 50ms. -/
def samples : List Int :=
  [10 * millisecond, 20 * millisecond, 30 * millisecond, 40 * millisecond, 50 * millisecond]

end Go

/-! ## The benchmark tool (`cmd/benchmark/main.go`) -/

namespace Benchmark

open Go

/-- `warmupIterations` (benchmark/main.go:19). -/
def warmupIterations : Nat := 3

/-- The struct `BenchmarkResult` (benchmark/main.go:22-33); times in nanoseconds. -/
structure BenchmarkResult where
  /-- Name of the benchmark. -/
  Name : String
  /-- The SQL text. -/
  Query : String
  /-- Requested number of timed iterations. -/
  Iterations : Int
  /-- Sum of the recorded durations. -/
  TotalTime : Int
  /-- Smallest recorded duration. -/
  MinTime : Int
  /-- Largest recorded duration. -/
  MaxTime : Int
  /-- Mean. -/
  AvgTime : Int
  /-- Median. -/
  MedianTime : Int
  /-- 95th percentile. -/
  P95Time : Int
  /-- Rows read over all timed iterations. -/
  RowsScanned : Int
  deriving DecidableEq, Repr

/-- What `runBenchmark` observes of the outside world. -/
structure Env where
  /-- The raw value behind the `p`-th call of `rand.Int63n`. -/
  rnd : Nat → Nat
  /-- The value found in the variable after the `k`-th `db.QueryRow(...).Scan(&v)`: the
  answer of the database, or 0 when the scan failed. -/
  scan : Nat → Int
  /-- The outcome of the `k`-th `db.Query`: `none` for an error, otherwise the number of
  rows read and the time between `time.Now()` and `time.Since(start)`. -/
  query : Nat → Option (Int × Int)

/-- What `runBenchmark` has done to the outside world so far. -/
structure World where
  /-- Number of `rand.Int63n` calls made. -/
  pos : Nat
  /-- The texts of the `db.QueryRow` calls made, oldest first. -/
  scans : List String
  /-- The `db.Query` calls made, oldest first: text and parameters. -/
  calls : List (String × List Int)
  /-- Number of error lines logged. -/
  errors : Nat
  deriving DecidableEq, Repr

/-- The world when `runBenchmark` is entered. -/
def World.init : World := ⟨0, [], [], 0⟩

/-- The statement `db.QueryRow(sql).Scan(&v)`: the value of `v` afterwards. -/
def scanMax (env : Env) (sql : String) (w : World) : Int × World :=
  (env.scan w.scans.length, { w with scans := w.scans ++ [sql] })

/-- The call `db.Query(query, params...)`. -/
def doQuery (env : Env) (query : String) (params : List Int) (w : World) :
    Option (Int × Int) × World :=
  (env.query w.calls.length, { w with calls := w.calls ++ [(query, params)] })

/-- The test `strings.Contains(query, "books WHERE id") || strings.Contains(query,
"b.id BETWEEN")`. -/
def isBookQuery (query : String) : Bool :=
  Contains query "books WHERE id" || Contains query "b.id BETWEEN"

/-- The test `strings.Contains(query, "authors") || strings.Contains(query, "a.id")`. -/
def isAuthorQuery (query : String) : Bool :=
  Contains query "authors" || Contains query "a.id"

/-- The test `strings.Contains(query, "tag_id")`. -/
def isTagQuery (query : String) : Bool := Contains query "tag_id"

/-- The range pair `start := rand.Int63n(maxID-100) + 1; params = {start, start + 100}`. -/
def drawRange (env : Env) (maxID : Int) (w : World) : Option (List Int × World) :=
  match Int63n env.rnd w.pos (maxID - 100) with
  | none => none
  | some x => some ([x + 1, x + 1 + 100], { w with pos := w.pos + 1 })

/-- The single value `params = {rand.Int63n(maxID) + 1}`. -/
def drawOne (env : Env) (maxID : Int) (w : World) : Option (List Int × World) :=
  match Int63n env.rnd w.pos maxID with
  | none => none
  | some x => some ([x + 1], { w with pos := w.pos + 1 })

/-- The determination of the query parameters before the warmup
(benchmark/main.go:171-193). -/
def initParams (env : Env) (query : String) (w : World) : Option (List Int × World) :=
  if Contains query "?" then
    let (maxBookID, w) := scanMax env "SELECT COALESCE(MAX(id), 1) FROM books" w
    let (maxAuthorID, w) := scanMax env "SELECT COALESCE(MAX(id), 1) FROM authors" w
    let (maxTagID, w) := scanMax env "SELECT COALESCE(MAX(id), 1) FROM tags" w
    if isBookQuery query then
      if Count query '?' = 2 then drawRange env maxBookID w else drawOne env maxBookID w
    else if isAuthorQuery query then drawOne env maxAuthorID w
    else if isTagQuery query then drawOne env maxTagID w
    else some ([], w)
  else some ([], w)

/-- The warmup loop (benchmark/main.go:196-202): the results are not looked at. -/
def warmup (env : Env) (query : String) (params : List Int) : Nat → World → World
  | 0, w => w
  | n + 1, w => warmup env query params n (doQuery env query params w).2

/-- The redrawing of the parameters at the start of a timed iteration
(benchmark/main.go:207-224). -/
def iterParams (env : Env) (query : String) (params : List Int) (w : World) :
    Option (List Int × World) :=
  if Contains query "?" && decide (params.length > 0) then
    if isBookQuery query then
      let (maxID, w) := scanMax env "SELECT COALESCE(MAX(id), 1) FROM books" w
      if params.length = 2 then drawRange env maxID w else drawOne env maxID w
    else if isAuthorQuery query then
      let (maxID, w) := scanMax env "SELECT COALESCE(MAX(id), 1) FROM authors" w
      drawOne env maxID w
    else if isTagQuery query then
      let (maxID, w) := scanMax env "SELECT COALESCE(MAX(id), 1) FROM tags" w
      drawOne env maxID w
    else some (params, w)
  else some (params, w)

/-- The variables of the timed loop. -/
structure Loop where
  /-- The effects so far. -/
  w : World
  /-- The slice `params`. -/
  params : List Int
  /-- The variable `result`. -/
  result : BenchmarkResult
  /-- The slice `durations`, in order of insertion. -/
  durations : List Int
  deriving DecidableEq, Repr

/-- The statements of a timed iteration after a successful query
(benchmark/main.go:248-258). -/
def record (result : BenchmarkResult) (rowCount duration : Int) : BenchmarkResult :=
  let result := { result with
    TotalTime := result.TotalTime + duration
    RowsScanned := result.RowsScanned + rowCount }
  let result := if duration < result.MinTime then { result with MinTime := duration } else result
  if duration > result.MaxTime then { result with MaxTime := duration } else result

/-- One iteration of the timed loop (benchmark/main.go:206-258). -/
def timedIter (env : Env) (query : String) (l : Loop) : Option Loop :=
  match iterParams env query l.params l.w with
  | none => none
  | some (params, w) =>
    match doQuery env query params w with
    | (none, w) => some { l with w := { w with errors := w.errors + 1 }, params := params }
    | (some (rowCount, duration), w) =>
      some ⟨w, params, record l.result rowCount duration, l.durations ++ [duration]⟩

/-- The timed loop `for i := 0; i < iterations; i++` with `n` iterations to go. -/
def timedLoop (env : Env) (query : String) : Nat → Loop → Option Loop
  | 0, l => some l
  | n + 1, l =>
    match timedIter env query l with
    | none => none
    | some l' => timedLoop env query n l'

/-- The statistics step (benchmark/main.go:261-276); indexing outside the slice
panics. -/
def finish (result : BenchmarkResult) (durations : List Int) : Option BenchmarkResult :=
  if durations.length > 0 then
    let avg := result.TotalTime.tdiv durations.length
    let sorted := sortSlice durations
    match sorted[sorted.length / 2]? with
    | none => none
    | some median =>
      let p95 := p95Index sorted.length
      let p95 := if p95 ≥ sorted.length then sorted.length - 1 else p95
      match sorted[p95]? with
      | none => none
      | some p95Time =>
        some { result with AvgTime := avg, MedianTime := median, P95Time := p95Time }
  else some result

/-- Everything `runBenchmark` does before the statistics step (benchmark/main.go:161-259):
`make([]time.Duration, 0, iterations)` panics for a negative capacity. -/
def timed (env : Env) (name query : String) (iterations : Int) : Option Loop :=
  if iterations < 0 then none
  else
    let result : BenchmarkResult :=
      { Name := name, Query := query, Iterations := iterations, TotalTime := 0,
        MinTime := hour, MaxTime := 0, AvgTime := 0, MedianTime := 0, P95Time := 0,
        RowsScanned := 0 }
    match initParams env query World.init with
    | none => none
    | some (params, w) =>
      let w := warmup env query params warmupIterations w
      timedLoop env query iterations.toNat ⟨w, params, result, []⟩

/-- The function `runBenchmark(db, name, query, iterations)`
(benchmark/main.go:160-277). -/
def runBenchmark (env : Env) (name query : String) (iterations : Int) :
    Option BenchmarkResult :=
  match timed env name query iterations with
  | none => none
  | some l => finish l.result l.durations

/-- An outside world in which every query succeeds, the `i`-th timed one taking `d[i]`. -/
def envOf (d : List Int) : Env :=
  { rnd := fun _ => 0
    scan := fun _ => 1
    query := fun k => if k < warmupIterations then some (0, 0)
      else (d[k - warmupIterations]?).map (fun x => (1, x)) }

end Benchmark

/-! ## The compare tool (`cmd/compare/main.go`) -/

namespace Compare

open Go

/-- `warmupIterations` (compare/main.go:18). -/
def warmupIterations : Nat := 3

/-- The struct `BenchResult` (compare/main.go:29-38); times in nanoseconds. -/
structure BenchResult where
  /-- Name of the run. -/
  Name : String
  /-- The recorded durations, in order of insertion. -/
  Durations : List Int
  /-- Rows read by the last successful iteration. -/
  RowCount : Int
  /-- Smallest recorded duration. -/
  Min : Int
  /-- Largest recorded duration. -/
  Max : Int
  /-- Mean. -/
  Avg : Int
  /-- Median. -/
  Median : Int
  /-- 95th percentile. -/
  P95 : Int
  deriving DecidableEq, Repr

/-- The outcome of the `k`-th `db.Query`: `none` for an error, otherwise the number of
rows read and the time between `time.Now()` and `time.Since(start)`. -/
abbrev Env := Nat → Option (Int × Int)

/-- The variables of `benchmark`. -/
structure Loop where
  /-- The `db.Query` calls made, oldest first. -/
  calls : List String
  /-- Number of error lines logged. -/
  errors : Nat
  /-- The variable `result`. -/
  result : BenchResult
  deriving DecidableEq, Repr

/-- The warmup loop (compare/main.go:326-333). -/
def warmup (query : String) : Nat → Loop → Loop
  | 0, l => l
  | n + 1, l => warmup query n { l with calls := l.calls ++ [query] }

/-- One iteration of the timed loop (compare/main.go:337-359). -/
def timedIter (env : Env) (query : String) (l : Loop) : Loop :=
  let l' := { l with calls := l.calls ++ [query] }
  match env l.calls.length with
  | none => { l' with errors := l'.errors + 1 }
  | some (count, duration) =>
    let result := { l'.result with
      Durations := l'.result.Durations ++ [duration]
      RowCount := count }
    let result := if duration < result.Min then { result with Min := duration } else result
    let result := if duration > result.Max then { result with Max := duration } else result
    { l' with result := result }

/-- The timed loop `for i := 0; i < iterations; i++` with `n` iterations to go. -/
def timedLoop (env : Env) (query : String) : Nat → Loop → Loop
  | 0, l => l
  | n + 1, l => timedLoop env query n (timedIter env query l)

/-- The statistics step (compare/main.go:363-380); indexing outside the slice panics. -/
def finish (result : BenchResult) : Option BenchResult :=
  if result.Durations.length > 0 then
    let total := result.Durations.foldl (fun total d => total + d) 0
    let avg := total.tdiv result.Durations.length
    let sorted := sortSlice result.Durations
    match sorted[sorted.length / 2]? with
    | none => none
    | some median =>
      let p95 := p95Index sorted.length
      let p95 := if p95 ≥ sorted.length then sorted.length - 1 else p95
      match sorted[p95]? with
      | none => none
      | some p95Time => some { result with Avg := avg, Median := median, P95 := p95Time }
  else some result

/-- Everything `benchmark` does before the statistics step (compare/main.go:319-360):
`make([]time.Duration, 0, iterations)` panics for a negative capacity. -/
def timed (env : Env) (name query : String) (iterations : Int) : Option Loop :=
  if iterations < 0 then none
  else
    let result : BenchResult :=
      { Name := name, Durations := [], RowCount := 0, Min := hour, Max := 0, Avg := 0,
        Median := 0, P95 := 0 }
    some (timedLoop env query iterations.toNat (warmup query warmupIterations ⟨[], 0, result⟩))

/-- The function `benchmark(db, name, query, iterations)` (compare/main.go:318-383). -/
def benchmark (env : Env) (name query : String) (iterations : Int) : Option BenchResult :=
  match timed env name query iterations with
  | none => none
  | some l => finish l.result

/-- An outside world in which every query succeeds, the `i`-th timed one taking `d[i]`. -/
def envOf (d : List Int) : Env :=
  fun k => if k < warmupIterations then some (0, 0)
    else (d[k - warmupIterations]?).map (fun x => (1, x))

end Compare

namespace Go

/-- The running minimum `if d < min { min = d }` over the slice `ds`, started at `init`. -/
def minFrom (init : Int) (ds : List Int) : Int :=
  ds.foldl (fun m d => if d < m then d else m) init

/-- The running maximum `if d > max { max = d }` over the slice `ds`, started at `init`. -/
def maxFrom (init : Int) (ds : List Int) : Int :=
  ds.foldl (fun m d => if d > m then d else m) init

end Go

namespace Benchmark

open Go

/-- The durations that the first `i` timed iterations record: those of the successful
ones among the queries number `3, ..., 3 + i - 1`, in order. -/
def recorded (env : Env) (i : Nat) : List Int :=
  (List.range i).filterMap (fun j => (env.query (warmupIterations + j)).map Prod.snd)

/-- The state of the timed loop after `i` iterations, as far as the statistics go. -/
def LoopInv (env : Env) (query : String) (i : Nat) (l : Loop) : Prop :=
  l.w.calls.length = warmupIterations + i ∧
  (∀ c ∈ l.w.calls, c.1 = query) ∧
  l.durations = recorded env i ∧
  l.w.errors + l.durations.length = i ∧
  (l.result.AvgTime = 0 ∧ l.result.MedianTime = 0 ∧ l.result.P95Time = 0) ∧
  l.result.MinTime = minFrom hour l.durations ∧
  l.result.MaxTime = maxFrom 0 l.durations ∧
  l.result.TotalTime = l.durations.sum

/-- The table maxima are such that every draw of `runBenchmark` is defined. -/
def DrawsDefined (env : Env) : Prop := ∀ k, 100 < env.scan k

end Benchmark

namespace Compare

open Go

/-- The durations that the first `i` timed iterations of `benchmark` record: those of the
successful ones among the queries number `3, ..., 3 + i - 1`, in order. -/
def recorded (env : Env) (i : Nat) : List Int :=
  (List.range i).filterMap (fun j => (env (warmupIterations + j)).map Prod.snd)

/-- The state of the timed loop of `benchmark` after `i` iterations. -/
def LoopInv (env : Env) (query : String) (i : Nat) (l : Loop) : Prop :=
  l.calls = List.replicate (warmupIterations + i) query ∧
  l.result.Durations = recorded env i ∧
  l.errors + l.result.Durations.length = i ∧
  (l.result.Avg = 0 ∧ l.result.Median = 0 ∧ l.result.P95 = 0) ∧
  l.result.Min = minFrom hour l.result.Durations ∧
  l.result.Max = maxFrom 0 l.result.Durations

end Compare

namespace Benchmark

open Go

/-- The three tables whose id space `runBenchmark` draws parameters from. -/
inductive IdSpace where
  /-- The table `books`. -/
  | books
  /-- The table `authors`. -/
  | authors
  /-- The table `tags`. -/
  | tags
  deriving DecidableEq, Repr

/-- The text with which `runBenchmark` reads the maximum id of a table. -/
def IdSpace.sql : IdSpace → String
  | IdSpace.books => "SELECT COALESCE(MAX(id), 1) FROM books"
  | IdSpace.authors => "SELECT COALESCE(MAX(id), 1) FROM authors"
  | IdSpace.tags => "SELECT COALESCE(MAX(id), 1) FROM tags"

/-- The position of the table among the three maxima read before the warmup. -/
def IdSpace.index : IdSpace → Nat
  | IdSpace.books => 0
  | IdSpace.authors => 1
  | IdSpace.tags => 2

/-- The table that the chain of substring tests of `runBenchmark` selects for `query`
(benchmark/main.go:181-192 and 209-223), if any. -/
def classify (query : String) : Option IdSpace :=
  if isBookQuery query then some IdSpace.books
  else if isAuthorQuery query then some IdSpace.authors
  else if isTagQuery query then some IdSpace.tags
  else none

/-- Whether `runBenchmark` draws a range pair for `query`: a book query with exactly two
placeholders. -/
def isRange (query : String) : Bool := isBookQuery query && decide (Count query '?' = 2)

/-- The parameter list computed from the raw draw `x` and the maximum id `maxID`: the pair
`{start, start + 100}` with `start = x % (maxID - 100) + 1`, or the single value
`x % maxID + 1`. -/
def drawn (range : Bool) (x : Nat) (maxID : Int) : List Int :=
  if range then [(x : Int) % (maxID - 100) + 1, (x : Int) % (maxID - 100) + 1 + 100]
  else [(x : Int) % maxID + 1]

/-- The table maxima for which the draws made for `query` are defined: above 100 when a
range pair is drawn, positive otherwise. -/
def MaxOk (env : Env) (query : String) : Prop :=
  ∀ k, (if isRange query then 100 else 0) < env.scan k

/-- The parameters of the `k`-th `db.Query` of a run on a parameterised query of table
`t`: the three warmup calls use the list drawn before the warmup (draw 0, maximum number
`t.index`), the timed call number `k ≥ 3` the list drawn in its own iteration (draw
`k - 2`, maximum number `k`). -/
def callParams (env : Env) (query : String) (t : IdSpace) (k : Nat) : List Int :=
  if k < warmupIterations then drawn (isRange query) (env.rnd 0) (env.scan t.index)
  else drawn (isRange query) (env.rnd (k - 2)) (env.scan k)

end Benchmark

namespace Benchmark

/-- An outside world in which the `i`-th timed query takes `o[i]` when that is a duration
and fails otherwise; the warmup queries succeed. -/
def envWith (o : List (Option Int)) : Env :=
  { rnd := fun _ => 0
    scan := fun _ => 1
    query := fun k => if k < warmupIterations then some (0, 0)
      else ((o[k - warmupIterations]?).join).map (fun x => (1, x)) }

end Benchmark

namespace Compare

/-- An outside world in which the `i`-th timed query takes `o[i]` when that is a duration
and fails otherwise; the warmup queries succeed. -/
def envWith (o : List (Option Int)) : Env :=
  fun k => if k < warmupIterations then some (0, 0)
    else ((o[k - warmupIterations]?).join).map (fun x => (1, x))

end Compare

namespace Benchmark

open Go

/-- The catalog `benchmarks` of `main` (benchmark/main.go:66-123): name and query text. -/
def benchmarks : List (String × String) :=
  [("Simple SELECT with LIMIT",
    "SELECT id, title, author_id, created_at FROM books ORDER BY id LIMIT 1000"),
   ("Primary key lookup",
    "SELECT id, title, author_id, created_at FROM books WHERE id = ?"),
   ("Date range query (1 month)",
    "SELECT id, title, author_id, created_at FROM books WHERE created_at BETWEEN '2022-06-01' AND '2022-06-30'"),
   ("Date range query (1 year)",
    "SELECT id, title, author_id, created_at FROM books WHERE created_at BETWEEN '2022-01-01' AND '2022-12-31'"),
   ("Author lookup with books count",
    "SELECT a.id, a.name, COUNT(b.id) as book_count FROM authors a LEFT JOIN books b ON a.id = b.author_id WHERE a.id = ? GROUP BY a.id, a.name"),
   ("JOIN books with authors",
    "SELECT b.id, b.title, a.name as author_name FROM books b INNER JOIN authors a ON b.author_id = a.id ORDER BY b.id LIMIT 1000"),
   ("Books with specific tag",
    "SELECT b.id, b.title FROM books b INNER JOIN book_tags bt ON b.id = bt.book_id WHERE bt.tag_id = ?"),
   ("Count books by author (TOP 10)",
    "SELECT author_id, COUNT(*) as cnt FROM books GROUP BY author_id ORDER BY cnt DESC LIMIT 10"),
   ("Count books by year",
    "SELECT YEAR(created_at) as year, COUNT(*) as cnt FROM books GROUP BY YEAR(created_at) ORDER BY year"),
   ("Full table count",
    "SELECT COUNT(*) FROM books"),
   ("Count with date filter",
    "SELECT COUNT(*) FROM books WHERE created_at >= '2023-01-01'"),
   ("Complex JOIN (books -> tags)",
    "SELECT b.id, b.title, GROUP_CONCAT(t.name) as tags FROM books b INNER JOIN book_tags bt ON b.id = bt.book_id INNER JOIN tags t ON bt.tag_id = t.id WHERE b.id BETWEEN ? AND ? GROUP BY b.id, b.title"),
   ("Subquery: Books by prolific authors",
    "SELECT id, title FROM books WHERE author_id IN (SELECT author_id FROM books GROUP BY author_id HAVING COUNT(*) > 100) LIMIT 1000")]

/-- The state of the timed loop after `i` iterations on a parameterised query of table
`t`, as far as the parameters go. -/
def ParamInv (env : Env) (query : String) (t : IdSpace) (i : Nat) (l : Loop) : Prop :=
  l.w.pos = 1 + i ∧
  l.w.scans = [IdSpace.books.sql, IdSpace.authors.sql, IdSpace.tags.sql] ++
    List.replicate i t.sql ∧
  l.params.length = (if isRange query then 2 else 1) ∧
  l.w.calls = (List.range (warmupIterations + i)).map
    (fun k => (query, callParams env query t k))

/-- An outside world in which every query succeeds and every table has maximum id
`maxID`; the `p`-th draw has the raw value `7 * p + 3`. -/
def envMax (maxID : Int) : Env :=
  { rnd := fun p => 7 * p + 3
    scan := fun _ => maxID
    query := fun _ => some (1, 1) }

end Benchmark

namespace Seed

/-- The text that starts every statement of `insertBooks`. -/
def booksHead : String := "INSERT INTO books (title, author_id, created_at) VALUES "

/-- The three arguments of each row `(title, author_id, hours)` of a books statement. -/
def bookArgs (rows : List (String × Int × Int)) : List Arg :=
  rows.flatMap (fun r => [Arg.str r.1, Arg.int r.2.1, Arg.time r.2.2])

/-- The statement `st` is a books INSERT all of whose records `(title, author_id,
created_at)` have `author_id` in `[1, numAuthors]`. -/
def IsBooksStmtIn (numAuthors : Int) (st : Stmt) : Prop :=
  ∃ rows : List (String × Int × Int),
    st = ⟨booksHead ++ ",".intercalate (List.replicate rows.length "(?, ?, ?)"),
      bookArgs rows⟩ ∧
    ∀ r ∈ rows, 1 ≤ r.2.1 ∧ r.2.1 ≤ numAuthors

/-- The statement `st` is an association INSERT all of whose records `(id1, id2,
created_at)` have `id1` in `[1, n1]` and `id2` in `[1, n2]`. -/
def IsPairStmtIn (head : String) (n1 n2 : Int) (st : Stmt) : Prop :=
  ∃ rows : List (Int × Int × Int), st = pairStmt head rows ∧
    ∀ r ∈ rows, (1 ≤ r.1 ∧ r.1 ≤ n1) ∧ (1 ≤ r.2.1 ∧ r.2.1 ≤ n2)

end Seed

namespace Go

/-- The number of binary digits of `x`, counted with `fuel` halvings at most. -/
def bitLenAux : Nat → Nat → Nat
  | 0, _ => 0
  | fuel + 1, x => if x = 0 then 0 else bitLenAux fuel (x / 2) + 1

/-- The number of binary digits of `x` (0 for 0). -/
def bitLen (x : Nat) : Nat := bitLenAux x x

/-- A finite binary64 number, by sign and magnitude `mant * 2 ^ exp`.  The operations
below round the magnitude to 53 significant bits and leave the exponent unbounded: they
are those of binary64 as long as no result overflows or becomes subnormal, which holds
for the quotient of two non-zero 64-bit integers and its product with 100. -/
structure Float64 where
  /-- The sign bit. -/
  neg : Bool
  /-- The significand, a natural number. -/
  mant : Nat
  /-- The binary exponent of the unit of `mant`. -/
  exp : Int
  deriving DecidableEq, Repr

/-- The natural number `x` rounded to 53 significant bits, ties to even (`round53`,
with the bit length computed by `bitLen`). -/
def Float64.round (x : Nat) : Nat := roundShift x (bitLen x - 53)

/-- The conversion `float64(z)` of an integer. -/
def Float64.ofInt (z : Int) : Float64 := ⟨decide (z < 0), Float64.round z.natAbs, 0⟩

/-- The quotient `x / y` of binary64 numbers, `y` not zero: the exact quotient of the
significands is developed to at least 55 bits, a last bit records whether the division
left a remainder, and the result is rounded to 53 bits. -/
def Float64.div (x y : Float64) : Float64 :=
  let k := 55 + bitLen y.mant - bitLen x.mant
  let q := x.mant * 2 ^ k / y.mant
  let sticky := if x.mant * 2 ^ k % y.mant = 0 then 0 else 1
  ⟨x.neg != y.neg, Float64.round (2 * q + sticky), x.exp - y.exp - k - 1⟩

/-- The product `x * y` of binary64 numbers. -/
def Float64.mul (x y : Float64) : Float64 :=
  ⟨x.neg != y.neg, Float64.round (x.mant * y.mant), x.exp + y.exp⟩

/-- The negation `-x`. -/
def Float64.negate (x : Float64) : Float64 := { x with neg := !x.neg }

/-- The comparison `x > 0`. -/
def Float64.isPos (x : Float64) : Bool := !x.neg && decide (x.mant ≠ 0)

/-- The comparison `x < 0`. -/
def Float64.isNeg (x : Float64) : Bool := x.neg && decide (x.mant ≠ 0)

/-- The quotient `n / d` rounded to the nearest integer, ties to even. -/
def roundDiv (n d : Nat) : Nat :=
  if 2 * (n % d) > d ∨ (2 * (n % d) = d ∧ (n / d) % 2 = 1) then n / d + 1 else n / d

/-- The magnitude of `x` in tenths, rounded to the nearest integer, ties to even: the
digits that `%.1f` prints. -/
def Float64.tenths (x : Float64) : Nat :=
  match x.exp with
  | Int.ofNat e => x.mant * 2 ^ e * 10
  | Int.negSucc e => roundDiv (x.mant * 10) (2 ^ (e + 1))

/-- The text `fmt.Sprintf("%.1f", x)`. -/
def Float64.format1 (x : Float64) : String :=
  (if x.neg then "-" else "") ++ Nat.repr (x.tenths / 10) ++ "." ++ Nat.repr (x.tenths % 10)

end Go

namespace Compare

open Go

/-- The struct `QueryPair` (compare/main.go:21-27). -/
structure QueryPair where
  /-- Name of the pair. -/
  Name : String
  /-- What the pair is meant to show. -/
  Description : String
  /-- The query on the base tables. -/
  NoPartition : String
  /-- The query on the partitioned tables. -/
  WithPartition : String
  /-- One of hash, range_year, range_id, list, key. -/
  PartitionType : String
  deriving DecidableEq, Repr

/-- The function `getQueryPairs(ptype)` (compare/main.go:182-294): the whole catalog,
whatever `ptype` is. -/
def getQueryPairs (_ptype : String) : List QueryPair :=
  [⟨"Primary Key Lookup (single row)",
    "SELECT by id - should benefit from HASH partition pruning",
    "SELECT id, title, author_id, created_at FROM books WHERE id = 500",
    "SELECT id, title, author_id, created_at FROM books_hash WHERE id = 500",
    "hash"⟩,
   ⟨"Full Table Scan",
    "SELECT all - partition overhead comparison",
    "SELECT COUNT(*) FROM books",
    "SELECT COUNT(*) FROM books_hash",
    "hash"⟩,
   ⟨"Range Scan by ID",
    "SELECT id range - HASH may scan all partitions",
    "SELECT id, title FROM books WHERE id BETWEEN 100 AND 500",
    "SELECT id, title FROM books_hash WHERE id BETWEEN 100 AND 500",
    "hash"⟩,
   ⟨"JOIN with book_tags",
    "JOIN operation - partition alignment matters",
    "SELECT b.id, b.title, COUNT(bt.tag_id) FROM books b LEFT JOIN book_tags bt ON b.id = bt.book_id WHERE b.id BETWEEN 1 AND 100 GROUP BY b.id, b.title",
    "SELECT b.id, b.title, COUNT(bt.tag_id) FROM books_hash b LEFT JOIN book_tags_hash bt ON b.id = bt.book_id WHERE b.id BETWEEN 1 AND 100 GROUP BY b.id, b.title",
    "hash"⟩,
   ⟨"Date Range Query (1 year)",
    "SELECT by date range - RANGE partition pruning",
    "SELECT id, title, created_at FROM books WHERE created_at BETWEEN '2022-01-01' AND '2022-12-31'",
    "SELECT id, title, created_at FROM books_range_year WHERE created_at BETWEEN '2022-01-01' AND '2022-12-31'",
    "range_year"⟩,
   ⟨"Date Range Query (1 month)",
    "SELECT by specific month - single partition access",
    "SELECT id, title, created_at FROM books WHERE created_at BETWEEN '2022-06-01' AND '2022-06-30'",
    "SELECT id, title, created_at FROM books_range_year WHERE created_at BETWEEN '2022-06-01' AND '2022-06-30'",
    "range_year"⟩,
   ⟨"Count by Year",
    "GROUP BY year - partition-wise aggregation",
    "SELECT YEAR(created_at) as y, COUNT(*) FROM books GROUP BY YEAR(created_at)",
    "SELECT YEAR(created_at) as y, COUNT(*) FROM books_range_year GROUP BY YEAR(created_at)",
    "range_year"⟩,
   ⟨"Cross-Year Query",
    "SELECT across multiple years - multiple partitions",
    "SELECT id, title FROM books WHERE created_at >= '2021-06-01' AND created_at < '2023-06-01' LIMIT 1000",
    "SELECT id, title FROM books_range_year WHERE created_at >= '2021-06-01' AND created_at < '2023-06-01' LIMIT 1000",
    "range_year"⟩,
   ⟨"ID Range (within partition)",
    "SELECT id range within single partition boundary",
    "SELECT id, title FROM books WHERE id BETWEEN 50000 AND 99999",
    "SELECT id, title FROM books_range_id WHERE id BETWEEN 50000 AND 99999",
    "range_id"⟩,
   ⟨"ID Range (cross partition)",
    "SELECT id range across partition boundaries",
    "SELECT id, title FROM books WHERE id BETWEEN 95000 AND 105000",
    "SELECT id, title FROM books_range_id WHERE id BETWEEN 95000 AND 105000",
    "range_id"⟩,
   ⟨"Status Filter (single value)",
    "SELECT by status - single partition access",
    "SELECT COUNT(*) FROM books",
    "SELECT COUNT(*) FROM books_list WHERE status = 1",
    "list"⟩,
   ⟨"Status Filter (multiple values)",
    "SELECT by multiple statuses",
    "SELECT COUNT(*) FROM books",
    "SELECT COUNT(*) FROM books_list WHERE status IN (0, 1)",
    "list"⟩,
   ⟨"Composite Key Lookup",
    "SELECT by composite key - KEY partition optimization",
    "SELECT * FROM book_tags WHERE book_id = 100 AND tag_id = 5",
    "SELECT * FROM book_tags_key WHERE book_id = 100 AND tag_id = 5",
    "key"⟩,
   ⟨"Partial Key Lookup",
    "SELECT by partial key - may scan all partitions",
    "SELECT * FROM book_tags WHERE book_id = 100",
    "SELECT * FROM book_tags_key WHERE book_id = 100",
    "key"⟩]

/-- `strings.ToLower(s)`, for texts of ASCII characters. -/
def ToLower (s : String) : String := String.mk (s.data.map Char.toLower)

/-- The search of `strings.Index`: the position of the first occurrence of `sub` in the
text that starts at position `i`, `none` standing for `-1`. -/
def indexFrom (sub : List Char) : List Char → Nat → Option Nat
  | [], i => if sub.isEmpty then some i else none
  | c :: cs, i => if sub.isPrefixOf (c :: cs) then some i else indexFrom sub cs (i + 1)

/-- `strings.Index(s, substr)`, `none` standing for `-1`. -/
def Index (s substr : String) : Option Nat := indexFrom substr.data s.data 0

/-- `unicode.IsSpace(c)` on the Latin-1 range: tab, line feed, vertical tab, form feed,
carriage return, space, U+0085 and U+00A0. -/
def isSpace (c : Char) : Bool :=
  c.toNat == 9 || c.toNat == 10 || c.toNat == 11 || c.toNat == 12 || c.toNat == 13 ||
    c.toNat == 32 || c.toNat == 133 || c.toNat == 160

/-- `strings.TrimSpace(s)`. -/
def TrimSpace (s : List Char) : List Char :=
  ((s.dropWhile isSpace).reverse.dropWhile isSpace).reverse

/-- The loop of `strings.Fields`: `cur` holds the field being read, last character first. -/
def fieldsFrom : List Char → List Char → List (List Char)
  | [], cur => if cur.isEmpty then [] else [cur.reverse]
  | c :: cs, cur =>
    if isSpace c then
      if cur.isEmpty then fieldsFrom cs [] else cur.reverse :: fieldsFrom cs []
    else fieldsFrom cs (c :: cur)

/-- `strings.Fields(s)`: the maximal runs of characters that are not white space. -/
def Fields (s : List Char) : List (List Char) := fieldsFrom s []

/-- The function `extractTableName(query)` (compare/main.go:302-316). -/
def extractTableName (query : String) : String :=
  let query := ToLower query
  match Index query " from " with
  | none => ""
  | some fromIdx =>
    let rest := TrimSpace (query.data.drop (fromIdx + 6))
    match Fields rest with
    | [] => ""
    | part :: _ => String.mk part

/-- The value `float64(noPart.Avg-withPart.Avg) / float64(noPart.Avg) * 100` of
`printComparison` (compare/main.go:409). -/
def improvement (noPartAvg withPartAvg : Int) : Float64 :=
  Float64.mul
    (Float64.div (Float64.ofInt (noPartAvg - withPartAvg)) (Float64.ofInt noPartAvg))
    (Float64.ofInt 100)

/-- The text `indicator` chosen by `printComparison` (compare/main.go:410-417). -/
def indicator (improvement : Float64) : String :=
  if improvement.isPos then improvement.format1 ++ "% faster"
  else if improvement.isNeg then improvement.negate.format1 ++ "% slower"
  else "same"

/-- What `runComparison` prints, by content: the banner of the strategy, the line of a
skipped pair, the name and description of a benchmarked pair, a row of the result table,
and the comparison line.  Fixed headings and rulers are left out. -/
inductive Event where
  /-- The banner `PARTITION COMPARISON: ...` of the strategy. -/
  | header (ptype : String)
  /-- The line `<name>: SKIPPED (partition table not found)`. -/
  | skipped (name : String)
  /-- The name and the description of a pair that is benchmarked. -/
  | pair (name description : String)
  /-- One row of the result table. -/
  | row (r : BenchResult)
  /-- The line `Comparison | <indicator>`. -/
  | comparison (indicator : String)
  deriving DecidableEq, Repr

/-- The function `printComparison(noPart, withPart)` (compare/main.go:385-420). -/
def printComparison (noPart withPart : BenchResult) : List Event :=
  [Event.row noPart, Event.row withPart] ++
    (if noPart.Avg > 0 ∧ withPart.Avg > 0 then
      [Event.comparison (indicator (improvement noPart.Avg withPart.Avg))]
    else [])

/-- What `runComparison` observes of the outside world. -/
structure RunEnv where
  /-- The outcome of the `k`-th existence check: `none` when the scan failed, otherwise
  the count read. -/
  table : Nat → Option Int
  /-- The outcome of the `k`-th `db.Query` of the run. -/
  query : Env

/-- What `runComparison` has done so far. -/
structure Run where
  /-- The table names looked up by `tableExists`, oldest first. -/
  checks : List String
  /-- The `db.Query` calls made, oldest first. -/
  calls : List String
  /-- Number of error lines logged. -/
  errors : Nat
  /-- What has been printed. -/
  out : List Event
  deriving DecidableEq, Repr

/-- The function `tableExists(db, tableName)` (compare/main.go:296-300):
`err == nil && count > 0`. -/
def tableExists (env : RunEnv) (tableName : String) (r : Run) : Bool × Run :=
  (match env.table r.checks.length with
    | none => false
    | some count => decide (count > 0),
   { r with checks := r.checks ++ [tableName] })

/-- A call of `benchmark` in the course of a run: its queries are the next ones of the
run. -/
def benchmarkAt (env : RunEnv) (name query : String) (iterations : Int) (r : Run) :
    Option (BenchResult × Run) :=
  match timed (fun k => env.query (r.calls.length + k)) name query iterations with
  | none => none
  | some l =>
    match finish l.result with
    | none => none
    | some result =>
      some (result, { r with calls := r.calls ++ l.calls, errors := r.errors + l.errors })

/-- The body of the loop of `runComparison` (compare/main.go:156-179). -/
def comparePair (env : RunEnv) (ptype : String) (iterations : Int) (r : Run)
    (qp : QueryPair) : Option Run :=
  if qp.PartitionType ≠ ptype ∧ qp.PartitionType ≠ "all" then some r
  else
    match tableExists env (extractTableName qp.WithPartition) r with
    | (false, r) => some { r with out := r.out ++ [Event.skipped qp.Name] }
    | (true, r) =>
      let r := { r with out := r.out ++ [Event.pair qp.Name qp.Description] }
      match benchmarkAt env "No Partition" qp.NoPartition iterations r with
      | none => none
      | some (resultNoPart, r) =>
        match benchmarkAt env "With Partition" qp.WithPartition iterations r with
        | none => none
        | some (resultWithPart, r) =>
          some { r with out := r.out ++ printComparison resultNoPart resultWithPart }

/-- The loop of `runComparison` over the pairs `queries`. -/
def comparePairs (env : RunEnv) (ptype : String) (iterations : Int)
    (queries : List QueryPair) (r : Run) : Option Run :=
  queries.foldlM (comparePair env ptype iterations) r

/-- The function `runComparison(db, ptype, iterations)` (compare/main.go:149-180). -/
def runComparison (env : RunEnv) (ptype : String) (iterations : Int) : Option Run :=
  comparePairs env ptype iterations (getQueryPairs ptype) ⟨[], [], 0, [Event.header ptype]⟩

/-- The test of `runComparison` under which a pair is processed. -/
def selected (ptype : String) (qp : QueryPair) : Bool :=
  decide (qp.PartitionType = ptype ∨ qp.PartitionType = "all")

/-- An outside world for `runComparison`: the `k`-th existence check reads `t[k]` (it
fails beyond the list) and every query succeeds, taking `100 + k` for the `k`-th one. -/
def runEnvOf (t : List Int) : RunEnv :=
  { table := fun k => t[k]?
    query := fun k => some (1, 100 + k) }

end Compare

namespace Compare

/-- The loop of `strings.ReplaceAll` for a non-empty `old`: `skip` characters of the
occurrence just replaced remain to be passed over. -/
def replaceFrom (old new : List Char) : Nat → List Char → List Char
  | _, [] => []
  | skip + 1, _ :: cs => replaceFrom old new skip cs
  | 0, c :: cs =>
    if old.isPrefixOf (c :: cs) then new ++ replaceFrom old new (old.length - 1) cs
    else c :: replaceFrom old new 0 cs

/-- `strings.ReplaceAll(s, old, new)` for a non-empty `old`. -/
def ReplaceAll (s old new : String) : String :=
  String.mk (replaceFrom old.data new.data 0 s.data)

/-- The query text in which each base table name (`book_tags`, `books`) is replaced by
the name of the table partitioned by `ptype` (`book_tags_<ptype>`, `books_<ptype>`), and
nothing else is changed: the text that an equivalent query on the partitioned tables
has. -/
def renamedTables (ptype query : String) : String :=
  ReplaceAll (ReplaceAll query "book_tags" ("book_tags_" ++ ptype)) "books" ("books_" ++ ptype)

end Compare

/-! ## The start-up of the server (`db/db.go`, `main.go`) -/

namespace Db

/-- The variables of the probing loop of `Init`. -/
structure Probe where
  /-- Whether the variable `err` is not nil. -/
  failed : Bool
  /-- Number of calls of `DB.Ping()` made. -/
  pings : Nat
  /-- Number of calls of `time.Sleep(time.Second)` made. -/
  sleeps : Nat
  deriving DecidableEq, Repr

/-- The loop `for i := 0; i < 30; i++ { err = DB.Ping(); if err == nil { break };
time.Sleep(time.Second) }` (db/db.go:35-41) with `n` iterations to go; `ping k` tells
whether the `k`-th ping succeeds. -/
def probeLoop (ping : Nat → Bool) : Nat → Probe → Probe
  | 0, s => s
  | n + 1, s =>
    if ping s.pings then { s with failed := false, pings := s.pings + 1 }
    else probeLoop ping n ⟨true, s.pings + 1, s.sleeps + 1⟩

/-- The two errors that `Init` returns. -/
inductive InitError where
  /-- The error `failed to open database`. -/
  | openFailed
  /-- The error `failed to ping database`. -/
  | pingFailed
  deriving DecidableEq, Repr

/-- What a call of `Init` returns and has done. -/
structure InitResult where
  /-- The returned error, `none` for nil. -/
  err : Option InitError
  /-- Number of calls of `DB.Ping()` made. -/
  pings : Nat
  /-- Number of calls of `time.Sleep(time.Second)` made. -/
  sleeps : Nat
  deriving DecidableEq, Repr

/-- The function `Init()` (db/db.go:14-48); `openOk` tells whether `sql.Open` succeeds. -/
def Init (openOk : Bool) (ping : Nat → Bool) : InitResult :=
  if !openOk then ⟨some InitError.openFailed, 0, 0⟩
  else
    let s := probeLoop ping 30 ⟨false, 0, 0⟩
    if s.failed then ⟨some InitError.pingFailed, s.pings, s.sleeps⟩
    else ⟨none, s.pings, s.sleeps⟩

/-- How the start of the server's `main` ends (main.go:13-15). -/
inductive Start where
  /-- The call `log.Fatalf("Failed to initialize database: ...")`: exit with status 1. -/
  | fatal
  /-- The server goes on to set up its routes. -/
  | serving
  deriving DecidableEq, Repr

/-- The first statement of `main` (main.go:13-15). -/
def main (openOk : Bool) (ping : Nat → Bool) : Start :=
  match (Init openOk ping).err with
  | some _ => Start.fatal
  | none => Start.serving

end Db

namespace Seed

/-- The part of the seeder state that the outcomes of the INSERTs do not enter: the
position in the random stream, the statements issued and the progress counter. -/
def State.work (s : State) : Nat × List Stmt × Int := (s.pos, s.stmts, s.totalInserted)

end Seed

namespace Go

/-- The rational number that a binary64 number stands for. -/
def Float64.toRat (x : Float64) : ℚ :=
  (if x.neg then -1 else 1) * (x.mant : ℚ) * (2 : ℚ) ^ x.exp

/-- The number `x` lies between `y * lo` and `y * hi`. -/
def Near (x y lo hi : ℚ) : Prop := y * lo ≤ x ∧ x ≤ y * hi

end Go

namespace Go

/-- The smallest value of a 64-bit signed integer, `-2 ^ 63`. -/
def minInt64 : Int := -9223372036854775808

/-- The largest value of a 64-bit signed integer, `2 ^ 63 - 1`. -/
def maxInt64 : Int := 9223372036854775807

/-- The value that Go gives an `int64`, or an `int` on a 64-bit platform, when the
mathematical result of an addition or subtraction is `z`: the sum wraps around, that is,
`z` is reduced modulo `2 ^ 64` into `[-2 ^ 63, 2 ^ 63)`. -/
def wrap64 (z : Int) : Int := (z - minInt64) % 18446744073709551616 + minInt64

end Go

namespace Seed

/-! ### The batch loop on 64-bit integers

`forBatches` and `batchEnd` above compute `i + bulkSize` on the mathematical integers,
which is what Go computes as long as the sum does not exceed `2 ^ 63 - 1`.  The definitions
below follow Go where it does: the sum wraps around.  The wrapped loop need not end, so it
is run for a number of iterations given in advance. -/

/-- How far a run has come after the iterations it was allowed. -/
inductive Progress (σ : Type) where
  /-- The iterations allowed are used up and the loop condition has not been found false
  yet; `s` is the state reached. -/
  | running (s : σ)
  /-- The run ended in a panic. -/
  | panicked
  /-- The function returned, in state `s`. -/
  | returned (s : σ)

/-- The run `p` followed, when it returned, by the run `f`. -/
def Progress.andThen {σ : Type} (p : Progress σ) (f : σ → Progress σ) : Progress σ :=
  match p with
  | Progress.returned s => f s
  | Progress.running s => Progress.running s
  | Progress.panicked => Progress.panicked

/-- The progress `p` with `f` applied to its state. -/
def Progress.map {σ τ : Type} (f : σ → τ) (p : Progress σ) : Progress τ :=
  match p with
  | Progress.returned s => Progress.returned (f s)
  | Progress.running s => Progress.running (f s)
  | Progress.panicked => Progress.panicked

/-- The progress of a run that is known to end: it returned or panicked. -/
def Progress.ofOption {σ : Type} : Option σ → Progress σ
  | some s => Progress.returned s
  | none => Progress.panicked

/-- Two runs have come equally far, in states related by `R`. -/
def Progress.Rel {σ τ : Type} (R : σ → τ → Prop) : Progress σ → Progress τ → Prop
  | Progress.running s, Progress.running t => R s t
  | Progress.panicked, Progress.panicked => True
  | Progress.returned s, Progress.returned t => R s t
  | _, _ => False

/-- The end of the batch that starts at `i`, as Go computes it:
`batchEnd := i + bulkSize; if batchEnd > end { batchEnd = end }`, the sum wrapping
around. -/
def batchEnd64 (i end_ : Int) : Int :=
  if Go.wrap64 (i + bulkSize) > end_ then end_ else Go.wrap64 (i + bulkSize)

/-- The counter `totalInserted` as an `int64`.  The body of a batch adds `batchEnd - i` to
the counter on the mathematical integers; reducing the sum gives what
`atomic.AddInt64(&totalInserted, int64(batchEnd-i))` leaves, the two being equal modulo
`2 ^ 64`. -/
def State.wrapCounter (s : State) : State :=
  { s with totalInserted := Go.wrap64 s.totalInserted }

/-- The loop `for i := start; i < end; i += bulkSize { batchEnd := ...; body }` on 64-bit
integers, run for at most `fuel` iterations: `i + bulkSize` wraps around, in `batchEnd` and
in the step of the loop, and `wrap` is applied to the state after every iteration (it
reduces the counter that the body has added to).  When `batchEnd` has wrapped around it
lies below `i`: the inner loop `for j := i; j < batchEnd; j++` of the body then makes no
iteration, and the capacity `batchEnd - i` of the slices, computed on 64-bit integers, is
`bulkSize`, so that `make` does not panic. -/
def forBatches64 {σ : Type} (wrap : σ → σ) (body : Int → Int → σ → Option σ) :
    Nat → Int → Int → σ → Progress σ
  | 0, _, _, s => Progress.running s
  | fuel + 1, i, end_, s =>
    if i < end_ then
      match body i (batchEnd64 i end_) s with
      | none => Progress.panicked
      | some s' => forBatches64 wrap body fuel (Go.wrap64 (i + bulkSize)) end_ (wrap s')
    else Progress.returned s

/-- The function `seedAuthors(db, count)` (seed/main.go:126-153) on 64-bit integers, run
for at most `fuel` iterations. -/
def seedAuthors64 (rnd : Nat → Nat) (ok : Nat → Bool) (fuel : Nat) (count : Int)
    (s : State) : Progress State :=
  forBatches64 State.wrapCounter (seedAuthorsBatch rnd ok) fuel 0 count s

/-- The function `seedTags(db, count)` (seed/main.go:155-183) on 64-bit integers, run for
at most `fuel` iterations. -/
def seedTags64 (rnd : Nat → Nat) (ok : Nat → Bool) (fuel : Nat) (count : Int)
    (s : State) : Progress State :=
  forBatches64 State.wrapCounter (seedTagsBatch rnd ok) fuel 0 count s

/-- The function `insertBooks(db, workerID, start, end, numAuthors)`
(seed/main.go:208-242) on 64-bit integers, run for at most `fuel` iterations. -/
def insertBooks64 (rnd : Nat → Nat) (ok : Nat → Bool) (fuel : Nat)
    (_workerID start end_ numAuthors : Int) (s : State) : Progress State :=
  forBatches64 State.wrapCounter (insertBooksBatch rnd ok numAuthors) fuel start end_ s

/-- The function `insertBookTags(db, workerID, start, end, numBooks, numTags)`
(seed/main.go:267-313) on 64-bit integers, run for at most `fuel` iterations. -/
def insertBookTags64 (rnd : Nat → Nat) (ok : Nat → Bool) (fuel : Nat)
    (_workerID start end_ numBooks numTags : Int) (s : State) : Progress State :=
  (forBatches64 (fun st => (State.wrapCounter st.1, st.2))
    (insertBookTagsBatch rnd ok numBooks numTags) fuel start end_ (s, Tracker.make)).map
    Prod.fst

/-- The function `seedAuthorTags(db, count, numAuthors, numTags)` (seed/main.go:315-354)
on 64-bit integers, run for at most `fuel` iterations. -/
def seedAuthorTags64 (rnd : Nat → Nat) (ok : Nat → Bool) (fuel : Nat)
    (count numAuthors numTags : Int) (s : State) : Progress State :=
  (forBatches64 (fun st => (State.wrapCounter st.1, st.2))
    (seedAuthorTagsBatch rnd ok numAuthors numTags) fuel 0 count (s, Tracker.make)).map
    Prod.fst

/-- The function `seedBooks(db, count, numAuthors)` (seed/main.go:185-206) on 64-bit
integers, the workers being run one after the other as in `seedBooks`, each for at most
`fuel` iterations. -/
def seedBooks64 (rnd : Nat → Nat) (ok : Nat → Bool) (fuel : Nat) (count numAuthors : Int)
    (s : State) : Progress State :=
  workerIds.foldl
    (fun p w => p.andThen (fun s =>
      insertBooks64 rnd ok fuel w (seedBooksRange count w).1 (seedBooksRange count w).2
        numAuthors s))
    (Progress.returned s)

/-- The function `seedBookTags(db, count, numBooks, numTags)` (seed/main.go:244-265) on
64-bit integers, the workers being run one after the other, each for at most `fuel`
iterations. -/
def seedBookTags64 (rnd : Nat → Nat) (ok : Nat → Bool) (fuel : Nat)
    (count numBooks numTags : Int) (s : State) : Progress State :=
  workerIds.foldl
    (fun p w => p.andThen (fun s =>
      insertBookTags64 rnd ok fuel w (seedBookTagsRange count w).1
        (seedBookTagsRange count w).2 numBooks numTags s))
    (Progress.returned s)

/-- The seeding part of `main` (seed/main.go:74-86) on 64-bit integers: `totalTarget`,
the sum of the five counts wrapping around, and the five phases in order, every loop
being run for at most `fuel` iterations. -/
def main64 (rnd : Nat → Nat) (ok : Nat → Bool) (fuel : Nat)
    (numAuthors numBooks numTags numBookTags numAuthorTags : Int) : Int × Progress State :=
  let totalTarget := Go.wrap64 (numAuthors + numBooks + numTags + numBookTags + numAuthorTags)
  (totalTarget,
    ((((seedAuthors64 rnd ok fuel numAuthors State.init).andThen
      (seedTags64 rnd ok fuel numTags)).andThen
      (seedBooks64 rnd ok fuel numBooks numAuthors)).andThen
      (seedBookTags64 rnd ok fuel numBookTags numBooks numTags)).andThen
      (seedAuthorTags64 rnd ok fuel numAuthorTags numAuthors numTags))

/-- A function whose call on 64-bit integers returns what the call on the mathematical
integers returns, the counter having advanced by `n`. -/
def Agrees (run64 : State → Progress State) (run : State → Option State) (n : Int)
    (s : State) : Prop :=
  ∃ s', run64 s = Progress.returned s' ∧ run s = some s' ∧
    s'.totalInserted = s.totalInserted + n

end Seed

namespace Seed

/-! ## Loop rules -/

theorem forRange_done {σ : Type} (body : Int → σ → Option σ) (j hi : Int) (s : σ)
    (h : hi ≤ j) : forRange body j hi s = some s := by
  rw [forRange, if_neg (by omega)]

theorem forRange_step {σ : Type} (body : Int → σ → Option σ) (j hi : Int) (s s' : σ)
    (h : j < hi) (hb : body j s = some s') :
    forRange body j hi s = forRange body (j + 1) hi s' := by
  rw [forRange, if_pos h, hb]

theorem forRange_fail {σ : Type} (body : Int → σ → Option σ) (j hi : Int) (s : σ)
    (h : j < hi) (hb : body j s = none) : forRange body j hi s = none := by
  rw [forRange, if_pos h, hb]

/-- Invariant rule for `forRange`: an invariant that holds on entry and is carried by
every iteration (which must not panic) holds on exit, and the loop returns. -/
theorem forRange_induct {σ : Type} (body : Int → σ → Option σ) (hi : Int)
    (P : Int → σ → Prop)
    (step : ∀ k t, k < hi → P k t → ∃ t', body k t = some t' ∧ P (k + 1) t') :
    ∀ (n : Nat) (j : Int) (s : σ), (hi - j).toNat = n → j ≤ hi → P j s →
      ∃ t, forRange body j hi s = some t ∧ P hi t := by
  intro n
  induction n with
  | zero =>
    intro j s hn hle hP
    have : j = hi := by omega
    subst this
    exact ⟨s, forRange_done body j j s (le_refl _), hP⟩
  | succ n ih =>
    intro j s hn hle hP
    have hlt : j < hi := by omega
    obtain ⟨t', hb, hP'⟩ := step j s hlt hP
    obtain ⟨t, ht, hPt⟩ := ih (j + 1) t' (by omega) (by omega) hP'
    exact ⟨t, by rw [forRange_step body j hi s t' hlt hb]; exact ht, hPt⟩

theorem forBatches_done {σ : Type} (body : Int → Int → σ → Option σ) (i end_ : Int) (s : σ)
    (h : end_ ≤ i) : forBatches body i end_ s = some s := by
  rw [forBatches, if_neg (by omega)]

theorem forBatches_step {σ : Type} (body : Int → Int → σ → Option σ) (i end_ : Int)
    (s s' : σ) (h : i < end_) (hb : body i (batchEnd i end_) s = some s') :
    forBatches body i end_ s = forBatches body (i + bulkSize) end_ s' := by
  rw [forBatches, if_pos h, hb]

theorem forBatches_fail {σ : Type} (body : Int → Int → σ → Option σ) (i end_ : Int)
    (s : σ) (h : i < end_) (hb : body i (batchEnd i end_) s = none) :
    forBatches body i end_ s = none := by
  rw [forBatches, if_pos h, hb]

/-- Invariant rule for `forBatches`: the loop returns, in a state satisfying the
invariant at the index `i'` at which the loop condition `i' < end` failed. -/
theorem forBatches_induct {σ : Type} (body : Int → Int → σ → Option σ) (end_ : Int)
    (P : Int → σ → Prop)
    (step : ∀ k t, k < end_ → P k t →
      ∃ t', body k (batchEnd k end_) t = some t' ∧ P (k + bulkSize) t') :
    ∀ (n : Nat) (i : Int) (s : σ), (end_ - i).toNat ≤ n → P i s →
      ∃ i' t, forBatches body i end_ s = some t ∧ P i' t ∧ end_ ≤ i' := by
  intro n
  induction n with
  | zero =>
    intro i s hn hP
    exact ⟨i, s, forBatches_done body i end_ s (by omega), hP, by omega⟩
  | succ n ih =>
    intro i s hn hP
    by_cases hlt : i < end_
    · obtain ⟨t', hb, hP'⟩ := step i s hlt hP
      obtain ⟨i', t, ht, hPt, hge⟩ := ih (i + bulkSize) t' (by unfold bulkSize; omega) hP'
      exact ⟨i', t, by rw [forBatches_step body i end_ s t' hlt hb]; exact ht, hPt, hge⟩
    · exact ⟨i, s, forBatches_done body i end_ s (by omega), hP, by omega⟩

theorem batchEnd_eq_min (i end_ : Int) : batchEnd i end_ = min (i + 5000) end_ := by
  unfold batchEnd bulkSize
  split <;> omega

theorem Intn_pos (rnd : Nat → Nat) (pos : Nat) (n : Int) (h : 0 < n) :
    Intn rnd pos n = some ((rnd pos : Int) % n) := by
  unfold Intn
  rw [if_neg (by omega)]

theorem Intn_hourSpan (rnd : Nat → Nat) (pos : Nat) :
    Intn rnd pos hourSpan = some ((rnd pos : Int) % hourSpan) :=
  Intn_pos rnd pos hourSpan (by decide)

/-! ## Association batches never panic for positive id bounds -/

theorem pairRow_dup (rnd : Nat → Nat) (n1 n2 j : Int) (b : PairBatch)
    (h1 : 0 < n1) (h2 : 0 < n2)
    (hk : pairKey ((rnd b.pos : Int) % n1 + 1) ((rnd (b.pos + 1) : Int) % n2 + 1)
      ∈ b.inserted) :
    pairRow rnd n1 n2 j b = some { b with pos := b.pos + 2 } := by
  simp [pairRow, Intn_pos _ _ _ h1, Intn_pos _ _ _ h2, Tracker.get, hk]

theorem pairRow_fresh (rnd : Nat → Nat) (n1 n2 j : Int) (b : PairBatch)
    (h1 : 0 < n1) (h2 : 0 < n2)
    (hk : pairKey ((rnd b.pos : Int) % n1 + 1) ((rnd (b.pos + 1) : Int) % n2 + 1)
      ∉ b.inserted) :
    pairRow rnd n1 n2 j b =
      some ⟨b.values ++ ["(?, ?, ?)"],
        b.args ++ [Arg.int ((rnd b.pos : Int) % n1 + 1),
          Arg.int ((rnd (b.pos + 1) : Int) % n2 + 1),
          Arg.time ((rnd (b.pos + 2) : Int) % hourSpan)],
        b.pos + 3,
        pairKey ((rnd b.pos : Int) % n1 + 1) ((rnd (b.pos + 1) : Int) % n2 + 1)
          :: b.inserted⟩ := by
  simp [pairRow, Intn_pos _ _ _ h1, Intn_pos _ _ _ h2, Intn_hourSpan, Tracker.get,
    Tracker.set, hk]

theorem pairRow_some (rnd : Nat → Nat) (n1 n2 j : Int) (b : PairBatch)
    (h1 : 0 < n1) (h2 : 0 < n2) : ∃ b', pairRow rnd n1 n2 j b = some b' := by
  by_cases hk : pairKey ((rnd b.pos : Int) % n1 + 1) ((rnd (b.pos + 1) : Int) % n2 + 1)
      ∈ b.inserted
  · exact ⟨_, pairRow_dup rnd n1 n2 j b h1 h2 hk⟩
  · exact ⟨_, pairRow_fresh rnd n1 n2 j b h1 h2 hk⟩

theorem pairRows_some (rnd : Nat → Nat) (n1 n2 i hi : Int) (b : PairBatch)
    (h1 : 0 < n1) (h2 : 0 < n2) (hle : i ≤ hi) :
    ∃ b', forRange (pairRow rnd n1 n2) i hi b = some b' := by
  obtain ⟨t, ht, _⟩ := forRange_induct (pairRow rnd n1 n2) hi (fun _ _ => True)
    (fun k t _ _ => by
      obtain ⟨t', ht'⟩ := pairRow_some rnd n1 n2 k t h1 h2
      exact ⟨t', ht', trivial⟩)
    (hi - i).toNat i b rfl hle trivial
  exact ⟨t, ht⟩

theorem pairFlush_totalInserted (ok : Nat → Bool) (q : String) (i e : Int) (b : PairBatch)
    (s : State) : (pairFlush ok q i e b s).totalInserted = s.totalInserted + (e - i) := by
  unfold pairFlush addInserted exec
  split <;> rfl

theorem insertBookTagsBatch_counter (rnd : Nat → Nat) (ok : Nat → Bool)
    (numBooks numTags i e : Int) (st : State × Tracker)
    (h1 : 0 < numBooks) (h2 : 0 < numTags) (hle : i ≤ e) :
    ∃ st', insertBookTagsBatch rnd ok numBooks numTags i e st = some st' ∧
      st'.1.totalInserted = st.1.totalInserted + (e - i) := by
  obtain ⟨b, hb⟩ := pairRows_some rnd numBooks numTags i e ⟨[], [], st.1.pos, st.2⟩ h1 h2 hle
  refine ⟨_, by simp only [insertBookTagsBatch, hb]; rfl, ?_⟩
  exact pairFlush_totalInserted _ _ _ _ _ _

theorem seedAuthorTagsBatch_counter (rnd : Nat → Nat) (ok : Nat → Bool)
    (numAuthors numTags i e : Int) (st : State × Tracker)
    (h1 : 0 < numAuthors) (h2 : 0 < numTags) (hle : i ≤ e) :
    ∃ st', seedAuthorTagsBatch rnd ok numAuthors numTags i e st = some st' ∧
      st'.1.totalInserted = st.1.totalInserted + (e - i) := by
  obtain ⟨b, hb⟩ := pairRows_some rnd numAuthors numTags i e ⟨[], [], st.1.pos, st.2⟩
    h1 h2 hle
  refine ⟨_, by simp only [seedAuthorTagsBatch, hb]; rfl, ?_⟩
  exact pairFlush_totalInserted _ _ _ _ _ _

/-- A batch loop whose body always returns and adds the batch size to the counter adds
the size of the whole range. -/
theorem forBatches_counter {σ : Type} (body : Int → Int → σ → Option σ) (cnt : σ → Int)
    (start end_ : Int) (s : σ) (hle : start ≤ end_)
    (hbody : ∀ k t, k ≤ batchEnd k end_ →
      ∃ t', body k (batchEnd k end_) t = some t' ∧ cnt t' = cnt t + (batchEnd k end_ - k)) :
    ∃ t, forBatches body start end_ s = some t ∧ cnt t = cnt s + (end_ - start) := by
  obtain ⟨i', t, ht, hP, hge⟩ := forBatches_induct body end_
    (fun k t => cnt t = cnt s + (min k end_ - start))
    (fun k t hk hP => by
      have hbe := batchEnd_eq_min k end_
      obtain ⟨t', ht', hc⟩ := hbody k t (by rw [hbe]; omega)
      refine ⟨t', ht', ?_⟩
      show cnt t' = cnt s + (min (k + bulkSize) end_ - start)
      have hP' : cnt t = cnt s + (min k end_ - start) := hP
      rw [hc, hP', hbe]
      unfold bulkSize
      omega)
    (end_ - start).toNat start s (le_refl _) (by show cnt s = cnt s + (min start end_ - start); omega)
  have hP' : cnt t = cnt s + (min i' end_ - start) := hP
  exact ⟨t, ht, by rw [hP']; omega⟩

/-! ## The counter in the plain batches -/

theorem seedAuthorsRow_eq (rnd : Nat → Nat) (j : Int) (b : Batch) :
    seedAuthorsRow rnd j b =
      some ⟨b.values ++ ["(?, ?)"],
        b.args ++ [Arg.str ("Author " ++ fmtInt (j + 1)),
          Arg.time ((rnd b.pos : Int) % hourSpan)], b.pos + 1⟩ := by
  simp [seedAuthorsRow, Intn_hourSpan]

theorem seedTagsRow_eq (rnd : Nat → Nat) (j : Int) (b : Batch) :
    seedTagsRow rnd j b =
      some ⟨b.values ++ ["(?)"],
        b.args ++ [Arg.str (tagCategories.getD ((rnd b.pos : Int) % 14).toNat "" ++ "-" ++
          fmtInt (j + 1))], b.pos + 1⟩ := by
  have h : Intn rnd b.pos (tagCategories.length : Int) = some ((rnd b.pos : Int) % 14) :=
    Intn_pos rnd b.pos _ (by decide)
  simp [seedTagsRow, h]

theorem insertBooksRow_eq (rnd : Nat → Nat) (numAuthors j : Int) (b : Batch)
    (h : 0 < numAuthors) :
    insertBooksRow rnd numAuthors j b =
      some ⟨b.values ++ ["(?, ?, ?)"],
        b.args ++ [Arg.str (bookTitle ((rnd b.pos : Int) % 10) ((rnd (b.pos + 1) : Int) % 10) j),
          Arg.int ((rnd (b.pos + 2) : Int) % numAuthors + 1),
          Arg.time ((rnd (b.pos + 3) : Int) % hourSpan)], b.pos + 4⟩ := by
  have h1 : Intn rnd b.pos (titles.length : Int) = some ((rnd b.pos : Int) % 10) :=
    Intn_pos rnd b.pos _ (by decide)
  have h2 : Intn rnd (b.pos + 1) (subjects.length : Int)
      = some ((rnd (b.pos + 1) : Int) % 10) :=
    Intn_pos rnd (b.pos + 1) _ (by decide)
  simp [insertBooksRow, h1, h2, Intn_pos _ _ _ h, Intn_hourSpan]

/-- An inner loop whose body never panics returns. -/
theorem forRange_total {σ : Type} (body : Int → σ → Option σ) (i hi : Int) (s : σ)
    (hle : i ≤ hi) (hbody : ∀ k t, ∃ t', body k t = some t') :
    ∃ t, forRange body i hi s = some t := by
  obtain ⟨t, ht, _⟩ := forRange_induct body hi (fun _ _ => True)
    (fun k t _ _ => by
      obtain ⟨t', ht'⟩ := hbody k t
      exact ⟨t', ht', trivial⟩)
    (hi - i).toNat i s rfl hle trivial
  exact ⟨t, ht⟩

theorem seedAuthorsBatch_counter (rnd : Nat → Nat) (ok : Nat → Bool) (i e : Int) (s : State)
    (hle : i ≤ e) :
    ∃ s', seedAuthorsBatch rnd ok i e s = some s' ∧
      s'.totalInserted = s.totalInserted + (e - i) := by
  obtain ⟨b, hb⟩ := forRange_total (seedAuthorsRow rnd) i e ⟨[], [], s.pos⟩ hle
    (fun k t => ⟨_, seedAuthorsRow_eq rnd k t⟩)
  exact ⟨_, by simp only [seedAuthorsBatch, hb]; rfl, rfl⟩

theorem seedTagsBatch_counter (rnd : Nat → Nat) (ok : Nat → Bool) (i e : Int) (s : State)
    (hle : i ≤ e) :
    ∃ s', seedTagsBatch rnd ok i e s = some s' ∧
      s'.totalInserted = s.totalInserted + (e - i) := by
  obtain ⟨b, hb⟩ := forRange_total (seedTagsRow rnd) i e ⟨[], [], s.pos⟩ hle
    (fun k t => ⟨_, seedTagsRow_eq rnd k t⟩)
  exact ⟨_, by simp only [seedTagsBatch, hb]; rfl, rfl⟩

theorem insertBooksBatch_counter (rnd : Nat → Nat) (ok : Nat → Bool) (numAuthors i e : Int)
    (s : State) (h : 0 < numAuthors) (hle : i ≤ e) :
    ∃ s', insertBooksBatch rnd ok numAuthors i e s = some s' ∧
      s'.totalInserted = s.totalInserted + (e - i) := by
  obtain ⟨b, hb⟩ := forRange_total (insertBooksRow rnd numAuthors) i e ⟨[], [], s.pos⟩ hle
    (fun k t => ⟨_, insertBooksRow_eq rnd numAuthors k t h⟩)
  exact ⟨_, by simp only [insertBooksBatch, hb]; rfl, rfl⟩

theorem seedAuthors_counter (rnd : Nat → Nat) (ok : Nat → Bool) (count : Int) (s : State)
    (hc : 0 ≤ count) :
    ∃ s', seedAuthors rnd ok count s = some s' ∧
      s'.totalInserted = s.totalInserted + count := by
  obtain ⟨t, ht, hcnt⟩ := forBatches_counter (seedAuthorsBatch rnd ok)
    (fun st => st.totalInserted) 0 count s hc
    (fun k t hk => seedAuthorsBatch_counter rnd ok k _ t hk)
  exact ⟨t, ht, by simpa using hcnt⟩

theorem seedTags_counter (rnd : Nat → Nat) (ok : Nat → Bool) (count : Int) (s : State)
    (hc : 0 ≤ count) :
    ∃ s', seedTags rnd ok count s = some s' ∧
      s'.totalInserted = s.totalInserted + count := by
  obtain ⟨t, ht, hcnt⟩ := forBatches_counter (seedTagsBatch rnd ok)
    (fun st => st.totalInserted) 0 count s hc
    (fun k t hk => seedTagsBatch_counter rnd ok k _ t hk)
  exact ⟨t, ht, by simpa using hcnt⟩

theorem insertBooks_counter (rnd : Nat → Nat) (ok : Nat → Bool)
    (workerID start end_ numAuthors : Int) (s : State) (h : 0 < numAuthors)
    (hle : start ≤ end_) :
    ∃ s', insertBooks rnd ok workerID start end_ numAuthors s = some s' ∧
      s'.totalInserted = s.totalInserted + (end_ - start) :=
  forBatches_counter (insertBooksBatch rnd ok numAuthors)
    (fun st => st.totalInserted) start end_ s hle
    (fun k t hk => insertBooksBatch_counter rnd ok numAuthors k _ t h hk)

theorem insertBookTags_counter (rnd : Nat → Nat) (ok : Nat → Bool)
    (workerID start end_ n1 n2 : Int) (s : State) (h1 : 0 < n1) (h2 : 0 < n2)
    (hle : start ≤ end_) :
    ∃ s', insertBookTags rnd ok workerID start end_ n1 n2 s = some s' ∧
      s'.totalInserted = s.totalInserted + (end_ - start) := by
  obtain ⟨t, ht, hcnt⟩ := forBatches_counter (insertBookTagsBatch rnd ok n1 n2)
    (fun st => st.1.totalInserted) start end_ (s, Tracker.make) hle
    (fun k t hk => insertBookTagsBatch_counter rnd ok n1 n2 k _ t h1 h2 hk)
  exact ⟨t.1, by simp [insertBookTags, ht], hcnt⟩

theorem seedAuthorTags_counter (rnd : Nat → Nat) (ok : Nat → Bool)
    (count n1 n2 : Int) (s : State) (h1 : 0 < n1) (h2 : 0 < n2) (hc : 0 ≤ count) :
    ∃ s', seedAuthorTags rnd ok count n1 n2 s = some s' ∧
      s'.totalInserted = s.totalInserted + count := by
  obtain ⟨t, ht, hcnt⟩ := forBatches_counter (seedAuthorTagsBatch rnd ok n1 n2)
    (fun st => st.1.totalInserted) 0 count (s, Tracker.make) hc
    (fun k t hk => seedAuthorTagsBatch_counter rnd ok n1 n2 k _ t h1 h2 hk)
  exact ⟨t.1, by simp [seedAuthorTags, ht], by simpa using hcnt⟩

/-! ## The statements of the plain batches -/

theorem rows_spec (row : Int → Batch → Option Batch) (group : String) (width draws : Nat)
    (first : Int → Arg → Prop) (hrow : RowSpec row group width draws first)
    (i hi : Int) (p : Nat) (hle : i ≤ hi) :
    ∃ b, forRange row i hi ⟨[], [], p⟩ = some b ∧
      b.values = List.replicate (hi - i).toNat group ∧
      b.args.length = width * (hi - i).toNat ∧
      (∀ m : Nat, m < (hi - i).toNat → ∃ a, b.args[width * m]? = some a ∧ first (i + m) a) ∧
      b.pos = p + draws * (hi - i).toNat := by
  obtain ⟨b, hb, -, hP⟩ := forRange_induct row hi
    (fun k b => i ≤ k ∧ (b.values = List.replicate (k - i).toNat group ∧
      b.args.length = width * (k - i).toNat ∧
      (∀ m : Nat, m < (k - i).toNat → ∃ a, b.args[width * m]? = some a ∧ first (i + m) a) ∧
      b.pos = p + draws * (k - i).toNat))
    (fun k b hk hP => by
      obtain ⟨hik, hv, hl, hcov, hpos⟩ := hP
      obtain ⟨a, rest, hw, hf, hr⟩ := hrow k b
      have hn : (k + 1 - i).toNat = (k - i).toNat + 1 := by omega
      refine ⟨_, hr, by omega, ?_, ?_, ?_, ?_⟩
      · show b.values ++ [group] = _
        rw [hn, hv, List.replicate_succ']
      · show (b.args ++ a :: rest).length = _
        rw [hn, List.length_append, List.length_cons, hl, Nat.mul_succ]
        omega
      · intro m hm
        show ∃ a', (b.args ++ a :: rest)[width * m]? = some a' ∧ first (i + m) a'
        rw [hn] at hm
        by_cases hlt : m < (k - i).toNat
        · obtain ⟨a', ha', hf'⟩ := hcov m hlt
          refine ⟨a', ?_, hf'⟩
          rw [List.getElem?_append_left]
          · exact ha'
          · rw [hl]
            exact Nat.mul_lt_mul_of_pos_left hlt (by omega)
        · have hm' : m = (k - i).toNat := by omega
          refine ⟨a, ?_, ?_⟩
          · rw [hm', ← hl, List.getElem?_append_right (le_refl _)]
            simp
          · have : i + (m : Int) = k := by omega
            rw [this]
            exact hf
      · show b.pos + draws = _
        rw [hn, hpos, Nat.mul_succ]
        omega)
    (hi - i).toNat i ⟨[], [], p⟩ rfl hle
    ⟨le_refl _, by simp, by simp, by intro m hm; simp at hm, by simp⟩
  exact ⟨b, hb, hP⟩

theorem plainBatches_spec (batchFn : Int → Int → State → Option State)
    (row : Int → Batch → Option Batch) (ok : Nat → Bool) (head group : String)
    (width draws : Nat) (first : Int → Arg → Prop)
    (hrow : RowSpec row group width draws first)
    (hbatch : ∀ i e s, batchFn i e s =
      match forRange row i e ⟨[], [], s.pos⟩ with
      | none => none
      | some b => some (addInserted (e - i)
          (exec ok (head ++ ",".intercalate b.values) b.args { s with pos := b.pos })))
    (start end_ : Int) (s : State) (hle : start ≤ end_) :
    ∃ s' new, forBatches batchFn start end_ s = some s' ∧ s'.stmts = s.stmts ++ new ∧
      AreBatchStmts head group width first start end_ new := by
  obtain ⟨i', t, ht, hP, hge⟩ := forBatches_induct batchFn end_
    (fun k t => ∃ m : Nat, k = start + 5000 * m ∧ k < end_ + 5000 ∧
      ∃ new : List Stmt, t.stmts = s.stmts ++ new ∧ new.length = m ∧
        ∀ q : Nat, q < m → ∃ st, new[q]? = some st ∧
          IsBatchStmt head group width first (start + 5000 * q)
            (min (start + 5000 * (q + 1)) end_) st)
    (fun k t hk hP => by
      obtain ⟨m, hkm, -, new, hst, hlen, hall⟩ := hP
      have hbe := batchEnd_eq_min k end_
      obtain ⟨b, hb, hv, hl, hcov, -⟩ := rows_spec row group width draws first hrow k
        (batchEnd k end_) t.pos (by rw [hbe]; omega)
      refine ⟨_, by rw [hbatch, hb], m + 1, by unfold bulkSize; push_cast; omega,
        by unfold bulkSize; omega,
        new ++ [⟨head ++ ",".intercalate b.values, b.args⟩], ?_, by simp [hlen], ?_⟩
      · show t.stmts ++ [_] = _
        rw [hst, List.append_assoc]
      · intro q hq
        by_cases hlt : q < m
        · obtain ⟨st, hst', hS⟩ := hall q hlt
          exact ⟨st, by rw [List.getElem?_append_left (by omega)]; exact hst', hS⟩
        · have hqm : q = m := by omega
          subst hqm
          refine ⟨⟨head ++ ",".intercalate b.values, b.args⟩,
            by rw [← hlen, List.getElem?_append_right (le_refl _)]; simp, ?_⟩
          have e1 : start + 5000 * (q : Int) = k := by omega
          have e2 : min (start + 5000 * ((q : Int) + 1)) end_ = batchEnd k end_ := by
            rw [hbe]; omega
          rw [e1, e2]
          exact ⟨by rw [hv], hl, hcov⟩)
    (end_ - start).toNat start s (le_refl _)
    ⟨0, by simp, by omega, [], by simp, rfl, by intro q hq; omega⟩
  obtain ⟨m, hkm, hlt, new, hst, hlen, hall⟩ := hP
  refine ⟨t, new, ht, hst, ?_, ?_⟩
  · rw [hlen]; omega
  · intro k hk
    exact hall k (by omega)

theorem seedAuthorsRow_spec (rnd : Nat → Nat) :
    RowSpec (seedAuthorsRow rnd) "(?, ?)" 2 1 authorFirst :=
  fun j b => ⟨_, [_], rfl, rfl, seedAuthorsRow_eq rnd j b⟩

theorem getD_mod_mem (l : List String) (x : Int) (h : 0 < (l.length : Int)) :
    l.getD (x % (l.length : Int)).toNat "" ∈ l := by
  have hlt : (x % (l.length : Int)).toNat < l.length := by
    have := Int.emod_lt_of_pos x h
    have := Int.emod_nonneg x (ne_of_gt h)
    omega
  rw [List.getD_eq_getElem l "" hlt]
  exact List.getElem_mem _

theorem seedTagsRow_spec (rnd : Nat → Nat) :
    RowSpec (seedTagsRow rnd) "(?)" 1 1 tagFirst :=
  fun j b => ⟨_, [], rfl,
    ⟨_, getD_mod_mem tagCategories (rnd b.pos) (by decide), rfl⟩, seedTagsRow_eq rnd j b⟩

theorem insertBooksRow_spec (rnd : Nat → Nat) (numAuthors : Int) (h : 0 < numAuthors) :
    RowSpec (insertBooksRow rnd numAuthors) "(?, ?, ?)" 3 4 bookFirst :=
  fun j b => ⟨_, [_, _], rfl, ⟨_, _, rfl⟩, insertBooksRow_eq rnd numAuthors j b h⟩

/-! ## The statements of the association batches -/

theorem pairArgs_append (rows : List (Int × Int × Int)) (r : Int × Int × Int) :
    pairArgs (rows ++ [r]) = pairArgs rows ++ [Arg.int r.1, Arg.int r.2.1, Arg.time r.2.2] := by
  simp [pairArgs]

theorem pairArgs_length (rows : List (Int × Int × Int)) :
    (pairArgs rows).length = 3 * rows.length := by
  induction rows with
  | nil => rfl
  | cons r rows ih =>
    simp only [pairArgs, List.flatMap_cons, List.length_append, List.length_cons,
      List.length_nil] at ih ⊢
    omega

/-- The inner loop of an association batch, started with empty slices: it returns; the
rows it emits are at most one per index, their pairs are pairwise distinct, their keys
were not in the tracker and are in it afterwards, and exactly two draws per index plus
one per emitted row were made. -/
theorem pairRows_spec (rnd : Nat → Nat) (n1 n2 : Int) (h1 : 0 < n1) (h2 : 0 < n2)
    (i hi : Int) (p : Nat) (tr : Tracker) (hle : i ≤ hi) :
    ∃ rows b, forRange (pairRow rnd n1 n2) i hi ⟨[], [], p, tr⟩ = some b ∧
      b.values = List.replicate rows.length "(?, ?, ?)" ∧
      b.args = pairArgs rows ∧
      rows.length ≤ (hi - i).toNat ∧
      (rowPairs rows).Nodup ∧
      (∀ r ∈ rows, pairKey r.1 r.2.1 ∉ tr ∧ pairKey r.1 r.2.1 ∈ b.inserted) ∧
      (∀ k ∈ tr, k ∈ b.inserted) ∧
      b.pos = p + 2 * (hi - i).toNat + rows.length := by
  obtain ⟨b, hb, -, rows, hP⟩ := forRange_induct (pairRow rnd n1 n2) hi
    (fun k b => i ≤ k ∧ ∃ rows : List (Int × Int × Int),
      b.values = List.replicate rows.length "(?, ?, ?)" ∧
      b.args = pairArgs rows ∧
      rows.length ≤ (k - i).toNat ∧
      (rowPairs rows).Nodup ∧
      (∀ r ∈ rows, pairKey r.1 r.2.1 ∉ tr ∧ pairKey r.1 r.2.1 ∈ b.inserted) ∧
      (∀ k ∈ tr, k ∈ b.inserted) ∧
      b.pos = p + 2 * (k - i).toNat + rows.length)
    (fun k b hk hP => by
      obtain ⟨hik, rows, hv, ha, hlen, hnd, hkeys, htr, hpos⟩ := hP
      have hn : (k + 1 - i).toNat = (k - i).toNat + 1 := by omega
      by_cases hmem : pairKey ((rnd b.pos : Int) % n1 + 1) ((rnd (b.pos + 1) : Int) % n2 + 1)
          ∈ b.inserted
      · refine ⟨_, pairRow_dup rnd n1 n2 k b h1 h2 hmem, by omega, rows, hv, ha, by omega,
          hnd, hkeys, htr, ?_⟩
        show b.pos + 2 = _
        omega
      · refine ⟨_, pairRow_fresh rnd n1 n2 k b h1 h2 hmem, by omega,
          rows ++ [((rnd b.pos : Int) % n1 + 1, (rnd (b.pos + 1) : Int) % n2 + 1,
            (rnd (b.pos + 2) : Int) % hourSpan)], ?_, ?_, ?_, ?_, ?_, ?_, ?_⟩
        · show b.values ++ _ = _
          rw [hv, List.length_append, List.length_singleton, List.replicate_succ']
        · show b.args ++ _ = _
          rw [ha, pairArgs_append]
        · rw [List.length_append, List.length_singleton]; omega
        · unfold rowPairs at hnd ⊢
          rw [List.map_append, List.nodup_append]
          refine ⟨hnd, by simp, ?_⟩
          intro pr hpr hpr'
          simp only [List.map_cons, List.map_nil, List.mem_singleton] at hpr'
          obtain ⟨r, hr, hreq⟩ := List.mem_map.mp hpr
          have := (hkeys r hr).2
          rw [hpr'] at hreq
          have e1 : r.1 = (rnd b.pos : Int) % n1 + 1 := congrArg Prod.fst hreq
          have e2 : r.2.1 = (rnd (b.pos + 1) : Int) % n2 + 1 := congrArg Prod.snd hreq
          rw [e1, e2] at this
          exact hmem this
        · intro r hr
          rcases List.mem_append.mp hr with hr | hr
          · exact ⟨(hkeys r hr).1, List.mem_cons_of_mem _ (hkeys r hr).2⟩
          · rw [List.mem_singleton] at hr
            subst hr
            exact ⟨fun hin => hmem (htr _ hin), List.mem_cons_self _ _⟩
        · intro key hkey
          exact List.mem_cons_of_mem _ (htr key hkey)
        · show b.pos + 3 = _
          rw [List.length_append, List.length_singleton]
          omega)
    (hi - i).toNat i ⟨[], [], p, tr⟩ rfl hle
    ⟨le_refl _, [], rfl, rfl, by simp, by simp [rowPairs], by simp, fun _ h => h, by simp⟩
  exact ⟨rows, b, hb, hP⟩

theorem pairFlush_stmts (ok : Nat → Bool) (head : String) (i e : Int) (b : PairBatch)
    (s : State) (rows : List (Int × Int × Int))
    (hv : b.values = List.replicate rows.length "(?, ?, ?)") (ha : b.args = pairArgs rows) :
    (pairFlush ok head i e b s).stmts =
      (if rows = [] then s.stmts else s.stmts ++ [pairStmt head rows]) ∧
    (pairFlush ok head i e b s).pos = b.pos := by
  unfold pairFlush addInserted exec pairStmt
  rw [hv, ha, List.length_replicate]
  cases rows with
  | nil => simp
  | cons r rows => simp

/-- One batch of `insertBookTags`. -/
theorem insertBookTagsBatch_spec (rnd : Nat → Nat) (ok : Nat → Bool) (n1 n2 : Int)
    (h1 : 0 < n1) (h2 : 0 < n2) (i e : Int) (st : State × Tracker) (hle : i ≤ e) :
    ∃ rows st', insertBookTagsBatch rnd ok n1 n2 i e st = some st' ∧
      rows.length ≤ (e - i).toNat ∧ (rowPairs rows).Nodup ∧
      st'.1.pos = st.1.pos + 2 * (e - i).toNat + rows.length ∧
      st'.1.stmts =
        (if rows = [] then st.1.stmts else st.1.stmts ++ [pairStmt bookTagsHead rows]) := by
  obtain ⟨rows, b, hb, hv, ha, hlen, hnd, -, -, hpos⟩ :=
    pairRows_spec rnd n1 n2 h1 h2 i e st.1.pos st.2 hle
  have hf := pairFlush_stmts ok bookTagsHead i e b st.1 rows hv ha
  refine ⟨rows, _, by simp only [insertBookTagsBatch, hb]; rfl, hlen, hnd, ?_, hf.1⟩
  show (pairFlush ok bookTagsHead i e b st.1).pos = _
  rw [hf.2, hpos]

/-- One batch of `seedAuthorTags`. -/
theorem seedAuthorTagsBatch_spec (rnd : Nat → Nat) (ok : Nat → Bool) (n1 n2 : Int)
    (h1 : 0 < n1) (h2 : 0 < n2) (i e : Int) (st : State × Tracker) (hle : i ≤ e) :
    ∃ rows st', seedAuthorTagsBatch rnd ok n1 n2 i e st = some st' ∧
      rows.length ≤ (e - i).toNat ∧ (rowPairs rows).Nodup ∧
      st'.1.pos = st.1.pos + 2 * (e - i).toNat + rows.length ∧
      st'.1.stmts =
        (if rows = [] then st.1.stmts else st.1.stmts ++ [pairStmt authorTagsHead rows]) := by
  obtain ⟨rows, b, hb, hv, ha, hlen, hnd, -, -, hpos⟩ :=
    pairRows_spec rnd n1 n2 h1 h2 i e st.1.pos st.2 hle
  have hf := pairFlush_stmts ok authorTagsHead i e b st.1 rows hv ha
  refine ⟨rows, _, by simp only [seedAuthorTagsBatch, hb]; rfl, hlen, hnd, ?_, hf.1⟩
  show (pairFlush ok authorTagsHead i e b st.1).pos = _
  rw [hf.2, hpos]

/-- All statements of one call of `insertBookTags`. -/
theorem insertBookTags_stmts (rnd : Nat → Nat) (ok : Nat → Bool) (n1 n2 : Int)
    (h1 : 0 < n1) (h2 : 0 < n2) (workerID start end_ : Int) (s : State) :
    ∃ s' new, insertBookTags rnd ok workerID start end_ n1 n2 s = some s' ∧
      s'.stmts = s.stmts ++ new ∧ ∀ st ∈ new, IsPairStmt bookTagsHead 5000 st := by
  obtain ⟨i', t, ht, ⟨new, hst, hall⟩, -⟩ :=
    forBatches_induct (insertBookTagsBatch rnd ok n1 n2) end_
      (fun _ t => ∃ new : List Stmt, t.1.stmts = s.stmts ++ new ∧
        ∀ st ∈ new, IsPairStmt bookTagsHead 5000 st)
      (fun k t hk hP => by
        obtain ⟨new, hst, hall⟩ := hP
        have hbe := batchEnd_eq_min k end_
        obtain ⟨rows, t', ht', hlen, hnd, -, hstm⟩ :=
          insertBookTagsBatch_spec rnd ok n1 n2 h1 h2 k (batchEnd k end_) t
            (by rw [hbe]; omega)
        refine ⟨t', ht', ?_⟩
        by_cases hr : rows = []
        · rw [if_pos hr] at hstm
          exact ⟨new, by rw [hstm, hst], hall⟩
        · rw [if_neg hr] at hstm
          refine ⟨new ++ [pairStmt bookTagsHead rows],
            by rw [hstm, hst, List.append_assoc], ?_⟩
          intro st hmem
          rcases List.mem_append.mp hmem with hmem | hmem
          · exact hall st hmem
          · rw [List.mem_singleton] at hmem
            exact ⟨rows, hr, by rw [hbe] at hlen; omega, hnd, hmem⟩)
      (end_ - start).toNat start (s, Tracker.make) (le_refl _)
      ⟨[], by simp, by simp⟩
  exact ⟨t.1, new, by simp [insertBookTags, ht], hst, hall⟩

/-! ## Keys -/

theorem digitChar_inj : ∀ a < 10, ∀ b < 10, Nat.digitChar a = Nat.digitChar b → a = b := by
  decide

theorem digitChar_ne_minus : ∀ a < 10, Nat.digitChar a ≠ '-' := by
  decide

theorem decimal_pos (n : Nat) (h : 0 < n) :
    decimal n = ((Nat.digits 10 n).map Nat.digitChar).reverse := by
  unfold decimal
  rw [if_neg (by omega)]

theorem decimal_inj (n m : Nat) (hn : 0 < n) (hm : 0 < m) (h : decimal n = decimal m) :
    n = m := by
  rw [decimal_pos n hn, decimal_pos m hm] at h
  have h1 := List.reverse_injective h
  have h2 : Nat.digits 10 n = Nat.digits 10 m := by
    apply List.ext_getElem
    · simpa using congrArg List.length h1
    · intro i hi hi'
      have := congrArg (fun l => l[i]?) h1
      simp only [List.getElem?_map] at this
      rw [List.getElem?_eq_getElem hi, List.getElem?_eq_getElem hi'] at this
      simp only [Option.map_some'] at this
      exact digitChar_inj _ (Nat.digits_lt_base (by norm_num) (List.getElem_mem _)) _
        (Nat.digits_lt_base (by norm_num) (List.getElem_mem _)) (Option.some.inj this)
  exact Nat.digits_inj_iff.mp h2

theorem minus_not_mem_decimal (n : Nat) (h : 0 < n) : '-' ∉ decimal n := by
  rw [decimal_pos n h]
  intro hmem
  rw [List.mem_reverse, List.mem_map] at hmem
  obtain ⟨d, hd, hc⟩ := hmem
  exact digitChar_ne_minus d (Nat.digits_lt_base (by norm_num) hd) hc

theorem append_sep_inj (c : Char) : ∀ (l1 l2 r1 r2 : List Char), c ∉ l1 → c ∉ l2 →
    l1 ++ c :: r1 = l2 ++ c :: r2 → l1 = l2 ∧ r1 = r2 := by
  intro l1
  induction l1 with
  | nil =>
    intro l2 r1 r2 _ h2 h
    cases l2 with
    | nil => exact ⟨rfl, by simpa using h⟩
    | cons x l2 =>
      simp only [List.nil_append, List.cons_append, List.cons.injEq] at h
      exact absurd (h.1 ▸ List.mem_cons_self _ _) h2
  | cons y l1 ih =>
    intro l2 r1 r2 h1 h2 h
    cases l2 with
    | nil =>
      simp only [List.nil_append, List.cons_append, List.cons.injEq] at h
      exact absurd (h.1 ▸ List.mem_cons_self _ _) h1
    | cons x l2 =>
      simp only [List.cons_append, List.cons.injEq] at h
      obtain ⟨e, r⟩ := ih l2 r1 r2 (fun hm => h1 (List.mem_cons_of_mem _ hm))
        (fun hm => h2 (List.mem_cons_of_mem _ hm)) h.2
      exact ⟨by rw [h.1, e], r⟩

theorem fmtInt_pos (n : Nat) : fmtInt (n : Int) = String.mk (decimal n) := rfl

theorem pairKey_data (a b : Nat) :
    (pairKey (a : Int) (b : Int)).data = decimal a ++ '-' :: decimal b := by
  unfold pairKey
  rw [fmtInt_pos, fmtInt_pos, String.data_append, String.data_append]
  show (decimal a ++ ['-']) ++ decimal b = _
  rw [List.append_assoc]
  rfl

/-- The key `fmt.Sprintf("%d-%d", a, b)` determines the pair of positive ids. -/
theorem pairKey_inj (a b a' b' : Int) (ha : 0 < a) (hb : 0 < b) (ha' : 0 < a') (hb' : 0 < b')
    (h : pairKey a b = pairKey a' b') : a = a' ∧ b = b' := by
  obtain ⟨n, rfl⟩ := Int.eq_ofNat_of_zero_le (le_of_lt ha)
  obtain ⟨m, rfl⟩ := Int.eq_ofNat_of_zero_le (le_of_lt hb)
  obtain ⟨n', rfl⟩ := Int.eq_ofNat_of_zero_le (le_of_lt ha')
  obtain ⟨m', rfl⟩ := Int.eq_ofNat_of_zero_le (le_of_lt hb')
  have hd := congrArg String.data h
  rw [pairKey_data, pairKey_data] at hd
  obtain ⟨e1, e2⟩ := append_sep_inj '-' _ _ _ _
    (minus_not_mem_decimal n (by omega)) (minus_not_mem_decimal n' (by omega)) hd
  have := decimal_inj n n' (by omega) (by omega) e1
  have := decimal_inj m m' (by omega) (by omega) e2
  omega

/-! ## The states in which batches start -/

theorem batchStarts_done {σ : Type} (body : Int → Int → σ → Option σ) (i end_ : Int) (s : σ)
    (h : end_ ≤ i) : batchStarts body i end_ s = [] := by
  rw [batchStarts, if_neg (by omega)]

theorem batchStarts_step {σ : Type} (body : Int → Int → σ → Option σ) (i end_ : Int)
    (s s' : σ) (h : i < end_) (hb : body i (batchEnd i end_) s = some s') :
    batchStarts body i end_ s = (i, s) :: batchStarts body (i + bulkSize) end_ s' := by
  rw [batchStarts, if_pos h, hb]

theorem batchStarts_head {σ : Type} (body : Int → Int → σ → Option σ) (i end_ : Int) (s : σ)
    (h : i < end_) : (i, s) ∈ batchStarts body i end_ s := by
  rw [batchStarts, if_pos h]
  exact List.mem_cons_self _ _

/-- Every batch-start state is reached from the initial one by bodies that returned, so
an invariant of the body holds in all of them. -/
theorem batchStarts_invariant {σ : Type} (body : Int → Int → σ → Option σ) (end_ : Int)
    (P : σ → Prop) (step : ∀ k t t', P t → body k (batchEnd k end_) t = some t' → P t') :
    ∀ (n : Nat) (i : Int) (s : σ), (end_ - i).toNat ≤ n → P s →
      ∀ x ∈ batchStarts body i end_ s, P x.2 := by
  intro n
  induction n with
  | zero =>
    intro i s hn _ x hx
    rw [batchStarts_done body i end_ s (by omega)] at hx
    exact absurd hx (List.not_mem_nil _)
  | succ n ih =>
    intro i s hn hP x hx
    by_cases hlt : i < end_
    · cases hb : body i (batchEnd i end_) s with
      | none =>
        rw [batchStarts, if_pos hlt, hb, List.mem_singleton] at hx
        rw [hx]; exact hP
      | some s' =>
        rw [batchStarts_step body i end_ s s' hlt hb] at hx
        rcases List.mem_cons.mp hx with hx | hx
        · rw [hx]; exact hP
        · exact ih (i + bulkSize) s' (by unfold bulkSize; omega) (step i s s' hP hb) x hx
    · rw [batchStarts_done body i end_ s (by omega)] at hx
      exact absurd hx (List.not_mem_nil _)

/-- The batch starts seen from a batch-start state are batch starts of the whole loop. -/
theorem batchStarts_suffix {σ : Type} (body : Int → Int → σ → Option σ) (end_ : Int) :
    ∀ (n : Nat) (i : Int) (s : σ), (end_ - i).toNat ≤ n →
      ∀ x ∈ batchStarts body i end_ s,
        ∀ y ∈ batchStarts body x.1 end_ x.2, y ∈ batchStarts body i end_ s := by
  intro n
  induction n with
  | zero =>
    intro i s hn x hx
    rw [batchStarts_done body i end_ s (by omega)] at hx
    exact absurd hx (List.not_mem_nil _)
  | succ n ih =>
    intro i s hn x hx y hy
    by_cases hlt : i < end_
    · cases hb : body i (batchEnd i end_) s with
      | none =>
        have hx' := hx
        rw [batchStarts, if_pos hlt, hb, List.mem_singleton] at hx'
        rw [hx'] at hy
        exact hy
      | some s' =>
        have hx' := hx
        rw [batchStarts_step body i end_ s s' hlt hb] at hx'
        rcases List.mem_cons.mp hx' with hx' | hx'
        · rw [hx'] at hy; exact hy
        · rw [batchStarts_step body i end_ s s' hlt hb]
          exact List.mem_cons_of_mem _
            (ih (i + bulkSize) s' (by unfold bulkSize; omega) x hx' y hy)
    · rw [batchStarts_done body i end_ s (by omega)] at hx
      exact absurd hx (List.not_mem_nil _)

/-- Following the loop for `m` batches: if `Q` holds initially and is carried from batch
`m` to batch `m + 1` whenever batch `m + 1` exists, then batch `m` starts in a state `t`
satisfying `Q m`, from which the rest of the loop runs. -/
theorem forBatches_chain {σ : Type} (body : Int → Int → σ → Option σ) (start end_ : Int)
    (s : σ) (Q : Nat → σ → Prop) (h0 : Q 0 s)
    (step : ∀ m t, Q m t → start + 5000 * ((m : Int) + 1) < end_ →
      ∃ t', body (start + 5000 * m) (batchEnd (start + 5000 * m) end_) t = some t' ∧
        Q (m + 1) t') :
    ∀ m : Nat, start + 5000 * (m : Int) < end_ →
      ∃ t, Q m t ∧
        forBatches body start end_ s = forBatches body (start + 5000 * m) end_ t ∧
        (start + 5000 * (m : Int), t) ∈ batchStarts body start end_ s := by
  intro m
  induction m with
  | zero =>
    intro hlt
    simp only [Nat.cast_zero, mul_zero, add_zero] at hlt ⊢
    exact ⟨s, h0, rfl, batchStarts_head body start end_ s hlt⟩
  | succ m ih =>
    intro hlt
    push_cast at hlt
    obtain ⟨t, hQ, hrun, hmem⟩ := ih (by omega)
    obtain ⟨t', hb, hQ'⟩ := step m t hQ hlt
    have hk : start + 5000 * (m : Int) < end_ := by omega
    have e : start + 5000 * ((m + 1 : Nat) : Int) = start + 5000 * (m : Int) + bulkSize := by
      unfold bulkSize; push_cast; omega
    rw [e]
    refine ⟨t', hQ', ?_, ?_⟩
    · rw [hrun, forBatches_step body _ end_ t t' hk hb]
    · apply batchStarts_suffix body end_ _ start s (le_refl _) _ hmem
      show _ ∈ batchStarts body (start + 5000 * (m : Int)) end_ t
      rw [batchStarts_step body _ end_ t t' hk hb]
      exact List.mem_cons_of_mem _ (batchStarts_head body _ end_ t' (by rw [← e]; push_cast; omega))

/-! ## A run in which no candidate is dropped -/

/-- Under the draws `thirds`, the inner loop over the indices `[i, hi)` with `hi ≤ N`,
started after `3 * i` draws with a tracker that only holds keys of pairs `(j + 1, 1)`
with `j < i`, drops nothing: the candidate of index `k` is the new pair `(k + 1, 1)`. -/
theorem freshRows (N i hi : Int) (tr : Tracker) (h0 : 0 ≤ i) (hle : i ≤ hi) (hN : hi ≤ N)
    (htr : ∀ key ∈ tr, ∃ j : Nat, (j : Int) < i ∧ key = pairKey ((j : Int) + 1) 1) :
    ∃ b rows, forRange (pairRow thirds N 1) i hi ⟨[], [], 3 * i.toNat, tr⟩ = some b ∧
      b.pos = 3 * hi.toNat ∧
      b.inserted.length = tr.length + (hi - i).toNat ∧
      (∀ key ∈ b.inserted, ∃ j : Nat, (j : Int) < hi ∧ key = pairKey ((j : Int) + 1) 1) ∧
      b.values = List.replicate rows.length "(?, ?, ?)" ∧ b.args = pairArgs rows ∧
      rows.length = (hi - i).toNat ∧
      (i < hi → (i + 1, 1) ∈ rowPairs rows) := by
  obtain ⟨b, hb, -, rows, hP⟩ := forRange_induct (pairRow thirds N 1) hi
    (fun k b => i ≤ k ∧ ∃ rows : List (Int × Int × Int),
      b.pos = 3 * k.toNat ∧
      b.inserted.length = tr.length + (k - i).toNat ∧
      (∀ key ∈ b.inserted, ∃ j : Nat, (j : Int) < k ∧ key = pairKey ((j : Int) + 1) 1) ∧
      b.values = List.replicate rows.length "(?, ?, ?)" ∧ b.args = pairArgs rows ∧
      rows.length = (k - i).toNat ∧
      (i < k → (i + 1, 1) ∈ rowPairs rows))
    (fun k b hk hP => by
      obtain ⟨hik, rows, hpos, hlen, hkeys, hv, ha, hrl, hfirst⟩ := hP
      have hn : (k + 1 - i).toNat = (k - i).toNat + 1 := by omega
      have hNpos : 0 < N := by omega
      have t0 : thirds b.pos = k.toNat := by rw [hpos]; unfold thirds; omega
      have t1 : thirds (b.pos + 1) = k.toNat := by rw [hpos]; unfold thirds; omega
      have e1 : ((thirds b.pos : Nat) : Int) % N + 1 = k + 1 := by
        rw [t0, Int.toNat_of_nonneg (by omega), Int.emod_eq_of_lt (by omega) (by omega)]
      have e2 : ((thirds (b.pos + 1) : Nat) : Int) % 1 + 1 = 1 := by omega
      have hnot : pairKey (k + 1) 1 ∉ b.inserted := by
        intro hin
        obtain ⟨j, hj, hkey⟩ := hkeys _ hin
        have := (pairKey_inj (k + 1) 1 ((j : Int) + 1) 1 (by omega) (by decide) (by omega)
          (by decide) hkey).1
        omega
      have hfresh := pairRow_fresh thirds N 1 k b hNpos (by decide)
        (by rw [e1, e2]; exact hnot)
      rw [e1, e2] at hfresh
      refine ⟨_, hfresh, by omega,
        rows ++ [(k + 1, 1, ((thirds (b.pos + 2) : Nat) : Int) % hourSpan)],
        ?_, ?_, ?_, ?_, ?_, ?_, ?_⟩
      · show b.pos + 3 = _
        rw [hpos]; omega
      · show (pairKey (k + 1) 1 :: b.inserted).length = _
        rw [List.length_cons, hlen, hn]; omega
      · intro key hkey
        rcases List.mem_cons.mp hkey with hkey | hkey
        · exact ⟨k.toNat, by omega, by rw [hkey, Int.toNat_of_nonneg (by omega)]⟩
        · obtain ⟨j, hj, hkj⟩ := hkeys key hkey
          exact ⟨j, by omega, hkj⟩
      · show b.values ++ _ = _
        rw [hv, List.length_append, List.length_singleton, List.replicate_succ']
      · show b.args ++ _ = _
        rw [ha, pairArgs_append]
      · rw [List.length_append, List.length_singleton, hrl, hn]
      · intro _
        unfold rowPairs
        rw [List.map_append, List.mem_append]
        by_cases hik' : i < k
        · exact Or.inl (hfirst hik')
        · have : i = k := by omega
          subst this
          exact Or.inr (by simp))
    (hi - i).toNat i ⟨[], [], 3 * i.toNat, tr⟩ rfl hle
    ⟨le_refl _, [], rfl, by simp, fun key hkey => htr key hkey, rfl, rfl, by simp,
      fun h => absurd h (lt_irrefl _)⟩
  exact ⟨b, rows, hb, hP⟩

/-! ## Worker ranges -/

theorem tdiv_workerCount (count : Int) (h : 0 ≤ count) :
    count.tdiv workerCount = count / 8 := by
  unfold workerCount
  rw [Int.tdiv_eq_ediv] <;> simp [h]

theorem seedBookTagsRange_eq (count w : Int) :
    seedBookTagsRange count w = seedBooksRange count w := rfl

/-- Closed form of a worker range for a non-negative count. -/
theorem seedBooksRange_val (count w : Int) (h : 0 ≤ count) :
    seedBooksRange count w =
      (w * (count / 8), if w = 7 then count else w * (count / 8) + count / 8) := by
  unfold seedBooksRange
  simp only [tdiv_workerCount count h]
  simp [workerCount]

theorem seedBooksRange_isPartition (count : Int) (h : 0 ≤ count) :
    IsPartition (seedBooksRange count) count := by
  refine ⟨?_, ?_, ?_, ?_, ?_⟩
  · simp [seedBooksRange_val count _ h]
  · simp [seedBooksRange_val count _ h]
  · intro w h0 h7
    simp only [seedBooksRange_val count _ h]
    interval_cases w <;> simp <;> omega
  · intro w h0 h7
    simp only [seedBooksRange_val count _ h]
    interval_cases w <;> simp <;> omega
  · intro w w' h0 h7 h0' h7' hne x
    simp only [seedBooksRange_val count _ h]
    interval_cases w <;> interval_cases w' <;> omega

theorem seedBooksRanges_sizes (count : Int) (h : 0 ≤ count) :
    rangeSizes (seedBooksRanges count) = count := by
  simp only [rangeSizes, seedBooksRanges, workerIds, List.map, seedBooksRange_val count _ h]
  simp
  omega

/-- C1: for every `count ≥ 0` the eight worker ranges computed by `seedBooks` and by
`seedBookTags` start at 0, end at `count`, are contiguous (`end_w = start_{w+1}`),
ordered (`start_w ≤ end_w`), pairwise disjoint, and their sizes add up to `count`. -/
theorem worker_ranges_partition (count : Int) (h : 0 ≤ count) :
    (IsPartition (seedBooksRange count) count ∧ rangeSizes (seedBooksRanges count) = count) ∧
    (IsPartition (seedBookTagsRange count) count ∧
      rangeSizes (seedBookTagsRanges count) = count) :=
  ⟨⟨seedBooksRange_isPartition count h, seedBooksRanges_sizes count h⟩,
   ⟨seedBooksRange_isPartition count h, seedBooksRanges_sizes count h⟩⟩

theorem worker_ranges_partition_witness :
    (0 : Int) ≤ 1003 ∧
    (IsPartition (seedBooksRange 1003) 1003 ∧ rangeSizes (seedBooksRanges 1003) = 1003) ∧
    (IsPartition (seedBookTagsRange 1003) 1003 ∧
      rangeSizes (seedBookTagsRanges 1003) = 1003) :=
  ⟨by decide, worker_ranges_partition 1003 (by decide)⟩

/-- C2: for every `count ≥ 0`, in `seedBooks` and in `seedBookTags` each of the first
seven workers gets exactly `count / 8` indices and the last one `count / 8 + count % 8`;
any two range sizes differ by at most 7, and no range is larger than the last. -/
theorem worker_ranges_nearly_equal (count : Int) (h : 0 ≤ count) :
    ∀ r ∈ [seedBooksRange count, seedBookTagsRange count],
      (∀ w : Int, 0 ≤ w → w < 7 → (r w).2 - (r w).1 = count / 8) ∧
      (r 7).2 - (r 7).1 = count / 8 + count % 8 ∧
      (∀ w w' : Int, 0 ≤ w → w ≤ 7 → 0 ≤ w' → w' ≤ 7 →
        |((r w).2 - (r w).1) - ((r w').2 - (r w').1)| ≤ 7) ∧
      (∀ w : Int, 0 ≤ w → w ≤ 7 → (r w).2 - (r w).1 ≤ (r 7).2 - (r 7).1) := by
  intro r hr
  have hr' : r = seedBooksRange count := by
    simp only [List.mem_cons, List.mem_singleton, List.not_mem_nil, or_false] at hr
    rcases hr with hr | hr
    · exact hr
    · rw [hr]; funext w; exact seedBookTagsRange_eq count w
  subst hr'
  have hsz : ∀ w : Int, 0 ≤ w → w < 7 →
      (seedBooksRange count w).2 - (seedBooksRange count w).1 = count / 8 := by
    intro w h0 h7
    simp only [seedBooksRange_val count _ h]
    interval_cases w <;> simp
  have hlast : (seedBooksRange count 7).2 - (seedBooksRange count 7).1
      = count / 8 + count % 8 := by
    simp only [seedBooksRange_val count _ h]
    simp
    omega
  have hall : ∀ w : Int, 0 ≤ w → w ≤ 7 →
      (seedBooksRange count w).2 - (seedBooksRange count w).1 = count / 8 ∨
      (seedBooksRange count w).2 - (seedBooksRange count w).1 = count / 8 + count % 8 := by
    intro w h0 h7
    rcases lt_or_eq_of_le h7 with hlt | heq
    · exact Or.inl (hsz w h0 hlt)
    · subst heq; exact Or.inr hlast
  refine ⟨hsz, hlast, ?_, ?_⟩
  · intro w w' h0 h7 h0' h7'
    rw [abs_le]
    rcases hall w h0 h7 with e | e <;> rcases hall w' h0' h7' with e' | e' <;>
      rw [e, e'] <;> omega
  · intro w h0 h7
    rw [hlast]
    rcases hall w h0 h7 with e | e <;> rw [e]
    omega

theorem worker_ranges_nearly_equal_witness :
    (0 : Int) ≤ 1003 ∧
    ∀ r ∈ [seedBooksRange 1003, seedBookTagsRange 1003],
      (∀ w : Int, 0 ≤ w → w < 7 → (r w).2 - (r w).1 = 1003 / 8) ∧
      (r 7).2 - (r 7).1 = 1003 / 8 + 1003 % 8 ∧
      (∀ w w' : Int, 0 ≤ w → w ≤ 7 → 0 ≤ w' → w' ≤ 7 →
        |((r w).2 - (r w).1) - ((r w').2 - (r w').1)| ≤ 7) ∧
      (∀ w : Int, 0 ≤ w → w ≤ 7 → (r w).2 - (r w).1 ≤ (r 7).2 - (r 7).1) :=
  ⟨by decide, worker_ranges_nearly_equal 1003 (by decide)⟩

theorem workerIds_ranges_ordered (count : Int) (h : 0 ≤ count) :
    ∀ w ∈ workerIds, (seedBooksRange count w).1 ≤ (seedBooksRange count w).2 := by
  intro w hw
  have hp := (seedBooksRange_isPartition count h).2.2.2.1
  simp only [workerIds, List.mem_cons, List.mem_singleton, List.not_mem_nil, or_false] at hw
  exact hp w (by omega) (by omega)

/-- C6: in `insertBookTags`, for all random draws, (a) a candidate whose key is already
in the tracker is dropped: the iteration only consumes its two draws, appends nothing and
draws no replacement; (b) every batch `[i, batchEnd)` returns having made two draws per
index plus one per emitted row, with at most `batchEnd - i` rows whose `(book_id, tag_id)`
pairs are pairwise distinct, issued as one statement with one placeholder group and three
arguments per row, and no statement at all when no row was emitted; (c) every statement
of a call is such an INSERT of at least one and at most 5000 pairwise distinct pairs. -/
theorem bookTags_batches (rnd : Nat → Nat) (ok : Nat → Bool) (n1 n2 : Int)
    (h1 : 0 < n1) (h2 : 0 < n2) :
    (∀ (j : Int) (b : PairBatch),
      pairKey ((rnd b.pos : Int) % n1 + 1) ((rnd (b.pos + 1) : Int) % n2 + 1) ∈ b.inserted →
      pairRow rnd n1 n2 j b = some { b with pos := b.pos + 2 }) ∧
    (∀ (i e : Int) (st : State × Tracker), i ≤ e →
      ∃ rows st', insertBookTagsBatch rnd ok n1 n2 i e st = some st' ∧
        rows.length ≤ (e - i).toNat ∧ (rowPairs rows).Nodup ∧
        st'.1.pos = st.1.pos + 2 * (e - i).toNat + rows.length ∧
        (pairStmt bookTagsHead rows).args.length = 3 * rows.length ∧
        st'.1.stmts =
          (if rows = [] then st.1.stmts else st.1.stmts ++ [pairStmt bookTagsHead rows])) ∧
    (∀ (workerID start end_ : Int) (s : State),
      ∃ s' new, insertBookTags rnd ok workerID start end_ n1 n2 s = some s' ∧
        s'.stmts = s.stmts ++ new ∧ ∀ st ∈ new, IsPairStmt bookTagsHead 5000 st) := by
  refine ⟨fun j b hk => pairRow_dup rnd n1 n2 j b h1 h2 hk, ?_, ?_⟩
  · intro i e st hle
    obtain ⟨rows, st', h, hlen, hnd, hpos, hst⟩ :=
      insertBookTagsBatch_spec rnd ok n1 n2 h1 h2 i e st hle
    exact ⟨rows, st', h, hlen, hnd, hpos, pairArgs_length rows, hst⟩
  · intro workerID start end_ s
    exact insertBookTags_stmts rnd ok n1 n2 h1 h2 workerID start end_ s

theorem bookTags_batches_witness :
    (0 : Int) < 2 ∧ (0 : Int) < 3 ∧
    ((∀ (j : Int) (b : PairBatch),
      pairKey (((fun p => p / 4) b.pos : Nat) % 2 + 1)
        (((fun p => p / 4) (b.pos + 1) : Nat) % 3 + 1) ∈ b.inserted →
      pairRow (fun p => p / 4) 2 3 j b = some { b with pos := b.pos + 2 }) ∧
    (∀ (i e : Int) (st : State × Tracker), i ≤ e →
      ∃ rows st', insertBookTagsBatch (fun p => p / 4) (fun _ => true) 2 3 i e st = some st' ∧
        rows.length ≤ (e - i).toNat ∧ (rowPairs rows).Nodup ∧
        st'.1.pos = st.1.pos + 2 * (e - i).toNat + rows.length ∧
        (pairStmt bookTagsHead rows).args.length = 3 * rows.length ∧
        st'.1.stmts =
          (if rows = [] then st.1.stmts else st.1.stmts ++ [pairStmt bookTagsHead rows])) ∧
    (∀ (workerID start end_ : Int) (s : State),
      ∃ s' new, insertBookTags (fun p => p / 4) (fun _ => true) workerID start end_ 2 3 s
          = some s' ∧
        s'.stmts = s.stmts ++ new ∧ ∀ st ∈ new, IsPairStmt bookTagsHead 5000 st)) :=
  ⟨by decide, by decide,
    bookTags_batches (fun p => p / 4) (fun _ => true) 2 3 (by decide) (by decide)⟩

/-- C7: in the duplicate tracker of `insertBookTags`, for every key `k` and every tracker
state `m`, the lookup `inserted[k]` is true right after `inserted[k] = true`; and in the
fresh map that replaces the tracker when it is cleared the lookup is false for every
key, the previously recorded ones included. -/
theorem tracker_record_then_clear (m : Tracker) (k : String) :
    Tracker.get (Tracker.set m k) k = true ∧
    Tracker.get Tracker.make k = false ∧
    (∀ k' : String, Tracker.get (Tracker.set m k') k' = true ∧
      Tracker.get Tracker.make k' = false) := by
  have h : ∀ k' : String, Tracker.get (Tracker.set m k') k' = true ∧
      Tracker.get Tracker.make k' = false := by
    intro k'
    constructor
    · unfold Tracker.get Tracker.set
      by_cases hk : k' ∈ m
      · rw [if_pos hk]; exact decide_eq_true hk
      · rw [if_neg hk]; exact decide_eq_true (List.mem_cons_self _ _)
    · unfold Tracker.get Tracker.make
      exact decide_eq_false (List.not_mem_nil _)
  exact ⟨(h k).1, (h k).2, h⟩

theorem insertBookTagsBatch_tracker (rnd : Nat → Nat) (ok : Nat → Bool) (n1 n2 i e : Int)
    (st st' : State × Tracker) (h : insertBookTagsBatch rnd ok n1 n2 i e st = some st') :
    ∃ b, forRange (pairRow rnd n1 n2) i e ⟨[], [], st.1.pos, st.2⟩ = some b ∧
      st'.2 = (if Tracker.len b.inserted > clearThreshold then Tracker.make else b.inserted) := by
  unfold insertBookTagsBatch at h
  cases hb : forRange (pairRow rnd n1 n2) i e ⟨[], [], st.1.pos, st.2⟩ with
  | none => rw [hb] at h; exact absurd h (by simp)
  | some b =>
    rw [hb] at h
    refine ⟨b, rfl, ?_⟩
    rw [← Option.some.inj h]

theorem seedAuthorTagsBatch_tracker (rnd : Nat → Nat) (ok : Nat → Bool) (n1 n2 i e : Int)
    (st st' : State × Tracker) (h : seedAuthorTagsBatch rnd ok n1 n2 i e st = some st') :
    ∃ b, forRange (pairRow rnd n1 n2) i e ⟨[], [], st.1.pos, st.2⟩ = some b ∧
      st'.2 = b.inserted := by
  unfold seedAuthorTagsBatch at h
  cases hb : forRange (pairRow rnd n1 n2) i e ⟨[], [], st.1.pos, st.2⟩ with
  | none => rw [hb] at h; exact absurd h (by simp)
  | some b =>
    rw [hb] at h
    refine ⟨b, rfl, ?_⟩
    rw [← Option.some.inj h]

/-- The part of C8 that the code satisfies: in `insertBookTags`, a batch whose inner loop
leaves more than 100,000 keys in the tracker hands an empty tracker to the next batch (and
the unchanged tracker otherwise), so every batch of a call starts with at most 100,000
keys; `seedAuthorTags` hands the tracker on as its inner loop left it, whatever its
size. -/
theorem tracker_cleared_in_insertBookTags (rnd : Nat → Nat) (ok : Nat → Bool)
    (n1 n2 start end_ : Int) (s : State) :
    (∀ (i e : Int) (st st' : State × Tracker),
      insertBookTagsBatch rnd ok n1 n2 i e st = some st' →
      ∃ b, forRange (pairRow rnd n1 n2) i e ⟨[], [], st.1.pos, st.2⟩ = some b ∧
        st'.2 =
          (if Tracker.len b.inserted > clearThreshold then Tracker.make else b.inserted)) ∧
    (∀ x ∈ batchStarts (insertBookTagsBatch rnd ok n1 n2) start end_ (s, Tracker.make),
      Tracker.len x.2.2 ≤ 100000) ∧
    (∀ (i e : Int) (st st' : State × Tracker),
      seedAuthorTagsBatch rnd ok n1 n2 i e st = some st' →
      ∃ b, forRange (pairRow rnd n1 n2) i e ⟨[], [], st.1.pos, st.2⟩ = some b ∧
        st'.2 = b.inserted) := by
  refine ⟨fun i e st st' h => insertBookTagsBatch_tracker rnd ok n1 n2 i e st st' h, ?_,
    fun i e st st' h => seedAuthorTagsBatch_tracker rnd ok n1 n2 i e st st' h⟩
  apply batchStarts_invariant (insertBookTagsBatch rnd ok n1 n2) end_
    (fun st => Tracker.len st.2 ≤ 100000) _ (end_ - start).toNat start _ (le_refl _)
  · show Tracker.len Tracker.make ≤ 100000
    decide
  · intro k t t' _ h
    obtain ⟨b, -, hb⟩ := insertBookTagsBatch_tracker rnd ok n1 n2 k _ t t' h
    show Tracker.len t'.2 ≤ 100000
    rw [hb]
    unfold clearThreshold
    split
    · decide
    · omega

/-- The run of `seedAuthorTags` on 105,001 indices with 105,000 authors and one tag under
the draws `thirds`: batch `m` starts after `15000 m` draws with `5000 m` keys. -/
theorem seedAuthorTags_fresh_run :
    ∀ m : Nat, (0 : Int) + 5000 * (m : Int) < 105001 →
      ∃ t : State × Tracker,
        (t.1.pos = 3 * (5000 * m) ∧ t.2.length = 5000 * m ∧
          ∀ key ∈ t.2, ∃ j : Nat, (j : Int) < 5000 * (m : Int) ∧
            key = pairKey ((j : Int) + 1) 1) ∧
        forBatches (seedAuthorTagsBatch thirds (fun _ => true) 105000 1) 0 105001
            (State.init, Tracker.make) =
          forBatches (seedAuthorTagsBatch thirds (fun _ => true) 105000 1)
            (0 + 5000 * (m : Int)) 105001 t ∧
        ((0 : Int) + 5000 * (m : Int), t) ∈
          batchStarts (seedAuthorTagsBatch thirds (fun _ => true) 105000 1) 0 105001
            (State.init, Tracker.make) := by
  apply forBatches_chain (seedAuthorTagsBatch thirds (fun _ => true) 105000 1) 0 105001
    (State.init, Tracker.make)
    (fun m t => t.1.pos = 3 * (5000 * m) ∧ t.2.length = 5000 * m ∧
      ∀ key ∈ t.2, ∃ j : Nat, (j : Int) < 5000 * (m : Int) ∧ key = pairKey ((j : Int) + 1) 1)
  · exact ⟨rfl, rfl, fun key hkey => absurd hkey (List.not_mem_nil _)⟩
  · intro m t hQ hlt
    obtain ⟨hpos, hlen, hkeys⟩ := hQ
    have hbe : batchEnd (0 + 5000 * (m : Int)) 105001 = 5000 * (m : Int) + 5000 := by
      rw [batchEnd_eq_min]; omega
    rw [hbe, zero_add]
    obtain ⟨b, rows, hb, hbpos, hblen, hbkeys, hv, ha, hrl, -⟩ :=
      freshRows 105000 (5000 * (m : Int)) (5000 * (m : Int) + 5000) t.2 (by omega) (by omega)
        (by omega) hkeys
    have hpos' : t.1.pos = 3 * (5000 * (m : Int)).toNat := by rw [hpos]; omega
    rw [← hpos'] at hb
    refine ⟨_, by simp only [seedAuthorTagsBatch, hb]; rfl, ?_, ?_, ?_⟩
    · show (pairFlush (fun _ => true) _ _ _ b t.1).pos = _
      rw [(pairFlush_stmts _ _ _ _ b t.1 rows hv ha).2, hbpos]
      omega
    · show b.inserted.length = _
      rw [hblen, hlen]; omega
    · intro key hkey
      obtain ⟨j, hj, hkj⟩ := hbkeys key hkey
      exact ⟨j, by push_cast; omega, hkj⟩

/-- C8 at a failing input: `seedAuthorTags` called with `count = 105001`, 105,000 authors
and one tag, under the draws `thirds` (candidate pairs `(1, 1), (2, 1), ...` without a
repetition): the batch that starts at index 105,000 starts with 105,000 keys in the
tracker, more than the threshold of 100,000, where the claim promises at most 100,000. -/
theorem seedAuthorTags_tracker_exceeds :
    ∃ x ∈ batchStarts (seedAuthorTagsBatch thirds (fun _ => true) 105000 1) 0 105001
        (State.init, Tracker.make),
      x.1 = 105000 ∧ Tracker.len x.2.2 = 105000 ∧ Tracker.len x.2.2 > clearThreshold := by
  obtain ⟨t, ⟨-, hlen, -⟩, -, hmem⟩ := seedAuthorTags_fresh_run 21 (by decide)
  refine ⟨_, hmem, by norm_num, ?_, ?_⟩
  · show ((t.2.length : Nat) : Int) = 105000
    rw [hlen]; norm_num
  · show ((t.2.length : Nat) : Int) > clearThreshold
    rw [hlen]; unfold clearThreshold; norm_num

/-- The run of `insertBookTags` on `[0, 105001)` with 105,000 books and one tag under the
draws `thirds`: batch `m` starts after `15000 m` draws and `m` statements, the first of
which holds the pair `(1, 1)`; the tracker holds `5000 m` keys up to batch 20 and is empty
at the start of batch 21. -/
theorem insertBookTags_fresh_run :
    ∀ m : Nat, (0 : Int) + 5000 * (m : Int) < 105001 →
      ∃ t : State × Tracker,
        (t.1.pos = 3 * (5000 * m) ∧ t.1.stmts.length = m ∧
          (0 < m → ∃ rows, t.1.stmts[0]? = some (pairStmt bookTagsHead rows) ∧
            ((1 : Int), (1 : Int)) ∈ rowPairs rows) ∧
          (m ≤ 20 → t.2.length = 5000 * m ∧
            ∀ key ∈ t.2, ∃ j : Nat, (j : Int) < 5000 * (m : Int) ∧
              key = pairKey ((j : Int) + 1) 1) ∧
          (20 < m → t.2 = Tracker.make)) ∧
        forBatches (insertBookTagsBatch thirds (fun _ => true) 105000 1) 0 105001
            (State.init, Tracker.make) =
          forBatches (insertBookTagsBatch thirds (fun _ => true) 105000 1)
            (0 + 5000 * (m : Int)) 105001 t ∧
        ((0 : Int) + 5000 * (m : Int), t) ∈
          batchStarts (insertBookTagsBatch thirds (fun _ => true) 105000 1) 0 105001
            (State.init, Tracker.make) := by
  apply forBatches_chain (insertBookTagsBatch thirds (fun _ => true) 105000 1) 0 105001
    (State.init, Tracker.make)
    (fun m t => t.1.pos = 3 * (5000 * m) ∧ t.1.stmts.length = m ∧
      (0 < m → ∃ rows, t.1.stmts[0]? = some (pairStmt bookTagsHead rows) ∧
        ((1 : Int), (1 : Int)) ∈ rowPairs rows) ∧
      (m ≤ 20 → t.2.length = 5000 * m ∧
        ∀ key ∈ t.2, ∃ j : Nat, (j : Int) < 5000 * (m : Int) ∧
          key = pairKey ((j : Int) + 1) 1) ∧
      (20 < m → t.2 = Tracker.make))
  · exact ⟨rfl, rfl, fun h => absurd h (lt_irrefl _),
      fun _ => ⟨rfl, fun key hkey => absurd hkey (List.not_mem_nil _)⟩,
      fun h => absurd h (by decide)⟩
  · intro m t hQ hlt
    obtain ⟨hpos, hslen, hfirst, hsmall, -⟩ := hQ
    have hm : m ≤ 20 := by omega
    obtain ⟨hlen, hkeys⟩ := hsmall hm
    have hbe : batchEnd (0 + 5000 * (m : Int)) 105001 = 5000 * (m : Int) + 5000 := by
      rw [batchEnd_eq_min]; omega
    rw [hbe, zero_add]
    obtain ⟨b, rows, hb, hbpos, hblen, hbkeys, hv, ha, hrl, hbfirst⟩ :=
      freshRows 105000 (5000 * (m : Int)) (5000 * (m : Int) + 5000) t.2 (by omega) (by omega)
        (by omega) hkeys
    have hpos' : t.1.pos = 3 * (5000 * (m : Int)).toNat := by rw [hpos]; omega
    rw [← hpos'] at hb
    have hf := pairFlush_stmts (fun _ => true) bookTagsHead (5000 * (m : Int))
      (5000 * (m : Int) + 5000) b t.1 rows hv ha
    have hrows : rows ≠ [] := by
      intro h0
      rw [h0] at hrl
      simp only [List.length_nil] at hrl
      omega
    rw [if_neg hrows] at hf
    refine ⟨_, by simp only [insertBookTagsBatch, hb]; rfl, ?_, ?_, ?_, ?_, ?_⟩
    · show (pairFlush (fun _ => true) bookTagsHead _ _ b t.1).pos = _
      rw [hf.2, hbpos]
      omega
    · show (pairFlush (fun _ => true) bookTagsHead _ _ b t.1).stmts.length = _
      rw [hf.1, List.length_append, hslen]
      rfl
    · intro _
      show ∃ rows', (pairFlush (fun _ => true) bookTagsHead _ _ b t.1).stmts[0]? = _ ∧ _
      rw [hf.1]
      by_cases hm0 : 0 < m
      · obtain ⟨rows', hr', hmem'⟩ := hfirst hm0
        exact ⟨rows', by rw [List.getElem?_append_left (by omega)]; exact hr', hmem'⟩
      · have hm0' : m = 0 := by omega
        subst hm0'
        have hnil : t.1.stmts = [] := List.eq_nil_of_length_eq_zero hslen
        refine ⟨rows, by rw [hnil]; rfl, ?_⟩
        have := hbfirst (by norm_num)
        simpa using this
    · intro hm1
      have hnc : ¬ (Tracker.len b.inserted > clearThreshold) := by
        show ¬ (((b.inserted.length : Nat) : Int) > clearThreshold)
        rw [hblen, hlen]
        unfold clearThreshold
        omega
      show (if Tracker.len b.inserted > clearThreshold then Tracker.make else b.inserted).length
          = _ ∧ ∀ key ∈ (if Tracker.len b.inserted > clearThreshold then Tracker.make
            else b.inserted), _
      rw [if_neg hnc]
      refine ⟨by rw [hblen, hlen]; omega, ?_⟩
      intro key hkey
      obtain ⟨j, hj, hkj⟩ := hbkeys key hkey
      exact ⟨j, by push_cast; omega, hkj⟩
    · intro hm1
      have hc : Tracker.len b.inserted > clearThreshold := by
        show ((b.inserted.length : Nat) : Int) > clearThreshold
        rw [hblen, hlen]
        unfold clearThreshold
        omega
      show (if Tracker.len b.inserted > clearThreshold then Tracker.make else b.inserted) = _
      rw [if_pos hc]

/-- The batch of `insertBookTags` over `[105000, 105001)` entered after 315,000 draws with
an empty tracker under the draws `thirds`, 105,000 books and one tag: the candidate is the
pair `(1, 1)` again and is emitted. -/
theorem insertBookTags_last_batch (t : State × Tracker) (hpos : t.1.pos = 315000)
    (htr : t.2 = Tracker.make) :
    ∃ (t' : State × Tracker) (h : Int),
      insertBookTagsBatch thirds (fun _ => true) 105000 1 105000 105001 t = some t' ∧
      t'.1.stmts = t.1.stmts ++ [pairStmt bookTagsHead [(1, 1, h)]] := by
  have e1 : ((thirds 315000 : Nat) : Int) % 105000 + 1 = 1 := by decide
  have e2 : ((thirds (315000 + 1) : Nat) : Int) % 1 + 1 = 1 := by decide
  have hrow := pairRow_fresh thirds 105000 1 105000 ⟨[], [], 315000, []⟩ (by decide)
    (by decide) (List.not_mem_nil _)
  simp only [e1, e2, List.nil_append] at hrow
  have hloop : forRange (pairRow thirds 105000 1) 105000 105001 ⟨[], [], t.1.pos, t.2⟩
      = some ⟨["(?, ?, ?)"],
          [Arg.int 1, Arg.int 1, Arg.time (((thirds (315000 + 2) : Nat) : Int) % hourSpan)],
          315000 + 3, [pairKey 1 1]⟩ := by
    rw [hpos, htr]
    show forRange (pairRow thirds 105000 1) 105000 105001 ⟨[], [], 315000, []⟩ = _
    rw [forRange_step _ _ _ _ _ (by decide) hrow]
    exact forRange_done _ _ _ _ (by decide)
  have hf := pairFlush_stmts (fun _ => true) bookTagsHead 105000 105001
    ⟨["(?, ?, ?)"],
      [Arg.int 1, Arg.int 1, Arg.time (((thirds (315000 + 2) : Nat) : Int) % hourSpan)],
      315000 + 3, [pairKey 1 1]⟩ t.1
    [(1, 1, ((thirds (315000 + 2) : Nat) : Int) % hourSpan)] rfl rfl
  rw [if_neg (by simp)] at hf
  exact ⟨_, _, by simp only [insertBookTagsBatch, hloop]; rfl, hf.1⟩

/-- C9: uniqueness in `insertBookTags` holds only per tracking window.  The call
`insertBookTags(0, 105001)` with 105,000 books and one tag, started with no statement
issued and given the draws `thirds` (candidate pairs `(1, 1), (2, 1), ...`, then `(1, 1)`
again), returns having issued 22 statements, and the pair `(1, 1)` is a row of the first
of them, issued by the batch of `[0, 5000)`, and of the last, issued by the batch of
`[105000, 105001)`.  Between the two the tracker was cleared: the batch that starts at
index 100,000, after 20 statements, starts with 100,000 keys in the tracker, and the one
that starts at index 105,000, after 21 statements, with an empty tracker. -/
theorem duplicate_pair_across_clear :
    ∃ (s' : State) (rows1 rows2 : List (Int × Int × Int)) (x y : Int × State × Tracker),
      insertBookTags thirds (fun _ => true) 0 0 105001 105000 1 State.init = some s' ∧
      s'.stmts.length = 22 ∧
      s'.stmts[0]? = some (pairStmt bookTagsHead rows1) ∧
      s'.stmts[21]? = some (pairStmt bookTagsHead rows2) ∧
      ((1 : Int), (1 : Int)) ∈ rowPairs rows1 ∧ ((1 : Int), (1 : Int)) ∈ rowPairs rows2 ∧
      y ∈ batchStarts (insertBookTagsBatch thirds (fun _ => true) 105000 1) 0 105001
        (State.init, Tracker.make) ∧
      y.1 = 100000 ∧ y.2.1.stmts.length = 20 ∧ Tracker.len y.2.2 = 100000 ∧
      x ∈ batchStarts (insertBookTagsBatch thirds (fun _ => true) 105000 1) 0 105001
        (State.init, Tracker.make) ∧
      x.1 = 105000 ∧ x.2.1.stmts.length = 21 ∧ x.2.2 = Tracker.make := by
  obtain ⟨u, ⟨-, hulen, -, husmall, -⟩, -, humem⟩ := insertBookTags_fresh_run 20 (by decide)
  obtain ⟨t, ⟨hpos, hslen, hfirst, -, hclear⟩, hrun, hmem⟩ :=
    insertBookTags_fresh_run 21 (by decide)
  obtain ⟨rows1, hr1, hp1⟩ := hfirst (by decide)
  obtain ⟨t', h, hb, hst⟩ := insertBookTags_last_batch t (by rw [hpos]) (hclear (by decide))
  have hbe : batchEnd (0 + 5000 * ((21 : Nat) : Int)) 105001 = 105001 := by decide
  have hfin : forBatches (insertBookTagsBatch thirds (fun _ => true) 105000 1) 0 105001
      (State.init, Tracker.make) = some t' := by
    rw [hrun, forBatches_step _ _ _ t t' (by decide) (by rw [hbe]; exact hb)]
    exact forBatches_done _ _ _ _ (by decide)
  refine ⟨t'.1, rows1, [(1, 1, h)], _, _, by simp [insertBookTags, hfin], ?_, ?_, ?_, hp1,
    by simp [rowPairs], humem, by norm_num, hulen, ?_, hmem, by norm_num, hslen,
    hclear (by decide)⟩
  · rw [hst, List.length_append, hslen]
    rfl
  · rw [hst, List.getElem?_append_left (by rw [hslen]; decide)]
    exact hr1
  · rw [hst, ← hslen, List.getElem?_append_right (le_refl _)]
    simp
  · show ((u.2.length : Nat) : Int) = 100000
    rw [(husmall (by decide)).1]
    norm_num

end Seed

/-! ## Statistics -/

namespace Go

theorem sortSlice_length (xs : List Int) : (sortSlice xs).length = xs.length :=
  List.length_insertionSort _ xs

theorem sortSlice_sorted (xs : List Int) : (sortSlice xs).Sorted (· ≤ ·) :=
  List.sorted_insertionSort _ xs

theorem sortSlice_perm (xs : List Int) : (sortSlice xs).Perm xs :=
  List.perm_insertionSort _ xs

theorem roundShift_case (n s : Nat) (h1 : 1 ≤ s) (h48 : s ≤ 48)
    (hlo : 2 ^ (52 + s) ≤ n * 8556839292003942) (hhi : n * 8556839292003942 < 2 ^ (53 + s)) :
    roundShift (n * 8556839292003942) s / 2 ^ 53 = n * 95 / 100 := by
  unfold roundShift
  interval_cases s <;> norm_num at hlo hhi ⊢ <;> split <;> omega

/-- Below `2 ^ 48` the binary64 computation of `int(float64(n) * 0.95)` agrees with the
exact value. -/
theorem p95IndexF64_eq (n : Nat) (h : n < 2 ^ 48) : p95IndexF64 n = p95Index n := by
  unfold p95IndexF64 round53 p95Index
  by_cases hx : n * 8556839292003942 < 2 ^ 53
  · have hs : Nat.size (n * 8556839292003942) - 53 = 0 := by
      have := Nat.size_le.mpr hx
      omega
    have h0 : roundShift (n * 8556839292003942) 0 = n * 8556839292003942 := by
      unfold roundShift
      simp [Nat.mod_one]
    rw [hs, h0]
    norm_num at hx ⊢
    omega
  · have hge : 53 < Nat.size (n * 8556839292003942) := Nat.lt_size.mpr (by omega)
    have hlt : n * 8556839292003942 < 2 ^ 101 := by
      norm_num at h ⊢
      omega
    have hle : Nat.size (n * 8556839292003942) ≤ 101 := Nat.size_le.mpr hlt
    have hlo : 2 ^ (52 + (Nat.size (n * 8556839292003942) - 53)) ≤ n * 8556839292003942 :=
      Nat.lt_size.mp (by omega)
    have hhi : n * 8556839292003942 < 2 ^ (53 + (Nat.size (n * 8556839292003942) - 53)) :=
      Nat.size_le.mp (by omega)
    exact roundShift_case n _ (by omega) (by omega) hlo hhi

theorem p95Index_lt (n : Nat) (h : 0 < n) : p95Index n < n := by
  unfold p95Index
  omega

theorem p95Index_eq_floor (n : Nat) : p95Index n = ⌊(n : ℚ) * 95 / 100⌋₊ := by
  unfold p95Index
  have h := Nat.floor_div_eq_div (α := ℚ) (n * 95) 100
  rw [← h]
  push_cast
  rfl

/-- The median and the 95th percentile that the statistics step reads from the sorted
slice of a non-empty slice `d`. -/
theorem percentiles (d : List Int) (hd : d ≠ []) :
    ∃ median p95,
      (sortSlice d)[(sortSlice d).length / 2]? = some median ∧
      (sortSlice d)[if p95Index (sortSlice d).length ≥ (sortSlice d).length
        then (sortSlice d).length - 1 else p95Index (sortSlice d).length]? = some p95 ∧
      (sortSlice d)[d.length / 2]? = some median ∧
      (sortSlice d)[min ⌊(d.length : ℚ) * 95 / 100⌋₊ (d.length - 1)]? = some p95 := by
  have hn : 0 < d.length := List.length_pos.mpr hd
  have hs := sortSlice_length d
  have hlt := p95Index_lt d.length hn
  have h1 : d.length / 2 < (sortSlice d).length := by rw [hs]; omega
  have h2 : p95Index d.length < (sortSlice d).length := by rw [hs]; exact hlt
  refine ⟨(sortSlice d)[d.length / 2], (sortSlice d)[p95Index d.length], ?_, ?_, ?_, ?_⟩
  · rw [hs]; exact List.getElem?_eq_getElem h1
  · rw [hs, if_neg (by omega)]; exact List.getElem?_eq_getElem h2
  · exact List.getElem?_eq_getElem h1
  · rw [← p95Index_eq_floor, min_eq_left (by omega)]
    exact List.getElem?_eq_getElem h2

end Go

namespace Benchmark

open Go

theorem record_TotalTime (r : BenchmarkResult) (rowCount duration : Int) :
    (record r rowCount duration).TotalTime = r.TotalTime + duration := by
  unfold record
  simp only
  split <;> split <;> rfl

theorem timedIter_total (env : Env) (query : String) (l l' : Loop)
    (h : timedIter env query l = some l')
    (ht : l.result.TotalTime = l.durations.sum) :
    l'.result.TotalTime = l'.durations.sum := by
  unfold timedIter at h
  cases hp : iterParams env query l.params l.w with
  | none => rw [hp] at h; exact absurd h (by simp)
  | some pw =>
    obtain ⟨params, w⟩ := pw
    rw [hp] at h
    simp only [doQuery] at h
    cases hq : env.query w.calls.length with
    | none =>
      rw [hq] at h
      rw [← Option.some.inj h]
      exact ht
    | some rd =>
      obtain ⟨rowCount, duration⟩ := rd
      rw [hq] at h
      rw [← Option.some.inj h]
      show (record l.result rowCount duration).TotalTime = (l.durations ++ [duration]).sum
      rw [record_TotalTime, ht, List.sum_append]
      simp

theorem timedLoop_total (env : Env) (query : String) :
    ∀ (n : Nat) (l l' : Loop), timedLoop env query n l = some l' →
      l.result.TotalTime = l.durations.sum → l'.result.TotalTime = l'.durations.sum := by
  intro n
  induction n with
  | zero =>
    intro l l' h ht
    rw [← Option.some.inj h]
    exact ht
  | succ n ih =>
    intro l l' h ht
    unfold timedLoop at h
    cases hi : timedIter env query l with
    | none => rw [hi] at h; exact absurd h (by simp)
    | some l1 =>
      rw [hi] at h
      exact ih l1 l' h (timedIter_total env query l l1 hi ht)

/-- The running total kept by the timed loop is the sum of the recorded durations. -/
theorem timed_total (env : Env) (name query : String) (iterations : Int) (l : Loop)
    (h : timed env name query iterations = some l) :
    l.result.TotalTime = l.durations.sum := by
  unfold timed at h
  split at h
  · exact absurd h (by simp)
  · cases hp : initParams env query World.init with
    | none => rw [hp] at h; exact absurd h (by simp)
    | some pw =>
      obtain ⟨params, w⟩ := pw
      rw [hp] at h
      exact timedLoop_total env query _ _ l h rfl

theorem finish_spec (r : BenchmarkResult) (d : List Int) (hd : d ≠ []) :
    ∃ r', finish r d = some r' ∧
      r'.AvgTime = r.TotalTime.tdiv d.length ∧
      (sortSlice d)[d.length / 2]? = some r'.MedianTime ∧
      (sortSlice d)[min ⌊(d.length : ℚ) * 95 / 100⌋₊ (d.length - 1)]? = some r'.P95Time ∧
      r'.MinTime = r.MinTime ∧ r'.MaxTime = r.MaxTime := by
  obtain ⟨median, p95, h1, h2, h3, h4⟩ := percentiles d hd
  have hn : 0 < d.length := List.length_pos.mpr hd
  refine ⟨{ r with
    AvgTime := r.TotalTime.tdiv d.length
    MedianTime := median
    P95Time := p95 }, ?_, rfl, h3, h4, rfl, rfl⟩
  unfold finish
  rw [if_pos (by omega)]
  simp only [h1, h2]

/-- Whatever `timed` recorded, `runBenchmark` returns its statistics. -/
theorem runBenchmark_stats (env : Env) (name query : String) (iterations : Int) (l : Loop)
    (h : timed env name query iterations = some l) (hd : l.durations ≠ []) :
    ∃ r, runBenchmark env name query iterations = some r ∧
      IsStatsOf l.durations r.AvgTime r.MedianTime r.P95Time := by
  obtain ⟨r, hr, ha, hm, hp, -, -⟩ := finish_spec l.result l.durations hd
  refine ⟨r, by simp only [runBenchmark, h, hr], ?_, hm, hp⟩
  rw [ha, timed_total env name query iterations l h]

theorem timedLoop_envOf (d : List Int) (query : String) (hq : Contains query "?" = false) :
    ∀ (k : Nat) (l : Loop) (j : Nat), j + k = d.length →
      l.w.calls.length = warmupIterations + j → l.durations = d.take j →
      ∃ l', timedLoop (envOf d) query k l = some l' ∧ l'.durations = d := by
  intro k
  induction k with
  | zero =>
    intro l j hj _ hd
    refine ⟨l, rfl, ?_⟩
    rw [hd, show j = d.length by omega, List.take_length]
  | succ k ih =>
    intro l j hj hc hd
    have hjlt : j < d.length := by omega
    have hp : iterParams (envOf d) query l.params l.w = some (l.params, l.w) := by
      unfold iterParams
      rw [hq]
      rfl
    have hquery : (envOf d).query l.w.calls.length = some (1, d[j]) := by
      show (if l.w.calls.length < warmupIterations then some (0, 0)
        else (d[l.w.calls.length - warmupIterations]?).map (fun x => ((1 : Int), x))) = _
      rw [if_neg (by omega), hc, Nat.add_sub_cancel_left, List.getElem?_eq_getElem hjlt]
      rfl
    have hi : timedIter (envOf d) query l =
        some ⟨{ l.w with calls := l.w.calls ++ [(query, l.params)] }, l.params,
          record l.result 1 d[j], l.durations ++ [d[j]]⟩ := by
      unfold timedIter
      rw [hp]
      simp only [doQuery, hquery]
    have hc' : (l.w.calls ++ [(query, l.params)]).length = warmupIterations + (j + 1) := by
      rw [List.length_append, hc]; rfl
    have hd' : l.durations ++ [d[j]] = d.take (j + 1) := by
      rw [hd, List.take_succ, List.getElem?_eq_getElem hjlt]; rfl
    obtain ⟨l', hl', hdl⟩ := ih
      ⟨{ l.w with calls := l.w.calls ++ [(query, l.params)] }, l.params,
        record l.result 1 d[j], l.durations ++ [d[j]]⟩ (j + 1) (by omega) hc' hd'
    exact ⟨l', by rw [timedLoop, hi]; exact hl', hdl⟩

/-- Every sequence of durations is recorded by some run of `runBenchmark`. -/
theorem timed_envOf (d : List Int) (name query : String)
    (hq : Contains query "?" = false) :
    ∃ l, timed (envOf d) name query d.length = some l ∧ l.durations = d := by
  have hp : initParams (envOf d) query World.init = some ([], World.init) := by
    unfold initParams
    rw [hq]
    rfl
  obtain ⟨l, hl, hd⟩ := timedLoop_envOf d query hq d.length
    ⟨warmup (envOf d) query [] warmupIterations World.init, [],
      { Name := name, Query := query, Iterations := d.length, TotalTime := 0,
        MinTime := hour, MaxTime := 0, AvgTime := 0, MedianTime := 0, P95Time := 0,
        RowsScanned := 0 }, []⟩ 0 (by omega) rfl rfl
  refine ⟨l, ?_, hd⟩
  unfold timed
  rw [if_neg (by omega), hp]
  simpa using hl

end Benchmark

namespace Compare

open Go

theorem benchmark_timedIter_durations (env : Env) (query : String) (l : Loop) :
    (timedIter env query l).calls = l.calls ++ [query] ∧
    (timedIter env query l).result.Durations =
      l.result.Durations ++ (match env l.calls.length with
        | none => []
        | some (_, duration) => [duration]) := by
  unfold timedIter
  cases h : env l.calls.length with
  | none => simp
  | some rd =>
    obtain ⟨count, duration⟩ := rd
    dsimp only
    split <;> split <;> exact ⟨rfl, rfl⟩

theorem foldl_total (ds : List Int) :
    ds.foldl (fun total d => total + d) 0 = ds.sum := by
  rw [List.sum_eq_foldl]

theorem benchmark_finish_spec (r : BenchResult) (hd : r.Durations ≠ []) :
    ∃ r', finish r = some r' ∧
      IsStatsOf r.Durations r'.Avg r'.Median r'.P95 ∧
      r'.Durations = r.Durations ∧ r'.Min = r.Min ∧ r'.Max = r.Max := by
  obtain ⟨median, p95, h1, h2, h3, h4⟩ := percentiles r.Durations hd
  have hn : 0 < r.Durations.length := List.length_pos.mpr hd
  refine ⟨{ r with
    Avg := r.Durations.sum.tdiv r.Durations.length
    Median := median
    P95 := p95 }, ?_, ⟨rfl, h3, h4⟩, rfl, rfl, rfl⟩
  unfold finish
  rw [if_pos (by omega)]
  simp only [h1, h2, foldl_total]

/-- Whatever `timed` recorded, `benchmark` returns its statistics. -/
theorem benchmark_stats (env : Env) (name query : String) (iterations : Int) (l : Loop)
    (h : timed env name query iterations = some l) (hd : l.result.Durations ≠ []) :
    ∃ r, benchmark env name query iterations = some r ∧
      IsStatsOf l.result.Durations r.Avg r.Median r.P95 := by
  obtain ⟨r, hr, hs, -, -, -⟩ := benchmark_finish_spec l.result hd
  exact ⟨r, by simp only [benchmark, h, hr], hs⟩

theorem benchmark_timedLoop_envOf (d : List Int) (query : String) :
    ∀ (k : Nat) (l : Loop) (j : Nat), j + k = d.length →
      l.calls.length = warmupIterations + j → l.result.Durations = d.take j →
      (timedLoop (envOf d) query k l).result.Durations = d := by
  intro k
  induction k with
  | zero =>
    intro l j hj _ hd
    show l.result.Durations = d
    rw [hd, show j = d.length by omega, List.take_length]
  | succ k ih =>
    intro l j hj hc hd
    have hjlt : j < d.length := by omega
    have hquery : envOf d l.calls.length = some (1, d[j]) := by
      show (if l.calls.length < warmupIterations then some (0, 0)
        else (d[l.calls.length - warmupIterations]?).map (fun x => ((1 : Int), x))) = _
      rw [if_neg (by omega), hc, Nat.add_sub_cancel_left, List.getElem?_eq_getElem hjlt]
      rfl
    have hi := benchmark_timedIter_durations (envOf d) query l
    rw [hquery] at hi
    show (timedLoop (envOf d) query k (timedIter (envOf d) query l)).result.Durations = d
    exact ih _ (j + 1) (by omega)
      (by rw [hi.1, List.length_append, hc]; rfl)
      (by rw [hi.2, hd, List.take_succ, List.getElem?_eq_getElem hjlt]; rfl)

/-- Every sequence of durations is recorded by some run of `benchmark`. -/
theorem benchmark_timed_envOf (d : List Int) (name query : String) :
    ∃ l, timed (envOf d) name query d.length = some l ∧ l.result.Durations = d := by
  refine ⟨_, by unfold timed; rw [if_neg (by omega)], ?_⟩
  rw [Int.toNat_ofNat]
  exact benchmark_timedLoop_envOf d query d.length _ 0 (by omega) rfl rfl

end Compare

/-- C10: in both `runBenchmark` (benchmark tool) and `benchmark` (compare tool), whenever
the timed loop has recorded a non-empty sequence `d` of `n` durations the function returns
with mean `(sum of d) / n` (truncating division), median `s[⌊n / 2⌋]` and p95
`s[min ⌊n * 0.95⌋ (n - 1)]`, where `s` is `d` sorted ascending (a sorted permutation of
`d`); every non-empty sequence is recorded by some run; and on the samples 10ms, 20ms,
30ms, 40ms, 50ms this gives mean 30ms, median 30ms (index 2) and p95 50ms (index
`⌊5 * 0.95⌋ = 4`).  The index `⌊n * 0.95⌋` is also what the binary64 evaluation of
`int(float64(n) * 0.95)` yields, for every `n < 2 ^ 48`. -/
theorem statistics_of_recorded_durations :
    (∀ d : List Int, (Go.sortSlice d).Sorted (· ≤ ·) ∧ (Go.sortSlice d).Perm d) ∧
    (∀ (env : Benchmark.Env) (name query : String) (iterations : Int) (l : Benchmark.Loop),
      Benchmark.timed env name query iterations = some l → l.durations ≠ [] →
      ∃ r, Benchmark.runBenchmark env name query iterations = some r ∧
        Go.IsStatsOf l.durations r.AvgTime r.MedianTime r.P95Time) ∧
    (∀ (env : Compare.Env) (name query : String) (iterations : Int) (l : Compare.Loop),
      Compare.timed env name query iterations = some l → l.result.Durations ≠ [] →
      ∃ r, Compare.benchmark env name query iterations = some r ∧
        Go.IsStatsOf l.result.Durations r.Avg r.Median r.P95) ∧
    (∀ d : List Int, d ≠ [] →
      (∃ r, Benchmark.runBenchmark (Benchmark.envOf d) "bench" "SELECT 1" d.length = some r ∧
        Go.IsStatsOf d r.AvgTime r.MedianTime r.P95Time) ∧
      (∃ r, Compare.benchmark (Compare.envOf d) "bench" "SELECT 1" d.length = some r ∧
        Go.IsStatsOf d r.Avg r.Median r.P95)) ∧
    (Benchmark.runBenchmark (Benchmark.envOf Go.samples) "bench" "SELECT 1" 5).map
        (fun r => (r.AvgTime, r.MedianTime, r.P95Time)) =
      some (30 * Go.millisecond, 30 * Go.millisecond, 50 * Go.millisecond) ∧
    (Compare.benchmark (Compare.envOf Go.samples) "bench" "SELECT 1" 5).map
        (fun r => (r.Avg, r.Median, r.P95)) =
      some (30 * Go.millisecond, 30 * Go.millisecond, 50 * Go.millisecond) ∧
    (Go.sortSlice Go.samples)[2]? = some (30 * Go.millisecond) ∧
    (Go.sortSlice Go.samples)[4]? = some (50 * Go.millisecond) ∧
    ⌊((5 : ℕ) : ℚ) * 95 / 100⌋₊ = 4 ∧
    (∀ n : ℕ, n < 2 ^ 48 → Go.p95IndexF64 n = ⌊(n : ℚ) * 95 / 100⌋₊) := by
  refine ⟨fun d => ⟨Go.sortSlice_sorted d, Go.sortSlice_perm d⟩,
    fun env name query iterations l h hd =>
      Benchmark.runBenchmark_stats env name query iterations l h hd,
    fun env name query iterations l h hd =>
      Compare.benchmark_stats env name query iterations l h hd,
    ?_, by decide, by decide, by decide, by decide, ?_,
    fun n hn => (Go.p95IndexF64_eq n hn).trans (Go.p95Index_eq_floor n)⟩
  · intro d hd
    constructor
    · obtain ⟨l, hl, hdl⟩ := Benchmark.timed_envOf d "bench" "SELECT 1" (by decide)
      obtain ⟨r, hr, hs⟩ := Benchmark.runBenchmark_stats _ _ _ _ l hl (by rw [hdl]; exact hd)
      exact ⟨r, hr, by rw [hdl] at hs; exact hs⟩
    · obtain ⟨l, hl, hdl⟩ := Compare.benchmark_timed_envOf d "bench" "SELECT 1"
      obtain ⟨r, hr, hs⟩ := Compare.benchmark_stats _ _ _ _ l hl (by rw [hdl]; exact hd)
      exact ⟨r, hr, by rw [hdl] at hs; exact hs⟩
  · rw [← Go.p95Index_eq_floor]
    decide

namespace Go

theorem minFrom_append (init : Int) (ds : List Int) (d : Int) :
    minFrom init (ds ++ [d]) = if d < minFrom init ds then d else minFrom init ds := by
  unfold minFrom
  rw [List.foldl_append]
  rfl

theorem maxFrom_append (init : Int) (ds : List Int) (d : Int) :
    maxFrom init (ds ++ [d]) = if d > maxFrom init ds then d else maxFrom init ds := by
  unfold maxFrom
  rw [List.foldl_append]
  rfl

/-- The running minimum is a lower bound of the start value and of every element, and is
the start value or an element. -/
theorem minFrom_spec (init : Int) (ds : List Int) :
    minFrom init ds ≤ init ∧ (∀ d ∈ ds, minFrom init ds ≤ d) ∧
    (minFrom init ds = init ∨ minFrom init ds ∈ ds) := by
  induction ds using List.reverseRecOn with
  | nil => exact ⟨le_refl _, fun d hd => absurd hd (List.not_mem_nil _), Or.inl rfl⟩
  | append_singleton ds d ih =>
    obtain ⟨h1, h2, h3⟩ := ih
    rw [minFrom_append]
    split
    · rename_i hlt
      refine ⟨by omega, ?_, Or.inr (by simp)⟩
      intro x hx
      rcases List.mem_append.mp hx with hx | hx
      · have := h2 x hx; omega
      · rw [List.mem_singleton] at hx; omega
    · rename_i hge
      refine ⟨h1, ?_, ?_⟩
      · intro x hx
        rcases List.mem_append.mp hx with hx | hx
        · exact h2 x hx
        · rw [List.mem_singleton] at hx; omega
      · rcases h3 with h3 | h3
        · exact Or.inl h3
        · exact Or.inr (List.mem_append.mpr (Or.inl h3))

/-- The running maximum is an upper bound of the start value and of every element, and is
the start value or an element. -/
theorem maxFrom_spec (init : Int) (ds : List Int) :
    init ≤ maxFrom init ds ∧ (∀ d ∈ ds, d ≤ maxFrom init ds) ∧
    (maxFrom init ds = init ∨ maxFrom init ds ∈ ds) := by
  induction ds using List.reverseRecOn with
  | nil => exact ⟨le_refl _, fun d hd => absurd hd (List.not_mem_nil _), Or.inl rfl⟩
  | append_singleton ds d ih =>
    obtain ⟨h1, h2, h3⟩ := ih
    rw [maxFrom_append]
    split
    · rename_i hlt
      refine ⟨by omega, ?_, Or.inr (by simp)⟩
      intro x hx
      rcases List.mem_append.mp hx with hx | hx
      · have := h2 x hx; omega
      · rw [List.mem_singleton] at hx; omega
    · rename_i hge
      refine ⟨h1, ?_, ?_⟩
      · intro x hx
        rcases List.mem_append.mp hx with hx | hx
        · exact h2 x hx
        · rw [List.mem_singleton] at hx; omega
      · rcases h3 with h3 | h3
        · exact Or.inl h3
        · exact Or.inr (List.mem_append.mpr (Or.inl h3))

end Go

namespace Benchmark

open Go

theorem drawRange_frame (env : Env) (maxID : Int) (w w' : World) (p : List Int)
    (h : drawRange env maxID w = some (p, w')) :
    w'.calls = w.calls ∧ w'.errors = w.errors ∧ w'.scans = w.scans ∧ w'.pos = w.pos + 1 ∧
    100 < maxID ∧ p = [(env.rnd w.pos : Int) % (maxID - 100) + 1,
      (env.rnd w.pos : Int) % (maxID - 100) + 1 + 100] := by
  unfold drawRange Int63n at h
  by_cases hm : maxID - 100 ≤ 0
  · rw [if_pos hm] at h; exact absurd h (by simp)
  · rw [if_neg hm] at h
    simp only [Option.some.injEq, Prod.mk.injEq] at h
    obtain ⟨hp, hw⟩ := h
    subst hw
    exact ⟨rfl, rfl, rfl, rfl, by omega, hp.symm⟩

theorem drawOne_frame (env : Env) (maxID : Int) (w w' : World) (p : List Int)
    (h : drawOne env maxID w = some (p, w')) :
    w'.calls = w.calls ∧ w'.errors = w.errors ∧ w'.scans = w.scans ∧ w'.pos = w.pos + 1 ∧
    0 < maxID ∧ p = [(env.rnd w.pos : Int) % maxID + 1] := by
  unfold drawOne Int63n at h
  by_cases hm : maxID ≤ 0
  · rw [if_pos hm] at h; exact absurd h (by simp)
  · rw [if_neg hm] at h
    simp only [Option.some.injEq, Prod.mk.injEq] at h
    obtain ⟨hp, hw⟩ := h
    subst hw
    exact ⟨rfl, rfl, rfl, rfl, by omega, hp.symm⟩

theorem drawRange_some (env : Env) (maxID : Int) (w : World) (h : 100 < maxID) :
    drawRange env maxID w =
      some ([(env.rnd w.pos : Int) % (maxID - 100) + 1,
        (env.rnd w.pos : Int) % (maxID - 100) + 1 + 100], { w with pos := w.pos + 1 }) := by
  unfold drawRange Int63n
  rw [if_neg (by omega)]

theorem drawOne_some (env : Env) (maxID : Int) (w : World) (h : 0 < maxID) :
    drawOne env maxID w =
      some ([(env.rnd w.pos : Int) % maxID + 1], { w with pos := w.pos + 1 }) := by
  unfold drawOne Int63n
  rw [if_neg (by omega)]

end Benchmark

namespace Benchmark

open Go

theorem iterParams_frame (env : Env) (query : String) (p p' : List Int) (w w' : World)
    (h : iterParams env query p w = some (p', w')) :
    w'.calls = w.calls ∧ w'.errors = w.errors := by
  unfold iterParams at h
  simp only [scanMax] at h
  split at h
  · split at h
    · split at h
      · have := drawRange_frame _ _ _ _ _ h
        exact ⟨this.1, this.2.1⟩
      · have := drawOne_frame _ _ _ _ _ h
        exact ⟨this.1, this.2.1⟩
    · split at h
      · have := drawOne_frame _ _ _ _ _ h
        exact ⟨this.1, this.2.1⟩
      · split at h
        · have := drawOne_frame _ _ _ _ _ h
          exact ⟨this.1, this.2.1⟩
        · simp only [Option.some.injEq, Prod.mk.injEq] at h
          rw [← h.2]
          exact ⟨rfl, rfl⟩
  · simp only [Option.some.injEq, Prod.mk.injEq] at h
    rw [← h.2]
    exact ⟨rfl, rfl⟩

theorem initParams_frame (env : Env) (query : String) (p' : List Int) (w w' : World)
    (h : initParams env query w = some (p', w')) :
    w'.calls = w.calls ∧ w'.errors = w.errors := by
  unfold initParams at h
  simp only [scanMax] at h
  split at h
  · split at h
    · split at h
      · have := drawRange_frame _ _ _ _ _ h
        exact ⟨this.1, this.2.1⟩
      · have := drawOne_frame _ _ _ _ _ h
        exact ⟨this.1, this.2.1⟩
    · split at h
      · have := drawOne_frame _ _ _ _ _ h
        exact ⟨this.1, this.2.1⟩
      · split at h
        · have := drawOne_frame _ _ _ _ _ h
          exact ⟨this.1, this.2.1⟩
        · simp only [Option.some.injEq, Prod.mk.injEq] at h
          rw [← h.2]
          exact ⟨rfl, rfl⟩
  · simp only [Option.some.injEq, Prod.mk.injEq] at h
    rw [← h.2]
    exact ⟨rfl, rfl⟩

theorem iterParams_some (env : Env) (query : String) (p : List Int) (w : World)
    (hd : DrawsDefined env) : ∃ pw, iterParams env query p w = some pw := by
  unfold iterParams
  simp only [scanMax]
  split
  · split
    · split
      · exact ⟨_, drawRange_some env _ _ (hd _)⟩
      · exact ⟨_, drawOne_some env _ _ (by have := hd w.scans.length; omega)⟩
    · split
      · exact ⟨_, drawOne_some env _ _ (by have := hd w.scans.length; omega)⟩
      · split
        · exact ⟨_, drawOne_some env _ _ (by have := hd w.scans.length; omega)⟩
        · exact ⟨_, rfl⟩
  · exact ⟨_, rfl⟩

theorem initParams_some (env : Env) (query : String) (w : World)
    (hd : DrawsDefined env) : ∃ pw, initParams env query w = some pw := by
  unfold initParams
  simp only [scanMax]
  split
  · split
    · split
      · exact ⟨_, drawRange_some env _ _ (hd _)⟩
      · exact ⟨_, drawOne_some env _ _ (by have := hd w.scans.length; omega)⟩
    · split
      · exact ⟨_, drawOne_some env _ _
          (by have := hd (w.scans ++ ["SELECT COALESCE(MAX(id), 1) FROM books"]).length; omega)⟩
      · split
        · exact ⟨_, drawOne_some env _ _ (by
            have := hd ((w.scans ++ ["SELECT COALESCE(MAX(id), 1) FROM books"]) ++
              ["SELECT COALESCE(MAX(id), 1) FROM authors"]).length; omega)⟩
        · exact ⟨_, rfl⟩
  · exact ⟨_, rfl⟩

theorem warmup_spec (env : Env) (query : String) (params : List Int) :
    ∀ (n : Nat) (w : World),
      (warmup env query params n w).calls = w.calls ++ List.replicate n (query, params) ∧
      (warmup env query params n w).errors = w.errors ∧
      (warmup env query params n w).scans = w.scans ∧
      (warmup env query params n w).pos = w.pos := by
  intro n
  induction n with
  | zero => intro w; exact ⟨by simp [warmup], rfl, rfl, rfl⟩
  | succ n ih =>
    intro w
    obtain ⟨h1, h2, h3, h4⟩ := ih (doQuery env query params w).2
    unfold warmup
    refine ⟨?_, h2, h3, h4⟩
    rw [h1]
    show (w.calls ++ [(query, params)]) ++ _ = _
    rw [List.append_assoc, List.replicate_succ]
    rfl

end Benchmark

namespace Benchmark

open Go

theorem record_fields (r : BenchmarkResult) (rowCount duration : Int) :
    (record r rowCount duration).MinTime = (if duration < r.MinTime then duration else r.MinTime) ∧
    (record r rowCount duration).MaxTime = (if duration > r.MaxTime then duration else r.MaxTime) ∧
    (record r rowCount duration).AvgTime = r.AvgTime ∧
    (record r rowCount duration).MedianTime = r.MedianTime ∧
    (record r rowCount duration).P95Time = r.P95Time := by
  unfold record
  simp only
  split <;> split <;> simp_all

theorem recorded_succ (env : Env) (i : Nat) :
    recorded env (i + 1) = recorded env i ++
      (match env.query (warmupIterations + i) with
        | none => []
        | some rd => [rd.2]) := by
  unfold recorded
  rw [List.range_succ, List.filterMap_append]
  congr 1
  cases h : env.query (warmupIterations + i) <;> simp [List.filterMap, h]

theorem timedIter_inv (env : Env) (query : String) (i : Nat) (l l' : Loop)
    (h : timedIter env query l = some l') (hi : LoopInv env query i l) :
    LoopInv env query (i + 1) l' := by
  obtain ⟨hc, hq, hd, he, ⟨ha, hm, hp⟩, hmin, hmax, htot⟩ := hi
  unfold timedIter at h
  cases hpar : iterParams env query l.params l.w with
  | none => rw [hpar] at h; exact absurd h (by simp)
  | some pw =>
    obtain ⟨params, w⟩ := pw
    obtain ⟨hwc, hwe⟩ := iterParams_frame env query _ _ _ _ hpar
    rw [hpar] at h
    simp only [doQuery] at h
    have hidx : w.calls.length = warmupIterations + i := by rw [hwc, hc]
    have hrec := recorded_succ env i
    cases hquery : env.query w.calls.length with
    | none =>
      rw [hquery] at h
      rw [hidx] at hquery
      rw [hquery] at hrec
      rw [← Option.some.inj h]
      refine ⟨?_, ?_, ?_, ?_, ⟨ha, hm, hp⟩, hmin, hmax, htot⟩
      · show (w.calls ++ [(query, params)]).length = _
        rw [List.length_append, hidx]; rfl
      · intro c hcm
        have hcm' : c ∈ w.calls ++ [(query, params)] := hcm
        rcases List.mem_append.mp hcm' with hcm' | hcm'
        · exact hq c (hwc ▸ hcm')
        · rw [List.mem_singleton] at hcm'; rw [hcm']
      · show l.durations = _
        rw [hrec, hd]; simp
      · show w.errors + 1 + l.durations.length = i + 1
        rw [hwe]; omega
    | some rd =>
      obtain ⟨rowCount, duration⟩ := rd
      rw [hquery] at h
      rw [hidx] at hquery
      rw [hquery] at hrec
      rw [← Option.some.inj h]
      obtain ⟨r1, r2, r3, r4, r5⟩ := record_fields l.result rowCount duration
      refine ⟨?_, ?_, ?_, ?_, ⟨?_, ?_, ?_⟩, ?_, ?_, ?_⟩
      · show (w.calls ++ [(query, params)]).length = _
        rw [List.length_append, hidx]; rfl
      · intro c hcm
        have hcm' : c ∈ w.calls ++ [(query, params)] := hcm
        rcases List.mem_append.mp hcm' with hcm' | hcm'
        · exact hq c (hwc ▸ hcm')
        · rw [List.mem_singleton] at hcm'; rw [hcm']
      · show l.durations ++ [duration] = _
        rw [hrec, hd]
      · show w.errors + (l.durations ++ [duration]).length = i + 1
        rw [hwe, List.length_append]; simp; omega
      · show (record l.result rowCount duration).AvgTime = 0
        rw [r3, ha]
      · show (record l.result rowCount duration).MedianTime = 0
        rw [r4, hm]
      · show (record l.result rowCount duration).P95Time = 0
        rw [r5, hp]
      · show (record l.result rowCount duration).MinTime = minFrom hour (l.durations ++ [duration])
        rw [r1, minFrom_append, hmin]
      · show (record l.result rowCount duration).MaxTime = maxFrom 0 (l.durations ++ [duration])
        rw [r2, maxFrom_append, hmax]
      · show (record l.result rowCount duration).TotalTime = (l.durations ++ [duration]).sum
        rw [record_TotalTime, htot, List.sum_append]
        simp

theorem timedLoop_inv (env : Env) (query : String) :
    ∀ (n i : Nat) (l l' : Loop), timedLoop env query n l = some l' →
      LoopInv env query i l → LoopInv env query (i + n) l' := by
  intro n
  induction n with
  | zero =>
    intro i l l' h hi
    rw [← Option.some.inj h]
    exact hi
  | succ n ih =>
    intro i l l' h hi
    unfold timedLoop at h
    cases hit : timedIter env query l with
    | none => rw [hit] at h; exact absurd h (by simp)
    | some l1 =>
      rw [hit] at h
      have := ih (i + 1) l1 l' h (timedIter_inv env query i l l1 hit hi)
      rw [show i + (n + 1) = i + 1 + n by omega]
      exact this

theorem timedLoop_some (env : Env) (query : String) (hd : DrawsDefined env) :
    ∀ (n : Nat) (l : Loop), ∃ l', timedLoop env query n l = some l' := by
  intro n
  induction n with
  | zero => intro l; exact ⟨l, rfl⟩
  | succ n ih =>
    intro l
    obtain ⟨⟨params, w⟩, hp⟩ := iterParams_some env query l.params l.w hd
    have : ∃ l1, timedIter env query l = some l1 := by
      unfold timedIter
      rw [hp]
      simp only [doQuery]
      cases env.query w.calls.length with
      | none => exact ⟨_, rfl⟩
      | some rd => exact ⟨_, rfl⟩
    obtain ⟨l1, hl1⟩ := this
    obtain ⟨l', hl'⟩ := ih l1
    exact ⟨l', by rw [timedLoop, hl1]; exact hl'⟩

/-- What `runBenchmark` has done when the statistics step is reached. -/
theorem timed_inv (env : Env) (name query : String) (iterations : Int) (l : Loop)
    (h : timed env name query iterations = some l) :
    0 ≤ iterations ∧ LoopInv env query iterations.toNat l := by
  unfold timed at h
  split at h
  · exact absurd h (by simp)
  · rename_i hn
    refine ⟨by omega, ?_⟩
    cases hp : initParams env query World.init with
    | none => rw [hp] at h; exact absurd h (by simp)
    | some pw =>
      obtain ⟨params, w⟩ := pw
      rw [hp] at h
      obtain ⟨hwc, hwe⟩ := initParams_frame env query _ _ _ hp
      obtain ⟨w1, w2, -, -⟩ := warmup_spec env query params warmupIterations w
      have := timedLoop_inv env query iterations.toNat 0 _ l h
        ⟨by show (warmup env query params warmupIterations w).calls.length = _
            rw [w1, hwc]; rfl,
         by intro c hc
            have hc' : c ∈ (warmup env query params warmupIterations w).calls := hc
            rw [w1, hwc] at hc'
            rcases List.mem_append.mp hc' with hc' | hc'
            · exact absurd hc' (List.not_mem_nil _)
            · rw [(List.mem_replicate.mp hc').2],
         rfl,
         by show (warmup env query params warmupIterations w).errors + 0 = 0
            rw [w2, hwe]; rfl,
         ⟨rfl, rfl, rfl⟩, rfl, rfl, rfl⟩
      simpa using this

/-- With table maxima above 100, `runBenchmark` reaches the statistics step for every
non-negative iteration count. -/
theorem timed_some (env : Env) (name query : String) (iterations : Int)
    (hd : DrawsDefined env) (hn : 0 ≤ iterations) :
    ∃ l, timed env name query iterations = some l := by
  unfold timed
  rw [if_neg (by omega)]
  obtain ⟨⟨params, w⟩, hp⟩ := initParams_some env query World.init hd
  rw [hp]
  exact timedLoop_some env query hd _ _

end Benchmark

namespace Compare

open Go

theorem compare_recorded_succ (env : Env) (i : Nat) :
    recorded env (i + 1) = recorded env i ++
      (match env (warmupIterations + i) with
        | none => []
        | some rd => [rd.2]) := by
  unfold recorded
  rw [List.range_succ, List.filterMap_append]
  congr 1
  cases h : env (warmupIterations + i) <;> simp [List.filterMap, h]

theorem compare_timedIter_ok (env : Env) (query : String) (l : Loop) (count duration : Int)
    (hq : env l.calls.length = some (count, duration)) :
    (timedIter env query l).calls = l.calls ++ [query] ∧
    (timedIter env query l).errors = l.errors ∧
    (timedIter env query l).result.Durations = l.result.Durations ++ [duration] ∧
    (timedIter env query l).result.Min =
      (if duration < l.result.Min then duration else l.result.Min) ∧
    (timedIter env query l).result.Max =
      (if duration > l.result.Max then duration else l.result.Max) ∧
    (timedIter env query l).result.Avg = l.result.Avg ∧
    (timedIter env query l).result.Median = l.result.Median ∧
    (timedIter env query l).result.P95 = l.result.P95 := by
  unfold timedIter
  rw [hq]
  dsimp only
  split <;> split <;> simp_all

theorem compare_timedIter_err (env : Env) (query : String) (l : Loop)
    (hq : env l.calls.length = none) :
    timedIter env query l =
      { l with calls := l.calls ++ [query], errors := l.errors + 1 } := by
  unfold timedIter
  rw [hq]

theorem compare_timedIter_inv (env : Env) (query : String) (i : Nat) (l : Loop)
    (hi : LoopInv env query i l) : LoopInv env query (i + 1) (timedIter env query l) := by
  obtain ⟨hc, hd, he, ⟨ha, hm, hp⟩, hmin, hmax⟩ := hi
  have hlen : l.calls.length = warmupIterations + i := by rw [hc, List.length_replicate]
  have hrec := compare_recorded_succ env i
  have hcalls : l.calls ++ [query] = List.replicate (warmupIterations + (i + 1)) query := by
    rw [hc, ← Nat.add_assoc, List.replicate_succ']
  cases hq : env l.calls.length with
  | none =>
    rw [compare_timedIter_err env query l hq]
    rw [hlen] at hq
    rw [hq] at hrec
    refine ⟨hcalls, ?_, ?_, ⟨ha, hm, hp⟩, hmin, hmax⟩
    · show l.result.Durations = _
      rw [hrec, hd]; simp
    · show l.errors + 1 + l.result.Durations.length = i + 1
      omega
  | some rd =>
    obtain ⟨count, duration⟩ := rd
    obtain ⟨f1, f2, f3, f4, f5, f6, f7, f8⟩ := compare_timedIter_ok env query l count duration hq
    rw [hlen] at hq
    rw [hq] at hrec
    refine ⟨by rw [f1]; exact hcalls, by rw [f3, hrec, hd], ?_,
      ⟨by rw [f6, ha], by rw [f7, hm], by rw [f8, hp]⟩, ?_, ?_⟩
    · rw [f2, f3, List.length_append]; simp; omega
    · rw [f4, f3, minFrom_append, hmin]
    · rw [f5, f3, maxFrom_append, hmax]

theorem compare_timedLoop_inv (env : Env) (query : String) :
    ∀ (n i : Nat) (l : Loop), LoopInv env query i l →
      LoopInv env query (i + n) (timedLoop env query n l) := by
  intro n
  induction n with
  | zero => intro i l hi; exact hi
  | succ n ih =>
    intro i l hi
    have := ih (i + 1) _ (compare_timedIter_inv env query i l hi)
    rw [show i + (n + 1) = i + 1 + n by omega]
    exact this

theorem compare_warmup_calls (query : String) :
    ∀ (n : Nat) (l : Loop),
      (warmup query n l).calls = l.calls ++ List.replicate n query ∧
      (warmup query n l).errors = l.errors ∧ (warmup query n l).result = l.result := by
  intro n
  induction n with
  | zero => intro l; exact ⟨by simp [warmup], rfl, rfl⟩
  | succ n ih =>
    intro l
    obtain ⟨h1, h2, h3⟩ := ih { l with calls := l.calls ++ [query] }
    unfold warmup
    refine ⟨?_, h2, h3⟩
    rw [h1]
    show (l.calls ++ [query]) ++ _ = _
    rw [List.append_assoc, List.replicate_succ]
    rfl

/-- What `benchmark` has done when the statistics step is reached: it gets there for
every non-negative iteration count. -/
theorem compare_timed_inv (env : Env) (name query : String) (iterations : Int)
    (hn : 0 ≤ iterations) :
    ∃ l, timed env name query iterations = some l ∧
      LoopInv env query iterations.toNat l := by
  unfold timed
  rw [if_neg (by omega)]
  refine ⟨_, rfl, ?_⟩
  obtain ⟨h1, h2, h3⟩ := compare_warmup_calls query warmupIterations
    ⟨[], 0, ⟨name, [], 0, hour, 0, 0, 0, 0⟩⟩
  have h0 : LoopInv env query 0
      (warmup query warmupIterations ⟨[], 0, ⟨name, [], 0, hour, 0, 0, 0, 0⟩⟩) :=
    ⟨by rw [h1]; rfl, by rw [h3]; rfl, by rw [h2, h3]; rfl, by rw [h3]; exact ⟨rfl, rfl, rfl⟩,
      by rw [h3]; rfl, by rw [h3]; rfl⟩
  have := compare_timedLoop_inv env query iterations.toNat 0 _ h0
  simpa using this

end Compare

namespace Benchmark

open Go

theorem drawn_length (range : Bool) (x : Nat) (m : Int) :
    (drawn range x m).length = if range then 2 else 1 := by
  unfold drawn
  cases range <;> rfl

theorem classify_cases (query : String) (t : IdSpace) (h : classify query = some t) :
    (t = IdSpace.books ∧ isBookQuery query = true) ∨
    (t = IdSpace.authors ∧ isBookQuery query = false ∧ isAuthorQuery query = true) ∨
    (t = IdSpace.tags ∧ isBookQuery query = false ∧ isAuthorQuery query = false ∧
      isTagQuery query = true) := by
  unfold classify at h
  by_cases hb : isBookQuery query = true
  · rw [if_pos hb] at h
    exact Or.inl ⟨(Option.some.inj h).symm, hb⟩
  · rw [if_neg hb] at h
    have hb' : isBookQuery query = false := by simpa using hb
    by_cases ha : isAuthorQuery query = true
    · rw [if_pos ha] at h
      exact Or.inr (Or.inl ⟨(Option.some.inj h).symm, hb', ha⟩)
    · rw [if_neg ha] at h
      have ha' : isAuthorQuery query = false := by simpa using ha
      by_cases ht : isTagQuery query = true
      · rw [if_pos ht] at h
        exact Or.inr (Or.inr ⟨(Option.some.inj h).symm, hb', ha', ht⟩)
      · rw [if_neg ht] at h
        exact absurd h (by simp)

theorem isRange_of_not_book (query : String) (h : isBookQuery query = false) :
    isRange query = false := by
  unfold isRange
  rw [h]
  rfl

/-- The parameters determined before the warmup for a classified parameterised query. -/
theorem initParams_classified (env : Env) (query : String) (t : IdSpace) (w : World)
    (hq : Contains query "?" = true) (ht : classify query = some t) (hm : MaxOk env query) :
    initParams env query w =
      some (drawn (isRange query) (env.rnd w.pos) (env.scan (w.scans.length + t.index)),
        { w with
          pos := w.pos + 1
          scans := w.scans ++ [IdSpace.books.sql, IdSpace.authors.sql, IdSpace.tags.sql] }) := by
  unfold initParams
  simp only [scanMax, hq, if_true]
  rcases classify_cases query t ht with ⟨rfl, hb⟩ | ⟨rfl, hb, ha⟩ | ⟨rfl, hb, ha, htag⟩
  · rw [if_pos hb]
    by_cases hc : Count query '?' = 2
    · have hr : isRange query = true := by unfold isRange; rw [hb]; simpa using hc
      have := hm w.scans.length
      rw [hr] at this
      rw [if_pos hc, drawRange_some env _ _ (by simpa using this), hr]
      simp [drawn, IdSpace.sql, IdSpace.index]
    · have hr : isRange query = false := by unfold isRange; rw [hb]; simpa using hc
      have := hm w.scans.length
      rw [hr] at this
      rw [if_neg hc, drawOne_some env _ _ (by simpa using this), hr]
      simp [drawn, IdSpace.sql, IdSpace.index]
  · have hr := isRange_of_not_book query hb
    have := hm (w.scans.length + 1)
    rw [hr] at this
    rw [if_neg (by simp [hb]), if_pos ha, hr]
    simp only [List.length_append, List.length_singleton]
    rw [drawOne_some env _ _ (by simpa using this)]
    simp [drawn, IdSpace.sql, IdSpace.index]
  · have hr := isRange_of_not_book query hb
    have := hm (w.scans.length + 2)
    rw [hr] at this
    rw [if_neg (by simp [hb]), if_neg (by simp [ha]), if_pos htag, hr]
    simp only [List.length_append, List.length_singleton]
    rw [drawOne_some env _ _ (by simpa using this)]
    simp [drawn, IdSpace.sql, IdSpace.index]

/-- The parameters redrawn by a timed iteration for a classified parameterised query. -/
theorem iterParams_classified (env : Env) (query : String) (t : IdSpace) (p : List Int)
    (w : World) (hq : Contains query "?" = true) (ht : classify query = some t)
    (hm : MaxOk env query) (hp : p.length = if isRange query then 2 else 1) :
    iterParams env query p w =
      some (drawn (isRange query) (env.rnd w.pos) (env.scan w.scans.length),
        { w with pos := w.pos + 1, scans := w.scans ++ [t.sql] }) := by
  have hpos : decide (p.length > 0) = true := by
    rw [hp]; split <;> decide
  unfold iterParams
  simp only [scanMax, hq, hpos, Bool.and_self, if_true]
  have hmk := hm w.scans.length
  rcases classify_cases query t ht with ⟨rfl, hb⟩ | ⟨rfl, hb, ha⟩ | ⟨rfl, hb, ha, htag⟩
  · rw [if_pos hb]
    by_cases hr : isRange query = true
    · rw [hr] at hp hmk
      rw [if_pos (by simpa using hp), drawRange_some env _ _ (by simpa using hmk), hr]
      simp [drawn, IdSpace.sql]
    · have hr' : isRange query = false := by simpa using hr
      rw [hr'] at hp hmk
      rw [if_neg (by simp at hp; omega), drawOne_some env _ _ (by simpa using hmk), hr']
      simp [drawn, IdSpace.sql]
  · have hr := isRange_of_not_book query hb
    rw [hr] at hmk
    rw [if_neg (by simp [hb]), if_pos ha, hr, drawOne_some env _ _ (by simpa using hmk)]
    simp [drawn, IdSpace.sql]
  · have hr := isRange_of_not_book query hb
    rw [hr] at hmk
    rw [if_neg (by simp [hb]), if_neg (by simp [ha]), if_pos htag, hr,
      drawOne_some env _ _ (by simpa using hmk)]
    simp [drawn, IdSpace.sql]

end Benchmark

namespace Go

/-- The running maximum started at 0 over a non-empty slice of non-negative durations is
the largest element. -/
theorem maxFrom_zero_spec (d : List Int) (hd : d ≠ []) (hnn : ∀ x ∈ d, 0 ≤ x) :
    maxFrom 0 d ∈ d ∧ ∀ x ∈ d, x ≤ maxFrom 0 d := by
  obtain ⟨-, hub, hmem⟩ := maxFrom_spec 0 d
  refine ⟨?_, hub⟩
  rcases hmem with h0 | h
  · obtain ⟨x, hx⟩ := List.exists_mem_of_ne_nil d hd
    have h1 := hub x hx
    have h2 := hnn x hx
    have : x = maxFrom 0 d := by omega
    rw [← this]
    exact hx
  · exact h

/-- The running minimum started at the sentinel `time.Hour`: the smallest element when
some element is at most one hour, the sentinel itself when every element is above it. -/
theorem minFrom_hour_spec (d : List Int) :
    ((∃ x ∈ d, x ≤ hour) → minFrom hour d ∈ d ∧ ∀ x ∈ d, minFrom hour d ≤ x) ∧
    ((∀ x ∈ d, hour < x) → minFrom hour d = hour) := by
  obtain ⟨hle, hlb, hmem⟩ := minFrom_spec hour d
  constructor
  · rintro ⟨x, hx, hxh⟩
    refine ⟨?_, hlb⟩
    rcases hmem with h0 | h
    · have h1 := hlb x hx
      have : x = minFrom hour d := by omega
      rw [← this]
      exact hx
    · exact h
  · intro hall
    rcases hmem with h0 | h
    · exact h0
    · have := hall _ h
      omega

end Go

namespace Benchmark

open Go

theorem recorded_length_le (env : Env) (i : Nat) : (recorded env i).length ≤ i := by
  induction i with
  | zero => simp [recorded]
  | succ i ih =>
    rw [recorded_succ]
    cases env.query (warmupIterations + i) with
    | none => simp only [List.length_append]; simp; omega
    | some rd => simp only [List.length_append]; simp; omega

theorem recorded_length (env : Env) (i : Nat) :
    (recorded env i).length =
      (List.range i).countP (fun j => (env.query (warmupIterations + j)).isSome) := by
  induction i with
  | zero => simp [recorded]
  | succ i ih =>
    rw [recorded_succ, List.range_succ, List.countP_append, List.length_append, ih]
    cases h : env.query (warmupIterations + i) <;> simp [List.countP_cons, h]

theorem recorded_nil (env : Env) (i : Nat)
    (h : ∀ j, j < i → env.query (warmupIterations + j) = none) : recorded env i = [] := by
  induction i with
  | zero => simp [recorded]
  | succ i ih =>
    rw [recorded_succ, ih (fun j hj => h j (by omega)), h i (by omega)]
    rfl

end Benchmark

namespace Compare

open Go

theorem compare_recorded_length (env : Env) (i : Nat) :
    (recorded env i).length =
      (List.range i).countP (fun j => (env (warmupIterations + j)).isSome) := by
  induction i with
  | zero => simp [recorded]
  | succ i ih =>
    rw [compare_recorded_succ, List.range_succ, List.countP_append, List.length_append, ih]
    cases h : env (warmupIterations + i) <;> simp [List.countP_cons, h]

theorem compare_recorded_nil (env : Env) (i : Nat)
    (h : ∀ j, j < i → env (warmupIterations + j) = none) : recorded env i = [] := by
  induction i with
  | zero => simp [recorded]
  | succ i ih =>
    rw [compare_recorded_succ, ih (fun j hj => h j (by omega)), h i (by omega)]
    rfl

end Compare

/-- C11 at a failing input: a run whose single timed query takes two hours records the one
duration 2h, and `runBenchmark` and `benchmark` alike report the minimum 1h, the value that
`MinTime` and `Min` are initialised to, where the claim promises the smallest recorded
duration, 2h; the maximum they report is 2h. -/
theorem min_of_long_durations_is_one_hour :
    (Benchmark.timed (Benchmark.envOf [2 * Go.hour]) "bench" "SELECT 1" 1).map
        (fun l => l.durations) = some [2 * Go.hour] ∧
    (Benchmark.runBenchmark (Benchmark.envOf [2 * Go.hour]) "bench" "SELECT 1" 1).map
        (fun r => (r.MinTime, r.MaxTime)) = some (Go.hour, 2 * Go.hour) ∧
    (Compare.benchmark (Compare.envOf [2 * Go.hour]) "bench" "SELECT 1" 1).map
        (fun r => (r.Durations, r.Min, r.Max)) = some ([2 * Go.hour], Go.hour, 2 * Go.hour) ∧
    Go.hour ≠ 2 * Go.hour := by
  decide

/-- The part of C11 that the code satisfies: for every non-empty sequence of non-negative
recorded durations, `runBenchmark` and `benchmark` return with Max the largest recorded
duration, and with Min the smallest recorded duration whenever some recorded duration is
at most one hour.  On the samples 10ms .. 50ms: Min 10ms, Max 50ms. -/
theorem min_max_within_one_hour :
    (∀ (env : Benchmark.Env) (name query : String) (iterations : Int) (l : Benchmark.Loop),
      Benchmark.timed env name query iterations = some l → l.durations ≠ [] →
      (∀ d ∈ l.durations, 0 ≤ d) →
      ∃ r, Benchmark.runBenchmark env name query iterations = some r ∧
        (r.MaxTime ∈ l.durations ∧ ∀ d ∈ l.durations, d ≤ r.MaxTime) ∧
        ((∃ d ∈ l.durations, d ≤ Go.hour) →
          r.MinTime ∈ l.durations ∧ ∀ d ∈ l.durations, r.MinTime ≤ d)) ∧
    (∀ (env : Compare.Env) (name query : String) (iterations : Int) (l : Compare.Loop),
      Compare.timed env name query iterations = some l → l.result.Durations ≠ [] →
      (∀ d ∈ l.result.Durations, 0 ≤ d) →
      ∃ r, Compare.benchmark env name query iterations = some r ∧
        r.Durations = l.result.Durations ∧
        (r.Max ∈ r.Durations ∧ ∀ d ∈ r.Durations, d ≤ r.Max) ∧
        ((∃ d ∈ r.Durations, d ≤ Go.hour) →
          r.Min ∈ r.Durations ∧ ∀ d ∈ r.Durations, r.Min ≤ d)) ∧
    (Benchmark.runBenchmark (Benchmark.envOf Go.samples) "bench" "SELECT 1" 5).map
        (fun r => (r.MinTime, r.MaxTime)) = some (10 * Go.millisecond, 50 * Go.millisecond) ∧
    (Compare.benchmark (Compare.envOf Go.samples) "bench" "SELECT 1" 5).map
        (fun r => (r.Min, r.Max)) = some (10 * Go.millisecond, 50 * Go.millisecond) := by
  refine ⟨?_, ?_, by decide, by decide⟩
  · intro env name query iterations l h hd hnn
    obtain ⟨-, -, -, -, -, -, hmin, hmax, -⟩ := Benchmark.timed_inv env name query iterations l h
    obtain ⟨r, hr, -, -, -, hrmin, hrmax⟩ := Benchmark.finish_spec l.result l.durations hd
    refine ⟨r, by simp only [Benchmark.runBenchmark, h, hr], ?_, ?_⟩
    · rw [hrmax, hmax]
      exact Go.maxFrom_zero_spec l.durations hd hnn
    · rw [hrmin, hmin]
      exact (Go.minFrom_hour_spec l.durations).1
  · intro env name query iterations l h hd hnn
    have hn : 0 ≤ iterations := by
      by_contra hneg
      unfold Compare.timed at h
      rw [if_pos (by omega)] at h
      exact absurd h (by simp)
    obtain ⟨l', hl', -, -, -, -, hmin, hmax⟩ := Compare.compare_timed_inv env name query iterations hn
    rw [h] at hl'
    obtain rfl := Option.some.inj hl'
    obtain ⟨r, hr, -, hrd, hrmin, hrmax⟩ := Compare.benchmark_finish_spec l.result hd
    refine ⟨r, by simp only [Compare.benchmark, h, hr], hrd, ?_, ?_⟩
    · rw [hrmax, hmax, hrd]
      exact Go.maxFrom_zero_spec l.result.Durations hd hnn
    · rw [hrmin, hmin, hrd]
      exact (Go.minFrom_hour_spec l.result.Durations).1

/-- C12: when the sample sequence is empty the statistics step of `runBenchmark` and of
`benchmark` is skipped whole (it returns the result unchanged, dividing by nothing and
indexing nothing), so mean, median and p95 keep their initial value zero; and when every
timed query fails the functions return such a result (for `runBenchmark`: with table
maxima for which the draws are defined).  A run of five failing timed queries returns
zero mean, median and p95. -/
theorem empty_sample_statistics :
    (∀ r : Benchmark.BenchmarkResult, Benchmark.finish r [] = some r) ∧
    (∀ r : Compare.BenchResult, r.Durations = [] → Compare.finish r = some r) ∧
    (∀ (env : Benchmark.Env) (name query : String) (iterations : Int) (l : Benchmark.Loop),
      Benchmark.timed env name query iterations = some l → l.durations = [] →
      Benchmark.runBenchmark env name query iterations = some l.result ∧
        l.result.AvgTime = 0 ∧ l.result.MedianTime = 0 ∧ l.result.P95Time = 0) ∧
    (∀ (env : Benchmark.Env) (name query : String) (iterations : Int),
      0 ≤ iterations → Benchmark.DrawsDefined env →
      (∀ k, Benchmark.warmupIterations ≤ k → env.query k = none) →
      ∃ r, Benchmark.runBenchmark env name query iterations = some r ∧
        r.AvgTime = 0 ∧ r.MedianTime = 0 ∧ r.P95Time = 0) ∧
    (∀ (env : Compare.Env) (name query : String) (iterations : Int),
      0 ≤ iterations → (∀ k, Compare.warmupIterations ≤ k → env k = none) →
      ∃ r, Compare.benchmark env name query iterations = some r ∧
        r.Durations = [] ∧ r.Avg = 0 ∧ r.Median = 0 ∧ r.P95 = 0) ∧
    (Benchmark.runBenchmark (Benchmark.envWith []) "bench" "SELECT 1" 5).map
        (fun r => (r.AvgTime, r.MedianTime, r.P95Time)) = some (0, 0, 0) ∧
    (Compare.benchmark (Compare.envWith []) "bench" "SELECT 1" 5).map
        (fun r => (r.Durations, r.Avg, r.Median, r.P95)) = some ([], 0, 0, 0) := by
  have hB : ∀ (env : Benchmark.Env) (name query : String) (iterations : Int)
      (l : Benchmark.Loop), Benchmark.timed env name query iterations = some l →
      l.durations = [] →
      Benchmark.runBenchmark env name query iterations = some l.result ∧
        l.result.AvgTime = 0 ∧ l.result.MedianTime = 0 ∧ l.result.P95Time = 0 := by
    intro env name query iterations l h hd
    obtain ⟨-, -, -, -, -, hz, -⟩ := Benchmark.timed_inv env name query iterations l h
    refine ⟨?_, hz⟩
    simp only [Benchmark.runBenchmark, h, hd]
    rfl
  refine ⟨fun r => rfl, ?_, hB, ?_, ?_, by decide, by decide⟩
  · intro r hr
    unfold Compare.finish
    rw [hr]
    rfl
  · intro env name query iterations hn hd hfail
    obtain ⟨l, hl⟩ := Benchmark.timed_some env name query iterations hd hn
    obtain ⟨-, -, -, hrec, -⟩ := Benchmark.timed_inv env name query iterations l hl
    have hnil : l.durations = [] := by
      rw [hrec]
      exact Benchmark.recorded_nil env _ (fun j _ => hfail _ (by omega))
    exact ⟨l.result, hB env name query iterations l hl hnil⟩
  · intro env name query iterations hn hfail
    obtain ⟨l, hl, -, hrec, -, hz, -⟩ := Compare.compare_timed_inv env name query iterations hn
    have hnil : l.result.Durations = [] := by
      rw [hrec]
      exact Compare.compare_recorded_nil env _ (fun j _ => hfail _ (by omega))
    refine ⟨l.result, ?_, hnil, hz⟩
    simp only [Compare.benchmark, hl]
    unfold Compare.finish
    rw [hnil]
    rfl

namespace Benchmark

open Go

theorem drawn_range_bounds (x : Nat) (m : Int) (hm : 100 < m) :
    ∃ a, drawn true x m = [a, a + 100] ∧ 1 ≤ a ∧ a + 100 ≤ m := by
  refine ⟨(x : Int) % (m - 100) + 1, rfl, ?_, ?_⟩
  · have := Int.emod_nonneg (x : Int) (show m - 100 ≠ 0 by omega)
    omega
  · have := Int.emod_lt_of_pos (x : Int) (show 0 < m - 100 by omega)
    omega

theorem drawn_one_bounds (x : Nat) (m : Int) (hm : 0 < m) :
    ∃ v, drawn false x m = [v] ∧ 1 ≤ v ∧ v ≤ m := by
  refine ⟨(x : Int) % m + 1, rfl, ?_, ?_⟩
  · have := Int.emod_nonneg (x : Int) (show m ≠ 0 by omega)
    omega
  · have := Int.emod_lt_of_pos (x : Int) hm
    omega

theorem timedIter_param (env : Env) (query : String) (t : IdSpace) (i : Nat) (l : Loop)
    (hq : Contains query "?" = true) (ht : classify query = some t) (hm : MaxOk env query)
    (hi : ParamInv env query t i l) :
    ∃ l', timedIter env query l = some l' ∧ ParamInv env query t (i + 1) l' := by
  obtain ⟨hpos, hscans, hlen, hcalls⟩ := hi
  have hsl : l.w.scans.length = warmupIterations + i := by
    rw [hscans]
    simp [warmupIterations]
    omega
  have hcl : l.w.calls.length = warmupIterations + i := by
    rw [hcalls]
    simp
  have hp := iterParams_classified env query t l.params l.w hq ht hm hlen
  have hcp : callParams env query t (warmupIterations + i) =
      drawn (isRange query) (env.rnd l.w.pos) (env.scan l.w.scans.length) := by
    unfold callParams
    rw [if_neg (by omega), hpos, hsl]
    congr 2
    simp [warmupIterations]
    omega
  have hcalls' : l.w.calls ++
      [(query, drawn (isRange query) (env.rnd l.w.pos) (env.scan l.w.scans.length))] =
      (List.range (warmupIterations + (i + 1))).map
        (fun k => (query, callParams env query t k)) := by
    rw [← Nat.add_assoc, List.range_succ, List.map_append, ← hcalls, ← hcp]
    rfl
  have hscans' : l.w.scans ++ [t.sql] =
      [IdSpace.books.sql, IdSpace.authors.sql, IdSpace.tags.sql] ++
        List.replicate (i + 1) t.sql := by
    rw [hscans, List.replicate_succ', ← List.append_assoc]
  unfold timedIter
  rw [hp]
  simp only [doQuery]
  cases env.query l.w.calls.length with
  | none =>
    exact ⟨_, rfl, by show _ = _; simp only; omega, hscans', by rw [drawn_length], hcalls'⟩
  | some rd =>
    exact ⟨_, rfl, by show _ = _; simp only; omega, hscans', by rw [drawn_length], hcalls'⟩

theorem timedLoop_param (env : Env) (query : String) (t : IdSpace)
    (hq : Contains query "?" = true) (ht : classify query = some t) (hm : MaxOk env query) :
    ∀ (n i : Nat) (l : Loop), ParamInv env query t i l →
      ∃ l', timedLoop env query n l = some l' ∧ ParamInv env query t (i + n) l' := by
  intro n
  induction n with
  | zero => intro i l hi; exact ⟨l, rfl, hi⟩
  | succ n ih =>
    intro i l hi
    obtain ⟨l1, h1, hi1⟩ := timedIter_param env query t i l hq ht hm hi
    obtain ⟨l2, h2, hi2⟩ := ih (i + 1) l1 hi1
    refine ⟨l2, ?_, ?_⟩
    · show (match timedIter env query l with
        | none => none
        | some l' => timedLoop env query n l') = some l2
      rw [h1]
      exact h2
    · rw [show i + (n + 1) = i + 1 + n by omega]
      exact hi2

/-- The whole run on a classified parameterised query: the scans, the draws and the
parameters of every execution. -/
theorem timed_param (env : Env) (name query : String) (t : IdSpace) (n : Nat)
    (hq : Contains query "?" = true) (ht : classify query = some t) (hm : MaxOk env query) :
    ∃ l, timed env name query n = some l ∧ ParamInv env query t n l := by
  unfold timed
  rw [if_neg (by omega), initParams_classified env query t World.init hq ht hm]
  simp only [Int.toNat_ofNat]
  obtain ⟨hc, -, hs, hp⟩ := warmup_spec env query
    (drawn (isRange query) (env.rnd World.init.pos)
      (env.scan (World.init.scans.length + t.index))) warmupIterations
    { World.init with
      pos := World.init.pos + 1
      scans := World.init.scans ++ [IdSpace.books.sql, IdSpace.authors.sql, IdSpace.tags.sql] }
  have h0 := timedLoop_param env query t hq ht hm n 0
  simp only [Nat.zero_add] at h0
  apply h0
  refine ⟨?_, ?_, ?_, ?_⟩
  · show (warmup _ _ _ _ _).pos = _
    rw [hp]
    rfl
  · show (warmup _ _ _ _ _).scans = _
    rw [hs]
    rfl
  · show (drawn _ _ _).length = _
    rw [drawn_length]
  · show (warmup _ _ _ _ _).calls = _
    rw [hc]
    simp [World.init, warmupIterations, callParams, List.range_succ, List.replicate]

end Benchmark

namespace Go

theorem occursIn_singleton (c : Char) (l : List Char) : occursIn [c] l = true ↔ c ∈ l := by
  induction l with
  | nil => simp [occursIn]
  | cons d ds ih =>
    unfold occursIn
    rw [Bool.or_eq_true, ih, List.mem_cons]
    have : [c].isPrefixOf (d :: ds) = (c == d) := by simp [List.isPrefixOf]
    rw [this, beq_iff_eq]

/-- A text in which `?` is counted at least once contains `"?"`. -/
theorem Contains_of_Count (s : String) (h : 0 < Count s '?') : Contains s "?" = true := by
  unfold Contains
  exact (occursIn_singleton '?' s.data).mpr (List.count_pos_iff.mp h)

end Go

namespace Benchmark

open Go

theorem callParams_drawn (env : Env) (query : String) (t : IdSpace) (k : Nat) :
    ∃ x m, callParams env query t k = drawn (isRange query) x m := by
  unfold callParams
  split
  · exact ⟨_, _, rfl⟩
  · exact ⟨_, _, rfl⟩

theorem ParamInv_calls (env : Env) (query : String) (t : IdSpace) (i : Nat) (l : Loop)
    (hi : ParamInv env query t i l) :
    l.w.calls.length = warmupIterations + i ∧
    ∀ c ∈ l.w.calls, c.1 = query ∧ ∃ x m, c.2 = drawn (isRange query) x m := by
  obtain ⟨-, -, -, hc⟩ := hi
  rw [hc]
  refine ⟨by simp, ?_⟩
  intro c hcm
  obtain ⟨k, -, rfl⟩ := List.mem_map.mp hcm
  exact ⟨rfl, callParams_drawn env query t k⟩

theorem ParamInv_timed (env : Env) (query : String) (t : IdSpace) (n : Nat) (l : Loop)
    (hm : MaxOk env query) (hi : ParamInv env query t n l) :
    l.w.scans.length = warmupIterations + n ∧
    ∀ i, i < n →
      l.w.scans[warmupIterations + i]? = some t.sql ∧
      ∃ p, l.w.calls[warmupIterations + i]? = some (query, p) ∧
        p = drawn (isRange query) (env.rnd (1 + i)) (env.scan (warmupIterations + i)) ∧
        (if isRange query
          then ∃ x, p = [x, x + 100] ∧ 1 ≤ x ∧ x + 100 ≤ env.scan (warmupIterations + i)
          else ∃ v, p = [v] ∧ 1 ≤ v ∧ v ≤ env.scan (warmupIterations + i)) := by
  obtain ⟨-, hs, -, hc⟩ := hi
  refine ⟨by rw [hs]; simp [warmupIterations]; omega, ?_⟩
  intro i hin
  constructor
  · rw [hs, List.getElem?_append_right (by simp [warmupIterations])]
    simp [warmupIterations, List.getElem?_replicate, hin]
  · refine ⟨_, ?_, rfl, ?_⟩
    · rw [hc, List.getElem?_map, List.getElem?_range (by omega)]
      simp only [Option.map_some']
      unfold callParams
      rw [if_neg (by omega)]
      congr 4
      simp [warmupIterations]
      omega
    · have hmk := hm (warmupIterations + i)
      cases hr : isRange query with
      | true =>
        rw [hr] at hmk
        simp only [if_true]
        exact drawn_range_bounds _ _ (by simpa using hmk)
      | false =>
        rw [hr] at hmk
        simp only [Bool.false_eq_true, if_false]
        exact drawn_one_bounds _ _ (by simpa using hmk)

theorem classify_book (query : String) (h : isBookQuery query = true) :
    classify query = some IdSpace.books := by
  unfold classify
  rw [if_pos h]

end Benchmark

/-- C18: in `runBenchmark`, for every classified parameterised query (with table maxima
for which the draws are defined) the run returns and every timed iteration `i` first reads
the current maximum id of the classified table (the scan number `3 + i`), then makes a
draw of its own (number `1 + i`) and passes the parameters computed from the two to the
query it times (execution number `3 + i`): a single value `v` with `1 ≤ v ≤ maxId`, or
for a range query the pair `(x, x + 100)` with `1 ≤ x` and `x + 100 ≤ maxId`.  With
maximum 1000 throughout and the raw draws 3, 10, 17: the values 4, 11, 18 and the pairs
(4, 104), (11, 111), (18, 118). -/
theorem timed_parameters_in_id_space :
    (∀ (env : Benchmark.Env) (name query : String) (t : Benchmark.IdSpace) (n : Nat),
      Go.Contains query "?" = true → Benchmark.classify query = some t →
      Benchmark.MaxOk env query →
      ∃ l, Benchmark.timed env name query n = some l ∧
        l.w.calls.length = 3 + n ∧ l.w.scans.length = 3 + n ∧
        ∀ i, i < n →
          l.w.scans[3 + i]? = some t.sql ∧
          ∃ p, l.w.calls[3 + i]? = some (query, p) ∧
            p = Benchmark.drawn (Benchmark.isRange query) (env.rnd (1 + i))
              (env.scan (3 + i)) ∧
            (if Benchmark.isRange query
              then ∃ x, p = [x, x + 100] ∧ 1 ≤ x ∧ x + 100 ≤ env.scan (3 + i)
              else ∃ v, p = [v] ∧ 1 ≤ v ∧ v ≤ env.scan (3 + i))) ∧
    (Benchmark.timed (Benchmark.envMax 1000) "Primary key lookup"
        "SELECT id, title, author_id, created_at FROM books WHERE id = ?" 2).map
        (fun l => (l.w.calls.map Prod.snd, l.w.scans.drop 3)) =
      some ([[4], [4], [4], [11], [18]],
        ["SELECT COALESCE(MAX(id), 1) FROM books",
         "SELECT COALESCE(MAX(id), 1) FROM books"]) ∧
    (Benchmark.timed (Benchmark.envMax 1000) "Range"
        "SELECT b.id FROM books b WHERE b.id BETWEEN ? AND ?" 2).map
        (fun l => l.w.calls.map Prod.snd) =
      some [[4, 104], [4, 104], [4, 104], [11, 111], [18, 118]] ∧
    (Benchmark.timed (Benchmark.envMax 1000) "Tag"
        "SELECT book_id FROM book_tags WHERE tag_id = ?" 1).map
        (fun l => (l.w.calls.map Prod.snd, l.w.scans.drop 3)) =
      some ([[4], [4], [4], [11]], ["SELECT COALESCE(MAX(id), 1) FROM tags"]) := by
  refine ⟨?_, by decide, by decide, by decide⟩
  intro env name query t n hq ht hm
  obtain ⟨l, hl, hi⟩ := Benchmark.timed_param env name query t n hq ht hm
  obtain ⟨hs, hall⟩ := Benchmark.ParamInv_timed env query t n l hm hi
  exact ⟨l, hl, (Benchmark.ParamInv_calls env query t n l hi).1, hs, hall⟩

namespace Seed

/-! ## The ids of the generated records -/

theorem Intn_succ_bounds (x : Nat) (n : Int) (h : 0 < n) :
    1 ≤ (x : Int) % n + 1 ∧ (x : Int) % n + 1 ≤ n := by
  have h1 := Int.emod_nonneg (x : Int) (show n ≠ 0 by omega)
  have h2 := Int.emod_lt_of_pos (x : Int) h
  omega

theorem bookArgs_append (rows : List (String × Int × Int)) (r : String × Int × Int) :
    bookArgs (rows ++ [r]) = bookArgs rows ++ [Arg.str r.1, Arg.int r.2.1, Arg.time r.2.2] := by
  simp [bookArgs]

/-- The rows of one batch of `insertBooks`. -/
theorem bookRows_ids (rnd : Nat → Nat) (numAuthors : Int) (h : 0 < numAuthors)
    (i hi : Int) (p : Nat) (hle : i ≤ hi) :
    ∃ rows b, forRange (insertBooksRow rnd numAuthors) i hi ⟨[], [], p⟩ = some b ∧
      b.values = List.replicate rows.length "(?, ?, ?)" ∧
      b.args = bookArgs rows ∧
      ∀ r ∈ rows, 1 ≤ r.2.1 ∧ r.2.1 ≤ numAuthors := by
  obtain ⟨b, hb, rows, hP⟩ := forRange_induct (insertBooksRow rnd numAuthors) hi
    (fun _ b => ∃ rows : List (String × Int × Int),
      b.values = List.replicate rows.length "(?, ?, ?)" ∧
      b.args = bookArgs rows ∧
      ∀ r ∈ rows, 1 ≤ r.2.1 ∧ r.2.1 ≤ numAuthors)
    (fun k b _ hP => by
      obtain ⟨rows, hv, ha, hall⟩ := hP
      refine ⟨_, insertBooksRow_eq rnd numAuthors k b h,
        rows ++ [(bookTitle ((rnd b.pos : Int) % 10) ((rnd (b.pos + 1) : Int) % 10) k,
          (rnd (b.pos + 2) : Int) % numAuthors + 1, (rnd (b.pos + 3) : Int) % hourSpan)],
        ?_, ?_, ?_⟩
      · show b.values ++ _ = _
        rw [hv, List.length_append, List.length_singleton, List.replicate_succ']
      · show b.args ++ _ = _
        rw [ha, bookArgs_append]
      · intro r hr
        rcases List.mem_append.mp hr with hr | hr
        · exact hall r hr
        · rw [List.mem_singleton] at hr
          rw [hr]
          exact Intn_succ_bounds _ _ h)
    (hi - i).toNat i ⟨[], [], p⟩ rfl hle ⟨[], rfl, rfl, by simp⟩
  exact ⟨rows, b, hb, hP⟩

/-- All statements of one call of `insertBooks`. -/
theorem insertBooks_ids (rnd : Nat → Nat) (ok : Nat → Bool) (numAuthors : Int)
    (h : 0 < numAuthors) (workerID start end_ : Int) (s : State) :
    ∃ s' new, insertBooks rnd ok workerID start end_ numAuthors s = some s' ∧
      s'.stmts = s.stmts ++ new ∧ ∀ st ∈ new, IsBooksStmtIn numAuthors st := by
  obtain ⟨i', t, ht, ⟨new, hst, hall⟩, -⟩ :=
    forBatches_induct (insertBooksBatch rnd ok numAuthors) end_
      (fun _ t => ∃ new : List Stmt, t.stmts = s.stmts ++ new ∧
        ∀ st ∈ new, IsBooksStmtIn numAuthors st)
      (fun k t hk hP => by
        obtain ⟨new, hst, hall⟩ := hP
        have hbe := batchEnd_eq_min k end_
        obtain ⟨rows, b, hb, hv, ha, hin⟩ :=
          bookRows_ids rnd numAuthors h k (batchEnd k end_) t.pos (by rw [hbe]; omega)
        refine ⟨_, by simp only [insertBooksBatch, hb]; rfl,
          new ++ [⟨booksHead ++ ",".intercalate (List.replicate rows.length "(?, ?, ?)"),
            bookArgs rows⟩], ?_, ?_⟩
        · show t.stmts ++ _ = _
          rw [hst, List.append_assoc, hv, ha]
          rfl
        · intro st hmem
          rcases List.mem_append.mp hmem with hmem | hmem
          · exact hall st hmem
          · rw [List.mem_singleton] at hmem
            exact ⟨rows, hmem, hin⟩)
      (end_ - start).toNat start s (le_refl _) ⟨[], by simp, by simp⟩
  exact ⟨t, new, ht, hst, hall⟩

/-- The statements of a sequence of workers. -/
theorem workers_stmts (run : Int → Int → Int → State → Option State)
    (range : Int → Int × Int) (Q : Stmt → Prop)
    (hrun : ∀ w a e s, ∃ s' new, run w a e s = some s' ∧ s'.stmts = s.stmts ++ new ∧
      ∀ st ∈ new, Q st) :
    ∀ (ws : List Int) (s : State),
      ∃ s' new, ws.foldlM (fun s w => run w (range w).1 (range w).2 s) s = some s' ∧
        s'.stmts = s.stmts ++ new ∧ ∀ st ∈ new, Q st := by
  intro ws
  induction ws with
  | nil => intro s; exact ⟨s, [], rfl, by simp, by simp⟩
  | cons w ws ih =>
    intro s
    obtain ⟨s1, new1, h1, hs1, hq1⟩ := hrun w (range w).1 (range w).2 s
    obtain ⟨s2, new2, h2, hs2, hq2⟩ := ih s1
    refine ⟨s2, new1 ++ new2, ?_, by rw [hs2, hs1, List.append_assoc], ?_⟩
    · rw [List.foldlM_cons, h1]
      exact h2
    · intro st hmem
      rcases List.mem_append.mp hmem with hmem | hmem
      · exact hq1 st hmem
      · exact hq2 st hmem

/-- The rows of one batch of an association generator. -/
theorem pairRows_ids (rnd : Nat → Nat) (n1 n2 : Int) (h1 : 0 < n1) (h2 : 0 < n2)
    (i hi : Int) (p : Nat) (tr : Tracker) (hle : i ≤ hi) :
    ∃ rows b, forRange (pairRow rnd n1 n2) i hi ⟨[], [], p, tr⟩ = some b ∧
      b.values = List.replicate rows.length "(?, ?, ?)" ∧
      b.args = pairArgs rows ∧
      ∀ r ∈ rows, (1 ≤ r.1 ∧ r.1 ≤ n1) ∧ (1 ≤ r.2.1 ∧ r.2.1 ≤ n2) := by
  obtain ⟨b, hb, rows, hP⟩ := forRange_induct (pairRow rnd n1 n2) hi
    (fun _ b => ∃ rows : List (Int × Int × Int),
      b.values = List.replicate rows.length "(?, ?, ?)" ∧
      b.args = pairArgs rows ∧
      ∀ r ∈ rows, (1 ≤ r.1 ∧ r.1 ≤ n1) ∧ (1 ≤ r.2.1 ∧ r.2.1 ≤ n2))
    (fun k b _ hP => by
      obtain ⟨rows, hv, ha, hall⟩ := hP
      by_cases hk : pairKey ((rnd b.pos : Int) % n1 + 1) ((rnd (b.pos + 1) : Int) % n2 + 1)
          ∈ b.inserted
      · exact ⟨_, pairRow_dup rnd n1 n2 k b h1 h2 hk, rows, hv, ha, hall⟩
      · refine ⟨_, pairRow_fresh rnd n1 n2 k b h1 h2 hk,
          rows ++ [((rnd b.pos : Int) % n1 + 1, (rnd (b.pos + 1) : Int) % n2 + 1,
            (rnd (b.pos + 2) : Int) % hourSpan)], ?_, ?_, ?_⟩
        · show b.values ++ _ = _
          rw [hv, List.length_append, List.length_singleton, List.replicate_succ']
        · show b.args ++ _ = _
          rw [ha, pairArgs_append]
        · intro r hr
          rcases List.mem_append.mp hr with hr | hr
          · exact hall r hr
          · rw [List.mem_singleton] at hr
            rw [hr]
            exact ⟨Intn_succ_bounds _ _ h1, Intn_succ_bounds _ _ h2⟩)
    (hi - i).toNat i ⟨[], [], p, tr⟩ rfl hle ⟨[], rfl, rfl, by simp⟩
  exact ⟨rows, b, hb, hP⟩

theorem pairFlush_ids (ok : Nat → Bool) (head : String) (n1 n2 i e : Int) (b : PairBatch)
    (s : State) (rows : List (Int × Int × Int)) (new : List Stmt)
    (hv : b.values = List.replicate rows.length "(?, ?, ?)") (ha : b.args = pairArgs rows)
    (hin : ∀ r ∈ rows, (1 ≤ r.1 ∧ r.1 ≤ n1) ∧ (1 ≤ r.2.1 ∧ r.2.1 ≤ n2))
    (s0 : List Stmt) (hst : s.stmts = s0 ++ new) (hall : ∀ st ∈ new, IsPairStmtIn head n1 n2 st) :
    ∃ new' : List Stmt, (pairFlush ok head i e b s).stmts = s0 ++ new' ∧
      ∀ st ∈ new', IsPairStmtIn head n1 n2 st := by
  have hf := (pairFlush_stmts ok head i e b s rows hv ha).1
  by_cases hr : rows = []
  · rw [if_pos hr] at hf
    exact ⟨new, by rw [hf, hst], hall⟩
  · rw [if_neg hr] at hf
    refine ⟨new ++ [pairStmt head rows], by rw [hf, hst, List.append_assoc], ?_⟩
    intro st hmem
    rcases List.mem_append.mp hmem with hmem | hmem
    · exact hall st hmem
    · rw [List.mem_singleton] at hmem
      exact ⟨rows, hmem, hin⟩

/-- All statements of one call of `insertBookTags`. -/
theorem insertBookTags_ids (rnd : Nat → Nat) (ok : Nat → Bool) (n1 n2 : Int)
    (h1 : 0 < n1) (h2 : 0 < n2) (workerID start end_ : Int) (s : State) :
    ∃ s' new, insertBookTags rnd ok workerID start end_ n1 n2 s = some s' ∧
      s'.stmts = s.stmts ++ new ∧ ∀ st ∈ new, IsPairStmtIn bookTagsHead n1 n2 st := by
  obtain ⟨i', t, ht, ⟨new, hst, hall⟩, -⟩ :=
    forBatches_induct (insertBookTagsBatch rnd ok n1 n2) end_
      (fun _ t => ∃ new : List Stmt, t.1.stmts = s.stmts ++ new ∧
        ∀ st ∈ new, IsPairStmtIn bookTagsHead n1 n2 st)
      (fun k t hk hP => by
        obtain ⟨new, hst, hall⟩ := hP
        have hbe := batchEnd_eq_min k end_
        obtain ⟨rows, b, hb, hv, ha, hin⟩ :=
          pairRows_ids rnd n1 n2 h1 h2 k (batchEnd k end_) t.1.pos t.2 (by rw [hbe]; omega)
        exact ⟨_, by simp only [insertBookTagsBatch, hb]; rfl,
          pairFlush_ids ok bookTagsHead n1 n2 k _ b t.1 rows new hv ha hin s.stmts hst hall⟩)
      (end_ - start).toNat start (s, Tracker.make) (le_refl _) ⟨[], by simp, by simp⟩
  exact ⟨t.1, new, by simp [insertBookTags, ht], hst, hall⟩

/-- All statements of one call of `seedAuthorTags`. -/
theorem seedAuthorTags_ids (rnd : Nat → Nat) (ok : Nat → Bool) (n1 n2 : Int)
    (h1 : 0 < n1) (h2 : 0 < n2) (count : Int) (s : State) :
    ∃ s' new, seedAuthorTags rnd ok count n1 n2 s = some s' ∧
      s'.stmts = s.stmts ++ new ∧ ∀ st ∈ new, IsPairStmtIn authorTagsHead n1 n2 st := by
  obtain ⟨i', t, ht, ⟨new, hst, hall⟩, -⟩ :=
    forBatches_induct (seedAuthorTagsBatch rnd ok n1 n2) count
      (fun _ t => ∃ new : List Stmt, t.1.stmts = s.stmts ++ new ∧
        ∀ st ∈ new, IsPairStmtIn authorTagsHead n1 n2 st)
      (fun k t hk hP => by
        obtain ⟨new, hst, hall⟩ := hP
        have hbe := batchEnd_eq_min k count
        obtain ⟨rows, b, hb, hv, ha, hin⟩ :=
          pairRows_ids rnd n1 n2 h1 h2 k (batchEnd k count) t.1.pos t.2 (by rw [hbe]; omega)
        exact ⟨_, by simp only [seedAuthorTagsBatch, hb]; rfl,
          pairFlush_ids ok authorTagsHead n1 n2 k _ b t.1 rows new hv ha hin s.stmts hst hall⟩)
      (count - 0).toNat 0 (s, Tracker.make) (le_refl _) ⟨[], by simp, by simp⟩
  exact ⟨t.1, new, by simp [seedAuthorTags, ht], hst, hall⟩

end Seed

namespace Seed

/-- C20: for every count, every `numAuthors ≥ 1`, `numBooks ≥ 1`, `numTags ≥ 1` and every
sequence of random draws, `insertBooks` (and `seedBooks`, which runs it for the eight
workers) returns and every record of every statement it issued has `author_id` in
`[1, numAuthors]`; likewise every pair generated by `insertBookTags` (and `seedBookTags`)
has `book_id` in `[1, numBooks]` and `tag_id` in `[1, numTags]`, and every pair generated
by `seedAuthorTags` has `author_id` in `[1, numAuthors]` and `tag_id` in
`[1, numTags]`. -/
theorem generated_ids_in_range (rnd : Nat → Nat) (ok : Nat → Bool)
    (workerID start end_ count numAuthors numBooks numTags : Int) (s : State)
    (hA : 1 ≤ numAuthors) (hB : 1 ≤ numBooks) (hT : 1 ≤ numTags) :
    (∃ s' new, insertBooks rnd ok workerID start end_ numAuthors s = some s' ∧
      s'.stmts = s.stmts ++ new ∧ ∀ st ∈ new, IsBooksStmtIn numAuthors st) ∧
    (∃ s' new, seedBooks rnd ok count numAuthors s = some s' ∧
      s'.stmts = s.stmts ++ new ∧ ∀ st ∈ new, IsBooksStmtIn numAuthors st) ∧
    (∃ s' new, insertBookTags rnd ok workerID start end_ numBooks numTags s = some s' ∧
      s'.stmts = s.stmts ++ new ∧
      ∀ st ∈ new, IsPairStmtIn bookTagsHead numBooks numTags st) ∧
    (∃ s' new, seedBookTags rnd ok count numBooks numTags s = some s' ∧
      s'.stmts = s.stmts ++ new ∧
      ∀ st ∈ new, IsPairStmtIn bookTagsHead numBooks numTags st) ∧
    (∃ s' new, seedAuthorTags rnd ok count numAuthors numTags s = some s' ∧
      s'.stmts = s.stmts ++ new ∧
      ∀ st ∈ new, IsPairStmtIn authorTagsHead numAuthors numTags st) :=
  ⟨insertBooks_ids rnd ok numAuthors (by omega) workerID start end_ s,
    workers_stmts (fun w a e s => insertBooks rnd ok w a e numAuthors s)
      (seedBooksRange count) (IsBooksStmtIn numAuthors)
      (fun w a e s => insertBooks_ids rnd ok numAuthors (by omega) w a e s) workerIds s,
    insertBookTags_ids rnd ok numBooks numTags (by omega) (by omega) workerID start end_ s,
    workers_stmts (fun w a e s => insertBookTags rnd ok w a e numBooks numTags s)
      (seedBookTagsRange count) (IsPairStmtIn bookTagsHead numBooks numTags)
      (fun w a e s => insertBookTags_ids rnd ok numBooks numTags (by omega) (by omega) w a e s)
      workerIds s,
    seedAuthorTags_ids rnd ok numAuthors numTags (by omega) (by omega) count s⟩

theorem generated_ids_in_range_witness :
    (1 : Int) ≤ 100 ∧ (1 : Int) ≤ 500 ∧ (1 : Int) ≤ 50 ∧
    ((∃ s' new, insertBooks thirds (fun _ => true) 0 0 500 100 State.init = some s' ∧
      s'.stmts = State.init.stmts ++ new ∧ ∀ st ∈ new, IsBooksStmtIn 100 st) ∧
    (∃ s' new, seedBooks thirds (fun _ => true) 500 100 State.init = some s' ∧
      s'.stmts = State.init.stmts ++ new ∧ ∀ st ∈ new, IsBooksStmtIn 100 st) ∧
    (∃ s' new, insertBookTags thirds (fun _ => true) 0 0 500 500 50 State.init = some s' ∧
      s'.stmts = State.init.stmts ++ new ∧
      ∀ st ∈ new, IsPairStmtIn bookTagsHead 500 50 st) ∧
    (∃ s' new, seedBookTags thirds (fun _ => true) 500 500 50 State.init = some s' ∧
      s'.stmts = State.init.stmts ++ new ∧
      ∀ st ∈ new, IsPairStmtIn bookTagsHead 500 50 st) ∧
    (∃ s' new, seedAuthorTags thirds (fun _ => true) 500 100 50 State.init = some s' ∧
      s'.stmts = State.init.stmts ++ new ∧
      ∀ st ∈ new, IsPairStmtIn authorTagsHead 100 50 st)) :=
  ⟨by decide, by decide, by decide,
    generated_ids_in_range thirds (fun _ => true) 0 0 500 500 100 500 50 State.init
      (by decide) (by decide) (by decide)⟩

end Seed

namespace Go

/-! ## The binary64 model -/

theorem bitLenAux_spec : ∀ (fuel x : Nat), x ≤ fuel → x ≠ 0 →
    2 ^ (bitLenAux fuel x - 1) ≤ x ∧ x < 2 ^ bitLenAux fuel x ∧ 0 < bitLenAux fuel x := by
  intro fuel
  induction fuel with
  | zero => intro x h hx; omega
  | succ fuel ih =>
    intro x h hx
    unfold bitLenAux
    rw [if_neg hx]
    by_cases h2 : x / 2 = 0
    · have hx1 : x = 1 := by omega
      subst hx1
      cases fuel <;> simp [bitLenAux]
    · obtain ⟨h1, h3, h4⟩ := ih (x / 2) (by omega) h2
      refine ⟨?_, ?_, by omega⟩
      · have : bitLenAux fuel (x / 2) + 1 - 1 = (bitLenAux fuel (x / 2) - 1) + 1 := by omega
        rw [this, pow_succ]
        omega
      · rw [pow_succ]
        omega

theorem bitLen_spec (x : Nat) (hx : x ≠ 0) :
    2 ^ (bitLen x - 1) ≤ x ∧ x < 2 ^ bitLen x ∧ 0 < bitLen x :=
  bitLenAux_spec x x (le_refl _) hx

/-- The bit length is the one `Nat.size` gives, so that `Float64.round` is `round53`. -/
theorem bitLen_eq_size (x : Nat) : bitLen x = Nat.size x := by
  by_cases hx : x = 0
  · subst hx
    simp [bitLen, bitLenAux]
  · obtain ⟨h1, h2, h3⟩ := bitLen_spec x hx
    apply le_antisymm
    · have : bitLen x - 1 < Nat.size x := Nat.lt_size.mpr h1
      omega
    · exact Nat.size_le.mpr h2

theorem round_eq_round53 (x : Nat) : Float64.round x = round53 x := by
  unfold Float64.round round53
  rw [bitLen_eq_size]

theorem roundShift_pos (x s : Nat) (h : 2 ^ s ≤ x) : 0 < roundShift x s := by
  have hp : 0 < 2 ^ s := Nat.pow_pos (by decide)
  have hq : 0 < x / 2 ^ s := Nat.div_pos h hp
  unfold roundShift
  split
  · exact Nat.mul_pos (by omega) hp
  · exact Nat.mul_pos hq hp

theorem round_pos (x : Nat) (h : 0 < x) : 0 < Float64.round x := by
  obtain ⟨h1, -, -⟩ := bitLen_spec x (by omega)
  apply roundShift_pos
  exact le_trans (Nat.pow_le_pow_right (by decide) (by omega)) h1

theorem round_zero : Float64.round 0 = 0 := by
  decide

theorem round_eq_zero_iff (x : Nat) : Float64.round x = 0 ↔ x = 0 := by
  constructor
  · intro h
    by_contra hx
    have := round_pos x (by omega)
    omega
  · intro h
    rw [h]
    exact round_zero

theorem quotient_mant_eq_zero (n d k : Nat) :
    (2 * (n * 2 ^ k / d) + if n * 2 ^ k % d = 0 then 0 else 1) = 0 ↔ n = 0 := by
  constructor
  · intro h
    by_contra hn
    have hpos : 0 < n * 2 ^ k := Nat.mul_pos (by omega) (Nat.pow_pos (by decide))
    have hdm := Nat.div_add_mod (n * 2 ^ k) d
    split at h
    · rename_i hr
      have hq : n * 2 ^ k / d = 0 := by omega
      rw [hq, hr] at hdm
      omega
    · omega
  · intro h
    subst h
    simp

/-- The sign and the vanishing of the quotient of two converted integers, times a
converted positive integer, are those of the dividend. -/
theorem quotient_sign (z b c : Int) (hb : 0 < b) (hc : 0 < c) :
    (Float64.mul (Float64.div (Float64.ofInt z) (Float64.ofInt b)) (Float64.ofInt c)).neg
      = decide (z < 0) ∧
    ((Float64.mul (Float64.div (Float64.ofInt z) (Float64.ofInt b)) (Float64.ofInt c)).mant = 0
      ↔ z = 0) := by
  have hbn : decide (b < 0) = false := by simp; omega
  have hcn : decide (c < 0) = false := by simp; omega
  constructor
  · simp [Float64.mul, Float64.div, Float64.ofInt, hbn, hcn]
  · simp only [Float64.mul, Float64.div, Float64.ofInt]
    rw [round_eq_zero_iff, Nat.mul_eq_zero, round_eq_zero_iff, round_eq_zero_iff,
      quotient_mant_eq_zero, round_eq_zero_iff]
    have hcm : c.natAbs ≠ 0 := by omega
    constructor
    · rintro (h | h)
      · omega
      · exact absurd h hcm
    · intro hz
      left
      omega

end Go

namespace Compare

open Go

/-! ## The comparison run -/

theorem compare_finish_some (r : BenchResult) : ∃ r', finish r = some r' := by
  by_cases hd : r.Durations = []
  · refine ⟨r, ?_⟩
    unfold finish
    rw [hd]
    rfl
  · obtain ⟨r', hr, -⟩ := benchmark_finish_spec r hd
    exact ⟨r', hr⟩

/-- A call of `benchmark` within a run returns and executes its query `3 + n` times. -/
theorem benchmarkAt_spec (env : RunEnv) (name query : String) (n : Nat) (r : Run) :
    ∃ res e, benchmark (fun k => env.query (r.calls.length + k)) name query n = some res ∧
      benchmarkAt env name query n r =
        some (res, { r with
          calls := r.calls ++ List.replicate (3 + n) query
          errors := e }) := by
  obtain ⟨l, hl, hc, -⟩ :=
    compare_timed_inv (fun k => env.query (r.calls.length + k)) name query n (by omega)
  obtain ⟨res, hres⟩ := compare_finish_some l.result
  rw [Int.toNat_ofNat] at hc
  refine ⟨res, r.errors + l.errors, by simp only [benchmark, hl, hres], ?_⟩
  simp only [benchmarkAt, hl, hres, hc]
  rfl

theorem comparePair_other (env : RunEnv) (ptype : String) (iterations : Int) (r : Run)
    (qp : QueryPair) (h : selected ptype qp = false) :
    comparePair env ptype iterations r qp = some r := by
  unfold comparePair
  rw [if_pos]
  simpa [selected, not_or] using h

theorem comparePair_missing (env : RunEnv) (ptype : String) (iterations : Int) (r : Run)
    (qp : QueryPair) (h : selected ptype qp = true)
    (ht : ∀ c, env.table r.checks.length = some c → c ≤ 0) :
    comparePair env ptype iterations r qp =
      some { r with
        checks := r.checks ++ [extractTableName qp.WithPartition]
        out := r.out ++ [Event.skipped qp.Name] } := by
  have hsel : ¬ (qp.PartitionType ≠ ptype ∧ qp.PartitionType ≠ "all") := by
    simp only [selected, decide_eq_true_eq] at h
    tauto
  have hex : (tableExists env (extractTableName qp.WithPartition) r).1 = false := by
    unfold tableExists
    cases hc : env.table r.checks.length with
    | none => rfl
    | some c =>
      have := ht c hc
      simp
      omega
  unfold comparePair
  rw [if_neg hsel]
  have hpair : tableExists env (extractTableName qp.WithPartition) r =
      (false, { r with checks := r.checks ++ [extractTableName qp.WithPartition] }) := by
    rw [← hex]
    rfl
  rw [hpair]

theorem comparePair_present (env : RunEnv) (ptype : String) (n : Nat) (r : Run)
    (qp : QueryPair) (h : selected ptype qp = true) (c : Int)
    (ht : env.table r.checks.length = some c) (hc : 0 < c) :
    ∃ resultNoPart resultWithPart e,
      benchmark (fun k => env.query (r.calls.length + k)) "No Partition" qp.NoPartition n
        = some resultNoPart ∧
      benchmark (fun k => env.query (r.calls.length + (3 + n) + k)) "With Partition"
        qp.WithPartition n = some resultWithPart ∧
      comparePair env ptype n r qp =
        some ⟨r.checks ++ [extractTableName qp.WithPartition],
          r.calls ++ List.replicate (3 + n) qp.NoPartition ++
            List.replicate (3 + n) qp.WithPartition,
          e,
          r.out ++ [Event.pair qp.Name qp.Description] ++
            printComparison resultNoPart resultWithPart⟩ := by
  have hsel : ¬ (qp.PartitionType ≠ ptype ∧ qp.PartitionType ≠ "all") := by
    simp only [selected, decide_eq_true_eq] at h
    tauto
  have hpair : tableExists env (extractTableName qp.WithPartition) r =
      (true, { r with checks := r.checks ++ [extractTableName qp.WithPartition] }) := by
    unfold tableExists
    rw [ht]
    simp
    omega
  obtain ⟨res1, e1, hb1, ha1⟩ := benchmarkAt_spec env "No Partition" qp.NoPartition n
    { r with
      checks := r.checks ++ [extractTableName qp.WithPartition]
      out := r.out ++ [Event.pair qp.Name qp.Description] }
  obtain ⟨res2, e2, hb2, ha2⟩ := benchmarkAt_spec env "With Partition" qp.WithPartition n
    { r with
      checks := r.checks ++ [extractTableName qp.WithPartition]
      out := r.out ++ [Event.pair qp.Name qp.Description]
      calls := r.calls ++ List.replicate (3 + n) qp.NoPartition
      errors := e1 }
  have hlen : (r.calls ++ List.replicate (3 + n) qp.NoPartition).length =
      r.calls.length + (3 + n) := by simp
  refine ⟨res1, res2, e2, hb1, ?_, ?_⟩
  · rw [← hb2]
    simp only [hlen]
  · unfold comparePair
    rw [if_neg hsel, hpair]
    simp only
    rw [ha1]
    simp only
    rw [ha2]

/-- The existence checks of a run are those of the selected pairs, in order. -/
theorem comparePairs_checks (env : RunEnv) (ptype : String) (n : Nat) :
    ∀ (queries : List QueryPair) (r : Run),
      ∃ r', comparePairs env ptype n queries r = some r' ∧
        r'.checks = r.checks ++
          (queries.filter (selected ptype)).map (fun qp => extractTableName qp.WithPartition) := by
  intro queries
  induction queries with
  | nil => intro r; exact ⟨r, rfl, by simp⟩
  | cons qp qs ih =>
    intro r
    have hstep : ∃ r1, comparePair env ptype n r qp = some r1 ∧
        r1.checks = r.checks ++
          ([qp].filter (selected ptype)).map (fun qp => extractTableName qp.WithPartition) := by
      cases hs : selected ptype qp with
      | false =>
        exact ⟨r, comparePair_other env ptype n r qp hs, by simp [hs]⟩
      | true =>
        cases ht : env.table r.checks.length with
        | none =>
          exact ⟨_, comparePair_missing env ptype n r qp hs (by simp [ht]), by simp [hs]⟩
        | some c =>
          by_cases hc : 0 < c
          · obtain ⟨_, _, _, -, -, h3⟩ := comparePair_present env ptype n r qp hs c ht hc
            exact ⟨_, h3, by simp [hs]⟩
          · exact ⟨_, comparePair_missing env ptype n r qp hs
              (by intro c' hc'; rw [ht] at hc'; cases hc'; omega), by simp [hs]⟩
    obtain ⟨r1, h1, hc1⟩ := hstep
    obtain ⟨r2, h2, hc2⟩ := ih r1
    refine ⟨r2, ?_, ?_⟩
    · show List.foldlM _ _ (qp :: qs) = _
      rw [List.foldlM_cons, h1]
      exact h2
    · rw [hc2, hc1, List.append_assoc, ← List.map_append, ← List.filter_append]
      rfl

/-! ## The indicator -/

theorem faster_ne_slower (t u : String) : t ++ "% faster" ≠ u ++ "% slower" := by
  intro h
  have h1 := congrArg String.data h
  rw [String.data_append, String.data_append] at h1
  have h2 := List.append_inj_right' h1 (by decide)
  exact absurd h2 (by decide)

theorem faster_ne_same (t : String) : t ++ "% faster" ≠ "same" := by
  intro h
  have h1 := congrArg String.data h
  rw [String.data_append] at h1
  have h2 : t.data ++ ['%', ' ', 'f', 'a'] ++ ['s', 't', 'e', 'r'] = [] ++ ['s', 'a', 'm', 'e'] := by
    rw [List.append_assoc]
    exact h1
  exact absurd (List.append_inj_right' h2 (by decide)) (by decide)

theorem slower_ne_same (t : String) : t ++ "% slower" ≠ "same" := by
  intro h
  have h1 := congrArg String.data h
  rw [String.data_append] at h1
  have h2 : t.data ++ ['%', ' ', 's', 'l'] ++ ['o', 'w', 'e', 'r'] = [] ++ ['s', 'a', 'm', 'e'] := by
    rw [List.append_assoc]
    exact h1
  exact absurd (List.append_inj_right' h2 (by decide)) (by decide)

/-- The branch that `printComparison` takes. -/
theorem indicator_cases (b p : Int) (hb : 0 < b) :
    (p < b → indicator (improvement b p) = (improvement b p).format1 ++ "% faster") ∧
    (b < p → indicator (improvement b p) =
      (improvement b p).negate.format1 ++ "% slower") ∧
    (p = b → indicator (improvement b p) = "same") := by
  obtain ⟨hneg, hmant⟩ := quotient_sign (b - p) b 100 hb (by decide)
  have hneg' : (improvement b p).neg = decide (b - p < 0) := hneg
  have hmant' : (improvement b p).mant = 0 ↔ b - p = 0 := hmant
  refine ⟨fun h => ?_, fun h => ?_, fun h => ?_⟩
  · have h1 : (improvement b p).isPos = true := by
      unfold Float64.isPos
      rw [hneg']
      have : (improvement b p).mant ≠ 0 := fun h0 => by have := hmant'.mp h0; omega
      simp [this]
      omega
    unfold indicator
    rw [if_pos h1]
  · have h1 : (improvement b p).isPos = false := by
      unfold Float64.isPos
      rw [hneg']
      simp
      intro; omega
    have h2 : (improvement b p).isNeg = true := by
      unfold Float64.isNeg
      rw [hneg']
      have : (improvement b p).mant ≠ 0 := fun h0 => by have := hmant'.mp h0; omega
      simp [this]
      omega
    unfold indicator
    rw [if_neg (by simp [h1]), if_pos h2]
  · have h0 : (improvement b p).mant = 0 := hmant'.mpr (by omega)
    have h1 : (improvement b p).isPos = false := by
      unfold Float64.isPos
      simp [h0]
    have h2 : (improvement b p).isNeg = false := by
      unfold Float64.isNeg
      simp [h0]
    unfold indicator
    rw [if_neg (by simp [h1]), if_neg (by simp [h2])]

end Compare

namespace Go

/-! ## Accuracy of the binary64 model -/

/-- Rounding to 53 bits changes a number by at most the fraction `2 ^ -53` of it. -/
theorem round_error (x : Nat) :
    x * (2 ^ 53 - 1) ≤ Float64.round x * 2 ^ 53 ∧
    Float64.round x * 2 ^ 53 ≤ x * (2 ^ 53 + 1) := by
  unfold Float64.round
  by_cases hs : bitLen x - 53 = 0
  · rw [hs]
    have h0 : roundShift x 0 = x := by
      unfold roundShift
      simp [Nat.mod_one]
    rw [h0]
    constructor
    · exact Nat.mul_le_mul_left x (by norm_num)
    · exact Nat.mul_le_mul_left x (by norm_num)
  · have hx : x ≠ 0 := by
      intro h0
      subst h0
      simp [bitLen, bitLenAux] at hs
    obtain ⟨h1, -, -⟩ := bitLen_spec x hx
    obtain ⟨s, hs'⟩ : ∃ s, bitLen x - 53 = s + 1 := ⟨bitLen x - 53 - 1, by omega⟩
    have hb : bitLen x - 1 = s + 53 := by omega
    rw [hb] at h1
    rw [hs']
    have hP : 2 ^ (s + 1) = 2 * 2 ^ s := by rw [pow_succ]; omega
    have hB : 2 ^ (s + 53) = 2 ^ s * 2 ^ 53 := by rw [pow_add]
    have hdm := Nat.div_add_mod x (2 ^ (s + 1))
    have hm := Nat.mod_lt x (show 0 < 2 ^ (s + 1) from Nat.pow_pos (by decide))
    unfold roundShift
    generalize x / 2 ^ (s + 1) = q at hdm ⊢
    generalize x % 2 ^ (s + 1) = m at hdm hm ⊢
    rw [hP] at hdm hm ⊢
    rw [hB] at h1
    generalize 2 ^ s = H at hdm hm h1 ⊢
    have hA : 2 * H * q = q * (2 * H) := by ring
    norm_num at h1 ⊢
    split
    · rename_i hc
      have e : (q + 1) * (2 * H) = q * (2 * H) + 2 * H := by ring
      rw [e]
      rw [hA] at hdm
      generalize q * (2 * H) = A at hdm ⊢
      constructor <;> rcases hc with hc | ⟨hc, -⟩ <;> omega
    · rename_i hc
      rw [hA] at hdm
      generalize q * (2 * H) = A at hdm ⊢
      have : 2 * m ≤ 2 * H := by
        by_contra hlt
        exact hc (Or.inl (by omega))
      constructor <;> omega

/-- The quotient developed by `Float64.div` has at least 55 bits. -/
theorem quotient_large (n d : Nat) (hn : 0 < n) (hd : 0 < d) :
    2 ^ 54 ≤ n * 2 ^ (55 + bitLen d - bitLen n) / d := by
  obtain ⟨h1, -, h1p⟩ := bitLen_spec n (by omega)
  obtain ⟨-, h2, -⟩ := bitLen_spec d (by omega)
  rw [Nat.le_div_iff_mul_le hd]
  have hexp : 54 + bitLen d ≤ (bitLen n - 1) + (55 + bitLen d - bitLen n) := by omega
  calc 2 ^ 54 * d ≤ 2 ^ 54 * 2 ^ bitLen d := Nat.mul_le_mul_left _ (le_of_lt h2)
    _ = 2 ^ (54 + bitLen d) := by rw [pow_add]
    _ ≤ 2 ^ ((bitLen n - 1) + (55 + bitLen d - bitLen n)) :=
        Nat.pow_le_pow_right (by decide) hexp
    _ = 2 ^ (bitLen n - 1) * 2 ^ (55 + bitLen d - bitLen n) := by rw [pow_add]
    _ ≤ n * 2 ^ (55 + bitLen d - bitLen n) := Nat.mul_le_mul_right _ h1

end Go

namespace Go

theorem near_round (x : Nat) :
    Near (Float64.round x : ℚ) x (1 - 1 / 2 ^ 53) (1 + 1 / 2 ^ 53) := by
  obtain ⟨h1, h2⟩ := round_error x
  have h1' : ((x * (2 ^ 53 - 1) : ℕ) : ℚ) ≤ ((Float64.round x * 2 ^ 53 : ℕ) : ℚ) := by
    exact_mod_cast h1
  have h2' : ((Float64.round x * 2 ^ 53 : ℕ) : ℚ) ≤ ((x * (2 ^ 53 + 1) : ℕ) : ℚ) := by
    exact_mod_cast h2
  norm_num at h1' h2'
  constructor
  · have : (x : ℚ) * (1 - 1 / 2 ^ 53) = (x : ℚ) * 9007199254740991 / 9007199254740992 := by
      norm_num
      ring
    rw [this, div_le_iff₀ (by norm_num)]
    exact h1'
  · have : (x : ℚ) * (1 + 1 / 2 ^ 53) = (x : ℚ) * 9007199254740993 / 9007199254740992 := by
      norm_num
      ring
    rw [this, le_div_iff₀ (by norm_num)]
    exact h2'

theorem near_trans (x y w lo hi lo' hi' : ℚ) (hlo : 0 ≤ lo') (hhi : 0 ≤ hi')
    (h1 : Near x y lo hi) (h2 : Near w x lo' hi') : Near w y (lo * lo') (hi * hi') := by
  obtain ⟨a1, a2⟩ := h1
  obtain ⟨b1, b2⟩ := h2
  constructor
  · calc y * (lo * lo') = y * lo * lo' := by ring
      _ ≤ x * lo' := mul_le_mul_of_nonneg_right a1 hlo
      _ ≤ w := b1
  · calc w ≤ x * hi' := b2
      _ ≤ y * hi * hi' := mul_le_mul_of_nonneg_right a2 hhi
      _ = y * (hi * hi') := by ring

theorem near_scale (x y c lo hi : ℚ) (hc : 0 ≤ c) (h : Near x y lo hi) :
    Near (x * c) (y * c) lo hi := by
  obtain ⟨a1, a2⟩ := h
  constructor
  · calc y * c * lo = y * lo * c := by ring
      _ ≤ x * c := mul_le_mul_of_nonneg_right a1 hc
  · calc x * c ≤ y * hi * c := mul_le_mul_of_nonneg_right a2 hc
      _ = y * c * hi := by ring

theorem near_div (n z d b lo hi lo' hi' : ℚ) (hz : 0 ≤ z) (hb : 0 < b) (hd : 0 < d)
    (hlo : 0 ≤ lo) (hhi : 0 ≤ hi) (hlo' : 0 < lo') (hhi' : 0 < hi')
    (h1 : Near n z lo hi) (h2 : Near d b lo' hi') :
    Near (n / d) (z / b) (lo / hi') (hi / lo') := by
  obtain ⟨a1, a2⟩ := h1
  obtain ⟨b1, b2⟩ := h2
  have hbh : 0 < b * hi' := mul_pos hb hhi'
  have hbl : 0 < b * lo' := mul_pos hb hlo'
  constructor
  · calc z / b * (lo / hi') = z * lo / (b * hi') := by field_simp
      _ ≤ z * lo / d := div_le_div_of_nonneg_left (mul_nonneg hz hlo) hd b2
      _ ≤ n / d := div_le_div_of_nonneg_right a1 (le_of_lt hd)
  · calc n / d ≤ z * hi / d := div_le_div_of_nonneg_right a2 (le_of_lt hd)
      _ ≤ z * hi / (b * lo') := div_le_div_of_nonneg_left (mul_nonneg hz hhi) hbl b1
      _ = z / b * (hi / lo') := by field_simp

/-- The significand developed by `Float64.div`, twice the quotient plus the sticky bit,
against twice the exact quotient. -/
theorem near_quotient (n d k : Nat) (hd : 0 < d) (hq : 2 ^ 54 ≤ n * 2 ^ k / d) :
    Near ((2 * (n * 2 ^ k / d) + (if n * 2 ^ k % d = 0 then 0 else 1) : ℕ) : ℚ)
      (2 * ((n : ℚ) * 2 ^ k / d)) (1 - 1 / 2 ^ 55) (1 + 1 / 2 ^ 55) := by
  have hdm := Nat.div_add_mod (n * 2 ^ k) d
  have hm := Nat.mod_lt (n * 2 ^ k) hd
  have hdq : (0 : ℚ) < d := by exact_mod_cast hd
  have hcast : (d : ℚ) * ((n * 2 ^ k / d : ℕ) : ℚ) + ((n * 2 ^ k % d : ℕ) : ℚ) =
      (n : ℚ) * 2 ^ k := by
    have : ((d * (n * 2 ^ k / d) + n * 2 ^ k % d : ℕ) : ℚ) = ((n * 2 ^ k : ℕ) : ℚ) := by
      rw [hdm]
    push_cast at this
    exact this
  have hE : (n : ℚ) * 2 ^ k / d = ((n * 2 ^ k / d : ℕ) : ℚ) + ((n * 2 ^ k % d : ℕ) : ℚ) / d := by
    rw [div_eq_iff (ne_of_gt hdq), add_mul, div_mul_cancel₀ _ (ne_of_gt hdq)]
    linarith
  have hQ : (2 : ℚ) ^ 54 ≤ ((n * 2 ^ k / d : ℕ) : ℚ) := by exact_mod_cast hq
  have hr0 : (0 : ℚ) ≤ ((n * 2 ^ k % d : ℕ) : ℚ) / d := by positivity
  have hr1 : ((n * 2 ^ k % d : ℕ) : ℚ) / d < 1 := by
    rw [div_lt_one hdq]
    exact_mod_cast hm
  rw [hE]
  unfold Near
  by_cases hr : n * 2 ^ k % d = 0
  · rw [if_pos hr, hr]
    push_cast
    generalize ((n * 2 ^ k / d : ℕ) : ℚ) = Q at hQ ⊢
    norm_num at hQ ⊢
    constructor <;> nlinarith
  · rw [if_neg hr]
    push_cast
    generalize ((n * 2 ^ k / d : ℕ) : ℚ) = Q at hQ ⊢
    generalize ((n * 2 ^ k % d : ℕ) : ℚ) / d = ρ at hr0 hr1 ⊢
    norm_num at hQ ⊢
    constructor <;> nlinarith

end Go

namespace Go

theorem near_weaken (x y lo hi lo' hi' : ℚ) (hy : 0 ≤ y) (hlo : lo' ≤ lo) (hhi : hi ≤ hi')
    (h : Near x y lo hi) : Near x y lo' hi' := by
  obtain ⟨a1, a2⟩ := h
  exact ⟨le_trans (mul_le_mul_of_nonneg_left hlo hy) a1,
    le_trans a2 (mul_le_mul_of_nonneg_left hhi hy)⟩

theorem round_hundred : Float64.round 100 = 100 := by
  decide

/-- The magnitude of `float64(z) / float64(b) * 100` against the exact `z / b * 100`. -/
theorem quotient_magnitude (z b : Nat) (hz : 0 < z) (hb : 0 < b) :
    Near
      (((Float64.round (Float64.round
          (2 * (Float64.round z *
              2 ^ (55 + bitLen (Float64.round b) - bitLen (Float64.round z)) /
              Float64.round b) +
            (if Float64.round z *
                2 ^ (55 + bitLen (Float64.round b) - bitLen (Float64.round z)) %
                Float64.round b = 0 then 0 else 1)) * Float64.round 100) : ℕ) : ℚ) *
        (2 : ℚ) ^ (-((55 + bitLen (Float64.round b) - bitLen (Float64.round z) : ℕ) : ℤ) - 1))
      ((z : ℚ) / b * 100) (1 - 1 / 2 ^ 50) (1 + 1 / 2 ^ 50) := by
  have hn : 0 < Float64.round z := round_pos z hz
  have hd : 0 < Float64.round b := round_pos b hb
  have N1 := near_round z
  have N2 := near_round b
  have hzq : (0 : ℚ) < z := by exact_mod_cast hz
  have hbq : (0 : ℚ) < b := by exact_mod_cast hb
  have hnq : (0 : ℚ) < (Float64.round z : ℚ) := by exact_mod_cast hn
  have hdq : (0 : ℚ) < (Float64.round b : ℚ) := by exact_mod_cast hd
  have ND := near_div _ _ _ _ _ _ _ _ (le_of_lt hzq) hbq hdq (by norm_num) (by norm_num)
    (by norm_num) (by norm_num) N1 N2
  have NQ := near_quotient (Float64.round z) (Float64.round b)
    (55 + bitLen (Float64.round b) - bitLen (Float64.round z)) hd
    (quotient_large _ _ hn hd)
  rw [round_hundred]
  generalize 55 + bitLen (Float64.round b) - bitLen (Float64.round z) = k at NQ ⊢
  generalize (2 * (Float64.round z * 2 ^ k / Float64.round b) +
    (if Float64.round z * 2 ^ k % Float64.round b = 0 then 0 else 1)) = M at NQ ⊢
  generalize (Float64.round z : ℚ) = n at NQ ND hnq
  generalize (Float64.round b : ℚ) = d at NQ ND hdq
  have NM1 := near_round M
  have NM2 := near_round (Float64.round M * 100)
  rw [Nat.cast_mul] at NM2
  generalize (Float64.round (Float64.round M * 100) : ℚ) = m2 at NM2 ⊢
  generalize (Float64.round M : ℚ) = m1 at NM1 NM2
  have hc : (0 : ℚ) ≤ (2 : ℚ) ^ (-(k : ℤ) - 1) := by positivity
  have hck : (2 : ℚ) * 2 ^ k * (2 : ℚ) ^ (-(k : ℤ) - 1) = 1 := by
    rw [zpow_sub₀ (by norm_num), zpow_neg, zpow_natCast, zpow_one]
    field_simp
    ring
  -- the chain from `m2` down to `z / b * 100`
  have S1 := near_scale _ _ ((100 : ℕ) : ℚ) _ _ (by norm_num) NM1
  have S2 := near_trans _ _ _ _ _ _ _ (by norm_num) (by norm_num) S1 NM2
  have S3 := near_scale _ _ ((100 : ℕ) : ℚ) _ _ (by norm_num) NQ
  have S4 := near_trans _ _ _ _ _ _ _ (by norm_num) (by norm_num) S3 S2
  have S5 := near_scale _ _ _ _ _ hc S4
  have e5 : 2 * (n * 2 ^ k / d) * ((100 : ℕ) : ℚ) * (2 : ℚ) ^ (-(k : ℤ) - 1) = n / d * 100 := by
    have : 2 * (n * 2 ^ k / d) * ((100 : ℕ) : ℚ) * (2 : ℚ) ^ (-(k : ℤ) - 1) =
        n / d * 100 * (2 * 2 ^ k * (2 : ℚ) ^ (-(k : ℤ) - 1)) := by
      push_cast
      ring
    rw [this, hck, mul_one]
  rw [e5] at S5
  have S6 := near_scale _ _ (100 : ℚ) _ _ (by norm_num) ND
  have S7 := near_trans _ _ _ _ _ _ _ (by norm_num) (by norm_num) S6 S5
  exact near_weaken _ _ _ _ _ _ (by positivity) (by norm_num) (by norm_num) S7

end Go

namespace Compare

open Go

/-- The improvement computed in binary64 differs from the exact `(b - p) / b * 100` by at
most the fraction `2 ^ -50` of it. -/
theorem improvement_accuracy (b p : Int) (hb : 0 < b) :
    |(improvement b p).toRat - ((b : ℚ) - p) / b * 100| ≤
      |((b : ℚ) - p) / b * 100| / 2 ^ 50 := by
  obtain ⟨hneg, hmant⟩ := quotient_sign (b - p) b 100 hb (by decide)
  have hbn : ((b.natAbs : ℕ) : ℚ) = (b : ℚ) := by
    rw [Nat.cast_natAbs, abs_of_pos hb]
  have hbq : (0 : ℚ) < b := by exact_mod_cast hb
  have hval : (improvement b p).toRat =
      (if b - p < 0 then -1 else 1) *
      ((((Float64.round (Float64.round
          (2 * (Float64.round (b - p).natAbs *
              2 ^ (55 + bitLen (Float64.round b.natAbs) -
                bitLen (Float64.round (b - p).natAbs)) /
              Float64.round b.natAbs) +
            (if Float64.round (b - p).natAbs *
                2 ^ (55 + bitLen (Float64.round b.natAbs) -
                  bitLen (Float64.round (b - p).natAbs)) %
                Float64.round b.natAbs = 0 then 0 else 1)) * Float64.round 100) : ℕ) : ℚ) *
        (2 : ℚ) ^ (-((55 + bitLen (Float64.round b.natAbs) -
          bitLen (Float64.round (b - p).natAbs) : ℕ) : ℤ) - 1))) := by
    have hb0 : decide (b < 0) = false := by simp; omega
    unfold Float64.toRat improvement
    simp only [Float64.mul, Float64.div, Float64.ofInt, hb0]
    have h100 : Int.natAbs 100 = 100 := rfl
    rw [h100]
    simp only [Bool.bne_false, decide_eq_true_eq, show decide ((100 : Int) < 0) = false from rfl,
      zero_sub, sub_zero, add_zero, Int.sub_zero, Int.zero_sub]
    rw [mul_assoc]
  rw [hval]
  rcases lt_trichotomy p b with h | h | h
  · have hz : 0 < (b - p).natAbs := by omega
    have hzq : (((b - p).natAbs : ℕ) : ℚ) = (b : ℚ) - p := by
      rw [Nat.cast_natAbs, abs_of_nonneg (by omega)]
      push_cast
      rfl
    have hN := quotient_magnitude (b - p).natAbs b.natAbs hz (by omega)
    rw [hzq, hbn] at hN
    rw [if_neg (by omega), one_mul]
    obtain ⟨h1, h2⟩ := hN
    have hT : 0 ≤ ((b : ℚ) - p) / b * 100 := by
      have : (0 : ℚ) ≤ (b : ℚ) - p := by
        have : p ≤ b := by omega
        have : (p : ℚ) ≤ b := by exact_mod_cast this
        linarith
      positivity
    rw [abs_of_nonneg hT, abs_le]
    constructor <;> linarith
  · subst h
    have hz : (p - p).natAbs = 0 := by simp
    rw [hz]
    simp [Go.round_zero]
  · have hz : 0 < (b - p).natAbs := by omega
    have hzq : (((b - p).natAbs : ℕ) : ℚ) = (p : ℚ) - b := by
      rw [Nat.cast_natAbs, abs_of_neg (by omega)]
      push_cast
      ring
    have hN := quotient_magnitude (b - p).natAbs b.natAbs hz (by omega)
    rw [hzq, hbn] at hN
    rw [if_pos (by omega)]
    obtain ⟨h1, h2⟩ := hN
    have hT : 0 ≤ ((p : ℚ) - b) / b * 100 := by
      have : (0 : ℚ) ≤ (p : ℚ) - b := by
        have : b ≤ p := by omega
        have : (b : ℚ) ≤ p := by exact_mod_cast this
        linarith
      positivity
    have hTs : ((b : ℚ) - p) / b * 100 = -(((p : ℚ) - b) / b * 100) := by ring
    rw [hTs, abs_neg, abs_of_nonneg hT, abs_le]
    constructor <;> linarith

end Compare

namespace Go

theorem roundDiv_error (n d : Nat) (hd : 0 < d) :
    |((roundDiv n d : ℕ) : ℚ) - (n : ℚ) / d| ≤ 1 / 2 := by
  have hdm := Nat.div_add_mod n d
  have hm := Nat.mod_lt n hd
  have hdq : (0 : ℚ) < d := by exact_mod_cast hd
  have hcast : (d : ℚ) * ((n / d : ℕ) : ℚ) + ((n % d : ℕ) : ℚ) = (n : ℚ) := by
    have : ((d * (n / d) + n % d : ℕ) : ℚ) = (n : ℚ) := by rw [hdm]
    push_cast at this
    exact this
  have hE : (n : ℚ) / d = ((n / d : ℕ) : ℚ) + ((n % d : ℕ) : ℚ) / d := by
    rw [div_eq_iff (ne_of_gt hdq), add_mul, div_mul_cancel₀ _ (ne_of_gt hdq)]
    linarith
  rw [hE]
  unfold roundDiv
  split
  · rename_i hc
    have h2 : d ≤ 2 * (n % d) := by
      rcases hc with hc | ⟨hc, -⟩ <;> omega
    have h2q : (d : ℚ) ≤ 2 * ((n % d : ℕ) : ℚ) := by exact_mod_cast h2
    have hmq : ((n % d : ℕ) : ℚ) < d := by exact_mod_cast hm
    have hr1 : (1 : ℚ) / 2 ≤ ((n % d : ℕ) : ℚ) / d := by
      rw [le_div_iff₀ hdq]
      linarith
    have hr2 : ((n % d : ℕ) : ℚ) / d < 1 := by
      rw [div_lt_one hdq]
      exact hmq
    push_cast
    rw [abs_le]
    constructor <;> linarith
  · rename_i hc
    have h2 : 2 * (n % d) ≤ d := by
      by_contra hlt
      exact hc (Or.inl (by omega))
    have h2q : 2 * ((n % d : ℕ) : ℚ) ≤ d := by exact_mod_cast h2
    have hr1 : ((n % d : ℕ) : ℚ) / d ≤ 1 / 2 := by
      rw [div_le_iff₀ hdq]
      linarith
    have hr0 : (0 : ℚ) ≤ ((n % d : ℕ) : ℚ) / d := by positivity
    rw [abs_le]
    constructor <;> linarith

/-- The digits printed by `%.1f` are those of the integer nearest to ten times the
magnitude. -/
theorem tenths_error (x : Float64) : |(x.tenths : ℚ) - |x.toRat| * 10| ≤ 1 / 2 := by
  have habs : |x.toRat| = (x.mant : ℚ) * (2 : ℚ) ^ x.exp := by
    unfold Float64.toRat
    have hpos : (0 : ℚ) ≤ (x.mant : ℚ) * (2 : ℚ) ^ x.exp := by positivity
    split
    · rw [show (-1 : ℚ) * (x.mant : ℚ) * 2 ^ x.exp = -((x.mant : ℚ) * 2 ^ x.exp) by ring,
        abs_neg, abs_of_nonneg hpos]
    · rw [one_mul, abs_of_nonneg hpos]
  rw [habs]
  unfold Float64.tenths
  cases hx : x.exp with
  | ofNat e =>
    simp only
    push_cast
    rw [show (Int.ofNat e) = (e : ℤ) from rfl, zpow_natCast]
    simp
  | negSucc e =>
    simp only
    have h := roundDiv_error (x.mant * 10) (2 ^ (e + 1)) (Nat.pow_pos (by decide))
    have he : (x.mant : ℚ) * (2 : ℚ) ^ (Int.negSucc e) * 10 =
        ((x.mant * 10 : ℕ) : ℚ) / ((2 ^ (e + 1) : ℕ) : ℚ) := by
      rw [zpow_negSucc]
      push_cast
      field_simp
    rw [he]
    exact h

end Go

/-- C13: for all baseline and partitioned averages `b > 0` and `p > 0` (nanoseconds),
`printComparison` prints the comparison line, whose indicator is computed from
`improvement = float64(b - p) / float64(b) * 100`, evaluated in binary64: this value
differs from the exact `(b - p) / b * 100` by at most the fraction `2 ^ -50` of it, and
`%.1f` prints the integer nearest to ten times its magnitude, with a point before the last
digit.  The indicator is the improvement to one decimal followed by `% faster` exactly when
`p < b`, the magnitude `-improvement` to one decimal followed by `% slower` exactly when
`p > b`, and `same` exactly when `p = b`.  With `b` = 100ms and `p` = 80ms the improvement
is 20 and the indicator reads `20.0% faster`; with `b` = 80ms and `p` = 100ms it is -25
and reads `25.0% slower`. -/
theorem comparison_indicator :
    (∀ noPart withPart : Compare.BenchResult, 0 < noPart.Avg → 0 < withPart.Avg →
      Compare.printComparison noPart withPart =
        [Compare.Event.row noPart, Compare.Event.row withPart,
          Compare.Event.comparison
            (Compare.indicator (Compare.improvement noPart.Avg withPart.Avg))]) ∧
    (∀ b p : Int, 0 < b → 0 < p →
      (p < b ↔ ∃ t, Compare.indicator (Compare.improvement b p) = t ++ "% faster") ∧
      (b < p ↔ ∃ t, Compare.indicator (Compare.improvement b p) = t ++ "% slower") ∧
      (p = b ↔ Compare.indicator (Compare.improvement b p) = "same") ∧
      (p < b → Compare.indicator (Compare.improvement b p) =
        (Compare.improvement b p).format1 ++ "% faster") ∧
      (b < p → Compare.indicator (Compare.improvement b p) =
        (Compare.improvement b p).negate.format1 ++ "% slower" ∧
        (Compare.improvement b p).negate.neg = false)) ∧
    (∀ b p : Int, 0 < b → 0 < p →
      |(Compare.improvement b p).toRat - ((b : ℚ) - p) / b * 100| ≤
        |((b : ℚ) - p) / b * 100| / 2 ^ 50) ∧
    (∀ x : Go.Float64,
      |(x.tenths : ℚ) - |x.toRat| * 10| ≤ 1 / 2 ∧
      x.format1 = (if x.neg then "-" else "") ++ Nat.repr (x.tenths / 10) ++ "." ++
        Nat.repr (x.tenths % 10)) ∧
    Compare.improvement (100 * Go.millisecond) (80 * Go.millisecond) =
      ⟨false, 20 * 2 ^ 58, -58⟩ ∧
    (⟨false, 20 * 2 ^ 58, -58⟩ : Go.Float64).toRat = 20 ∧
    (⟨true, 25 * 2 ^ 58, -58⟩ : Go.Float64).toRat = -25 ∧
    Compare.indicator (Compare.improvement (100 * Go.millisecond) (80 * Go.millisecond)) =
      "20.0% faster" ∧
    Compare.improvement (80 * Go.millisecond) (100 * Go.millisecond) =
      ⟨true, 25 * 2 ^ 58, -58⟩ ∧
    Compare.indicator (Compare.improvement (80 * Go.millisecond) (100 * Go.millisecond)) =
      "25.0% slower" := by
  refine ⟨?_, ?_, fun b p hb _ => Compare.improvement_accuracy b p hb,
    fun x => ⟨Go.tenths_error x, rfl⟩, by decide, ?_, ?_, by decide, by decide, by decide⟩
  · intro noPart withPart h1 h2
    unfold Compare.printComparison
    rw [if_pos ⟨h1, h2⟩]
    rfl
  · intro b p hb _
    obtain ⟨hf, hs, he⟩ := Compare.indicator_cases b p hb
    have hneg : b < p → (Compare.improvement b p).negate.neg = false := by
      intro h
      have := (Go.quotient_sign (b - p) b 100 hb (by decide)).1
      show (!(Compare.improvement b p).neg) = false
      rw [show (Compare.improvement b p).neg = decide (b - p < 0) from this]
      simp
      omega
    refine ⟨⟨fun h => ⟨_, hf h⟩, ?_⟩, ⟨fun h => ⟨_, hs h⟩, ?_⟩, ⟨he, ?_⟩, hf,
      fun h => ⟨hs h, hneg h⟩⟩
    · rintro ⟨t, ht⟩
      rcases lt_trichotomy p b with h | h | h
      · exact h
      · rw [he h] at ht
        exact absurd ht.symm (Compare.faster_ne_same t)
      · rw [hs h] at ht
        exact absurd ht.symm (Compare.faster_ne_slower t _)
    · rintro ⟨t, ht⟩
      rcases lt_trichotomy p b with h | h | h
      · rw [hf h] at ht
        exact absurd ht (Compare.faster_ne_slower _ t)
      · rw [he h] at ht
        exact absurd ht.symm (Compare.slower_ne_same t)
      · exact h
    · intro ht
      rcases lt_trichotomy p b with h | h | h
      · rw [hf h] at ht
        exact absurd ht (Compare.faster_ne_same _)
      · exact h
      · rw [hs h] at ht
        exact absurd ht (Compare.slower_ne_same _)
  · norm_num [Go.Float64.toRat]
  · norm_num [Go.Float64.toRat]

/-- C14: for every strategy string `ptype`, `runComparison` passes over a catalog pair
whose `PartitionType` is neither `ptype` nor `all` without any table check, query or
output; it processes every other pair, starting with the existence check of its
partitioned table; and the run returns with exactly the checks of the selected pairs, in
catalog order.  For the catalog of `getQueryPairs` this selects 4 pairs for `hash`, 4 for
`range_year`, 2 for `range_id`, 2 for `list` and 2 for `key`. -/
theorem selected_pairs_processed :
    (∀ (env : Compare.RunEnv) (ptype : String) (iterations : Int) (r : Compare.Run)
      (qp : Compare.QueryPair), ¬ (qp.PartitionType = ptype ∨ qp.PartitionType = "all") →
      Compare.comparePair env ptype iterations r qp = some r) ∧
    (∀ (env : Compare.RunEnv) (ptype : String) (n : Nat) (r : Compare.Run)
      (qp : Compare.QueryPair), qp.PartitionType = ptype ∨ qp.PartitionType = "all" →
      ∃ r', Compare.comparePair env ptype n r qp = some r' ∧
        r'.checks = r.checks ++ [Compare.extractTableName qp.WithPartition] ∧
        r'.out ≠ r.out) ∧
    (∀ (env : Compare.RunEnv) (ptype : String) (n : Nat),
      ∃ r, Compare.runComparison env ptype n = some r ∧
        r.checks = ((Compare.getQueryPairs ptype).filter
          (fun qp => decide (qp.PartitionType = ptype ∨ qp.PartitionType = "all"))).map
          (fun qp => Compare.extractTableName qp.WithPartition)) ∧
    (["hash", "range_year", "range_id", "list", "key"].map (fun ptype =>
      ((Compare.getQueryPairs ptype).filter
        (fun qp => decide (qp.PartitionType = ptype ∨ qp.PartitionType = "all"))).length)) =
      [4, 4, 2, 2, 2] ∧
    (Compare.getQueryPairs "hash").length = 14 ∧
    (Compare.runComparison (Compare.runEnvOf [1, 1, 1, 1]) "range_id" 1).map
        (fun r => (r.checks, r.calls)) =
      some (["books_range_id", "books_range_id"],
        List.replicate 4 "SELECT id, title FROM books WHERE id BETWEEN 50000 AND 99999" ++
        List.replicate 4
          "SELECT id, title FROM books_range_id WHERE id BETWEEN 50000 AND 99999" ++
        List.replicate 4 "SELECT id, title FROM books WHERE id BETWEEN 95000 AND 105000" ++
        List.replicate 4
          "SELECT id, title FROM books_range_id WHERE id BETWEEN 95000 AND 105000") := by
  refine ⟨?_, ?_, ?_, by decide, by decide, by decide⟩
  · intro env ptype iterations r qp h
    exact Compare.comparePair_other env ptype iterations r qp (by simpa [Compare.selected] using h)
  · intro env ptype n r qp h
    have hs : Compare.selected ptype qp = true := by simpa [Compare.selected] using h
    cases ht : env.table r.checks.length with
    | none =>
      exact ⟨_, Compare.comparePair_missing env ptype n r qp hs (by simp [ht]), rfl,
        by simp⟩
    | some c =>
      by_cases hc : 0 < c
      · obtain ⟨res1, res2, e, -, -, h3⟩ :=
          Compare.comparePair_present env ptype n r qp hs c ht hc
        refine ⟨_, h3, rfl, ?_⟩
        show r.out ++ [Compare.Event.pair qp.Name qp.Description] ++
          Compare.printComparison res1 res2 ≠ r.out
        intro h
        have := congrArg List.length h
        simp at this
      · exact ⟨_, Compare.comparePair_missing env ptype n r qp hs
          (by intro c' hc'; rw [ht] at hc'; cases hc'; omega), rfl, by simp⟩
  · intro env ptype n
    obtain ⟨r, hr, hc⟩ := Compare.comparePairs_checks env ptype n
      (Compare.getQueryPairs ptype) ⟨[], [], 0, [Compare.Event.header ptype]⟩
    exact ⟨r, hr, by rw [hc]; rfl⟩

/-- C15: for every selected pair in `runComparison`: if the existence check of the table
named by `extractTableName(pair.WithPartition)` fails (the scan fails or the count is not
positive), the pair is reported as SKIPPED and no query is executed; otherwise the
`NoPartition` query and then the `WithPartition` query are benchmarked by `benchmark`
with the same iteration count `n`, each being executed `3 + n` times (3 warmup runs and
`n` timed runs), and their results are printed.  In the catalog the table named is the
partitioned table of the pair. -/
theorem missing_table_skips_pair :
    (∀ (env : Compare.RunEnv) (ptype : String) (iterations : Int) (r : Compare.Run)
      (qp : Compare.QueryPair), qp.PartitionType = ptype ∨ qp.PartitionType = "all" →
      (∀ c, env.table r.checks.length = some c → c ≤ 0) →
      Compare.comparePair env ptype iterations r qp =
        some ⟨r.checks ++ [Compare.extractTableName qp.WithPartition], r.calls, r.errors,
          r.out ++ [Compare.Event.skipped qp.Name]⟩) ∧
    (∀ (env : Compare.RunEnv) (ptype : String) (n : Nat) (r : Compare.Run)
      (qp : Compare.QueryPair) (c : Int), qp.PartitionType = ptype ∨ qp.PartitionType = "all" →
      env.table r.checks.length = some c → 0 < c →
      ∃ resultNoPart resultWithPart e,
        Compare.benchmark (fun k => env.query (r.calls.length + k)) "No Partition"
          qp.NoPartition n = some resultNoPart ∧
        Compare.benchmark (fun k => env.query (r.calls.length + (3 + n) + k))
          "With Partition" qp.WithPartition n = some resultWithPart ∧
        Compare.comparePair env ptype n r qp =
          some ⟨r.checks ++ [Compare.extractTableName qp.WithPartition],
            r.calls ++ List.replicate (3 + n) qp.NoPartition ++
              List.replicate (3 + n) qp.WithPartition,
            e,
            r.out ++ [Compare.Event.pair qp.Name qp.Description] ++
              Compare.printComparison resultNoPart resultWithPart⟩) ∧
    (Compare.getQueryPairs "key").map (fun qp => Compare.extractTableName qp.WithPartition) =
      ["books_hash", "books_hash", "books_hash", "books_hash", "books_range_year",
        "books_range_year", "books_range_year", "books_range_year", "books_range_id",
        "books_range_id", "books_list", "books_list", "book_tags_key", "book_tags_key"] ∧
    (Compare.runComparison (Compare.runEnvOf [0, 1]) "key" 2).map
        (fun r => (r.checks, r.calls, r.out.take 3)) =
      some (["book_tags_key", "book_tags_key"],
        List.replicate 5 "SELECT * FROM book_tags WHERE book_id = 100" ++
          List.replicate 5 "SELECT * FROM book_tags_key WHERE book_id = 100",
        [Compare.Event.header "key", Compare.Event.skipped "Composite Key Lookup",
          Compare.Event.pair "Partial Key Lookup"
            "SELECT by partial key - may scan all partitions"]) ∧
    (Compare.runComparison (Compare.runEnvOf []) "list" 2).map
        (fun r => (r.checks, r.calls, r.out)) =
      some (["books_list", "books_list"], [],
        [Compare.Event.header "list", Compare.Event.skipped "Status Filter (single value)",
          Compare.Event.skipped "Status Filter (multiple values)"]) := by
  refine ⟨?_, ?_, by decide, by decide, by decide⟩
  · intro env ptype iterations r qp h ht
    exact Compare.comparePair_missing env ptype iterations r qp
      (by simpa [Compare.selected] using h) ht
  · intro env ptype n r qp c h ht hc
    exact Compare.comparePair_present env ptype n r qp
      (by simpa [Compare.selected] using h) c ht hc

/-- C16, where the code departs from it: the pair `Status Filter (single value)` of the
catalog compares `SELECT COUNT(*) FROM books` with
`SELECT COUNT(*) FROM books_list WHERE status = 1`, which is not the base query with its
table renamed (that is `SELECT COUNT(*) FROM books_list`): the partitioned query has a
predicate that the base query lacks. -/
theorem list_pair_adds_predicate :
    (Compare.getQueryPairs "list")[10]?.map
        (fun qp => (qp.Name, qp.PartitionType, qp.NoPartition, qp.WithPartition,
          Compare.renamedTables qp.PartitionType qp.NoPartition)) =
      some ("Status Filter (single value)", "list", "SELECT COUNT(*) FROM books",
        "SELECT COUNT(*) FROM books_list WHERE status = 1",
        "SELECT COUNT(*) FROM books_list") ∧
    "SELECT COUNT(*) FROM books_list WHERE status = 1" ≠ "SELECT COUNT(*) FROM books_list" := by
  decide

set_option maxRecDepth 100000 in
/-- C16, as the code has it: for each of the 12 pairs of the catalog of `getQueryPairs`
whose strategy is not `list`, the `WithPartition` text equals the `NoPartition` text with
each base table name (`books`, `book_tags`) replaced by the partitioned table name of the
pair's strategy, and is otherwise identical; for the 2 pairs of strategy `list` the
`NoPartition` text is `SELECT COUNT(*) FROM books` and the `WithPartition` text is its
renaming followed by a predicate on `status`. -/
theorem catalog_pairs_rename_tables :
    (∀ qp ∈ Compare.getQueryPairs "all", qp.PartitionType ≠ "list" →
      qp.WithPartition = Compare.renamedTables qp.PartitionType qp.NoPartition) ∧
    (∀ qp ∈ Compare.getQueryPairs "all", qp.PartitionType = "list" →
      qp.NoPartition = "SELECT COUNT(*) FROM books" ∧
      (qp.WithPartition =
          Compare.renamedTables qp.PartitionType qp.NoPartition ++ " WHERE status = 1" ∨
        qp.WithPartition =
          Compare.renamedTables qp.PartitionType qp.NoPartition ++
            " WHERE status IN (0, 1)")) ∧
    ((Compare.getQueryPairs "all").filter (fun qp => qp.PartitionType ≠ "list")).length = 12 ∧
    ((Compare.getQueryPairs "all").filter (fun qp => qp.PartitionType = "list")).length = 2 ∧
    (∀ ptype, Compare.getQueryPairs ptype = Compare.getQueryPairs "all") := by
  refine ⟨by decide, by decide, by decide, by decide, fun _ => rfl⟩

namespace Go

/-! ## Order of the statistics -/

theorem sum_bounds (d : List Int) (lo hi : Int) (hlo : ∀ x ∈ d, lo ≤ x) (hhi : ∀ x ∈ d, x ≤ hi) :
    lo * d.length ≤ d.sum ∧ d.sum ≤ hi * d.length := by
  induction d with
  | nil => simp
  | cons x xs ih =>
    obtain ⟨h1, h2⟩ := ih (fun y hy => hlo y (List.mem_cons_of_mem _ hy))
      (fun y hy => hhi y (List.mem_cons_of_mem _ hy))
    have hx1 := hlo x (List.mem_cons_self _ _)
    have hx2 := hhi x (List.mem_cons_self _ _)
    simp only [List.sum_cons, List.length_cons]
    push_cast
    constructor
    · nlinarith
    · nlinarith

/-- The mean of a non-empty slice of non-negative durations lies between any lower and
any upper bound of its elements. -/
theorem mean_bounds (d : List Int) (lo hi : Int) (hd : d ≠ []) (hnn : ∀ x ∈ d, 0 ≤ x)
    (hlo : ∀ x ∈ d, lo ≤ x) (hhi : ∀ x ∈ d, x ≤ hi) :
    lo ≤ d.sum.tdiv d.length ∧ d.sum.tdiv d.length ≤ hi := by
  have hn : (0 : Int) < d.length := by
    have := List.length_pos.mpr hd
    omega
  obtain ⟨h1, h2⟩ := sum_bounds d lo hi hlo hhi
  have h0 : 0 ≤ d.sum := List.sum_nonneg hnn
  rw [Int.tdiv_eq_ediv h0 (by omega)]
  exact ⟨Int.le_ediv_of_mul_le hn h1, Int.ediv_le_of_le_mul hn h2⟩

theorem sortSlice_mem (d : List Int) (i : Nat) (x : Int) (h : (sortSlice d)[i]? = some x) :
    x ∈ d := by
  obtain ⟨hi, rfl⟩ := List.getElem?_eq_some_iff.mp h
  exact (sortSlice_perm d).mem_iff.mp (List.getElem_mem hi)

theorem sortSlice_mono (d : List Int) (i j : Nat) (x y : Int) (hij : i ≤ j)
    (hx : (sortSlice d)[i]? = some x) (hy : (sortSlice d)[j]? = some y) : x ≤ y := by
  obtain ⟨hi, rfl⟩ := List.getElem?_eq_some_iff.mp hx
  obtain ⟨hj, rfl⟩ := List.getElem?_eq_some_iff.mp hy
  rcases Nat.lt_or_ge i j with h | h
  · exact List.pairwise_iff_getElem.mp (sortSlice_sorted d) i j hi hj h
  · have : i = j := by omega
    subst this
    exact le_refl _

/-- The statistics of a non-empty slice of non-negative durations are ordered, with the
running minimum started at `init` and the running maximum started at 0. -/
theorem stats_ordered (d : List Int) (init avg median p95 : Int) (hd : d ≠ [])
    (hnn : ∀ x ∈ d, 0 ≤ x) (hs : IsStatsOf d avg median p95) :
    minFrom init d ≤ median ∧ median ≤ p95 ∧ p95 ≤ maxFrom 0 d ∧
    minFrom init d ≤ avg ∧ avg ≤ maxFrom 0 d := by
  obtain ⟨ha, hm, hp⟩ := hs
  obtain ⟨-, hlo, -⟩ := minFrom_spec init d
  obtain ⟨-, hhi, -⟩ := maxFrom_spec 0 d
  have hn : 0 < d.length := List.length_pos.mpr hd
  have hidx : d.length / 2 ≤ min ⌊(d.length : ℚ) * 95 / 100⌋₊ (d.length - 1) := by
    rw [← p95Index_eq_floor]
    unfold p95Index
    omega
  obtain ⟨h1, h2⟩ := mean_bounds d _ _ hd hnn hlo hhi
  refine ⟨hlo _ (sortSlice_mem d _ _ hm), sortSlice_mono d _ _ _ _ hidx hm hp,
    hhi _ (sortSlice_mem d _ _ hp), by rw [ha]; exact h1, by rw [ha]; exact h2⟩

theorem IsStatsOf_unique (d : List Int) (a m p a' m' p' : Int)
    (h : IsStatsOf d a m p) (h' : IsStatsOf d a' m' p') : a = a' ∧ m = m' ∧ p = p' := by
  obtain ⟨h1, h2, h3⟩ := h
  obtain ⟨h1', h2', h3'⟩ := h'
  rw [h2] at h2'
  rw [h3] at h3'
  exact ⟨by rw [h1, h1'], Option.some.inj h2', Option.some.inj h3'⟩

end Go

namespace Benchmark

open Go

/-- What `runBenchmark` returns, in terms of the durations it recorded. -/
theorem run_summary (env : Env) (name query : String) (iterations : Int) (l : Loop)
    (h : timed env name query iterations = some l) :
    ∃ r, runBenchmark env name query iterations = some r ∧
      l.durations = recorded env iterations.toNat ∧
      r.MinTime = minFrom hour l.durations ∧ r.MaxTime = maxFrom 0 l.durations ∧
      (l.durations = [] → r.AvgTime = 0 ∧ r.MedianTime = 0 ∧ r.P95Time = 0) ∧
      (l.durations ≠ [] → IsStatsOf l.durations r.AvgTime r.MedianTime r.P95Time) := by
  obtain ⟨-, -, -, hrec, -, hz, hmin, hmax, htot⟩ := timed_inv env name query iterations l h
  by_cases hd : l.durations = []
  · refine ⟨l.result, ?_, hrec, hmin, hmax, fun _ => hz, fun hne => absurd hd hne⟩
    simp only [runBenchmark, h, hd]
    rfl
  · obtain ⟨r, hr, ha, hm, hp, hrmin, hrmax⟩ := finish_spec l.result l.durations hd
    refine ⟨r, by simp only [runBenchmark, h, hr], hrec, by rw [hrmin, hmin],
      by rw [hrmax, hmax], fun he => absurd he hd, fun _ => ⟨?_, hm, hp⟩⟩
    rw [ha, htot]

end Benchmark

namespace Compare

open Go

/-- What `benchmark` returns, in terms of the durations it recorded. -/
theorem compare_run_summary (env : Env) (name query : String) (iterations : Int)
    (hn : 0 ≤ iterations) :
    ∃ r, benchmark env name query iterations = some r ∧
      r.Durations = recorded env iterations.toNat ∧
      r.Min = minFrom hour r.Durations ∧ r.Max = maxFrom 0 r.Durations ∧
      (r.Durations = [] → r.Avg = 0 ∧ r.Median = 0 ∧ r.P95 = 0) ∧
      (r.Durations ≠ [] → IsStatsOf r.Durations r.Avg r.Median r.P95) := by
  obtain ⟨l, hl, -, hrec, -, hz, hmin, hmax⟩ := compare_timed_inv env name query iterations hn
  by_cases hd : l.result.Durations = []
  · refine ⟨l.result, ?_, hrec, hmin, hmax, fun _ => hz, fun hne => absurd hd hne⟩
    simp only [benchmark, hl]
    unfold finish
    rw [hd]
    rfl
  · obtain ⟨r, hr, hs, hrd, hrmin, hrmax⟩ := benchmark_finish_spec l.result hd
    refine ⟨r, by simp only [benchmark, hl, hr], by rw [hrd, hrec], by rw [hrmin, hmin, hrd],
      by rw [hrmax, hmax, hrd], fun he => absurd (by rw [← hrd]; exact he) hd,
      fun _ => by rw [hrd]; exact hs⟩

theorem compare_recorded_eq (env : Benchmark.Env) (i : Nat) :
    recorded env.query i = Benchmark.recorded env i := rfl

end Compare

namespace Compare

open Go

theorem compare_finish_Durations (r r' : BenchResult) (h : finish r = some r') :
    r'.Durations = r.Durations := by
  by_cases hd : r.Durations = []
  · have : finish r = some r := by
      unfold finish
      rw [hd]
      rfl
    rw [this] at h
    rw [← Option.some.inj h]
  · obtain ⟨r'', hr, -, hrd, -⟩ := benchmark_finish_spec r hd
    rw [hr] at h
    rw [← Option.some.inj h]
    exact hrd

end Compare

namespace Benchmark

open Go

theorem initParams_range (env : Env) (query : String) (w : World)
    (hr : isRange query = true) :
    initParams env query w =
      drawRange env (env.scan w.scans.length)
        { w with scans := w.scans ++ [IdSpace.books.sql, IdSpace.authors.sql, IdSpace.tags.sql] } := by
  unfold isRange at hr
  rw [Bool.and_eq_true, decide_eq_true_eq] at hr
  obtain ⟨hb, hc⟩ := hr
  have hq := Contains_of_Count query (by omega)
  unfold initParams
  simp only [scanMax, hq, if_true]
  rw [if_pos hb, if_pos hc]
  simp [IdSpace.sql]

theorem iterParams_range (env : Env) (query : String) (p : List Int) (w : World)
    (hr : isRange query = true) (hp : p.length = 2) :
    iterParams env query p w =
      drawRange env (env.scan w.scans.length)
        { w with scans := w.scans ++ [IdSpace.books.sql] } := by
  unfold isRange at hr
  rw [Bool.and_eq_true, decide_eq_true_eq] at hr
  obtain ⟨hb, hc⟩ := hr
  have hq := Contains_of_Count query (by omega)
  unfold iterParams
  have hpos : decide (p.length > 0) = true := by simp; omega
  simp only [scanMax, hq, hpos, Bool.and_self, if_true]
  rw [if_pos hb, if_pos hp]
  rfl

theorem drawRange_none (env : Env) (maxID : Int) (w : World) (h : maxID ≤ 100) :
    drawRange env maxID w = none := by
  unfold drawRange Int63n
  rw [if_pos (by omega)]

end Benchmark

namespace Go

theorem Contains_eq_false_of_Count (s : String) (h : Count s '?' = 0) :
    Contains s "?" = false := by
  unfold Contains
  rw [Bool.eq_false_iff]
  intro hc
  have := (occursIn_singleton '?' s.data).mp hc
  have := List.count_pos_iff.mpr this
  unfold Count at h
  omega

end Go

namespace Benchmark

open Go

theorem initParams_plain (env : Env) (query : String) (w : World)
    (hq : Contains query "?" = false) : initParams env query w = some ([], w) := by
  unfold initParams
  rw [if_neg (by simp [hq])]

theorem iterParams_plain (env : Env) (query : String) (p : List Int) (w : World)
    (hq : Contains query "?" = false) : iterParams env query p w = some (p, w) := by
  unfold iterParams
  rw [if_neg (by simp [hq])]

theorem timedLoop_plain (env : Env) (query : String) (hq : Contains query "?" = false) :
    ∀ (n i : Nat) (l : Loop),
      l.w.calls = List.replicate (warmupIterations + i) (query, []) → l.params = [] →
      l.w.scans = [] → l.w.pos = 0 →
      ∃ l', timedLoop env query n l = some l' ∧
        l'.w.calls = List.replicate (warmupIterations + (i + n)) (query, []) ∧
        l'.w.scans = [] ∧ l'.w.pos = 0 := by
  intro n
  induction n with
  | zero => intro i l hc _ hs hp; exact ⟨l, rfl, hc, hs, hp⟩
  | succ n ih =>
    intro i l hc hpar hs hp
    have hcalls : l.w.calls ++ [(query, l.params)] =
        List.replicate (warmupIterations + (i + 1)) (query, []) := by
      rw [hc, hpar, ← Nat.add_assoc, List.replicate_succ']
    have hstep : ∃ l1, timedIter env query l = some l1 ∧
        l1.w.calls = List.replicate (warmupIterations + (i + 1)) (query, []) ∧
        l1.params = [] ∧ l1.w.scans = [] ∧ l1.w.pos = 0 := by
      unfold timedIter
      rw [iterParams_plain env query l.params l.w hq]
      simp only [doQuery]
      cases env.query l.w.calls.length with
      | none => exact ⟨_, rfl, hcalls, hpar, hs, hp⟩
      | some rd => exact ⟨_, rfl, hcalls, hpar, hs, hp⟩
    obtain ⟨l1, h1, hc1, hpar1, hs1, hp1⟩ := hstep
    obtain ⟨l2, h2, hc2, hs2, hp2⟩ := ih (i + 1) l1 hc1 hpar1 hs1 hp1
    refine ⟨l2, ?_, by rw [hc2]; congr 2; omega, hs2, hp2⟩
    show (match timedIter env query l with
      | none => none
      | some l' => timedLoop env query n l') = some l2
    rw [h1]
    exact h2

/-- The whole run on a query without placeholder: no scan, no draw, no parameter. -/
theorem timed_plain (env : Env) (name query : String) (n : Nat)
    (hq : Contains query "?" = false) :
    ∃ l, timed env name query n = some l ∧
      l.w.calls = List.replicate (warmupIterations + n) (query, []) ∧
      l.w.scans = [] ∧ l.w.pos = 0 := by
  unfold timed
  rw [if_neg (by omega), initParams_plain env query World.init hq]
  simp only [Int.toNat_ofNat]
  obtain ⟨hc, -, hs, hp⟩ := warmup_spec env query [] warmupIterations World.init
  have h0 := timedLoop_plain env query hq n 0
  simp only [Nat.zero_add] at h0
  apply h0
  · show (warmup _ _ _ _ _).calls = _
    rw [hc]
    rfl
  · rfl
  · show (warmup _ _ _ _ _).scans = _
    rw [hs]
    rfl
  · show (warmup _ _ _ _ _).pos = _
    rw [hp]
    rfl

set_option maxRecDepth 100000 in
/-- Every query of the catalog is a book query with two placeholders, a classified query
with one placeholder, or has no placeholder. -/
theorem benchmarks_classified :
    ∀ b ∈ benchmarks,
      (Count b.2 '?' = 2 ∧ isBookQuery b.2 = true) ∨
      (Count b.2 '?' = 1 ∧ classify b.2 ≠ none) ∨
      Count b.2 '?' = 0 := by
  decide

/-- The parameters of a run agree in number with the placeholders, for a book query with
two placeholders, a classified query with one, and a query with none. -/
theorem timed_param_count (env : Env) (name query : String) (n : Nat)
    (hcl : (Count query '?' = 2 ∧ isBookQuery query = true) ∨
      (Count query '?' = 1 ∧ classify query ≠ none) ∨ Count query '?' = 0)
    (hm : MaxOk env query) :
    ∃ l, timed env name query n = some l ∧ l.w.calls.length = warmupIterations + n ∧
      ∀ c ∈ l.w.calls, c.1 = query ∧ c.2.length = Count query '?' := by
  rcases hcl with ⟨hc, hb⟩ | ⟨hc, ht⟩ | hc
  · have hr : isRange query = true := by
      unfold isRange
      rw [hb, hc]
      rfl
    obtain ⟨l, hl, hi⟩ := timed_param env name query IdSpace.books n
      (Contains_of_Count query (by omega)) (classify_book query hb) hm
    obtain ⟨hlen, hall⟩ := ParamInv_calls env query _ n l hi
    refine ⟨l, hl, hlen, fun c hcm => ?_⟩
    obtain ⟨h1, x, m, h2⟩ := hall c hcm
    rw [hr] at h2
    exact ⟨h1, by rw [h2, hc]; rfl⟩
  · obtain ⟨t, ht'⟩ := Option.ne_none_iff_exists'.mp ht
    have hr : isRange query = false := by
      unfold isRange
      rw [hc]
      simp
    obtain ⟨l, hl, hi⟩ := timed_param env name query t n
      (Contains_of_Count query (by omega)) ht' hm
    obtain ⟨hlen, hall⟩ := ParamInv_calls env query _ n l hi
    refine ⟨l, hl, hlen, fun c hcm => ?_⟩
    obtain ⟨h1, x, m, h2⟩ := hall c hcm
    rw [hr] at h2
    exact ⟨h1, by rw [h2, hc]; rfl⟩
  · obtain ⟨l, hl, hcalls, -⟩ := timed_plain env name query n
      (Contains_eq_false_of_Count query hc)
    refine ⟨l, hl, by rw [hcalls]; simp, fun c hcm => ?_⟩
    rw [hcalls] at hcm
    rw [List.eq_of_mem_replicate hcm]
    exact ⟨rfl, by rw [hc]; rfl⟩

end Benchmark

/-- C22: in the compare tool, the statistics step of `benchmark` leaves the field
`Durations` as it was (the sort works on a copy), and the `BenchResult` that `benchmark`
returns holds in `Durations` the durations of the successful timed executions in
iteration order.  With the samples 30, 10, 20 it returns `Durations` = 30, 10, 20 and the
median 20. -/
theorem durations_in_insertion_order :
    (∀ r r' : Compare.BenchResult, Compare.finish r = some r' →
      r'.Durations = r.Durations) ∧
    (∀ (env : Compare.Env) (name query : String) (n : Nat),
      ∃ r, Compare.benchmark env name query n = some r ∧
        r.Durations = (List.range n).filterMap (fun i => (env (3 + i)).map Prod.snd)) ∧
    (∀ (d : List Int) (name query : String),
      ∃ r, Compare.benchmark (Compare.envOf d) name query d.length = some r ∧
        r.Durations = d) ∧
    (Compare.benchmark (Compare.envOf [30, 10, 20]) "bench" "SELECT 1" 3).map
        (fun r => (r.Durations, r.Median)) = some ([30, 10, 20], 20) ∧
    Go.sortSlice [30, 10, 20] = [10, 20, 30] := by
  refine ⟨Compare.compare_finish_Durations, ?_, ?_, by decide, by decide⟩
  · intro env name query n
    obtain ⟨r, hr, hd, -⟩ := Compare.compare_run_summary env name query n (by omega)
    rw [Int.toNat_ofNat] at hd
    exact ⟨r, hr, hd⟩
  · intro d name query
    obtain ⟨l, hl, hld⟩ := Compare.benchmark_timed_envOf d name query
    obtain ⟨r, hr⟩ := Compare.compare_finish_some l.result
    refine ⟨r, by simp only [Compare.benchmark, hl, hr], ?_⟩
    rw [Compare.compare_finish_Durations _ _ hr, hld]

set_option maxRecDepth 100000 in
/-- C24: for the 13-query catalog of the benchmark tool, the substring classification of
`runBenchmark` gives `Primary key lookup` one book id, `Complex JOIN (books -> tags)` a
book-id range pair, `Author lookup with books count` one author id and
`Books with specific tag` one tag id, the other 9 queries having no placeholder; every
execution of a catalog query is given as many parameters as the query has placeholders
(none for the 9), and the parameters of a parameterised query are computed from the
maximum id of its table: the one read before the warmup for the warmup executions, the one
read in the same iteration for a timed execution. -/
theorem catalog_parameters :
    Benchmark.benchmarks.map
        (fun b => (b.1, Go.Count b.2 '?',
          if Go.Contains b.2 "?" then Benchmark.classify b.2 else none,
          Benchmark.isRange b.2)) =
      [("Simple SELECT with LIMIT", 0, none, false),
       ("Primary key lookup", 1, some Benchmark.IdSpace.books, false),
       ("Date range query (1 month)", 0, none, false),
       ("Date range query (1 year)", 0, none, false),
       ("Author lookup with books count", 1, some Benchmark.IdSpace.authors, false),
       ("JOIN books with authors", 0, none, false),
       ("Books with specific tag", 1, some Benchmark.IdSpace.tags, false),
       ("Count books by author (TOP 10)", 0, none, false),
       ("Count books by year", 0, none, false),
       ("Full table count", 0, none, false),
       ("Count with date filter", 0, none, false),
       ("Complex JOIN (books -> tags)", 2, some Benchmark.IdSpace.books, true),
       ("Subquery: Books by prolific authors", 0, none, false)] ∧
    (∀ b ∈ Benchmark.benchmarks, ∀ (env : Benchmark.Env) (n : Nat),
      Benchmark.MaxOk env b.2 →
      ∃ l, Benchmark.timed env b.1 b.2 n = some l ∧ l.w.calls.length = 3 + n ∧
        ∀ c ∈ l.w.calls, c.1 = b.2 ∧ c.2.length = Go.Count b.2 '?') ∧
    (∀ b ∈ Benchmark.benchmarks, ∀ (t : Benchmark.IdSpace) (env : Benchmark.Env) (n : Nat),
      Go.Contains b.2 "?" = true → Benchmark.classify b.2 = some t →
      Benchmark.MaxOk env b.2 →
      ∃ l, Benchmark.timed env b.1 b.2 n = some l ∧
        l.w.scans = ["SELECT COALESCE(MAX(id), 1) FROM books",
          "SELECT COALESCE(MAX(id), 1) FROM authors",
          "SELECT COALESCE(MAX(id), 1) FROM tags"] ++ List.replicate n t.sql ∧
        l.w.calls = (List.range (3 + n)).map (fun k => (b.2,
          if k < 3 then
            Benchmark.drawn (Benchmark.isRange b.2) (env.rnd 0) (env.scan t.index)
          else Benchmark.drawn (Benchmark.isRange b.2) (env.rnd (k - 2)) (env.scan k)))) ∧
    (Benchmark.benchmarks.map (fun b =>
      (Benchmark.timed (Benchmark.envMax 1000) b.1 b.2 1).map
        (fun l => (l.w.calls.map Prod.snd, l.w.scans.drop 3)))) =
      [some ([[], [], [], []], []),
       some ([[4], [4], [4], [11]], ["SELECT COALESCE(MAX(id), 1) FROM books"]),
       some ([[], [], [], []], []),
       some ([[], [], [], []], []),
       some ([[4], [4], [4], [11]], ["SELECT COALESCE(MAX(id), 1) FROM authors"]),
       some ([[], [], [], []], []),
       some ([[4], [4], [4], [11]], ["SELECT COALESCE(MAX(id), 1) FROM tags"]),
       some ([[], [], [], []], []),
       some ([[], [], [], []], []),
       some ([[], [], [], []], []),
       some ([[], [], [], []], []),
       some ([[4, 104], [4, 104], [4, 104], [11, 111]],
         ["SELECT COALESCE(MAX(id), 1) FROM books"]),
       some ([[], [], [], []], [])] := by
  refine ⟨by decide, ?_, ?_, by decide⟩
  · intro b hb env n hm
    exact Benchmark.timed_param_count env b.1 b.2 n (Benchmark.benchmarks_classified b hb) hm
  · intro b _ t env n hq ht hm
    obtain ⟨l, hl, -, hs, -, hc⟩ := Benchmark.timed_param env b.1 b.2 t n hq ht hm
    exact ⟨l, hl, hs, hc⟩

/-- C25: for every sample count `n ≥ 1` the p95 index `⌊n * 0.95⌋` is at most `n - 1`,
so the test `p95Index >= len` of the clamp is false, and the median index `⌊n / 2⌋` is
below `n` as well; hence the statistics step of `runBenchmark` and of `benchmark` returns
for every non-empty slice, reading the sorted slice at `⌊n / 2⌋` and at `⌊n * 0.95⌋`
itself.  The binary64 evaluation of `int(float64(n) * 0.95)` is at most `n - 1` too, for
`n < 2 ^ 48`.  For `n` = 1, 20, 100 the index is 0, 19, 95. -/
theorem percentile_indices_valid :
    (∀ n : Nat, 1 ≤ n →
      Go.p95Index n = ⌊(n : ℚ) * 95 / 100⌋₊ ∧ Go.p95Index n ≤ n - 1 ∧
      ¬ (Go.p95Index n ≥ n) ∧ n / 2 < n) ∧
    (∀ n : Nat, 1 ≤ n → n < 2 ^ 48 → Go.p95IndexF64 n ≤ n - 1) ∧
    (∀ (r : Benchmark.BenchmarkResult) (d : List Int), d ≠ [] →
      ∃ r', Benchmark.finish r d = some r' ∧
        (Go.sortSlice d)[d.length / 2]? = some r'.MedianTime ∧
        (Go.sortSlice d)[Go.p95Index d.length]? = some r'.P95Time) ∧
    (∀ r : Compare.BenchResult, r.Durations ≠ [] →
      ∃ r', Compare.finish r = some r' ∧
        (Go.sortSlice r.Durations)[r.Durations.length / 2]? = some r'.Median ∧
        (Go.sortSlice r.Durations)[Go.p95Index r.Durations.length]? = some r'.P95) ∧
    [Go.p95Index 1, Go.p95Index 20, Go.p95Index 100] = [0, 19, 95] := by
  have hmin : ∀ n : Nat, 1 ≤ n → min ⌊(n : ℚ) * 95 / 100⌋₊ (n - 1) = Go.p95Index n := by
    intro n hn
    rw [← Go.p95Index_eq_floor]
    have := Go.p95Index_lt n (by omega)
    omega
  refine ⟨?_, ?_, ?_, ?_, by decide⟩
  · intro n hn
    have := Go.p95Index_lt n (by omega)
    exact ⟨Go.p95Index_eq_floor n, by omega, by omega, by omega⟩
  · intro n hn h48
    rw [Go.p95IndexF64_eq n h48]
    have := Go.p95Index_lt n (by omega)
    omega
  · intro r d hd
    obtain ⟨r', hr, -, hm, hp, -⟩ := Benchmark.finish_spec r d hd
    rw [hmin d.length (List.length_pos.mpr hd)] at hp
    exact ⟨r', hr, hm, hp⟩
  · intro r hd
    obtain ⟨r', hr, ⟨-, hm, hp⟩, -⟩ := Compare.benchmark_finish_spec r hd
    rw [hmin r.Durations.length (List.length_pos.mpr hd)] at hp
    exact ⟨r', hr, hm, hp⟩

/-- C26: for every non-empty sequence of non-negative recorded durations, `runBenchmark`
and `benchmark` return statistics that are ordered: `Min ≤ Median ≤ P95 ≤ Max` and
`Min ≤ Avg ≤ Max`.  On the samples 10ms .. 50ms: 10, 30, 50, 50 and 10, 30, 50. -/
theorem statistics_ordered :
    (∀ (env : Benchmark.Env) (name query : String) (iterations : Int) (l : Benchmark.Loop),
      Benchmark.timed env name query iterations = some l → l.durations ≠ [] →
      (∀ d ∈ l.durations, 0 ≤ d) →
      ∃ r, Benchmark.runBenchmark env name query iterations = some r ∧
        r.MinTime ≤ r.MedianTime ∧ r.MedianTime ≤ r.P95Time ∧ r.P95Time ≤ r.MaxTime ∧
        r.MinTime ≤ r.AvgTime ∧ r.AvgTime ≤ r.MaxTime) ∧
    (∀ (env : Compare.Env) (name query : String) (n : Nat),
      ∃ r, Compare.benchmark env name query n = some r ∧
        (r.Durations ≠ [] → (∀ d ∈ r.Durations, 0 ≤ d) →
          r.Min ≤ r.Median ∧ r.Median ≤ r.P95 ∧ r.P95 ≤ r.Max ∧
          r.Min ≤ r.Avg ∧ r.Avg ≤ r.Max)) ∧
    (Benchmark.runBenchmark (Benchmark.envOf Go.samples) "bench" "SELECT 1" 5).map
        (fun r => [r.MinTime, r.MedianTime, r.P95Time, r.MaxTime, r.AvgTime]) =
      some [10 * Go.millisecond, 30 * Go.millisecond, 50 * Go.millisecond,
        50 * Go.millisecond, 30 * Go.millisecond] ∧
    (Compare.benchmark (Compare.envOf Go.samples) "bench" "SELECT 1" 5).map
        (fun r => [r.Min, r.Median, r.P95, r.Max, r.Avg]) =
      some [10 * Go.millisecond, 30 * Go.millisecond, 50 * Go.millisecond,
        50 * Go.millisecond, 30 * Go.millisecond] := by
  refine ⟨?_, ?_, by decide, by decide⟩
  · intro env name query iterations l h hd hnn
    obtain ⟨r, hr, -, hmin, hmax, -, hs⟩ := Benchmark.run_summary env name query iterations l h
    refine ⟨r, hr, ?_⟩
    rw [hmin, hmax]
    exact Go.stats_ordered l.durations _ _ _ _ hd hnn (hs hd)
  · intro env name query n
    obtain ⟨r, hr, -, hmin, hmax, -, hs⟩ :=
      Compare.compare_run_summary env name query n (by omega)
    refine ⟨r, hr, fun hd hnn => ?_⟩
    rw [hmin, hmax]
    exact Go.stats_ordered r.Durations _ _ _ _ hd hnn (hs hd)

/-- C27: the two statistics implementations agree: on the same sequence of query
outcomes, `runBenchmark` of the benchmark tool (with table maxima for which the draws are
defined) and `benchmark` of the compare tool return the same Min, Max, mean, median and
p95; and for every sequence `d` of durations, the runs that record `d` return the same
five values. -/
theorem statistics_implementations_agree :
    (∀ (env : Benchmark.Env) (name name' query : String) (n : Nat),
      Benchmark.DrawsDefined env →
      ∃ r r', Benchmark.runBenchmark env name query n = some r ∧
        Compare.benchmark env.query name' query n = some r' ∧
        r.MinTime = r'.Min ∧ r.MaxTime = r'.Max ∧ r.AvgTime = r'.Avg ∧
        r.MedianTime = r'.Median ∧ r.P95Time = r'.P95) ∧
    (∀ d : List Int,
      ∃ r r', Benchmark.runBenchmark (Benchmark.envOf d) "bench" "SELECT 1" d.length = some r ∧
        Compare.benchmark (Compare.envOf d) "bench" "SELECT 1" d.length = some r' ∧
        r'.Durations = d ∧
        r.MinTime = r'.Min ∧ r.MaxTime = r'.Max ∧ r.AvgTime = r'.Avg ∧
        r.MedianTime = r'.Median ∧ r.P95Time = r'.P95) ∧
    (Benchmark.runBenchmark (Benchmark.envOf [30, 10, 20, 40]) "bench" "SELECT 1" 4).map
        (fun r => [r.MinTime, r.MaxTime, r.AvgTime, r.MedianTime, r.P95Time]) =
      some [10, 40, 25, 30, 40] ∧
    (Compare.benchmark (Compare.envOf [30, 10, 20, 40]) "bench" "SELECT 1" 4).map
        (fun r => [r.Min, r.Max, r.Avg, r.Median, r.P95]) = some [10, 40, 25, 30, 40] := by
  have key : ∀ (env : Benchmark.Env) (name name' query : String) (n : Nat)
      (l : Benchmark.Loop), Benchmark.timed env name query n = some l →
      ∃ r r', Benchmark.runBenchmark env name query n = some r ∧
        Compare.benchmark env.query name' query n = some r' ∧
        r'.Durations = l.durations ∧
        r.MinTime = r'.Min ∧ r.MaxTime = r'.Max ∧ r.AvgTime = r'.Avg ∧
        r.MedianTime = r'.Median ∧ r.P95Time = r'.P95 := by
    intro env name name' query n l hl
    obtain ⟨r, hr, hrec, hmin, hmax, hz, hs⟩ := Benchmark.run_summary env name query n l hl
    obtain ⟨r', hr', hrec', hmin', hmax', hz', hs'⟩ :=
      Compare.compare_run_summary env.query name' query n (by omega)
    have hd : r'.Durations = l.durations := by
      rw [hrec, hrec']
      rfl
    refine ⟨r, r', hr, hr', hd, by rw [hmin, hmin', hd], by rw [hmax, hmax', hd], ?_⟩
    by_cases he : l.durations = []
    · obtain ⟨h1, h2, h3⟩ := hz he
      obtain ⟨h1', h2', h3'⟩ := hz' (by rw [hd]; exact he)
      exact ⟨by rw [h1, h1'], by rw [h2, h2'], by rw [h3, h3']⟩
    · have h1 := hs he
      have h2 := hs' (by rw [hd]; exact he)
      rw [hd] at h2
      exact Go.IsStatsOf_unique _ _ _ _ _ _ _ h1 h2
  refine ⟨?_, ?_, by decide, by decide⟩
  · intro env name name' query n hd
    obtain ⟨l, hl⟩ := Benchmark.timed_some env name query n hd (by omega)
    obtain ⟨r, r', h1, h2, -, h3⟩ := key env name name' query n l hl
    exact ⟨r, r', h1, h2, h3⟩
  · intro d
    obtain ⟨l, hl, hld⟩ := Benchmark.timed_envOf d "bench" "SELECT 1" (by decide)
    obtain ⟨r, r', h1, h2, h3, h4⟩ := key (Benchmark.envOf d) "bench" "bench" "SELECT 1" _ l hl
    exact ⟨r, r', h1, h2, by rw [h3, hld], h4⟩

/-- C30: for a query classified as a book-id range query (two placeholders, containing
`books WHERE id` or `b.id BETWEEN`), the parameter generation of `runBenchmark`, before
the warmup and in every timed iteration, calls `rand.Int63n(maxBookID - 100)` on the
maximum book id just read: for every `maxBookID > 100` the argument is positive and the
pair `(start, start + 100)` is produced, and for every `maxBookID ≤ 100` the argument is
not positive and the call panics, so that `runBenchmark` does not return.  With maximum
101 the pair is (1, 101); with maximum 100 the run panics. -/
theorem range_parameters_defined_iff :
    (∀ (rnd : Nat → Nat) (pos : Nat) (maxBookID : Int),
      (100 < maxBookID → 0 < maxBookID - 100 ∧
        Go.Int63n rnd pos (maxBookID - 100) = some ((rnd pos : Int) % (maxBookID - 100))) ∧
      (maxBookID ≤ 100 → maxBookID - 100 ≤ 0 ∧
        Go.Int63n rnd pos (maxBookID - 100) = none)) ∧
    (∀ (env : Benchmark.Env) (query : String) (w : Benchmark.World),
      Benchmark.isRange query = true →
      ((Benchmark.initParams env query w).isSome ↔ 100 < env.scan w.scans.length) ∧
      ∀ p : List Int, p.length = 2 →
        ((Benchmark.iterParams env query p w).isSome ↔ 100 < env.scan w.scans.length)) ∧
    (∀ (env : Benchmark.Env) (name query : String) (iterations : Int),
      Benchmark.isRange query = true → env.scan 0 ≤ 100 →
      Benchmark.runBenchmark env name query iterations = none) ∧
    (Benchmark.timed (Benchmark.envMax 101) "Range"
        "SELECT b.id FROM books b WHERE b.id BETWEEN ? AND ?" 1).map
        (fun l => l.w.calls.map Prod.snd) = some [[1, 101], [1, 101], [1, 101], [1, 101]] ∧
    Benchmark.runBenchmark (Benchmark.envMax 100) "Range"
        "SELECT b.id FROM books b WHERE b.id BETWEEN ? AND ?" 1 = none := by
  have hdr : ∀ (env : Benchmark.Env) (m : Int) (w : Benchmark.World),
      (Benchmark.drawRange env m w).isSome ↔ 100 < m := by
    intro env m w
    by_cases h : 100 < m
    · rw [Benchmark.drawRange_some env m w h]
      simp [h]
    · rw [Benchmark.drawRange_none env m w (by omega)]
      simp [h]
  refine ⟨?_, ?_, ?_, by decide, by decide⟩
  · intro rnd pos maxBookID
    constructor
    · intro h
      refine ⟨by omega, ?_⟩
      unfold Go.Int63n
      rw [if_neg (by omega)]
    · intro h
      refine ⟨by omega, ?_⟩
      unfold Go.Int63n
      rw [if_pos (by omega)]
  · intro env query w hr
    constructor
    · rw [Benchmark.initParams_range env query w hr]
      exact hdr _ _ _
    · intro p hp
      rw [Benchmark.iterParams_range env query p w hr hp]
      exact hdr _ _ _
  · intro env name query iterations hr hs
    have hi : Benchmark.initParams env query Benchmark.World.init = none := by
      rw [Benchmark.initParams_range env query _ hr]
      exact Benchmark.drawRange_none _ _ _ hs
    have ht : Benchmark.timed env name query iterations = none := by
      unfold Benchmark.timed
      split
      · rfl
      · rw [hi]
    unfold Benchmark.runBenchmark
    rw [ht]

namespace Db

/-! ## The probing loop -/

theorem probeLoop_success (ping : Nat → Bool) :
    ∀ (n : Nat) (s : Probe) (j : Nat), j < n → ping (s.pings + j) = true →
      (∀ i, i < j → ping (s.pings + i) = false) →
      probeLoop ping n s = ⟨false, s.pings + j + 1, s.sleeps + j⟩ := by
  intro n
  induction n with
  | zero => intro s j hj; omega
  | succ n ih =>
    intro s j hj hp hbefore
    unfold probeLoop
    cases j with
    | zero =>
      rw [if_pos (by simpa using hp)]
      rfl
    | succ j =>
      have h0 := hbefore 0 (by omega)
      rw [Nat.add_zero] at h0
      rw [if_neg (by simp [h0])]
      rw [ih ⟨true, s.pings + 1, s.sleeps + 1⟩ j (by omega)
        (by show ping (s.pings + 1 + j) = true; rw [← hp]; congr 1; omega)
        (fun i hi => by
          show ping (s.pings + 1 + i) = false
          rw [← hbefore (i + 1) (by omega)]
          congr 1
          omega)]
      show Probe.mk false (s.pings + 1 + j + 1) (s.sleeps + 1 + j) = _
      congr 1 <;> omega

theorem probeLoop_failure (ping : Nat → Bool) :
    ∀ (n : Nat) (s : Probe), 0 < n → (∀ i, i < n → ping (s.pings + i) = false) →
      probeLoop ping n s = ⟨true, s.pings + n, s.sleeps + n⟩ := by
  intro n
  induction n with
  | zero => intro s hn; omega
  | succ n ih =>
    intro s _ hall
    have h0 := hall 0 (by omega)
    rw [Nat.add_zero] at h0
    unfold probeLoop
    rw [if_neg (by simp [h0])]
    cases n with
    | zero => rfl
    | succ n =>
      rw [ih ⟨true, s.pings + 1, s.sleeps + 1⟩ (by omega)
        (fun i hi => by
          show ping (s.pings + 1 + i) = false
          rw [← hall (i + 1) (by omega)]
          congr 1
          omega)]
      show Probe.mk true (s.pings + 1 + (n + 1)) (s.sleeps + 1 + (n + 1)) = _
      congr 1 <;> omega

/-- The call of `Init` whose first successful ping is the one of number `j`. -/
theorem Init_success (ping : Nat → Bool) (j : Nat) (hj : j < 30) (hp : ping j = true)
    (hbefore : ∀ i, i < j → ping i = false) : Init true ping = ⟨none, j + 1, j⟩ := by
  have h := probeLoop_success ping 30 ⟨false, 0, 0⟩ j hj (by simpa using hp)
    (fun i hi => by simpa using hbefore i hi)
  unfold Init
  simp only [Bool.not_true, Bool.false_eq_true, if_false, h]
  simp

/-- The call of `Init` all of whose pings fail. -/
theorem Init_failure (ping : Nat → Bool) (hall : ∀ i, i < 30 → ping i = false) :
    Init true ping = ⟨some InitError.pingFailed, 30, 30⟩ := by
  have h := probeLoop_failure ping 30 ⟨false, 0, 0⟩ (by decide)
    (fun i hi => by simpa using hall i hi)
  unfold Init
  simp only [Bool.not_true, Bool.false_eq_true, if_false, h]
  simp

/-- Either some ping among the first 30 is the first to succeed, or all 30 fail. -/
theorem first_success (ping : Nat → Bool) :
    (∃ j, j < 30 ∧ ping j = true ∧ ∀ i, i < j → ping i = false) ∨
    (∀ i, i < 30 → ping i = false) := by
  by_cases h : ∃ j, j < 30 ∧ ping j = true
  · left
    refine ⟨Nat.find h, (Nat.find_spec h).1, (Nat.find_spec h).2, fun i hi => ?_⟩
    have := Nat.find_min h hi
    have h30 : i < 30 := lt_trans hi (Nat.find_spec h).1
    simpa [h30] using this
  · right
    intro i hi
    by_contra hp
    exact h ⟨i, hi, by simpa using hp⟩

end Db

/-- C23: once `sql.Open` has succeeded, `db.Init` probes the connection in a bounded
loop: for every sequence of ping outcomes it pings at least once and at most 30 times,
every ping before the last one made has failed (it stops at the first successful ping),
it returns nil as soon as one of the first 30 pings succeeds (after `j + 1` pings when
the ping of number `j` is the first to succeed), and it returns an error if and only if
all 30 pings fail, in which case the server's `main` exits fatally.  (When `sql.Open`
fails, `Init` returns that error without pinging.)  If the pings of number 0 to 3 fail and
the next one succeeds, `Init` returns nil after 5 pings and 4 sleeps. -/
theorem init_probes_at_most_30_times :
    (∀ ping : Nat → Bool,
      1 ≤ (Db.Init true ping).pings ∧ (Db.Init true ping).pings ≤ 30 ∧
      (∀ k, k + 1 < (Db.Init true ping).pings → ping k = false) ∧
      ((Db.Init true ping).err = none → ping ((Db.Init true ping).pings - 1) = true) ∧
      (∀ j, j < 30 → ping j = true → (∀ i, i < j → ping i = false) →
        Db.Init true ping = ⟨none, j + 1, j⟩) ∧
      ((∃ j, j < 30 ∧ ping j = true) → (Db.Init true ping).err = none) ∧
      ((Db.Init true ping).err ≠ none ↔ ∀ k, k < 30 → ping k = false) ∧
      ((∀ k, k < 30 → ping k = false) →
        Db.Init true ping = ⟨some Db.InitError.pingFailed, 30, 30⟩) ∧
      (Db.main true ping = Db.Start.fatal ↔ ∀ k, k < 30 → ping k = false)) ∧
    (∀ ping : Nat → Bool, Db.Init false ping = ⟨some Db.InitError.openFailed, 0, 0⟩) ∧
    Db.Init true (fun k => decide (4 ≤ k)) = ⟨none, 5, 4⟩ ∧
    Db.Init true (fun k => decide (30 ≤ k)) = ⟨some Db.InitError.pingFailed, 30, 30⟩ ∧
    Db.Init true (fun k => decide (29 ≤ k)) = ⟨none, 30, 29⟩ ∧
    Db.main true (fun k => decide (30 ≤ k)) = Db.Start.fatal ∧
    Db.main true (fun k => decide (29 ≤ k)) = Db.Start.serving := by
  refine ⟨?_, fun _ => rfl, by decide, by decide, by decide, by decide, by decide⟩
  intro ping
  have herr : (Db.Init true ping).err ≠ none ↔ ∀ k, k < 30 → ping k = false := by
    rcases Db.first_success ping with ⟨j, hj, hp, hb⟩ | hall
    · rw [Db.Init_success ping j hj hp hb]
      constructor
      · intro h
        exact absurd rfl h
      · intro h
        rw [h j hj] at hp
        exact absurd hp (by decide)
    · rw [Db.Init_failure ping hall]
      exact ⟨fun _ => hall, fun _ => by simp⟩
  have hmain : Db.main true ping = Db.Start.fatal ↔ (Db.Init true ping).err ≠ none := by
    unfold Db.main
    cases (Db.Init true ping).err <;> simp
  refine ⟨?_, ?_, ?_, ?_, fun j hj hp hb => Db.Init_success ping j hj hp hb, ?_, herr,
    fun hall => Db.Init_failure ping hall, hmain.trans herr⟩
  · rcases Db.first_success ping with ⟨j, hj, hp, hb⟩ | hall
    · rw [Db.Init_success ping j hj hp hb]
      show 1 ≤ j + 1
      omega
    · rw [Db.Init_failure ping hall]
      show 1 ≤ 30
      omega
  · rcases Db.first_success ping with ⟨j, hj, hp, hb⟩ | hall
    · rw [Db.Init_success ping j hj hp hb]
      show j + 1 ≤ 30
      omega
    · rw [Db.Init_failure ping hall]
  · rcases Db.first_success ping with ⟨j, hj, hp, hb⟩ | hall
    · rw [Db.Init_success ping j hj hp hb]
      intro k hk
      exact hb k (by have : k + 1 < j + 1 := hk; omega)
    · rw [Db.Init_failure ping hall]
      intro k hk
      exact hall k (by have : k + 1 < 30 := hk; omega)
  · rcases Db.first_success ping with ⟨j, hj, hp, hb⟩ | hall
    · rw [Db.Init_success ping j hj hp hb]
      intro _
      exact hp
    · rw [Db.Init_failure ping hall]
      intro h
      exact absurd h (by simp)
  · rintro ⟨j, hj, hp⟩
    by_contra hne
    have := herr.mp hne j hj
    rw [this] at hp
    exact absurd hp (by decide)

namespace Seed

/-! ## Failed statements do not change the work done -/

/-- One plain batch does the same work whatever the outcomes of the INSERTs, and logs no
error when every INSERT succeeds. -/
theorem plainBatch_rel (f g : Int → Int → State → Option State)
    (row : Int → Batch → Option Batch) (ok : Nat → Bool) (head : String)
    (hf : ∀ i e s, f i e s =
      match forRange row i e ⟨[], [], s.pos⟩ with
      | none => none
      | some b => some (addInserted (e - i)
          (exec ok (head ++ ",".intercalate b.values) b.args { s with pos := b.pos })))
    (hg : ∀ i e s, g i e s =
      match forRange row i e ⟨[], [], s.pos⟩ with
      | none => none
      | some b => some (addInserted (e - i)
          (exec (fun _ => true) (head ++ ",".intercalate b.values) b.args
            { s with pos := b.pos })))
    (e0 : Nat) (k e : Int) (s t : State) (hR : s.work = t.work ∧ t.errors = e0) :
    (f k e s = none ∧ g k e t = none) ∨
    ∃ s' t', f k e s = some s' ∧ g k e t = some t' ∧ s'.work = t'.work ∧ t'.errors = e0 := by
  obtain ⟨hw, he⟩ := hR
  simp only [State.work, Prod.mk.injEq] at hw
  obtain ⟨hp, hs, ht⟩ := hw
  rw [hf, hg, ← hp]
  cases forRange row k e ⟨[], [], s.pos⟩ with
  | none => exact Or.inl ⟨rfl, rfl⟩
  | some b =>
    refine Or.inr ⟨_, _, rfl, rfl, ?_, ?_⟩
    · simp only [State.work, addInserted, exec, hs, ht]
    · simp only [addInserted, exec, if_true]
      exact he

end Seed

namespace Seed

/-! ## No pair is emitted twice by `seedAuthorTags` -/

theorem pairArgs_inj : ∀ rows rows' : List (Int × Int × Int),
    pairArgs rows = pairArgs rows' → rows = rows' := by
  intro rows
  induction rows with
  | nil =>
    intro rows' h
    cases rows' with
    | nil => rfl
    | cons r rs => simp [pairArgs] at h
  | cons r rs ih =>
    intro rows' h
    cases rows' with
    | nil => simp [pairArgs] at h
    | cons r' rs' =>
      simp only [pairArgs, List.flatMap_cons, List.cons_append, List.nil_append,
        List.cons.injEq, Arg.int.injEq, Arg.time.injEq] at h
      obtain ⟨h1, h2, h3, h4⟩ := h
      have := ih rs' h4
      subst this
      have hr : r = r' := Prod.ext h1 (Prod.ext h2 h3)
      rw [hr]

/-- Pairwise distinct pairs of ids within `[1, n1] × [1, n2]` number at most
`n1 * n2`. -/
theorem pairs_card (l : List (Int × Int)) (n1 n2 : Int) (h1 : 0 ≤ n1) (h2 : 0 ≤ n2)
    (hnd : l.Nodup)
    (hin : ∀ p ∈ l, (1 ≤ p.1 ∧ p.1 ≤ n1) ∧ (1 ≤ p.2 ∧ p.2 ≤ n2)) :
    (l.length : Int) ≤ n1 * n2 := by
  have hsub : l.toFinset ⊆ Finset.Icc 1 n1 ×ˢ Finset.Icc 1 n2 := by
    intro p hp
    rw [List.mem_toFinset] at hp
    obtain ⟨ha, hb⟩ := hin p hp
    rw [Finset.mem_product, Finset.mem_Icc, Finset.mem_Icc]
    exact ⟨ha, hb⟩
  have hcard := Finset.card_le_card hsub
  rw [List.toFinset_card_of_nodup hnd, Finset.card_product, Int.card_Icc, Int.card_Icc] at hcard
  have e1 : ((n1 + 1 - 1).toNat : Int) = n1 := by
    rw [Int.toNat_of_nonneg (by omega)]
    omega
  have e2 : ((n2 + 1 - 1).toNat : Int) = n2 := by
    rw [Int.toNat_of_nonneg (by omega)]
    omega
  have : ((l.length : Nat) : Int) ≤ (((n1 + 1 - 1).toNat * (n2 + 1 - 1).toNat : Nat) : Int) := by
    exact_mod_cast hcard
  rw [Nat.cast_mul, e1, e2] at this
  exact this

/-- One batch of `seedAuthorTags`, with everything known about its rows. -/
theorem seedAuthorTagsBatch_rows (rnd : Nat → Nat) (ok : Nat → Bool) (n1 n2 : Int)
    (h1 : 0 < n1) (h2 : 0 < n2) (i e : Int) (st : State × Tracker) (hle : i ≤ e) :
    ∃ rows st', seedAuthorTagsBatch rnd ok n1 n2 i e st = some st' ∧
      rows.length ≤ (e - i).toNat ∧ (rowPairs rows).Nodup ∧
      (∀ r ∈ rows, pairKey r.1 r.2.1 ∉ st.2 ∧ pairKey r.1 r.2.1 ∈ st'.2) ∧
      (∀ k ∈ st.2, k ∈ st'.2) ∧
      (∀ r ∈ rows, (1 ≤ r.1 ∧ r.1 ≤ n1) ∧ (1 ≤ r.2.1 ∧ r.2.1 ≤ n2)) ∧
      st'.1.stmts =
        (if rows = [] then st.1.stmts else st.1.stmts ++ [pairStmt authorTagsHead rows]) := by
  obtain ⟨rows, b, hb, hv, ha, hlen, hnd, hkeys, hmono, -⟩ :=
    pairRows_spec rnd n1 n2 h1 h2 i e st.1.pos st.2 hle
  obtain ⟨rows', b', hb', -, ha', hin⟩ := pairRows_ids rnd n1 n2 h1 h2 i e st.1.pos st.2 hle
  rw [hb] at hb'
  have hbb : b = b' := Option.some.inj hb'
  subst hbb
  have hrows : rows = rows' := pairArgs_inj rows rows' (by rw [← ha, ← ha'])
  subst hrows
  have hf := pairFlush_stmts ok authorTagsHead i e b st.1 rows hv ha
  exact ⟨rows, _, by simp only [seedAuthorTagsBatch, hb]; rfl, hlen, hnd, hkeys, hmono, hin,
    hf.1⟩

/-- All rows of one call of `seedAuthorTags`: `batches` lists the rows of its statements,
in order. -/
theorem seedAuthorTags_rows (rnd : Nat → Nat) (ok : Nat → Bool) (n1 n2 : Int)
    (h1 : 0 < n1) (h2 : 0 < n2) (count : Int) (s : State) :
    ∃ (s' : State) (batches : List (List (Int × Int × Int))),
      seedAuthorTags rnd ok count n1 n2 s = some s' ∧
      s'.stmts = s.stmts ++ batches.map (pairStmt authorTagsHead) ∧
      (∀ b ∈ batches, b ≠ []) ∧
      (rowPairs batches.flatten).Nodup ∧
      (∀ r ∈ batches.flatten, (1 ≤ r.1 ∧ r.1 ≤ n1) ∧ (1 ≤ r.2.1 ∧ r.2.1 ≤ n2)) ∧
      (batches.flatten.length : Int) ≤ max 0 count := by
  obtain ⟨i', t, ht, ⟨hk0, batches, hst, hne, hnd, hin, hkeys, hlen⟩, hge⟩ :=
    forBatches_induct (seedAuthorTagsBatch rnd ok n1 n2) count
      (fun k t => 0 ≤ k ∧ ∃ batches : List (List (Int × Int × Int)),
        t.1.stmts = s.stmts ++ batches.map (pairStmt authorTagsHead) ∧
        (∀ b ∈ batches, b ≠ []) ∧
        (rowPairs batches.flatten).Nodup ∧
        (∀ r ∈ batches.flatten, (1 ≤ r.1 ∧ r.1 ≤ n1) ∧ (1 ≤ r.2.1 ∧ r.2.1 ≤ n2)) ∧
        (∀ r ∈ batches.flatten, pairKey r.1 r.2.1 ∈ t.2) ∧
        (batches.flatten.length : Int) ≤ max 0 (min k count))
      (fun k t hk hP => by
        obtain ⟨hk0, batches, hst, hne, hnd, hin, hkeys, hlen⟩ := hP
        have hbe := batchEnd_eq_min k count
        obtain ⟨rows, t', ht', hrl, hrnd, hrkeys, hmono, hrin, hstm⟩ :=
          seedAuthorTagsBatch_rows rnd ok n1 n2 h1 h2 k (batchEnd k count) t
            (by rw [hbe]; omega)
        have hlen' : ((batches.flatten ++ rows).length : Int) ≤
            max 0 (min (k + bulkSize) count) := by
          rw [List.length_append]
          push_cast
          have : (rows.length : Int) ≤ batchEnd k count - k := by
            have h0 : 0 ≤ batchEnd k count - k := by rw [hbe]; omega
            have := Int.toNat_of_nonneg h0
            omega
          rw [hbe] at this
          unfold bulkSize
          omega
        have hnd' : (rowPairs (batches.flatten ++ rows)).Nodup := by
          unfold rowPairs at hnd hrnd ⊢
          rw [List.map_append]
          refine List.Nodup.append hnd hrnd ?_
          intro p hp1 hp2
          obtain ⟨r, hr, rfl⟩ := List.mem_map.mp hp1
          obtain ⟨r', hr', hpe⟩ := List.mem_map.mp hp2
          have hk1 := hkeys r hr
          have hk2 := (hrkeys r' hr').1
          simp only [Prod.mk.injEq] at hpe
          rw [hpe.1, hpe.2] at hk2
          exact hk2 hk1
        have hin' : ∀ r ∈ batches.flatten ++ rows,
            (1 ≤ r.1 ∧ r.1 ≤ n1) ∧ (1 ≤ r.2.1 ∧ r.2.1 ≤ n2) := by
          intro r hr
          rcases List.mem_append.mp hr with hr | hr
          · exact hin r hr
          · exact hrin r hr
        have hkeys' : ∀ r ∈ batches.flatten ++ rows, pairKey r.1 r.2.1 ∈ t'.2 := by
          intro r hr
          rcases List.mem_append.mp hr with hr | hr
          · exact hmono _ (hkeys r hr)
          · exact (hrkeys r hr).2
        refine ⟨t', ht', by unfold bulkSize; omega, ?_⟩
        by_cases hr : rows = []
        · rw [if_pos hr] at hstm
          subst hr
          rw [List.append_nil] at hlen' hnd' hin' hkeys'
          exact ⟨batches, by rw [hstm, hst], hne, hnd', hin', hkeys', hlen'⟩
        · rw [if_neg hr] at hstm
          refine ⟨batches ++ [rows], ?_, ?_, ?_, ?_, ?_, ?_⟩
          · rw [hstm, hst, List.map_append, List.append_assoc]
            rfl
          · intro b hb
            rcases List.mem_append.mp hb with hb | hb
            · exact hne b hb
            · rw [List.mem_singleton] at hb
              rw [hb]
              exact hr
          · rw [List.flatten_append, List.flatten_singleton]
            exact hnd'
          · rw [List.flatten_append, List.flatten_singleton]
            exact hin'
          · rw [List.flatten_append, List.flatten_singleton]
            exact hkeys'
          · rw [List.flatten_append, List.flatten_singleton]
            exact hlen')
      (count - 0).toNat 0 (s, Tracker.make) (le_refl _)
      ⟨le_refl _, [], by simp, by simp, by simp [rowPairs], by simp, by simp, by simp⟩
  refine ⟨t.1, batches, by simp [seedAuthorTags, ht], hst, hne, hnd, hin, ?_⟩
  omega

end Seed

namespace Seed

/-- C28: for every count, `numAuthors ≥ 1`, `numTags ≥ 1` and every sequence of random
draws (and of insert outcomes), one call of `seedAuthorTags` returns, and the rows of all
the INSERT statements it issued, taken together, carry pairwise distinct
`(author_id, tag_id)` pairs, each within `[1, numAuthors] × [1, numTags]` (its tracker is
never cleared); consequently the total number of rows is at most
`min(count, numAuthors * numTags)` for a count `≥ 0`, and a count `≤ 0` issues no
statement. -/
theorem seedAuthorTags_never_repeats (rnd : Nat → Nat) (ok : Nat → Bool)
    (count numAuthors numTags : Int) (s : State) (hA : 1 ≤ numAuthors) (hT : 1 ≤ numTags) :
    ∃ (s' : State) (batches : List (List (Int × Int × Int))),
      seedAuthorTags rnd ok count numAuthors numTags s = some s' ∧
      s'.stmts = s.stmts ++ batches.map (pairStmt authorTagsHead) ∧
      (∀ b ∈ batches, b ≠ []) ∧
      (rowPairs batches.flatten).Nodup ∧
      (∀ r ∈ batches.flatten,
        (1 ≤ r.1 ∧ r.1 ≤ numAuthors) ∧ (1 ≤ r.2.1 ∧ r.2.1 ≤ numTags)) ∧
      (0 ≤ count → (batches.flatten.length : Int) ≤ min count (numAuthors * numTags)) ∧
      (count ≤ 0 → batches = []) := by
  obtain ⟨s', batches, h1, h2, hne, hnd, hin, hlen⟩ :=
    seedAuthorTags_rows rnd ok numAuthors numTags (by omega) (by omega) count s
  have hcard := pairs_card (rowPairs batches.flatten) numAuthors numTags (by omega) (by omega)
    hnd (by
      intro p hp
      obtain ⟨r, hr, rfl⟩ := List.mem_map.mp hp
      exact hin r hr)
  have hrl : (rowPairs batches.flatten).length = batches.flatten.length := by
    unfold rowPairs
    rw [List.length_map]
  rw [hrl] at hcard
  refine ⟨s', batches, h1, h2, hne, hnd, hin, fun hc => by omega, fun hc => ?_⟩
  have h0 : batches.flatten.length = 0 := by omega
  cases batches with
  | nil => rfl
  | cons b bs =>
    have hb := hne b (List.mem_cons_self _ _)
    rw [List.flatten_cons, List.length_append] at h0
    have : b.length = 0 := by omega
    exact absurd (List.eq_nil_of_length_eq_zero this) hb

theorem seedAuthorTags_never_repeats_witness :
    (1 : Int) ≤ 2 ∧ (1 : Int) ≤ 3 ∧
    ∃ (s' : State) (batches : List (List (Int × Int × Int))),
      seedAuthorTags thirds (fun _ => true) 7 2 3 State.init = some s' ∧
      s'.stmts = State.init.stmts ++ batches.map (pairStmt authorTagsHead) ∧
      (∀ b ∈ batches, b ≠ []) ∧
      (rowPairs batches.flatten).Nodup ∧
      (∀ r ∈ batches.flatten, (1 ≤ r.1 ∧ r.1 ≤ 2) ∧ (1 ≤ r.2.1 ∧ r.2.1 ≤ 3)) ∧
      ((0 : Int) ≤ 7 → (batches.flatten.length : Int) ≤ min 7 (2 * 3)) ∧
      ((7 : Int) ≤ 0 → batches = []) :=
  ⟨by decide, by decide,
    seedAuthorTags_never_repeats thirds (fun _ => true) 7 2 3 State.init (by decide)
      (by decide)⟩

end Seed

namespace Seed

/-! ## The batch loop on 64-bit integers -/

theorem wrap64_of_fits (z : Int) (h1 : Go.minInt64 ≤ z) (h2 : z ≤ Go.maxInt64) :
    Go.wrap64 z = z := by
  unfold Go.wrap64
  unfold Go.minInt64 Go.maxInt64 at *
  omega

theorem wrapCounter_of_fits (s : State) (h1 : Go.minInt64 ≤ s.totalInserted)
    (h2 : s.totalInserted ≤ Go.maxInt64) : s.wrapCounter = s := by
  unfold State.wrapCounter
  rw [wrap64_of_fits _ h1 h2]

/-- On a range that ends at least `bulkSize` below `2 ^ 63 - 1`, the sum `i + bulkSize`
does not wrap around at any index of the range. -/
theorem batchEnd64_eq (i end_ : Int) (hi : Go.minInt64 ≤ i) (hlt : i < end_)
    (hend : end_ + bulkSize ≤ Go.maxInt64) :
    Go.wrap64 (i + bulkSize) = i + bulkSize ∧ batchEnd64 i end_ = batchEnd i end_ := by
  have hw : Go.wrap64 (i + bulkSize) = i + bulkSize :=
    wrap64_of_fits _ (by unfold bulkSize Go.minInt64 at *; omega)
      (by unfold bulkSize Go.maxInt64 at *; omega)
  refine ⟨hw, ?_⟩
  unfold batchEnd64 batchEnd
  rw [hw]

theorem forBatches64_zero {σ : Type} (wrap : σ → σ) (body : Int → Int → σ → Option σ)
    (i end_ : Int) (s : σ) : forBatches64 wrap body 0 i end_ s = Progress.running s := rfl

theorem forBatches64_done {σ : Type} (wrap : σ → σ) (body : Int → Int → σ → Option σ)
    (fuel : Nat) (i end_ : Int) (s : σ) (h : end_ ≤ i) :
    forBatches64 wrap body (fuel + 1) i end_ s = Progress.returned s := by
  unfold forBatches64
  rw [if_neg (by omega)]

theorem forBatches64_step {σ : Type} (wrap : σ → σ) (body : Int → Int → σ → Option σ)
    (fuel : Nat) (i end_ : Int) (s s' : σ) (h : i < end_)
    (hb : body i (batchEnd64 i end_) s = some s') :
    forBatches64 wrap body (fuel + 1) i end_ s =
      forBatches64 wrap body fuel (Go.wrap64 (i + bulkSize)) end_ (wrap s') := by
  rw [forBatches64, if_pos h, hb]

theorem forBatches64_fail {σ : Type} (wrap : σ → σ) (body : Int → Int → σ → Option σ)
    (fuel : Nat) (i end_ : Int) (s : σ) (h : i < end_)
    (hb : body i (batchEnd64 i end_) s = none) :
    forBatches64 wrap body (fuel + 1) i end_ s = Progress.panicked := by
  rw [forBatches64, if_pos h, hb]

/-- On a range that ends at least `bulkSize` below `2 ^ 63 - 1`, and with a counter that
stays within 64 bits, the loop on 64-bit integers does what the loop on the mathematical
integers does: allowed more iterations than the range has indices, it ends, and ends
alike. -/
theorem forBatches64_eq {σ : Type} (wrap : σ → σ) (body : Int → Int → σ → Option σ)
    (cnt : σ → Int) (end_ : Int) (hend : end_ + bulkSize ≤ Go.maxInt64)
    (hwrap : ∀ t, Go.minInt64 ≤ cnt t → cnt t ≤ Go.maxInt64 → wrap t = t)
    (hbody : ∀ k t t', k < end_ → body k (batchEnd k end_) t = some t' →
      cnt t' = cnt t + (batchEnd k end_ - k)) :
    ∀ (n : Nat) (i : Int) (s : σ), (end_ - i).toNat ≤ n → Go.minInt64 ≤ i →
      Go.minInt64 ≤ cnt s → (i < end_ → cnt s + (end_ - i) ≤ Go.maxInt64) →
      ∀ fuel, n < fuel →
        forBatches64 wrap body fuel i end_ s = Progress.ofOption (forBatches body i end_ s) := by
  intro n
  induction n with
  | zero =>
    intro i s hn _ _ _ fuel hf
    obtain ⟨f, rfl⟩ : ∃ f, fuel = f + 1 := ⟨fuel - 1, by omega⟩
    rw [forBatches64_done wrap body f i end_ s (by omega),
      forBatches_done body i end_ s (by omega)]
    rfl
  | succ n ih =>
    intro i s hn hi hc1 hc2 fuel hf
    obtain ⟨f, rfl⟩ : ∃ f, fuel = f + 1 := ⟨fuel - 1, by omega⟩
    by_cases hlt : i < end_
    · obtain ⟨hw, hbe⟩ := batchEnd64_eq i end_ hi hlt hend
      have hmin := batchEnd_eq_min i end_
      cases hb : body i (batchEnd i end_) s with
      | none =>
        rw [forBatches64_fail wrap body f i end_ s hlt (by rw [hbe]; exact hb),
          forBatches_fail body i end_ s hlt hb]
        rfl
      | some s' =>
        have hc := hbody i s s' hlt hb
        have hc2' := hc2 hlt
        have hws : wrap s' = s' :=
          hwrap s' (by rw [hc, hmin]; omega) (by rw [hc, hmin]; omega)
        rw [forBatches64_step wrap body f i end_ s s' hlt (by rw [hbe]; exact hb), hw, hws,
          forBatches_step body i end_ s s' hlt hb]
        refine ih (i + bulkSize) s' (by unfold bulkSize; omega) (by unfold bulkSize; omega)
          (by rw [hc, hmin]; omega) ?_ f (by omega)
        intro hlt'
        rw [hc, hmin]
        unfold bulkSize at hlt' ⊢
        omega
    · rw [forBatches64_done wrap body f i end_ s (by omega),
        forBatches_done body i end_ s (by omega)]
      rfl

/-- On a range that ends at least `bulkSize` below `2 ^ 63 - 1`, the loop on 64-bit
integers does what the loop on the mathematical integers does, as far as a part `π` of
the state goes that the reduction of the counter leaves alone and that the body maps to
itself. -/
theorem forBatches64_proj {σ τ : Type} (wrap : σ → σ) (body : Int → Int → σ → Option σ)
    (π : σ → τ) (end_ : Int) (hend : end_ + bulkSize ≤ Go.maxInt64)
    (hwrap : ∀ t, π (wrap t) = π t)
    (hbody : ∀ k e t u, π t = π u → (body k e t).map π = (body k e u).map π) :
    ∀ (n : Nat) (i : Int) (s u : σ), (end_ - i).toNat ≤ n → Go.minInt64 ≤ i → π s = π u →
      ∀ fuel, n < fuel →
        (forBatches64 wrap body fuel i end_ s).map π =
          Progress.ofOption ((forBatches body i end_ u).map π) := by
  intro n
  induction n with
  | zero =>
    intro i s u hn _ hπ fuel hf
    obtain ⟨f, rfl⟩ : ∃ f, fuel = f + 1 := ⟨fuel - 1, by omega⟩
    rw [forBatches64_done wrap body f i end_ s (by omega),
      forBatches_done body i end_ u (by omega)]
    simp only [Progress.map, Option.map_some', Progress.ofOption, hπ]
  | succ n ih =>
    intro i s u hn hi hπ fuel hf
    obtain ⟨f, rfl⟩ : ∃ f, fuel = f + 1 := ⟨fuel - 1, by omega⟩
    by_cases hlt : i < end_
    · obtain ⟨hw, hbe⟩ := batchEnd64_eq i end_ hi hlt hend
      have hcong := hbody i (batchEnd i end_) s u hπ
      cases hb : body i (batchEnd i end_) s with
      | none =>
        rw [hb] at hcong
        have hu : body i (batchEnd i end_) u = none := by
          cases hu : body i (batchEnd i end_) u with
          | none => rfl
          | some u' => rw [hu] at hcong; exact absurd hcong (by simp)
        rw [forBatches64_fail wrap body f i end_ s hlt (by rw [hbe]; exact hb),
          forBatches_fail body i end_ u hlt hu]
        rfl
      | some s' =>
        rw [hb] at hcong
        cases hu : body i (batchEnd i end_) u with
        | none => rw [hu] at hcong; exact absurd hcong (by simp)
        | some u' =>
          rw [hu] at hcong
          have hπ' : π s' = π u' := by simpa using hcong
          rw [forBatches64_step wrap body f i end_ s s' hlt (by rw [hbe]; exact hb), hw,
            forBatches_step body i end_ u u' hlt hu]
          exact ih (i + bulkSize) (wrap s') u' (by unfold bulkSize; omega)
            (by unfold bulkSize; omega) (by rw [hwrap, hπ']) f (by omega)
    · rw [forBatches64_done wrap body f i end_ s (by omega),
        forBatches_done body i end_ u (by omega)]
      simp only [Progress.map, Option.map_some', Progress.ofOption, hπ]

end Seed

namespace Seed

/-- Two loops on 64-bit integers whose bodies preserve a relation between their states go
equally far in any number of iterations, in related states. -/
theorem forBatches64_rel {σ : Type} (wrap : σ → σ) (f g : Int → Int → σ → Option σ)
    (R : σ → σ → Prop) (end_ : Int)
    (hwrap : ∀ s t, R s t → R (wrap s) (wrap t))
    (step : ∀ k e s t, R s t →
      (f k e s = none ∧ g k e t = none) ∨
      ∃ s' t', f k e s = some s' ∧ g k e t = some t' ∧ R s' t') :
    ∀ (fuel : Nat) (i : Int) (s t : σ), R s t →
      Progress.Rel R (forBatches64 wrap f fuel i end_ s) (forBatches64 wrap g fuel i end_ t) := by
  intro fuel
  induction fuel with
  | zero => intro i s t hR; exact hR
  | succ fuel ih =>
    intro i s t hR
    by_cases hlt : i < end_
    · rcases step i (batchEnd64 i end_) s t hR with ⟨h1, h2⟩ | ⟨s', t', h1, h2, hR'⟩
      · rw [forBatches64_fail wrap f fuel i end_ s hlt h1,
          forBatches64_fail wrap g fuel i end_ t hlt h2]
        trivial
      · rw [forBatches64_step wrap f fuel i end_ s s' hlt h1,
          forBatches64_step wrap g fuel i end_ t t' hlt h2]
        exact ih _ _ _ (hwrap s' t' hR')
    · rw [forBatches64_done wrap f fuel i end_ s (by omega),
        forBatches64_done wrap g fuel i end_ t (by omega)]
      exact hR

/-- A plain batch loop on 64-bit integers does the same work in any number of iterations
whatever the outcomes of the INSERTs, and logs no error when every INSERT succeeds. -/
theorem plainBatches64_same (f g : Int → Int → State → Option State)
    (row : Int → Batch → Option Batch) (ok : Nat → Bool) (head : String)
    (hf : ∀ i e s, f i e s =
      match forRange row i e ⟨[], [], s.pos⟩ with
      | none => none
      | some b => some (addInserted (e - i)
          (exec ok (head ++ ",".intercalate b.values) b.args { s with pos := b.pos })))
    (hg : ∀ i e s, g i e s =
      match forRange row i e ⟨[], [], s.pos⟩ with
      | none => none
      | some b => some (addInserted (e - i)
          (exec (fun _ => true) (head ++ ",".intercalate b.values) b.args
            { s with pos := b.pos })))
    (fuel : Nat) (start end_ : Int) (s : State) :
    Progress.Rel (fun a b => a.work = b.work ∧ b.errors = s.errors)
      (forBatches64 State.wrapCounter f fuel start end_ s)
      (forBatches64 State.wrapCounter g fuel start end_ s) := by
  apply forBatches64_rel State.wrapCounter f g
    (fun a b => a.work = b.work ∧ b.errors = s.errors) end_
  · intro a b hR
    obtain ⟨hw, he⟩ := hR
    simp only [State.work, Prod.mk.injEq] at hw
    obtain ⟨hp, hs, ht⟩ := hw
    exact ⟨by simp only [State.work, State.wrapCounter, hp, hs, ht], he⟩
  · intro k e a b hR
    exact plainBatch_rel f g row ok head hf hg s.errors k e a b hR
  · exact ⟨rfl, rfl⟩

/-- The statements of a plain batch loop on 64-bit integers, for a range that ends at
least `bulkSize` below `2 ^ 63 - 1`: allowed more iterations than the range has indices,
the loop returns, having issued the statements of the batches of the range. -/
theorem plainBatches64_spec (batchFn : Int → Int → State → Option State)
    (row : Int → Batch → Option Batch) (ok : Nat → Bool) (head group : String)
    (width draws : Nat) (first : Int → Arg → Prop)
    (hrow : RowSpec row group width draws first)
    (hbatch : ∀ i e s, batchFn i e s =
      match forRange row i e ⟨[], [], s.pos⟩ with
      | none => none
      | some b => some (addInserted (e - i)
          (exec ok (head ++ ",".intercalate b.values) b.args { s with pos := b.pos })))
    (start end_ : Int) (s : State) (hle : start ≤ end_) (hlo : Go.minInt64 ≤ start)
    (hend : end_ + bulkSize ≤ Go.maxInt64) (fuel : Nat) (hfuel : (end_ - start).toNat < fuel) :
    ∃ s' new, forBatches64 State.wrapCounter batchFn fuel start end_ s = Progress.returned s' ∧
      s'.stmts = s.stmts ++ new ∧ AreBatchStmts head group width first start end_ new := by
  obtain ⟨s0, new, h0, hst, hall⟩ := plainBatches_spec batchFn row ok head group width draws
    first hrow hbatch start end_ s hle
  have hproj := forBatches64_proj State.wrapCounter batchFn
    (fun t : State => (t.pos, t.stmts, t.errors)) end_ hend (fun t => rfl)
    (fun k e t u hπ => by
      simp only [Prod.mk.injEq] at hπ
      obtain ⟨hp, hs, he⟩ := hπ
      rw [hbatch, hbatch, hp]
      cases forRange row k e ⟨[], [], u.pos⟩ with
      | none => rfl
      | some b => simp only [Option.map_some', addInserted, exec, hs, he])
    (end_ - start).toNat start s s (le_refl _) hlo rfl fuel hfuel
  rw [h0] at hproj
  cases hrun : forBatches64 State.wrapCounter batchFn fuel start end_ s with
  | running t => rw [hrun] at hproj; exact absurd hproj (by simp [Progress.map, Progress.ofOption])
  | panicked => rw [hrun] at hproj; exact absurd hproj (by simp [Progress.map, Progress.ofOption])
  | returned t =>
    rw [hrun] at hproj
    simp only [Progress.map, Option.map_some', Progress.ofOption, Progress.returned.injEq,
      Prod.mk.injEq] at hproj
    exact ⟨t, new, rfl, by rw [hproj.2.1, hst], hall⟩

end Seed

namespace Seed

/-! ## The seeding functions on 64-bit integers -/

theorem plainLoop64_eq (body : Int → Int → State → Option State)
    (hbody : ∀ k e t, k ≤ e → ∃ t', body k e t = some t' ∧
      t'.totalInserted = t.totalInserted + (e - k))
    (start end_ : Int) (s : State) (hlo : Go.minInt64 ≤ start)
    (hend : end_ + bulkSize ≤ Go.maxInt64) (hs : Go.minInt64 ≤ s.totalInserted)
    (hs' : start < end_ → s.totalInserted + (end_ - start) ≤ Go.maxInt64)
    (fuel : Nat) (hfuel : (end_ - start).toNat < fuel) :
    forBatches64 State.wrapCounter body fuel start end_ s =
      Progress.ofOption (forBatches body start end_ s) :=
  forBatches64_eq State.wrapCounter body (fun t => t.totalInserted) end_ hend
    (fun t h1 h2 => wrapCounter_of_fits t h1 h2)
    (fun k t t' hk hb => by
      obtain ⟨t'', ht'', hc⟩ := hbody k (batchEnd k end_) t
        (by rw [batchEnd_eq_min]; omega)
      rw [hb] at ht''
      rw [Option.some.inj ht'']
      exact hc)
    (end_ - start).toNat start s (le_refl _) hlo hs hs' fuel hfuel

theorem pairLoop64_eq (body : Int → Int → State × Tracker → Option (State × Tracker))
    (hbody : ∀ k e t, k ≤ e → ∃ t', body k e t = some t' ∧
      t'.1.totalInserted = t.1.totalInserted + (e - k))
    (start end_ : Int) (st : State × Tracker) (hlo : Go.minInt64 ≤ start)
    (hend : end_ + bulkSize ≤ Go.maxInt64) (hs : Go.minInt64 ≤ st.1.totalInserted)
    (hs' : start < end_ → st.1.totalInserted + (end_ - start) ≤ Go.maxInt64)
    (fuel : Nat) (hfuel : (end_ - start).toNat < fuel) :
    (forBatches64 (fun st => (State.wrapCounter st.1, st.2)) body fuel start end_ st).map
        Prod.fst =
      Progress.ofOption ((forBatches body start end_ st).map Prod.fst) := by
  rw [forBatches64_eq (fun st => (State.wrapCounter st.1, st.2)) body
    (fun t => t.1.totalInserted) end_ hend
    (fun t h1 h2 => by
      show (State.wrapCounter t.1, t.2) = t
      rw [wrapCounter_of_fits t.1 h1 h2])
    (fun k t t' hk hb => by
      obtain ⟨t'', ht'', hc⟩ := hbody k (batchEnd k end_) t
        (by rw [batchEnd_eq_min]; omega)
      rw [hb] at ht''
      rw [Option.some.inj ht'']
      exact hc)
    (end_ - start).toNat start st (le_refl _) hlo hs hs' fuel hfuel]
  cases forBatches body start end_ st <;> rfl

theorem seedAuthors64_agrees (rnd : Nat → Nat) (ok : Nat → Bool) (fuel : Nat) (count : Int)
    (s : State) (hc : 0 ≤ count) (hend : count + bulkSize ≤ Go.maxInt64)
    (hs : Go.minInt64 ≤ s.totalInserted) (hs' : s.totalInserted + count ≤ Go.maxInt64)
    (hfuel : count.toNat < fuel) :
    Agrees (seedAuthors64 rnd ok fuel count) (seedAuthors rnd ok count) count s := by
  obtain ⟨s', h, hcnt⟩ := seedAuthors_counter rnd ok count s hc
  refine ⟨s', ?_, h, hcnt⟩
  unfold seedAuthors64
  rw [plainLoop64_eq (seedAuthorsBatch rnd ok)
    (fun k e t hk => seedAuthorsBatch_counter rnd ok k e t hk) 0 count s
    (by unfold Go.minInt64; omega) hend hs (fun _ => by omega) fuel (by simpa using hfuel)]
  unfold seedAuthors at h
  rw [h]
  rfl

theorem seedTags64_agrees (rnd : Nat → Nat) (ok : Nat → Bool) (fuel : Nat) (count : Int)
    (s : State) (hc : 0 ≤ count) (hend : count + bulkSize ≤ Go.maxInt64)
    (hs : Go.minInt64 ≤ s.totalInserted) (hs' : s.totalInserted + count ≤ Go.maxInt64)
    (hfuel : count.toNat < fuel) :
    Agrees (seedTags64 rnd ok fuel count) (seedTags rnd ok count) count s := by
  obtain ⟨s', h, hcnt⟩ := seedTags_counter rnd ok count s hc
  refine ⟨s', ?_, h, hcnt⟩
  unfold seedTags64
  rw [plainLoop64_eq (seedTagsBatch rnd ok)
    (fun k e t hk => seedTagsBatch_counter rnd ok k e t hk) 0 count s
    (by unfold Go.minInt64; omega) hend hs (fun _ => by omega) fuel (by simpa using hfuel)]
  unfold seedTags at h
  rw [h]
  rfl

theorem insertBooks64_agrees (rnd : Nat → Nat) (ok : Nat → Bool) (fuel : Nat)
    (workerID start end_ numAuthors : Int) (s : State) (hA : 0 < numAuthors)
    (hle : start ≤ end_) (hlo : Go.minInt64 ≤ start) (hend : end_ + bulkSize ≤ Go.maxInt64)
    (hs : Go.minInt64 ≤ s.totalInserted)
    (hs' : s.totalInserted + (end_ - start) ≤ Go.maxInt64)
    (hfuel : (end_ - start).toNat < fuel) :
    Agrees (insertBooks64 rnd ok fuel workerID start end_ numAuthors)
      (insertBooks rnd ok workerID start end_ numAuthors) (end_ - start) s := by
  obtain ⟨s', h, hcnt⟩ := insertBooks_counter rnd ok workerID start end_ numAuthors s hA hle
  refine ⟨s', ?_, h, hcnt⟩
  unfold insertBooks64
  rw [plainLoop64_eq (insertBooksBatch rnd ok numAuthors)
    (fun k e t hk => insertBooksBatch_counter rnd ok numAuthors k e t hA hk) start end_ s
    hlo hend hs (fun _ => hs') fuel hfuel]
  unfold insertBooks at h
  rw [h]
  rfl

theorem insertBookTags64_agrees (rnd : Nat → Nat) (ok : Nat → Bool) (fuel : Nat)
    (workerID start end_ n1 n2 : Int) (s : State) (h1 : 0 < n1) (h2 : 0 < n2)
    (hle : start ≤ end_) (hlo : Go.minInt64 ≤ start) (hend : end_ + bulkSize ≤ Go.maxInt64)
    (hs : Go.minInt64 ≤ s.totalInserted)
    (hs' : s.totalInserted + (end_ - start) ≤ Go.maxInt64)
    (hfuel : (end_ - start).toNat < fuel) :
    Agrees (insertBookTags64 rnd ok fuel workerID start end_ n1 n2)
      (insertBookTags rnd ok workerID start end_ n1 n2) (end_ - start) s := by
  obtain ⟨s', h, hcnt⟩ := insertBookTags_counter rnd ok workerID start end_ n1 n2 s h1 h2 hle
  refine ⟨s', ?_, h, hcnt⟩
  unfold insertBookTags64
  rw [pairLoop64_eq (insertBookTagsBatch rnd ok n1 n2)
    (fun k e t hk => insertBookTagsBatch_counter rnd ok n1 n2 k e t h1 h2 hk) start end_
    (s, Tracker.make) hlo hend hs (fun _ => hs') fuel hfuel]
  unfold insertBookTags at h
  rw [h]
  rfl

theorem seedAuthorTags64_agrees (rnd : Nat → Nat) (ok : Nat → Bool) (fuel : Nat)
    (count n1 n2 : Int) (s : State) (h1 : 0 < n1) (h2 : 0 < n2) (hc : 0 ≤ count)
    (hend : count + bulkSize ≤ Go.maxInt64) (hs : Go.minInt64 ≤ s.totalInserted)
    (hs' : s.totalInserted + count ≤ Go.maxInt64) (hfuel : count.toNat < fuel) :
    Agrees (seedAuthorTags64 rnd ok fuel count n1 n2) (seedAuthorTags rnd ok count n1 n2)
      count s := by
  obtain ⟨s', h, hcnt⟩ := seedAuthorTags_counter rnd ok count n1 n2 s h1 h2 hc
  refine ⟨s', ?_, h, hcnt⟩
  unfold seedAuthorTags64
  rw [pairLoop64_eq (seedAuthorTagsBatch rnd ok n1 n2)
    (fun k e t hk => seedAuthorTagsBatch_counter rnd ok n1 n2 k e t h1 h2 hk) 0 count
    (s, Tracker.make) (by unfold Go.minInt64; omega) hend hs
    (fun _ => by show s.totalInserted + (count - 0) ≤ Go.maxInt64; omega) fuel
    (by simpa using hfuel)]
  unfold seedAuthorTags at h
  rw [h]
  rfl

/-- Workers run one after the other on 64-bit integers return what they return on the
mathematical integers, when each of them does and the counter stays within 64 bits. -/
theorem workers64_agree (run64 : Int → Int → Int → State → Progress State)
    (run : Int → Int → Int → State → Option State) (range : Int → Int × Int) :
    ∀ (ws : List Int) (s : State),
      (∀ w ∈ ws, (range w).1 ≤ (range w).2) →
      (∀ w ∈ ws, ∀ t : State, Go.minInt64 ≤ t.totalInserted →
        t.totalInserted + ((range w).2 - (range w).1) ≤ Go.maxInt64 →
        Agrees (run64 w (range w).1 (range w).2) (run w (range w).1 (range w).2)
          ((range w).2 - (range w).1) t) →
      Go.minInt64 ≤ s.totalInserted →
      s.totalInserted + rangeSizes (ws.map range) ≤ Go.maxInt64 →
      Agrees
        (fun s => ws.foldl (fun p w => p.andThen (run64 w (range w).1 (range w).2))
          (Progress.returned s))
        (fun s => ws.foldlM (fun s w => run w (range w).1 (range w).2 s) s)
        (rangeSizes (ws.map range)) s := by
  intro ws
  induction ws with
  | nil =>
    intro s _ _ _ _
    exact ⟨s, rfl, rfl, by simp [rangeSizes]⟩
  | cons w ws ih =>
    intro s hle hrun hs hs'
    have hrest : 0 ≤ rangeSizes (ws.map range) := by
      unfold rangeSizes
      apply List.sum_nonneg
      intro x hx
      obtain ⟨r, hr, rfl⟩ := List.mem_map.mp hx
      obtain ⟨w', hw', rfl⟩ := List.mem_map.mp hr
      have := hle w' (List.mem_cons_of_mem _ hw')
      omega
    have hsz : rangeSizes ((w :: ws).map range) =
        ((range w).2 - (range w).1) + rangeSizes (ws.map range) := by
      simp [rangeSizes]
    have hw := hle w (List.mem_cons_self _ _)
    obtain ⟨s1, h64, h1, hc1⟩ := hrun w (List.mem_cons_self _ _) s hs (by omega)
    obtain ⟨s2, g64, g1, hc2⟩ := ih s1 (fun w' hw' => hle w' (List.mem_cons_of_mem _ hw'))
      (fun w' hw' => hrun w' (List.mem_cons_of_mem _ hw')) (by omega) (by omega)
    refine ⟨s2, ?_, ?_, by rw [hc2, hc1, hsz]; omega⟩
    · show ws.foldl _ ((Progress.returned s).andThen _) = _
      show ws.foldl _ (run64 w (range w).1 (range w).2 s) = _
      rw [h64]
      exact g64
    · show (w :: ws).foldlM _ s = _
      rw [List.foldlM_cons, h1]
      exact g1

end Seed

namespace Seed

theorem workerIds_ranges_bounds (count : Int) (h : 0 ≤ count) :
    ∀ w ∈ workerIds, 0 ≤ (seedBooksRange count w).1 ∧ (seedBooksRange count w).2 ≤ count := by
  intro w hw
  simp only [workerIds, List.mem_cons, List.mem_singleton, List.not_mem_nil, or_false] at hw
  simp only [seedBooksRange_val count _ h]
  rcases hw with rfl | rfl | rfl | rfl | rfl | rfl | rfl | rfl <;> simp <;> omega

/-- The eight workers of `seedBooks` or `seedBookTags` on 64-bit integers, for a count of
at most `2 ^ 63 - 1 - bulkSize` and a counter that stays within 64 bits. -/
theorem workerPhase64_agrees (run64 : Int → Int → Int → State → Progress State)
    (run : Int → Int → Int → State → Option State) (count : Int) (fuel : Nat) (s : State)
    (hrun : ∀ (w a e : Int) (t : State), a ≤ e → Go.minInt64 ≤ a →
      e + bulkSize ≤ Go.maxInt64 → Go.minInt64 ≤ t.totalInserted →
      t.totalInserted + (e - a) ≤ Go.maxInt64 → (e - a).toNat < fuel →
      Agrees (run64 w a e) (run w a e) (e - a) t)
    (hc : 0 ≤ count) (hend : count + bulkSize ≤ Go.maxInt64)
    (hs : Go.minInt64 ≤ s.totalInserted) (hs' : s.totalInserted + count ≤ Go.maxInt64)
    (hfuel : count.toNat < fuel) :
    Agrees
      (fun s => workerIds.foldl
        (fun p w => p.andThen
          (run64 w (seedBooksRange count w).1 (seedBooksRange count w).2))
        (Progress.returned s))
      (fun s => workerIds.foldlM
        (fun s w => run w (seedBooksRange count w).1 (seedBooksRange count w).2 s) s)
      count s := by
  have hsz : rangeSizes (workerIds.map (seedBooksRange count)) = count :=
    seedBooksRanges_sizes count hc
  have key := workers64_agree run64 run (seedBooksRange count) workerIds s
    (workerIds_ranges_ordered count hc)
    (fun w hw t ht ht' => by
      obtain ⟨h0, h1⟩ := workerIds_ranges_bounds count hc w hw
      have h2 := workerIds_ranges_ordered count hc w hw
      exact hrun w _ _ t h2 (by unfold Go.minInt64; omega) (by omega) ht ht' (by omega))
    hs (by rw [hsz]; exact hs')
  rw [hsz] at key
  exact key

/-- C3: for every `start ≤ end`, all random draws `rnd` and all insert outcomes `ok`, one
call `insertBookTags(start, end)` returns and has advanced `totalInserted` by exactly
`end - start`, whatever was dropped and whichever INSERT failed; likewise
`seedAuthorTags(count)` advances it by `count`.  The functions are those on 64-bit
integers, and the values are such that no sum wraps around: the range starts at
`-2 ^ 63` or above and ends at `2 ^ 63 - 1 - bulkSize` or below, so that `i + bulkSize`
stays within 64 bits, and so does the counter before and after the call.  The id bounds
are positive, as `rand.Intn` requires. -/
theorem association_counter_advances (rnd : Nat → Nat) (ok : Nat → Bool)
    (workerID start end_ count n1 n2 : Int) (s : State)
    (hle : start ≤ end_) (hc : 0 ≤ count) (h1 : 0 < n1) (h2 : 0 < n2)
    (hlo : Go.minInt64 ≤ start) (hhi : end_ + bulkSize ≤ Go.maxInt64)
    (hcount : count + bulkSize ≤ Go.maxInt64)
    (hs : Go.minInt64 ≤ s.totalInserted)
    (hs1 : s.totalInserted + (end_ - start) ≤ Go.maxInt64)
    (hs2 : s.totalInserted + count ≤ Go.maxInt64) :
    (∃ fuel s', insertBookTags64 rnd ok fuel workerID start end_ n1 n2 s =
        Progress.returned s' ∧
      s'.totalInserted = s.totalInserted + (end_ - start)) ∧
    (∃ fuel s', seedAuthorTags64 rnd ok fuel count n1 n2 s = Progress.returned s' ∧
      s'.totalInserted = s.totalInserted + count) := by
  constructor
  · obtain ⟨s', h64, -, hcnt⟩ := insertBookTags64_agrees rnd ok ((end_ - start).toNat + 1)
      workerID start end_ n1 n2 s h1 h2 hle hlo hhi hs hs1 (by omega)
    exact ⟨_, s', h64, hcnt⟩
  · obtain ⟨s', h64, -, hcnt⟩ := seedAuthorTags64_agrees rnd ok (count.toNat + 1)
      count n1 n2 s h1 h2 hc hcount hs hs2 (by omega)
    exact ⟨_, s', h64, hcnt⟩

theorem association_counter_advances_witness :
    (3 : Int) ≤ 12004 ∧ (0 : Int) ≤ 7 ∧ (0 : Int) < 2 ∧ (0 : Int) < 3 ∧
    Go.minInt64 ≤ 3 ∧ 12004 + bulkSize ≤ Go.maxInt64 ∧ 7 + bulkSize ≤ Go.maxInt64 ∧
    Go.minInt64 ≤ State.init.totalInserted ∧
    State.init.totalInserted + (12004 - 3) ≤ Go.maxInt64 ∧
    State.init.totalInserted + 7 ≤ Go.maxInt64 ∧
    ((∃ fuel s', insertBookTags64 (fun p => p / 2) (fun _ => false) fuel 0 3 12004 2 3
        State.init = Progress.returned s' ∧
      s'.totalInserted = State.init.totalInserted + (12004 - 3)) ∧
     (∃ fuel s', seedAuthorTags64 (fun p => p / 2) (fun _ => false) fuel 7 2 3 State.init =
        Progress.returned s' ∧
      s'.totalInserted = State.init.totalInserted + 7)) :=
  ⟨by decide, by decide, by decide, by decide, by decide, by decide, by decide, by decide,
    by decide, by decide,
    association_counter_advances (fun p => p / 2) (fun _ => false) 0 3 12004 7 2 3 State.init
      (by decide) (by decide) (by decide) (by decide) (by decide) (by decide) (by decide)
      (by decide) (by decide) (by decide)⟩

/-- C4: for all positive counts, the five seeding phases of `main`, started from
`totalInserted = 0`, all return, and afterwards `totalInserted` equals
`totalTarget = numAuthors + numBooks + numTags + numBookTags + numAuthorTags`, for all
random draws (whatever is dropped as a duplicate) and all insert outcomes.  The functions
are those on 64-bit integers, and the counts are such that no sum wraps around: each is
at most `2 ^ 63 - 1 - bulkSize`, so that `i + bulkSize` stays within 64 bits in every
loop, and their sum is at most `2 ^ 63 - 1`.  On such counts the functions on the
mathematical integers return the same state. -/
theorem main_counter_equals_target (rnd : Nat → Nat) (ok : Nat → Bool)
    (numAuthors numBooks numTags numBookTags numAuthorTags : Int)
    (hA : 0 < numAuthors) (hB : 0 < numBooks) (hT : 0 < numTags) (hBT : 0 < numBookTags)
    (hAT : 0 < numAuthorTags)
    (hA' : numAuthors + bulkSize ≤ Go.maxInt64) (hB' : numBooks + bulkSize ≤ Go.maxInt64)
    (hT' : numTags + bulkSize ≤ Go.maxInt64)
    (hBT' : numBookTags + bulkSize ≤ Go.maxInt64)
    (hAT' : numAuthorTags + bulkSize ≤ Go.maxInt64)
    (hsum : numAuthors + numBooks + numTags + numBookTags + numAuthorTags ≤ Go.maxInt64) :
    ∃ fuel s, main64 rnd ok fuel numAuthors numBooks numTags numBookTags numAuthorTags =
        (numAuthors + numBooks + numTags + numBookTags + numAuthorTags,
          Progress.returned s) ∧
      s.totalInserted = numAuthors + numBooks + numTags + numBookTags + numAuthorTags ∧
      main rnd ok numAuthors numBooks numTags numBookTags numAuthorTags =
        some (numAuthors + numBooks + numTags + numBookTags + numAuthorTags, s) := by
  have hmin : Go.minInt64 ≤ 0 := by decide
  have hmin' : Go.minInt64 = -9223372036854775808 := rfl
  obtain ⟨fuel, hfuel⟩ : ∃ fuel : Nat,
      fuel = (numAuthors + numBooks + numTags + numBookTags + numAuthorTags).toNat + 1 :=
    ⟨_, rfl⟩
  have h0 : State.init.totalInserted = 0 := rfl
  obtain ⟨s1, e1, f1, c1⟩ := seedAuthors64_agrees rnd ok fuel numAuthors State.init
    (le_of_lt hA) hA' (by rw [h0]; exact hmin) (by rw [h0]; omega) (by omega)
  rw [h0] at c1
  obtain ⟨s2, e2, f2, c2⟩ := seedTags64_agrees rnd ok fuel numTags s1
    (le_of_lt hT) hT' (by omega) (by omega) (by omega)
  obtain ⟨s3, e3, f3, c3⟩ := workerPhase64_agrees
    (fun w a e t => insertBooks64 rnd ok fuel w a e numAuthors t)
    (fun w a e t => insertBooks rnd ok w a e numAuthors t) numBooks fuel s2
    (fun w a e t hle hlo hend ht ht' hf =>
      insertBooks64_agrees rnd ok fuel w a e numAuthors t hA hle hlo hend ht ht' hf)
    (le_of_lt hB) hB' (by omega) (by omega) (by omega)
  obtain ⟨s4, e4, f4, c4⟩ := workerPhase64_agrees
    (fun w a e t => insertBookTags64 rnd ok fuel w a e numBooks numTags t)
    (fun w a e t => insertBookTags rnd ok w a e numBooks numTags t) numBookTags fuel s3
    (fun w a e t hle hlo hend ht ht' hf =>
      insertBookTags64_agrees rnd ok fuel w a e numBooks numTags t hB hT hle hlo hend ht ht'
        hf)
    (le_of_lt hBT) hBT' (by omega) (by omega) (by omega)
  obtain ⟨s5, e5, f5, c5⟩ := seedAuthorTags64_agrees rnd ok fuel numAuthorTags numAuthors
    numTags s4 hA hT (le_of_lt hAT) hAT' (by omega) (by omega) (by omega)
  have e3' : seedBooks64 rnd ok fuel numBooks numAuthors s2 = Progress.returned s3 := e3
  have e4' : seedBookTags64 rnd ok fuel numBookTags numBooks numTags s3 =
      Progress.returned s4 := e4
  have f3' : seedBooks rnd ok numBooks numAuthors s2 = some s3 := f3
  have f4' : seedBookTags rnd ok numBookTags numBooks numTags s3 = some s4 := f4
  refine ⟨fuel, s5, ?_, by omega, ?_⟩
  · unfold main64
    rw [wrap64_of_fits _ (by omega) hsum, e1]
    simp only [Progress.andThen, e2, e3', e4', e5]
  · simp only [main, f1, f2, f3', f4', f5]

theorem main_counter_equals_target_witness :
    (0 : Int) < 3 ∧ (0 : Int) < 20 ∧ (0 : Int) < 2 ∧ (0 : Int) < 12000 ∧ (0 : Int) < 9 ∧
    3 + bulkSize ≤ Go.maxInt64 ∧ 20 + bulkSize ≤ Go.maxInt64 ∧ 2 + bulkSize ≤ Go.maxInt64 ∧
    12000 + bulkSize ≤ Go.maxInt64 ∧ 9 + bulkSize ≤ Go.maxInt64 ∧
    (3 : Int) + 20 + 2 + 12000 + 9 ≤ Go.maxInt64 ∧
    ∃ fuel s, main64 (fun p => p * p) (fun k => k % 2 == 0) fuel 3 20 2 12000 9 =
        (3 + 20 + 2 + 12000 + 9, Progress.returned s) ∧
      s.totalInserted = 3 + 20 + 2 + 12000 + 9 ∧
      main (fun p => p * p) (fun k => k % 2 == 0) 3 20 2 12000 9 =
        some (3 + 20 + 2 + 12000 + 9, s) :=
  ⟨by decide, by decide, by decide, by decide, by decide, by decide, by decide, by decide,
    by decide, by decide, by decide,
    main_counter_equals_target (fun p => p * p) (fun k => k % 2 == 0) 3 20 2 12000 9
      (by decide) (by decide) (by decide) (by decide) (by decide) (by decide) (by decide)
      (by decide) (by decide) (by decide) (by decide)⟩

end Seed

namespace Seed

/-- Beyond the ranges of the theorems below the index wraps around: for the batch that
starts at `2 ^ 63 - 11` in a range that ends at `2 ^ 63 - 1`, `i + bulkSize` is negative
on 64-bit integers, so that `batchEnd` is not clamped to `end` and lies below `i` (the
inner loop makes no iteration), and the loop goes on from a negative index. -/
theorem index_wraps_near_maxInt64 :
    Go.wrap64 (9223372036854775797 + bulkSize) = -9223372036854770819 ∧
    batchEnd64 9223372036854775797 9223372036854775807 = -9223372036854770819 ∧
    batchEnd 9223372036854775797 9223372036854775807 = 9223372036854775807 ∧
    Go.wrap64 (9223372036854775797 + bulkSize) < 9223372036854775807 := by
  decide

/-- A plain batch loop on 64-bit integers, for a range that ends at least `bulkSize`
below `2 ^ 63 - 1`, run with the outcomes `ok` and with every INSERT succeeding. -/
theorem plainBatches64_both (f g : Int → Int → State → Option State)
    (row : Int → Batch → Option Batch) (ok : Nat → Bool) (head group : String)
    (width draws : Nat) (first : Int → Arg → Prop)
    (hrow : RowSpec row group width draws first)
    (hf : ∀ i e s, f i e s =
      match forRange row i e ⟨[], [], s.pos⟩ with
      | none => none
      | some b => some (addInserted (e - i)
          (exec ok (head ++ ",".intercalate b.values) b.args { s with pos := b.pos })))
    (hg : ∀ i e s, g i e s =
      match forRange row i e ⟨[], [], s.pos⟩ with
      | none => none
      | some b => some (addInserted (e - i)
          (exec (fun _ => true) (head ++ ",".intercalate b.values) b.args
            { s with pos := b.pos })))
    (start end_ : Int) (s : State) (hle : start ≤ end_) (hlo : Go.minInt64 ≤ start)
    (hend : end_ + bulkSize ≤ Go.maxInt64) :
    ∃ fuel s1 s2 new,
      forBatches64 State.wrapCounter f fuel start end_ s = Progress.returned s1 ∧
      forBatches64 State.wrapCounter g fuel start end_ s = Progress.returned s2 ∧
      s1.stmts = s.stmts ++ new ∧ s2.stmts = s.stmts ++ new ∧ s1.pos = s2.pos ∧
      s1.totalInserted = s2.totalInserted ∧ s2.errors = s.errors ∧
      AreBatchStmts head group width first start end_ new := by
  obtain ⟨s1, new, h1, hst, hall⟩ := plainBatches64_spec f row ok head group width draws
    first hrow hf start end_ s hle hlo hend ((end_ - start).toNat + 1) (by omega)
  have hrel := plainBatches64_same f g row ok head hf hg ((end_ - start).toNat + 1)
    start end_ s
  rw [h1] at hrel
  cases h2 : forBatches64 State.wrapCounter g ((end_ - start).toNat + 1) start end_ s with
  | running t => rw [h2] at hrel; exact absurd hrel (by simp [Progress.Rel])
  | panicked => rw [h2] at hrel; exact absurd hrel (by simp [Progress.Rel])
  | returned s2 =>
    rw [h2] at hrel
    obtain ⟨hw, he⟩ : s1.work = s2.work ∧ s2.errors = s.errors := hrel
    simp only [State.work, Prod.mk.injEq] at hw
    exact ⟨_, s1, s2, new, h1, h2, hst, by rw [← hw.2.1, hst], hw.1, hw.2.2, he, hall⟩

/-- C5: for every range `[start, end)` with `start ≤ end`, `insertBooks` returns having
issued exactly `⌈(end - start) / 5000⌉` INSERT statements; the `k`-th one is
`"INSERT INTO books ... VALUES "` followed by one `"(?, ?, ?)"` per index of
`[start + 5000 k, min (start + 5000 (k + 1)) end)`, joined by commas, carries 3 arguments
per index, and the row of index `j` carries the title of volume `j + 1`.  `seedAuthors`
and `seedTags` do the same on `[0, count)` with `"(?, ?)"` and 2 arguments, and `"(?)"`
and 1 argument.  An empty range issues no statement.  The functions are those on 64-bit
integers, and the range is such that the index does not wrap around: it starts at
`-2 ^ 63` or above and ends at `2 ^ 63 - 1 - bulkSize` or below, so that `i + bulkSize`
stays within 64 bits.  `numAuthors` is positive, as `rand.Intn` requires. -/
theorem batch_statements_issued (rnd : Nat → Nat) (ok : Nat → Bool)
    (workerID start end_ numAuthors count : Int) (s : State)
    (hle : start ≤ end_) (hA : 0 < numAuthors) (hc : 0 ≤ count)
    (hlo : Go.minInt64 ≤ start) (hhi : end_ + bulkSize ≤ Go.maxInt64)
    (hcount : count + bulkSize ≤ Go.maxInt64) :
    (∃ fuel s' new, insertBooks64 rnd ok fuel workerID start end_ numAuthors s =
        Progress.returned s' ∧
      s'.stmts = s.stmts ++ new ∧ (start = end_ → new = []) ∧
      AreBatchStmts "INSERT INTO books (title, author_id, created_at) VALUES " "(?, ?, ?)" 3
        bookFirst start end_ new) ∧
    (∃ fuel s' new, seedAuthors64 rnd ok fuel count s = Progress.returned s' ∧
      s'.stmts = s.stmts ++ new ∧ (count = 0 → new = []) ∧
      AreBatchStmts "INSERT INTO authors (name, created_at) VALUES " "(?, ?)" 2
        authorFirst 0 count new) ∧
    (∃ fuel s' new, seedTags64 rnd ok fuel count s = Progress.returned s' ∧
      s'.stmts = s.stmts ++ new ∧ (count = 0 → new = []) ∧
      AreBatchStmts "INSERT INTO tags (name) VALUES " "(?)" 1 tagFirst 0 count new) := by
  have h0 : Go.minInt64 ≤ 0 := by decide
  refine ⟨?_, ?_, ?_⟩
  · obtain ⟨s', new, h1, h2, h3⟩ := plainBatches64_spec (insertBooksBatch rnd ok numAuthors)
      (insertBooksRow rnd numAuthors) ok _ _ 3 4 bookFirst
      (insertBooksRow_spec rnd numAuthors hA) (fun _ _ _ => rfl) start end_ s hle hlo hhi
      ((end_ - start).toNat + 1) (by omega)
    refine ⟨_, s', new, h1, h2, ?_, h3⟩
    intro he
    have := h3.1
    apply List.eq_nil_of_length_eq_zero
    omega
  · obtain ⟨s', new, h1, h2, h3⟩ := plainBatches64_spec (seedAuthorsBatch rnd ok)
      (seedAuthorsRow rnd) ok _ _ 2 1 authorFirst
      (seedAuthorsRow_spec rnd) (fun _ _ _ => rfl) 0 count s hc h0 hcount
      ((count - 0).toNat + 1) (by omega)
    refine ⟨_, s', new, h1, h2, ?_, h3⟩
    intro he
    have := h3.1
    apply List.eq_nil_of_length_eq_zero
    omega
  · obtain ⟨s', new, h1, h2, h3⟩ := plainBatches64_spec (seedTagsBatch rnd ok)
      (seedTagsRow rnd) ok _ _ 1 1 tagFirst
      (seedTagsRow_spec rnd) (fun _ _ _ => rfl) 0 count s hc h0 hcount
      ((count - 0).toNat + 1) (by omega)
    refine ⟨_, s', new, h1, h2, ?_, h3⟩
    intro he
    have := h3.1
    apply List.eq_nil_of_length_eq_zero
    omega

theorem batch_statements_issued_witness :
    (3 : Int) ≤ 12004 ∧ (0 : Int) < 100 ∧ (0 : Int) ≤ 7 ∧ Go.minInt64 ≤ 3 ∧
    12004 + bulkSize ≤ Go.maxInt64 ∧ 7 + bulkSize ≤ Go.maxInt64 ∧
    ((∃ fuel s' new, insertBooks64 (fun p => p + 1) (fun _ => true) fuel 0 3 12004 100
        State.init = Progress.returned s' ∧
      s'.stmts = State.init.stmts ++ new ∧ ((3 : Int) = 12004 → new = []) ∧
      AreBatchStmts "INSERT INTO books (title, author_id, created_at) VALUES " "(?, ?, ?)" 3
        bookFirst 3 12004 new) ∧
    (∃ fuel s' new, seedAuthors64 (fun p => p + 1) (fun _ => true) fuel 7 State.init =
        Progress.returned s' ∧
      s'.stmts = State.init.stmts ++ new ∧ ((7 : Int) = 0 → new = []) ∧
      AreBatchStmts "INSERT INTO authors (name, created_at) VALUES " "(?, ?)" 2
        authorFirst 0 7 new) ∧
    (∃ fuel s' new, seedTags64 (fun p => p + 1) (fun _ => true) fuel 7 State.init =
        Progress.returned s' ∧
      s'.stmts = State.init.stmts ++ new ∧ ((7 : Int) = 0 → new = []) ∧
      AreBatchStmts "INSERT INTO tags (name) VALUES " "(?)" 1 tagFirst 0 7 new)) :=
  ⟨by decide, by decide, by decide, by decide, by decide, by decide,
    batch_statements_issued (fun p => p + 1) (fun _ => true) 0 3 12004 100 7 State.init
      (by decide) (by decide) (by decide) (by decide) (by decide) (by decide)⟩

/-- C21: for every range and every sequence of insert outcomes `ok`, a failed INSERT in
`insertBooks`, `seedAuthors` or `seedTags` does not stop the loop.  On 64-bit integers,
for every range whatever and after any number `fuel` of iterations allowed, the run with
the outcomes `ok` and the run in which every INSERT succeeds have come equally far
(both still running, or both returned), having issued the same statements with the same
arguments, made the same draws and advanced the counter alike, the second without a
logged error; both panic only together (when `numAuthors ≤ 0`).  And for a range
`start ≤ end` that starts at `-2 ^ 63` or above and ends at `2 ^ 63 - 1 - bulkSize` or
below, so that `i + bulkSize` stays within 64 bits, both runs return, and the statements
they have issued are those of the batches
`[start + 5000 k, min (start + 5000 (k + 1)) end)`, `⌈(end - start) / 5000⌉` of them, so
that the batch after a failed one is attempted all the same; so it is on the range
`[3, 12004)` when every INSERT fails. -/
theorem failed_insert_keeps_going :
    (∀ (rnd : Nat → Nat) (ok : Nat → Bool) (fuel : Nat)
        (workerID start end_ numAuthors count : Int) (s : State),
      Progress.Rel (fun a b => a.work = b.work ∧ b.errors = s.errors)
        (insertBooks64 rnd ok fuel workerID start end_ numAuthors s)
        (insertBooks64 rnd (fun _ => true) fuel workerID start end_ numAuthors s) ∧
      Progress.Rel (fun a b => a.work = b.work ∧ b.errors = s.errors)
        (seedAuthors64 rnd ok fuel count s) (seedAuthors64 rnd (fun _ => true) fuel count s) ∧
      Progress.Rel (fun a b => a.work = b.work ∧ b.errors = s.errors)
        (seedTags64 rnd ok fuel count s) (seedTags64 rnd (fun _ => true) fuel count s)) ∧
    (∀ (rnd : Nat → Nat) (ok : Nat → Bool) (workerID start end_ numAuthors : Int) (s : State),
      start ≤ end_ → 0 < numAuthors → Go.minInt64 ≤ start → end_ + bulkSize ≤ Go.maxInt64 →
      ∃ fuel s1 s2 new,
        insertBooks64 rnd ok fuel workerID start end_ numAuthors s = Progress.returned s1 ∧
        insertBooks64 rnd (fun _ => true) fuel workerID start end_ numAuthors s =
          Progress.returned s2 ∧
        s1.stmts = s.stmts ++ new ∧ s2.stmts = s.stmts ++ new ∧ s1.pos = s2.pos ∧
        s1.totalInserted = s2.totalInserted ∧ s2.errors = s.errors ∧
        AreBatchStmts "INSERT INTO books (title, author_id, created_at) VALUES " "(?, ?, ?)"
          3 bookFirst start end_ new) ∧
    (∀ (rnd : Nat → Nat) (ok : Nat → Bool) (count : Int) (s : State),
      0 ≤ count → count + bulkSize ≤ Go.maxInt64 →
      (∃ fuel s1 s2 new, seedAuthors64 rnd ok fuel count s = Progress.returned s1 ∧
        seedAuthors64 rnd (fun _ => true) fuel count s = Progress.returned s2 ∧
        s1.stmts = s.stmts ++ new ∧ s2.stmts = s.stmts ++ new ∧ s1.pos = s2.pos ∧
        s1.totalInserted = s2.totalInserted ∧ s2.errors = s.errors ∧
        AreBatchStmts "INSERT INTO authors (name, created_at) VALUES " "(?, ?)" 2
          authorFirst 0 count new) ∧
      (∃ fuel s1 s2 new, seedTags64 rnd ok fuel count s = Progress.returned s1 ∧
        seedTags64 rnd (fun _ => true) fuel count s = Progress.returned s2 ∧
        s1.stmts = s.stmts ++ new ∧ s2.stmts = s.stmts ++ new ∧ s1.pos = s2.pos ∧
        s1.totalInserted = s2.totalInserted ∧ s2.errors = s.errors ∧
        AreBatchStmts "INSERT INTO tags (name) VALUES " "(?)" 1 tagFirst 0 count new)) ∧
    (∃ fuel s1 s2 new,
      insertBooks64 (fun p => p + 1) (fun _ => false) fuel 0 3 12004 100 State.init =
        Progress.returned s1 ∧
      insertBooks64 (fun p => p + 1) (fun _ => true) fuel 0 3 12004 100 State.init =
        Progress.returned s2 ∧
      s1.stmts = new ∧ s2.stmts = new ∧ new.length = 3 ∧ s2.errors = 0 ∧
      AreBatchStmts "INSERT INTO books (title, author_id, created_at) VALUES " "(?, ?, ?)"
        3 bookFirst 3 12004 new) := by
  have h0 : Go.minInt64 ≤ 0 := by decide
  have books : ∀ (rnd : Nat → Nat) (ok : Nat → Bool) (workerID start end_ numAuthors : Int)
      (s : State),
      start ≤ end_ → 0 < numAuthors → Go.minInt64 ≤ start → end_ + bulkSize ≤ Go.maxInt64 →
      ∃ fuel s1 s2 new,
        insertBooks64 rnd ok fuel workerID start end_ numAuthors s = Progress.returned s1 ∧
        insertBooks64 rnd (fun _ => true) fuel workerID start end_ numAuthors s =
          Progress.returned s2 ∧
        s1.stmts = s.stmts ++ new ∧ s2.stmts = s.stmts ++ new ∧ s1.pos = s2.pos ∧
        s1.totalInserted = s2.totalInserted ∧ s2.errors = s.errors ∧
        AreBatchStmts "INSERT INTO books (title, author_id, created_at) VALUES " "(?, ?, ?)"
          3 bookFirst start end_ new := by
    intro rnd ok workerID start end_ numAuthors s hle hA hlo hhi
    exact plainBatches64_both (insertBooksBatch rnd ok numAuthors)
      (insertBooksBatch rnd (fun _ => true) numAuthors) (insertBooksRow rnd numAuthors) ok
      _ _ 3 4 bookFirst (insertBooksRow_spec rnd numAuthors hA) (fun _ _ _ => rfl)
      (fun _ _ _ => rfl) start end_ s hle hlo hhi
  refine ⟨?_, books, ?_, ?_⟩
  · intro rnd ok fuel workerID start end_ numAuthors count s
    exact ⟨plainBatches64_same (insertBooksBatch rnd ok numAuthors)
        (insertBooksBatch rnd (fun _ => true) numAuthors) (insertBooksRow rnd numAuthors) ok _
        (fun _ _ _ => rfl) (fun _ _ _ => rfl) fuel start end_ s,
      plainBatches64_same (seedAuthorsBatch rnd ok) (seedAuthorsBatch rnd (fun _ => true))
        (seedAuthorsRow rnd) ok _ (fun _ _ _ => rfl) (fun _ _ _ => rfl) fuel 0 count s,
      plainBatches64_same (seedTagsBatch rnd ok) (seedTagsBatch rnd (fun _ => true))
        (seedTagsRow rnd) ok _ (fun _ _ _ => rfl) (fun _ _ _ => rfl) fuel 0 count s⟩
  · intro rnd ok count s hc hcount
    exact ⟨plainBatches64_both (seedAuthorsBatch rnd ok) (seedAuthorsBatch rnd (fun _ => true))
        (seedAuthorsRow rnd) ok _ _ 2 1 authorFirst (seedAuthorsRow_spec rnd)
        (fun _ _ _ => rfl) (fun _ _ _ => rfl) 0 count s hc h0 hcount,
      plainBatches64_both (seedTagsBatch rnd ok) (seedTagsBatch rnd (fun _ => true))
        (seedTagsRow rnd) ok _ _ 1 1 tagFirst (seedTagsRow_spec rnd)
        (fun _ _ _ => rfl) (fun _ _ _ => rfl) 0 count s hc h0 hcount⟩
  · obtain ⟨fuel, s1, s2, new, h1, h2, h3, h4, -, -, h5, h6⟩ :=
      books (fun p => p + 1) (fun _ => false) 0 3 12004 100 State.init (by decide)
        (by decide) (by decide) (by decide)
    have hlen : (new.length : Int) = (12004 - 3 + 4999) / 5000 := h6.1
    refine ⟨fuel, s1, s2, new, h1, h2, by simpa [State.init] using h3,
      by simpa [State.init] using h4, ?_, h5, h6⟩
    have : ((12004 : Int) - 3 + 4999) / 5000 = 3 := by decide
    omega

end Seed

namespace Benchmark

open Go

/-! ## Runs that make no draw, and runs whose draws are defined -/

theorem iterParams_nil (env : Env) (query : String) (w : World) :
    iterParams env query [] w = some ([], w) := by
  unfold iterParams
  rw [if_neg (by simp)]

theorem timedIter_nil (env : Env) (query : String) (l : Loop) (hp : l.params = []) :
    ∃ l', timedIter env query l = some l' ∧ l'.params = [] := by
  unfold timedIter
  rw [hp, iterParams_nil]
  simp only [doQuery]
  cases env.query l.w.calls.length with
  | none => exact ⟨_, rfl, rfl⟩
  | some rd => exact ⟨_, rfl, rfl⟩

theorem timedLoop_nil (env : Env) (query : String) :
    ∀ (n : Nat) (l : Loop), l.params = [] → ∃ l', timedLoop env query n l = some l' := by
  intro n
  induction n with
  | zero => intro l _; exact ⟨l, rfl⟩
  | succ n ih =>
    intro l hp
    obtain ⟨l1, h1, hp1⟩ := timedIter_nil env query l hp
    obtain ⟨l2, h2⟩ := ih l1 hp1
    refine ⟨l2, ?_⟩
    show (match timedIter env query l with
      | none => none
      | some l' => timedLoop env query n l') = some l2
    rw [h1]
    exact h2

theorem classify_none (query : String) (h : classify query = none) :
    isBookQuery query = false ∧ isAuthorQuery query = false ∧ isTagQuery query = false := by
  unfold classify at h
  by_cases hb : isBookQuery query = true
  · rw [if_pos hb] at h; exact absurd h (by simp)
  · rw [if_neg hb] at h
    by_cases ha : isAuthorQuery query = true
    · rw [if_pos ha] at h; exact absurd h (by simp)
    · rw [if_neg ha] at h
      by_cases ht : isTagQuery query = true
      · rw [if_pos ht] at h; exact absurd h (by simp)
      · exact ⟨by simpa using hb, by simpa using ha, by simpa using ht⟩

theorem initParams_unclassified (env : Env) (query : String) (w : World)
    (hc : classify query = none) : ∃ w', initParams env query w = some ([], w') := by
  obtain ⟨hb, ha, ht⟩ := classify_none query hc
  unfold initParams
  by_cases hq : Contains query "?" = true
  · simp only [scanMax, hq, if_true, hb, ha, ht, Bool.false_eq_true, if_false]
    exact ⟨_, rfl⟩
  · rw [if_neg hq]
    exact ⟨_, rfl⟩

/-- A run on a text without placeholder, or on a text that none of the substring tests
classifies, makes no draw and reaches the statistics step whatever the table maxima. -/
theorem timed_no_draw (env : Env) (name query : String) (n : Nat)
    (h : Contains query "?" = false ∨ classify query = none) :
    ∃ l, timed env name query n = some l := by
  rcases h with hq | hc
  · obtain ⟨l, hl, -⟩ := timed_plain env name query n hq
    exact ⟨l, hl⟩
  · obtain ⟨w', hw'⟩ := initParams_unclassified env query World.init hc
    unfold timed
    rw [if_neg (by omega), hw']
    exact timedLoop_nil env query _ _ rfl

/-- A run reaches the statistics step whenever the table maxima are positive, and above
100 for a query that is given a range pair. -/
theorem timed_of_maxOk (env : Env) (name query : String) (n : Nat) (hm : MaxOk env query) :
    ∃ l, timed env name query n = some l := by
  by_cases hq : Contains query "?" = true
  · cases hc : classify query with
    | none => exact timed_no_draw env name query n (Or.inr hc)
    | some t =>
      obtain ⟨l, hl, -⟩ := timed_param env name query t n hq hc hm
      exact ⟨l, hl⟩
  · exact timed_no_draw env name query n (Or.inl (by simpa using hq))

end Benchmark

/-- C19: for every iteration count `n ≥ 0` and every sequence of query outcomes, every run
of `runBenchmark` in which no parameter draw panics, and every run of `benchmark`, returns
after exactly `3 + n` executions of the query text; the recorded samples are the durations
of the successful ones among the timed executions number `3 .. 3 + n - 1`, in order (the
three warmup executions record nothing, whatever their outcome); every failed timed
execution is logged once and adds no sample, so samples plus failures make `n`; and a
non-empty sample sequence gives the mean `sum / number of samples`.  No draw of
`runBenchmark` panics when the text has no placeholder or is not classified (no draw is
made), nor when the table maxima are positive (above 100 for a text that is given a range
pair).  With `n = 4` and the outcomes 10ms, error, 30ms, error: 7 executions, 2 failures,
samples 10ms and 30ms, mean 20ms, for a text without placeholder and for a primary key
lookup on a table whose maximum id is 1. -/
theorem three_warmups_then_timed_executions :
    (∀ (env : Benchmark.Env) (name query : String) (n : Nat) (l : Benchmark.Loop),
      Benchmark.timed env name query n = some l →
      ∃ r, Benchmark.runBenchmark env name query n = some r ∧
        l.w.calls.length = 3 + n ∧ (∀ c ∈ l.w.calls, c.1 = query) ∧
        l.durations = (List.range n).filterMap (fun i => (env.query (3 + i)).map Prod.snd) ∧
        l.durations.length = (List.range n).countP (fun i => (env.query (3 + i)).isSome) ∧
        l.durations.length ≤ n ∧
        l.w.errors + l.durations.length = n ∧
        (l.durations ≠ [] → r.AvgTime = l.durations.sum.tdiv l.durations.length)) ∧
    (∀ (env : Benchmark.Env) (name query : String) (n : Nat),
      Go.Contains query "?" = false ∨ Benchmark.classify query = none →
      ∃ l, Benchmark.timed env name query n = some l) ∧
    (∀ (env : Benchmark.Env) (name query : String) (n : Nat),
      Benchmark.MaxOk env query → ∃ l, Benchmark.timed env name query n = some l) ∧
    (∀ (env : Compare.Env) (name query : String) (n : Nat),
      ∃ l r, Compare.timed env name query n = some l ∧
        Compare.benchmark env name query n = some r ∧
        l.calls = List.replicate (3 + n) query ∧
        r.Durations = (List.range n).filterMap (fun i => (env (3 + i)).map Prod.snd) ∧
        r.Durations.length = (List.range n).countP (fun i => (env (3 + i)).isSome) ∧
        r.Durations.length ≤ n ∧
        l.errors + r.Durations.length = n ∧
        (r.Durations ≠ [] → r.Avg = r.Durations.sum.tdiv r.Durations.length)) ∧
    (Benchmark.timed (Benchmark.envWith [some 10, none, some 30, none]) "bench" "SELECT 1"
        4).map (fun l => (l.w.calls.length, l.w.errors, l.durations)) =
      some (7, 2, [10, 30]) ∧
    (Benchmark.runBenchmark (Benchmark.envWith [some 10, none, some 30, none]) "bench"
        "SELECT 1" 4).map (fun r => r.AvgTime) = some 20 ∧
    (Benchmark.timed (Benchmark.envWith [some 10, none, some 30, none]) "bench"
        "SELECT title FROM books WHERE id = ?" 4).map
        (fun l => (l.w.calls, l.w.errors, l.durations)) =
      some (List.replicate 7 ("SELECT title FROM books WHERE id = ?", [1]), 2, [10, 30]) ∧
    (Benchmark.runBenchmark (Benchmark.envWith [some 10, none, some 30, none]) "bench"
        "SELECT title FROM books WHERE id = ?" 4).map (fun r => r.AvgTime) = some 20 ∧
    (Compare.timed (Compare.envWith [some 10, none, some 30, none]) "bench" "SELECT 1"
        4).map (fun l => (l.calls.length, l.errors, l.result.Durations)) =
      some (7, 2, [10, 30]) ∧
    (Compare.benchmark (Compare.envWith [some 10, none, some 30, none]) "bench"
        "SELECT 1" 4).map (fun r => r.Avg) = some 20 := by
  refine ⟨?_, fun env name query n h => Benchmark.timed_no_draw env name query n h,
    fun env name query n h => Benchmark.timed_of_maxOk env name query n h, ?_,
    by decide, by decide, by decide, by decide, by decide, by decide⟩
  · intro env name query n l hl
    obtain ⟨-, hc, hq, hrec, he, -, -, -, htot⟩ := Benchmark.timed_inv env name query n l hl
    rw [Int.toNat_ofNat] at hc hrec he
    have hrec' : l.durations =
        (List.range n).filterMap (fun i => (env.query (3 + i)).map Prod.snd) := hrec
    have hlen : l.durations.length =
        (List.range n).countP (fun i => (env.query (3 + i)).isSome) := by
      rw [hrec]
      exact Benchmark.recorded_length env n
    by_cases hne : l.durations = []
    · refine ⟨l.result, ?_, hc, hq, hrec', hlen, by omega, he, fun h => absurd hne h⟩
      simp only [Benchmark.runBenchmark, hl, hne]
      rfl
    · obtain ⟨r, hr, ha, -⟩ := Benchmark.finish_spec l.result l.durations hne
      refine ⟨r, by simp only [Benchmark.runBenchmark, hl, hr], hc, hq, hrec', hlen,
        by omega, he, fun _ => ?_⟩
      rw [ha, htot]
  · intro env name query n
    obtain ⟨l, hl, hc, hrec, he, -, -, -⟩ := Compare.compare_timed_inv env name query n (by omega)
    rw [Int.toNat_ofNat] at hc hrec he
    have hrec' : l.result.Durations =
        (List.range n).filterMap (fun i => (env (3 + i)).map Prod.snd) := hrec
    have hlen : l.result.Durations.length =
        (List.range n).countP (fun i => (env (3 + i)).isSome) := by
      rw [hrec]
      exact Compare.compare_recorded_length env n
    by_cases hne : l.result.Durations = []
    · refine ⟨l, l.result, hl, ?_, hc, hrec', hlen, by omega, he, fun h => absurd hne h⟩
      simp only [Compare.benchmark, hl]
      unfold Compare.finish
      rw [hne]
      rfl
    · obtain ⟨r, hr, ⟨ha, -, -⟩, hrd, -, -⟩ := Compare.benchmark_finish_spec l.result hne
      refine ⟨l, r, hl, by simp only [Compare.benchmark, hl, hr], hc, ?_, ?_, ?_, ?_, fun _ => ?_⟩
      · rw [hrd]; exact hrec'
      · rw [hrd]; exact hlen
      · rw [hrd]; omega
      · rw [hrd]; exact he
      · rw [hrd]; exact ha

/-- C29: when no timed iteration succeeds, every run of `runBenchmark` in which no
parameter draw panics, and every run of `benchmark`, returns a result whose Min is exactly
one hour, the value it is initialised to, while Max is zero, so that Min > Max.  No draw
of `runBenchmark` panics when the text has no placeholder or is not classified, nor when
the table maxima are positive (above 100 for a text that is given a range pair).  A run
of five failing timed queries returns Min = 3600000000000 ns and Max = 0, for a text
without placeholder and for a primary key lookup on a table whose maximum id is 1. -/
theorem empty_result_min_hour_max_zero :
    (∀ (env : Benchmark.Env) (name query : String) (n : Nat) (l : Benchmark.Loop),
      Benchmark.timed env name query n = some l →
      (∀ i, i < n → env.query (Benchmark.warmupIterations + i) = none) →
      l.durations = [] ∧
      ∃ r, Benchmark.runBenchmark env name query n = some r ∧
        r.MinTime = Go.hour ∧ r.MaxTime = 0 ∧ r.MaxTime < r.MinTime) ∧
    (∀ (env : Benchmark.Env) (name query : String) (n : Nat),
      Go.Contains query "?" = false ∨ Benchmark.classify query = none →
      ∃ l, Benchmark.timed env name query n = some l) ∧
    (∀ (env : Benchmark.Env) (name query : String) (n : Nat),
      Benchmark.MaxOk env query → ∃ l, Benchmark.timed env name query n = some l) ∧
    (∀ (env : Compare.Env) (name query : String) (n : Nat),
      (∀ k, Compare.warmupIterations ≤ k → env k = none) →
      ∃ r, Compare.benchmark env name query n = some r ∧ r.Durations = [] ∧
        r.Min = Go.hour ∧ r.Max = 0 ∧ r.Max < r.Min) ∧
    (Benchmark.runBenchmark (Benchmark.envWith []) "bench" "SELECT 1" 5).map
        (fun r => (r.MinTime, r.MaxTime)) = some (3600000000000, 0) ∧
    (Benchmark.runBenchmark (Benchmark.envWith []) "bench"
        "SELECT title FROM books WHERE id = ?" 5).map
        (fun r => (r.MinTime, r.MaxTime)) = some (3600000000000, 0) ∧
    (Compare.benchmark (Compare.envWith []) "bench" "SELECT 1" 5).map
        (fun r => (r.Min, r.Max)) = some (3600000000000, 0) := by
  refine ⟨?_, fun env name query n h => Benchmark.timed_no_draw env name query n h,
    fun env name query n h => Benchmark.timed_of_maxOk env name query n h, ?_,
    by decide, by decide, by decide⟩
  · intro env name query n l hl hfail
    obtain ⟨r, hr, hrec, hmin, hmax, -⟩ := Benchmark.run_summary env name query n l hl
    have hnil : l.durations = [] := by
      rw [hrec]
      exact Benchmark.recorded_nil env _ (fun j hj => hfail j (by simpa using hj))
    rw [hnil] at hmin hmax
    have h1 : r.MinTime = Go.hour := hmin
    have h2 : r.MaxTime = 0 := hmax
    exact ⟨hnil, r, hr, h1, h2, by rw [h1, h2]; decide⟩
  · intro env name query n hfail
    obtain ⟨r, hr, hrec, hmin, hmax, -⟩ :=
      Compare.compare_run_summary env name query n (by omega)
    have hnil : r.Durations = [] := by
      rw [hrec]
      exact Compare.compare_recorded_nil env _ (fun j _ => hfail _ (by omega))
    rw [hnil] at hmin hmax
    have h1 : r.Min = Go.hour := hmin
    have h2 : r.Max = 0 := hmax
    exact ⟨r, hr, hnil, h1, h2, by rw [h1, h2]; decide⟩

set_option maxRecDepth 100000 in
/-- C17: `main` passes to `runBenchmark` the 13 query texts of its catalog and no other
(benchmark/main.go:66-128).  For every one of them, with table maxima for which the draws
are defined, and for every iteration count `n`, the run reaches the statistics step after
`3 + n` executions of the text, and if the text contains exactly two placeholders `?`
every execution is given exactly two values, the second being the first plus 100, while
if it contains exactly one placeholder every execution is given exactly one value.  The
same holds of every text that the substring tests classify as the catalog texts are
classified: a book query with two placeholders, a classified query with one.  The numbers
of placeholders of the catalog texts are 0, 1, 0, 0, 1, 0, 1, 0, 0, 0, 0, 2, 0; with
maximum 1000 and the raw draws 3, 10 the range query of the catalog is given (4, 104)
three times and then (11, 111). -/
theorem catalog_parameters_by_placeholder_count :
    (∀ b ∈ Benchmark.benchmarks, ∀ (env : Benchmark.Env) (n : Nat),
      Benchmark.MaxOk env b.2 →
      ∃ l, Benchmark.timed env b.1 b.2 n = some l ∧ l.w.calls.length = 3 + n ∧
        ∀ c ∈ l.w.calls, c.1 = b.2 ∧
          (Go.Count b.2 '?' = 2 → c.2.length = 2 ∧ ∃ x, c.2 = [x, x + 100]) ∧
          (Go.Count b.2 '?' = 1 → c.2.length = 1)) ∧
    (∀ (env : Benchmark.Env) (name query : String) (n : Nat),
      Go.Count query '?' = 2 → Benchmark.isBookQuery query = true →
      Benchmark.MaxOk env query →
      ∃ l, Benchmark.timed env name query n = some l ∧ l.w.calls.length = 3 + n ∧
        ∀ c ∈ l.w.calls, c.1 = query ∧ c.2.length = 2 ∧ ∃ x, c.2 = [x, x + 100]) ∧
    (∀ (env : Benchmark.Env) (name query : String) (t : Benchmark.IdSpace) (n : Nat),
      Go.Count query '?' = 1 → Benchmark.classify query = some t →
      Benchmark.MaxOk env query →
      ∃ l, Benchmark.timed env name query n = some l ∧ l.w.calls.length = 3 + n ∧
        ∀ c ∈ l.w.calls, c.1 = query ∧ c.2.length = 1) ∧
    (Benchmark.benchmarks.map (fun b => Go.Count b.2 '?')) =
      [0, 1, 0, 0, 1, 0, 1, 0, 0, 0, 0, 2, 0] ∧
    (Benchmark.timed (Benchmark.envMax 1000) "Complex JOIN (books -> tags)"
        "SELECT b.id, b.title, GROUP_CONCAT(t.name) as tags FROM books b INNER JOIN book_tags bt ON b.id = bt.book_id INNER JOIN tags t ON bt.tag_id = t.id WHERE b.id BETWEEN ? AND ? GROUP BY b.id, b.title"
        1).map (fun l => l.w.calls.map Prod.snd) =
      some [[4, 104], [4, 104], [4, 104], [11, 111]] := by
  have two : ∀ (env : Benchmark.Env) (name query : String) (n : Nat),
      Go.Count query '?' = 2 → Benchmark.isBookQuery query = true →
      Benchmark.MaxOk env query →
      ∃ l, Benchmark.timed env name query n = some l ∧ l.w.calls.length = 3 + n ∧
        ∀ c ∈ l.w.calls, c.1 = query ∧ c.2.length = 2 ∧ ∃ x, c.2 = [x, x + 100] := by
    intro env name query n hc hb hm
    have hr : Benchmark.isRange query = true := by
      unfold Benchmark.isRange
      rw [hb, hc]
      rfl
    obtain ⟨l, hl, hi⟩ := Benchmark.timed_param env name query Benchmark.IdSpace.books n
      (Go.Contains_of_Count query (by omega)) (Benchmark.classify_book query hb) hm
    obtain ⟨hlen, hall⟩ := Benchmark.ParamInv_calls env query _ n l hi
    refine ⟨l, hl, hlen, fun c hcm => ?_⟩
    obtain ⟨h1, x, m, h2⟩ := hall c hcm
    rw [hr] at h2
    exact ⟨h1, by rw [h2]; rfl, _, h2⟩
  have one : ∀ (env : Benchmark.Env) (name query : String) (t : Benchmark.IdSpace) (n : Nat),
      Go.Count query '?' = 1 → Benchmark.classify query = some t →
      Benchmark.MaxOk env query →
      ∃ l, Benchmark.timed env name query n = some l ∧ l.w.calls.length = 3 + n ∧
        ∀ c ∈ l.w.calls, c.1 = query ∧ c.2.length = 1 := by
    intro env name query t n hc ht hm
    have hr : Benchmark.isRange query = false := by
      unfold Benchmark.isRange
      rw [hc]
      simp
    obtain ⟨l, hl, hi⟩ := Benchmark.timed_param env name query t n
      (Go.Contains_of_Count query (by omega)) ht hm
    obtain ⟨hlen, hall⟩ := Benchmark.ParamInv_calls env query _ n l hi
    refine ⟨l, hl, hlen, fun c hcm => ?_⟩
    obtain ⟨h1, x, m, h2⟩ := hall c hcm
    rw [hr] at h2
    exact ⟨h1, by rw [h2]; rfl⟩
  refine ⟨?_, two, one, by decide, by decide⟩
  intro b hb env n hm
  rcases Benchmark.benchmarks_classified b hb with ⟨hc, hbk⟩ | ⟨hc, ht⟩ | hc
  · obtain ⟨l, hl, hlen, hall⟩ := two env b.1 b.2 n hc hbk hm
    refine ⟨l, hl, hlen, fun c hcm => ?_⟩
    obtain ⟨h1, h2, h3⟩ := hall c hcm
    exact ⟨h1, fun _ => ⟨h2, h3⟩, fun h => by omega⟩
  · obtain ⟨t, ht'⟩ := Option.ne_none_iff_exists'.mp ht
    obtain ⟨l, hl, hlen, hall⟩ := one env b.1 b.2 t n hc ht' hm
    refine ⟨l, hl, hlen, fun c hcm => ?_⟩
    obtain ⟨h1, h2⟩ := hall c hcm
    exact ⟨h1, fun h => by omega, fun _ => h2⟩
  · obtain ⟨l, hl, hcalls, -⟩ := Benchmark.timed_plain env b.1 b.2 n
      (Go.Contains_eq_false_of_Count b.2 hc)
    refine ⟨l, hl, by rw [hcalls]; simp [Benchmark.warmupIterations], fun c hcm => ?_⟩
    rw [hcalls] at hcm
    rw [List.eq_of_mem_replicate hcm]
    exact ⟨rfl, fun h => by omega, fun h => by omega⟩
